import Mathlib

/-!
gtfs2sqlite: referential integrity of a GTFS store

A shallow embedding of `schema.go`, `validate.go`, `clip.go` and the option handling of
`import.go`.  The Go code talks to SQLite through SQL text; the SQL fragment it uses
(single-column sub-selects, `IN` / `NOT IN`, `IS NOT NULL`, `AND` / `OR`, `DELETE`) is
given here as a small syntax tree with SQLite's three-valued semantics, and every query
string of the source is transcribed into that tree.

Conventions of the embedding:
* a stored value is `Option String`: `none` is SQL `NULL`, `some s` is the text `s`
  (every column the program creates is declared `TEXT`);
* a Go map is a list of key/value pairs; where the program ranges over a map the order of
  iteration is a parameter (`order`), because Go leaves it unspecified;
* the unbounded `for` loop of `validate` takes a fuel argument, `none` meaning that the
  fuel ran out before the loop ended;
* logging (`slog`) is omitted, it has no effect on the store or on the results;
* table and column names are compared as exact strings, which is what SQLite does for the
  names of `gtfsSchema` and for every name that it reads, unquoted, as it is written
  (`plainName`);
* `rowid` in `SELECT rowid, *` and in `DELETE ... WHERE rowid = ?` is the hidden row number
  of the row, which is what SQLite takes it for in a table that has no column of that name
  (`NoRowidColumn`); in a table with a column called `rowid` SQLite reads the name as that
  column, which the embedding does not follow.
-/

namespace Gtfs2sqlite

/-! ## schema.go -/

/-- The Go struct `foreignIDSchema`: a single target `Table`/`Column`, or `AnyOf`. -/
inductive foreignIDSchema where
  | mk (Table : String) (Column : String) (AnyOf : List foreignIDSchema)

/-- Field `Table` of `foreignIDSchema`. -/
def foreignIDSchema.Table : foreignIDSchema → String
  | .mk t _ _ => t

/-- Field `Column` of `foreignIDSchema`. -/
def foreignIDSchema.Column : foreignIDSchema → String
  | .mk _ c _ => c

/-- Field `AnyOf` of `foreignIDSchema`. -/
def foreignIDSchema.AnyOf : foreignIDSchema → List foreignIDSchema
  | .mk _ _ a => a

/-- The Go struct `columnSchema`; `ForeignID` is a nullable pointer. -/
structure columnSchema where
  TypeDescription : String
  PresenceDescription : String
  ForeignID : Option foreignIDSchema

/-- The Go struct `tableSchema`; `Columns` is a Go map, here in source order. -/
structure tableSchema where
  PrimaryKey : List String
  Columns : List (String × columnSchema)

/-- The type of `gtfsSchema`, a Go `map[string]tableSchema`. -/
abbrev Schema := List (String × tableSchema)

/-- The Go variable gtfsSchema, tables and columns in source order. -/
def gtfsSchema : Schema := [
  ("agency", ⟨["agency_id"], [
      ("agency_id", ⟨"Unique ID", "Conditionally Required", none⟩),
      ("agency_name", ⟨"Text", "Required", none⟩),
      ("agency_url", ⟨"URL", "Required", none⟩),
      ("agency_timezone", ⟨"Timezone", "Required", none⟩),
      ("agency_lang", ⟨"Language code", "Optional", none⟩),
      ("agency_phone", ⟨"Phone number", "Optional", none⟩),
      ("agency_fare_url", ⟨"URL", "Optional", none⟩),
      ("agency_email", ⟨"Email", "Optional", none⟩)]⟩),
  ("stops", ⟨["stop_id"], [
      ("stop_id", ⟨"Unique ID", "Required", none⟩),
      ("stop_code", ⟨"Text", "Optional", none⟩),
      ("stop_name", ⟨"Text", "Conditionally Required", none⟩),
      ("tts_stop_name", ⟨"Text", "Optional", none⟩),
      ("stop_desc", ⟨"Text", "Optional", none⟩),
      ("stop_lat", ⟨"Latitude", "Conditionally Required", none⟩),
      ("stop_lon", ⟨"Longitude", "Conditionally Required", none⟩),
      ("zone_id", ⟨"ID", "Optional", none⟩),
      ("stop_url", ⟨"URL", "Optional", none⟩),
      ("location_type", ⟨"Enum", "Optional", none⟩),
      ("parent_station", ⟨"Foreign ID referencing stops.stop_id", "Conditionally Required", some ⟨"stops", "stop_id", []⟩⟩),
      ("stop_timezone", ⟨"Timezone", "Optional", none⟩),
      ("wheelchair_boarding", ⟨"Enum", "Optional", none⟩),
      ("level_id", ⟨"Foreign ID referencing levels.level_id", "Optional", some ⟨"levels", "level_id", []⟩⟩),
      ("platform_code", ⟨"Text", "Optional", none⟩)]⟩),
  ("routes", ⟨["route_id"], [
      ("route_id", ⟨"Unique ID", "Required", none⟩),
      ("agency_id", ⟨"Foreign ID referencing agency.agency_id", "Conditionally Required", some ⟨"agency", "agency_id", []⟩⟩),
      ("route_short_name", ⟨"Text", "Conditionally Required", none⟩),
      ("route_long_name", ⟨"Text", "Conditionally Required", none⟩),
      ("route_desc", ⟨"Text", "Optional", none⟩),
      ("route_type", ⟨"Enum", "Required", none⟩),
      ("route_url", ⟨"URL", "Optional", none⟩),
      ("route_color", ⟨"Color", "Optional", none⟩),
      ("route_text_color", ⟨"Color", "Optional", none⟩),
      ("route_sort_order", ⟨"Non-negative integer", "Optional", none⟩),
      ("continuous_pickup", ⟨"Enum", "Conditionally Forbidden", none⟩),
      ("continuous_drop_off", ⟨"Enum", "Conditionally Forbidden", none⟩),
      ("network_id", ⟨"ID", "Conditionally Forbidden", none⟩)]⟩),
  ("trips", ⟨["trip_id"], [
      ("route_id", ⟨"Foreign ID referencing routes.route_id", "Required", some ⟨"routes", "route_id", []⟩⟩),
      ("service_id", ⟨"Foreign ID referencing calendar.service_id or calendar_dates.service_id", "Required", some ⟨"", "", [⟨"calendar", "service_id", []⟩, ⟨"calendar_dates", "service_id", []⟩]⟩⟩),
      ("trip_id", ⟨"Unique ID", "Required", none⟩),
      ("trip_headsign", ⟨"Text", "Optional", none⟩),
      ("trip_short_name", ⟨"Text", "Optional", none⟩),
      ("direction_id", ⟨"Enum", "Optional", none⟩),
      ("block_id", ⟨"ID", "Optional", none⟩),
      ("shape_id", ⟨"Foreign ID referencing shapes.shape_id", "Conditionally Required", some ⟨"shapes", "shape_id", []⟩⟩),
      ("wheelchair_accessible", ⟨"Enum", "Optional", none⟩),
      ("bikes_allowed", ⟨"Enum", "Optional", none⟩)]⟩),
  ("stop_times", ⟨["trip_id", "stop_sequence"], [
      ("trip_id", ⟨"Foreign ID referencing trips.trip_id", "Required", some ⟨"trips", "trip_id", []⟩⟩),
      ("arrival_time", ⟨"Time", "Conditionally Required", none⟩),
      ("departure_time", ⟨"Time", "Conditionally Required", none⟩),
      ("stop_id", ⟨"Foreign ID referencing stops.stop_id", "Conditionally Required", some ⟨"stops", "stop_id", []⟩⟩),
      ("location_group_id", ⟨"Foreign ID referencing location_groups.location_group_id", "Conditionally Forbidden", some ⟨"location_groups", "location_group_id", []⟩⟩),
      ("location_id", ⟨"Foreign ID referencing id from locations.geojson", "Conditionally Forbidden", none⟩),
      ("stop_sequence", ⟨"Non-negative integer", "Required", none⟩),
      ("stop_headsign", ⟨"Text", "Optional", none⟩),
      ("start_pickup_drop_off_window", ⟨"Time", "Conditionally Required", none⟩),
      ("end_pickup_drop_off_window", ⟨"Time", "Conditionally Required", none⟩),
      ("pickup_type", ⟨"Enum", "Conditionally Forbidden", none⟩),
      ("drop_off_type", ⟨"Enum", "Conditionally Forbidden", none⟩),
      ("continuous_pickup", ⟨"Enum", "Conditionally Forbidden", none⟩),
      ("continuous_drop_off", ⟨"Enum", "Conditionally Forbidden", none⟩),
      ("shape_dist_traveled", ⟨"Non-negative float", "Optional", none⟩),
      ("timepoint", ⟨"Enum", "Recommended", none⟩),
      ("pickup_booking_rule_id", ⟨"Foreign ID referencing booking_rules.booking_rule_id", "Optional", some ⟨"booking_rules", "booking_rule_id", []⟩⟩),
      ("drop_off_booking_rule_id", ⟨"Foreign ID referencing booking_rules.booking_rule_id", "Optional", some ⟨"booking_rules", "booking_rule_id", []⟩⟩)]⟩),
  ("calendar", ⟨["service_id"], [
      ("service_id", ⟨"Unique ID", "Required", none⟩),
      ("monday", ⟨"Enum", "Required", none⟩),
      ("tuesday", ⟨"Enum", "Required", none⟩),
      ("wednesday", ⟨"Enum", "Required", none⟩),
      ("thursday", ⟨"Enum", "Required", none⟩),
      ("friday", ⟨"Enum", "Required", none⟩),
      ("saturday", ⟨"Enum", "Required", none⟩),
      ("sunday", ⟨"Enum", "Required", none⟩),
      ("start_date", ⟨"Date", "Required", none⟩),
      ("end_date", ⟨"Date", "Required", none⟩)]⟩),
  ("calendar_dates", ⟨["service_id", "date"], [
      ("service_id", ⟨"Foreign ID referencing calendar.service_id or ID", "Required", none⟩),
      ("date", ⟨"Date", "Required", none⟩),
      ("exception_type", ⟨"Enum", "Required", none⟩)]⟩),
  ("fare_attributes", ⟨["fare_id"], [
      ("fare_id", ⟨"Unique ID", "Required", none⟩),
      ("price", ⟨"Non-negative float", "Required", none⟩),
      ("currency_type", ⟨"Currency code", "Required", none⟩),
      ("payment_method", ⟨"Enum", "Required", none⟩),
      ("transfers", ⟨"Enum", "Required", none⟩),
      ("agency_id", ⟨"Foreign ID referencing agency.agency_id", "Conditionally Required", some ⟨"agency", "agency_id", []⟩⟩),
      ("transfer_duration", ⟨"Non-negative integer", "Optional", none⟩)]⟩),
  ("fare_rules", ⟨["fare_id", "route_id", "origin_id", "destination_id", "contains_id"], [
      ("fare_id", ⟨"Foreign ID referencing fare_attributes.fare_id", "Required", some ⟨"fare_attributes", "fare_id", []⟩⟩),
      ("route_id", ⟨"Foreign ID referencing routes.route_id", "Optional", some ⟨"routes", "route_id", []⟩⟩),
      ("origin_id", ⟨"Foreign ID referencing stops.zone_id", "Optional", some ⟨"stops", "zone_id", []⟩⟩),
      ("destination_id", ⟨"Foreign ID referencing stops.zone_id", "Optional", some ⟨"stops", "zone_id", []⟩⟩),
      ("contains_id", ⟨"Foreign ID referencing stops.zone_id", "Optional", some ⟨"stops", "zone_id", []⟩⟩)]⟩),
  ("timeframe", ⟨["timeframe_group_id", "start_time", "end_time", "service_id"], [
      ("timeframe_group_id", ⟨"ID", "Required", none⟩),
      ("start_time", ⟨"Time", "Conditionally Required", none⟩),
      ("end_time", ⟨"Time", "Conditionally Required", none⟩),
      ("service_id", ⟨"Foreign ID referencing calendar.service_id or calendar_dates.service_id", "Required", some ⟨"", "", [⟨"calendar", "service_id", []⟩, ⟨"calendar_dates", "service_id", []⟩]⟩⟩)]⟩),
  ("fare_media", ⟨["fare_media"], [
      ("fare_media_id", ⟨"Unique ID", "Required", none⟩),
      ("fare_media_name", ⟨"Text", "Optional", none⟩),
      ("fare_media_type", ⟨"Enum", "Required", none⟩)]⟩),
  ("fare_products", ⟨["fare_product_id", "fare_media_id"], [
      ("fare_product_id", ⟨"ID", "Required", none⟩),
      ("fare_product_name", ⟨"Text", "Optional", none⟩),
      ("fare_media_id", ⟨"Foreign ID referencing fare_media.fare_media_id", "Optional", some ⟨"fare_media", "fare_media_id", []⟩⟩),
      ("amount", ⟨"Currency amount", "Required", none⟩),
      ("currency", ⟨"Currency code", "Required", none⟩)]⟩),
  ("fare_leg_rules", ⟨["network_id", "from_area_id", "to_area_id", "from_timeframe_group_id", "to_timeframe_group_id", "fare_product_id"], [
      ("leg_group_id", ⟨"ID", "Optional", none⟩),
      ("network_id", ⟨"Foreign ID referencing routes.network_id or networks.network_id", "Optional", some ⟨"", "", [⟨"routes", "network_id", []⟩, ⟨"networks", "network_id", []⟩]⟩⟩),
      ("from_area_id", ⟨"Foreign ID referencing areas.area_id", "Optional", some ⟨"areas", "area_id", []⟩⟩),
      ("to_area_id", ⟨"Foreign ID referencing areas.area_id", "Optional", some ⟨"areas", "area_id", []⟩⟩),
      ("from_timeframe_group_id", ⟨"Foreign ID referencing timeframes.timeframe_group_id", "Optional", some ⟨"timeframe", "timeframe_group_id", []⟩⟩),
      ("to_timeframe_group_id", ⟨"Foreign ID referencing timeframes.timeframe_group_id", "Optional", some ⟨"timeframe", "timeframe_group_id", []⟩⟩),
      ("fare_product_id", ⟨"Foreign ID referencing fare_products.fare_product_id", "Required", some ⟨"fare_products", "fare_product_id", []⟩⟩),
      ("rule_priority", ⟨"Non-negative integer", "Optional", none⟩)]⟩),
  ("fare_transfer_rules", ⟨["from_leg_group_id", "to_leg_group_id", "fare_product_id", "transfer_count", "duration_limit"], [
      ("from_leg_group_id", ⟨"Foreign ID referencing fare_leg_rules.leg_group_id", "Optional", some ⟨"fare_leg_rules", "leg_group_id", []⟩⟩),
      ("to_leg_group_id", ⟨"Foreign ID referencing fare_leg_rules.leg_group_id", "Optional", some ⟨"fare_leg_rules", "leg_group_id", []⟩⟩),
      ("transfer_count", ⟨"Non-zero integer", "Conditionally Forbidden", none⟩),
      ("duration_limit", ⟨"Positive integer", "Optional", none⟩),
      ("duration_limit_type", ⟨"Enum", "Conditionally Required", none⟩),
      ("fare_transfer_type", ⟨"Enum", "Required", none⟩),
      ("fare_product_id", ⟨"Foreign ID referencing fare_products.fare_product_id", "Optional", some ⟨"fare_products", "fare_product_id", []⟩⟩)]⟩),
  ("areas", ⟨["area_id"], [
      ("area_id", ⟨"Unique ID", "Required", none⟩),
      ("area_name", ⟨"Text", "Optional", none⟩)]⟩),
  ("stop_areas", ⟨["area_id", "stop_id"], [
      ("area_id", ⟨"Foreign ID referencing areas.area_id", "Required", some ⟨"areas", "area_id", []⟩⟩),
      ("stop_id", ⟨"Foreign ID referencing stops.stop_id", "Required", some ⟨"stops", "stop_id", []⟩⟩)]⟩),
  ("networks", ⟨["network_id"], [
      ("network_id", ⟨"Unique ID", "Required", none⟩),
      ("network_name", ⟨"Text", "Optional", none⟩)]⟩),
  ("route_networks", ⟨["route_id"], [
      ("network_id", ⟨"Foreign ID referencing networks.network_id", "Required", some ⟨"networks", "network_id", []⟩⟩),
      ("route_id", ⟨"Foreign ID referencing routes.route_id", "Required", some ⟨"routes", "route_id", []⟩⟩)]⟩),
  ("shapes", ⟨["shape_id", "shape_pt_sequence"], [
      ("shape_id", ⟨"ID", "Required", none⟩),
      ("shape_pt_lat", ⟨"Latitude", "Required", none⟩),
      ("shape_pt_lon", ⟨"Longitude", "Required", none⟩),
      ("shape_pt_sequence", ⟨"Non-negative integer", "Required", none⟩),
      ("shape_dist_traveled", ⟨"Non-negative float", "Optional", none⟩)]⟩),
  ("frequencies", ⟨["trip_id", "start_time"], [
      ("trip_id", ⟨"Foreign ID referencing trips.trip_id", "Required", some ⟨"trips", "trip_id", []⟩⟩),
      ("start_time", ⟨"Time", "Required", none⟩),
      ("end_time", ⟨"Time", "Required", none⟩),
      ("headway_secs", ⟨"Positive integer", "Required", none⟩),
      ("exact_times", ⟨"Enum", "Optional", none⟩)]⟩),
  ("transfers", ⟨["from_stop_id", "to_stop_id", "from_trip_id", "to_trip_id", "from_route_id", "to_route_id"], [
      ("from_stop_id", ⟨"Foreign ID referencing stops.stop_id", "Conditionally Required", some ⟨"stops", "stop_id", []⟩⟩),
      ("to_stop_id", ⟨"Foreign ID referencing stops.stop_id", "Conditionally Required", some ⟨"stops", "stop_id", []⟩⟩),
      ("from_route_id", ⟨"Foreign ID referencing routes.route_id", "Optional", some ⟨"routes", "route_id", []⟩⟩),
      ("to_route_id", ⟨"Foreign ID referencing routes.route_id", "Optional", some ⟨"routes", "route_id", []⟩⟩),
      ("from_trip_id", ⟨"Foreign ID referencing trips.trip_id", "Conditionally Required", some ⟨"trips", "trip_id", []⟩⟩),
      ("to_trip_id", ⟨"Foreign ID referencing trips.trip_id", "Conditionally Required", some ⟨"trips", "trip_id", []⟩⟩),
      ("transfer_type", ⟨"Enum", "Required", none⟩),
      ("min_transfer_time", ⟨"Non-negative integer", "Optional", none⟩)]⟩),
  ("pathways", ⟨["pathway_id"], [
      ("pathway_id", ⟨"Unique ID", "Required", none⟩),
      ("from_stop_id", ⟨"Foreign ID referencing stops.stop_id", "Required", some ⟨"stops", "stop_id", []⟩⟩),
      ("to_stop_id", ⟨"Foreign ID referencing stops.stop_id", "Required", some ⟨"stops", "stop_id", []⟩⟩),
      ("pathway_mode", ⟨"Enum", "Required", none⟩),
      ("is_bidirectional", ⟨"Enum", "Required", none⟩),
      ("length", ⟨"Non-negative float", "Optional", none⟩),
      ("traversal_time", ⟨"Positive integer", "Optional", none⟩),
      ("stair_count", ⟨"Non-null integer", "Optional", none⟩),
      ("max_slope", ⟨"Float", "Optional", none⟩),
      ("min_width", ⟨"Positive float", "Optional", none⟩),
      ("signposted_as", ⟨"Text", "Optional", none⟩),
      ("reversed_signposted_as", ⟨"Text", "Optional", none⟩)]⟩),
  ("levels", ⟨["level_id"], [
      ("level_id", ⟨"Unique ID", "Required", none⟩),
      ("level_index", ⟨"Float", "Required", none⟩),
      ("level_name", ⟨"Text", "Optional", none⟩)]⟩),
  ("location_groups", ⟨["location_group_id"], [
      ("location_group_id", ⟨"Unique ID", "Required", none⟩),
      ("location_group_name", ⟨"Text", "Optional", none⟩)]⟩),
  ("location_group_stops", ⟨["location_group_stops"], [
      ("location_group_id", ⟨"Foreign ID referencing location_groups.location_group_id", "Required", some ⟨"location_groups", "location_group_id", []⟩⟩),
      ("stop_id", ⟨"Foreign ID referencing stops.stop_id", "Required", some ⟨"stops", "stop_id", []⟩⟩)]⟩),
  ("booking_rules", ⟨["booking_rule_id"], [
      ("booking_rule_id", ⟨"Unique ID", "Required", none⟩),
      ("booking_type", ⟨"Enum", "Required", none⟩),
      ("prior_notice_duration_min", ⟨"Integer", "Conditionally Required", none⟩),
      ("prior_notice_duration_max", ⟨"Integer", "Conditionally Forbidden", none⟩),
      ("prior_notice_last_day", ⟨"Integer", "Conditionally Required", none⟩),
      ("prior_notice_last_time", ⟨"Time", "Conditionally Required", none⟩),
      ("prior_notice_start_day", ⟨"Integer", "Conditionally Forbidden", none⟩),
      ("prior_notice_start_time", ⟨"Time", "Conditionally Required", none⟩),
      ("prior_notice_service_id", ⟨"Foreign ID referencing calendar.service_id", "Conditionally Forbidden", some ⟨"calendar", "service_id", []⟩⟩),
      ("message", ⟨"Text", "Optional", none⟩),
      ("pickup_message", ⟨"Text", "Optional", none⟩),
      ("drop_off_message", ⟨"Text", "Optional", none⟩),
      ("phone_number", ⟨"Phone number", "Optional", none⟩),
      ("info_url", ⟨"URL", "Optional", none⟩),
      ("booking_url", ⟨"URL", "Optional", none⟩)]⟩),
  ("translations", ⟨["table_name", "field_name", "language", "record_id", "record_sub_id", "field_value"], [
      ("table_name", ⟨"Enum", "Required", none⟩),
      ("field_name", ⟨"Text", "Required", none⟩),
      ("language", ⟨"Language code", "Required", none⟩),
      ("translation", ⟨"Text or URL or Email or Phone number", "Required", none⟩),
      ("record_id", ⟨"Foreign ID", "Conditionally Required", none⟩),
      ("record_sub_id", ⟨"Foreign ID", "Conditionally Required", none⟩),
      ("field_value", ⟨"Text or URL or Email or Phone number", "Conditionally Required", none⟩)]⟩),
  ("feed_info", ⟨[], [
      ("feed_publisher_name", ⟨"Text", "Required", none⟩),
      ("feed_publisher_url", ⟨"URL", "Required", none⟩),
      ("feed_lang", ⟨"Language code", "Required", none⟩),
      ("default_lang", ⟨"Language code", "Optional", none⟩),
      ("feed_start_date", ⟨"Date", "Recommended", none⟩),
      ("feed_end_date", ⟨"Date", "Recommended", none⟩),
      ("feed_version", ⟨"Text", "Recommended", none⟩),
      ("feed_contact_email", ⟨"Email", "Optional", none⟩),
      ("feed_contact_url", ⟨"URL", "Optional", none⟩)]⟩),
  ("attributions", ⟨["attribution_id"], [
      ("attribution_id", ⟨"Unique ID", "Optional", none⟩),
      ("agency_id", ⟨"Foreign ID referencing agency.agency_id", "Optional", some ⟨"agency", "agency_id", []⟩⟩),
      ("route_id", ⟨"Foreign ID referencing routes.route_id", "Optional", some ⟨"routes", "route_id", []⟩⟩),
      ("trip_id", ⟨"Foreign ID referencing trips.trip_id", "Optional", some ⟨"trips", "trip_id", []⟩⟩),
      ("organization_name", ⟨"Text", "Required", none⟩),
      ("is_producer", ⟨"Enum", "Optional", none⟩),
      ("is_operator", ⟨"Enum", "Optional", none⟩),
      ("is_authority", ⟨"Enum", "Optional", none⟩),
      ("attribution_url", ⟨"URL", "Optional", none⟩),
      ("attribution_email", ⟨"Email", "Optional", none⟩),
      ("attribution_phone", ⟨"Phone number", "Optional", none⟩)]⟩)]

/-! ## The store -/

/-- A stored value: `none` is SQL `NULL`, `some s` is the text `s`. -/
abbrev Value := Option String

/-- A row of a table: its `rowid` and its values, one per column of the table, in column
order.  A row shorter than the column list reads as `NULL` in the missing columns (the
state of a row written before `ALTER TABLE ... ADD`). -/
structure Row where
  rowid : Int
  values : List Value
deriving DecidableEq, Repr

/-- A table of the database. -/
structure Table where
  name : String
  columns : List String
  rows : List Row
deriving DecidableEq, Repr

/-- The database behind a `*sqlite.Conn`. -/
abbrev Store := List Table

/-- Errors returned by the program: `ErrInvalidInput`, an error raised by SQLite, or a Go
`panic`. -/
inductive Err where
  | invalidInput
  | store (msg : String)
  | panic (msg : String)
deriving DecidableEq, Repr

/-- The Go variable `ErrInvalidInput`. -/
def ErrInvalidInput : Err := Err.invalidInput

/-- Value of `column` in row `r` of a table whose columns are `columns`. -/
def Row.get (columns : List String) (r : Row) (column : String) : Value :=
  (List.lookup column (columns.zip r.values)).join

/-- Look a table up by name; SQLite reports `no such table` when it is missing. -/
def findTable (db : Store) (name : String) : Except Err Table :=
  match db.find? (fun t => t.name == name) with
  | some t => .ok t
  | none => .error (.store ("no such table: " ++ name))

/-- Resolve a column name against a table; SQLite reports `no such column`. -/
def checkColumn (t : Table) (column : String) : Except Err Unit :=
  if column ∈ t.columns then .ok () else .error (.store ("no such column: " ++ column))

/-- Replace the first table called `name` by its image under `f`. -/
def modifyTable (name : String) (f : Table → Table) : Store → Store
  | [] => []
  | t :: rest => if t.name == name then f t :: rest else t :: modifyTable name f rest

/-- Total number of rows in the store. -/
def rowCount (db : Store) : Nat :=
  (db.map (fun t => t.rows.length)).sum

/-! ## SQL: three-valued logic -/

/-- An SQL truth value: `none` is `NULL` (unknown). -/
abbrev Tri := Option Bool

/-- SQL `NOT`. -/
def sqlNot : Tri → Tri
  | some b => some (!b)
  | none => none

/-- SQL `AND`. -/
def sqlAnd : Tri → Tri → Tri
  | some false, _ => some false
  | _, some false => some false
  | some true, some true => some true
  | _, _ => none

/-- SQL `OR`. -/
def sqlOr : Tri → Tri → Tri
  | some true, _ => some true
  | _, some true => some true
  | some false, some false => some false
  | _, _ => none

/-- SQL `v IS NOT NULL`. -/
def sqlIsNotNull (v : Value) : Tri :=
  some v.isSome

/-- SQL `v IN (s)`: false on an empty right operand, `NULL` when `v` is `NULL`, true on a
match, and otherwise `NULL` if `s` holds a `NULL`, false if not. -/
def sqlIn (v : Value) (s : List Value) : Tri :=
  if s = [] then some false
  else match v with
    | none => none
    | some x => if some x ∈ s then some true else if none ∈ s then none else some false

/-- SQL `v NOT IN (s)`. -/
def sqlNotIn (v : Value) (s : List Value) : Tri :=
  sqlNot (sqlIn v s)

/-! ## SQL: the fragment used by the program -/

/-- The `WHERE` clause of a sub-select. -/
inductive SubWhere where
  /-- The clause `column IS NOT NULL`. -/
  | isNotNull (column : String)
  /-- The clause `column IN table`, the table having a single column. -/
  | inTable (column : String) (table : String)
deriving DecidableEq, Repr

/-- The sub-select `SELECT [DISTINCT] column FROM table [WHERE wher]`. -/
structure Select where
  distinct : Bool
  column : String
  table : String
  wher : Option SubWhere
deriving DecidableEq, Repr

/-- A `WHERE` clause of a `SELECT rowid, *` or of a `DELETE`; a list of sub-selects is
their `UNION`. -/
inductive Expr where
  /-- The test `column IS NOT NULL`. -/
  | isNotNull (column : String)
  /-- The test `column NOT IN (q₁ UNION q₂ ...)`. -/
  | notIn (column : String) (q : List Select)
  /-- The test `rowid = ?` with the parameter bound to `rowid`, the name `rowid` standing
  for the hidden row number (the table has no column of that name). -/
  | rowidEq (rowid : Int)
  /-- Conjunction `a AND b`. -/
  | and (a b : Expr)
  /-- Disjunction `a OR b`. -/
  | or (a b : Expr)
deriving DecidableEq, Repr

/-- A statement of a script. -/
inductive Statement where
  /-- The statement `DELETE FROM table WHERE wher`. -/
  | delete (table : String) (wher : Expr)
  /-- The statement `DROP TABLE table`. -/
  | dropTable (table : String)
deriving DecidableEq, Repr

/-- Compile the `WHERE` clause of a sub-select over table `t` to a row predicate. -/
def evalSubWhere (db : Store) (t : Table) : SubWhere → Except Err (Row → Tri)
  | .isNotNull column =>
    match checkColumn t column with
    | .error e => .error e
    | .ok _ => .ok (fun r => sqlIsNotNull (r.get t.columns column))
  | .inTable column table =>
    match findTable db table with
    | .error e => .error e
    | .ok u =>
      match checkColumn t column with
      | .error e => .error e
      | .ok _ =>
        match u.columns with
        | [c] => .ok (fun r => sqlIn (r.get t.columns column) (u.rows.map (fun x => x.get u.columns c)))
        | _ => .error (.store "sub-select returns the wrong number of columns - expected 1")

/-- Values produced by one sub-select.  A column that the table of the sub-select does not
have is an error; SQLite would look for the name in the table of the outer statement,
which does not arise in a database made by `Import`, where every table of `gtfsSchema`
has every column that `gtfsSchema` gives it. -/
def evalSelect (db : Store) (s : Select) : Except Err (List Value) :=
  match findTable db s.table with
  | .error e => .error e
  | .ok t =>
    match checkColumn t s.column with
    | .error e => .error e
    | .ok _ =>
      match s.wher with
      | none =>
        let vals := t.rows.map (fun r => r.get t.columns s.column)
        .ok (if s.distinct then vals.dedup else vals)
      | some w =>
        match evalSubWhere db t w with
        | .error e => .error e
        | .ok p =>
          let vals := (t.rows.filter (fun r => p r = some true)).map (fun r => r.get t.columns s.column)
          .ok (if s.distinct then vals.dedup else vals)

/-- Values produced by each sub-select of a list, failing on the first error. -/
def evalSelects (db : Store) : List Select → Except Err (List (List Value))
  | [] => .ok []
  | s :: rest =>
    match evalSelect db s with
    | .error e => .error e
    | .ok vs =>
      match evalSelects db rest with
      | .error e => .error e
      | .ok vss => .ok (vs :: vss)

/-- Values of `q₁ UNION q₂ ...`; `UNION` removes duplicates. -/
def evalUnion (db : Store) (q : List Select) : Except Err (List Value) :=
  match evalSelects db q with
  | .error e => .error e
  | .ok vss => .ok (if q.length ≤ 1 then vss.flatten else vss.flatten.dedup)

/-- Compile a `WHERE` clause over table `t` to a row predicate.  Sub-selects do not refer
to the row under test, so they are evaluated once, on the store as it is before the
statement changes anything. -/
def compileExpr (db : Store) (t : Table) : Expr → Except Err (Row → Tri)
  | .isNotNull column =>
    match checkColumn t column with
    | .error e => .error e
    | .ok _ => .ok (fun r => sqlIsNotNull (r.get t.columns column))
  | .notIn column q =>
    match checkColumn t column with
    | .error e => .error e
    | .ok _ =>
      match evalUnion db q with
      | .error e => .error e
      | .ok vs => .ok (fun r => sqlNotIn (r.get t.columns column) vs)
  | .rowidEq rowid => .ok (fun r => some (decide (r.rowid = rowid)))
  | .and a b =>
    match compileExpr db t a with
    | .error e => .error e
    | .ok p =>
      match compileExpr db t b with
      | .error e => .error e
      | .ok q => .ok (fun r => sqlAnd (p r) (q r))
  | .or a b =>
    match compileExpr db t a with
    | .error e => .error e
    | .ok p =>
      match compileExpr db t b with
      | .error e => .error e
      | .ok q => .ok (fun r => sqlOr (p r) (q r))

/-- Rows returned by `SELECT rowid, * FROM table WHERE wher`, with the table they come
from. -/
def selectWhere (db : Store) (table : String) (wher : Expr) : Except Err (Table × List Row) :=
  match findTable db table with
  | .error e => .error e
  | .ok t =>
    match compileExpr db t wher with
    | .error e => .error e
    | .ok p => .ok (t, t.rows.filter (fun r => p r = some true))

/-- The statement `DELETE FROM table WHERE wher`: the rows on which `wher` is true go. -/
def execDelete (db : Store) (table : String) (wher : Expr) : Except Err Store :=
  match findTable db table with
  | .error e => .error e
  | .ok t =>
    match compileExpr db t wher with
    | .error e => .error e
    | .ok p =>
      .ok (modifyTable table (fun u => { u with rows := u.rows.filter (fun r => !(p r = some true)) }) db)

/-- The statement `CREATE TABLE name (columns...)`, for names that SQLite reads as they are
written. -/
def execCreateTable (db : Store) (name : String) (columns : List String) : Except Err Store :=
  match db.find? (fun t => t.name == name) with
  | some _ => .error (.store ("table " ++ name ++ " already exists"))
  | none => .ok (db ++ [{ name := name, columns := columns, rows := [] }])

/-- The statement `DROP TABLE name`. -/
def execDropTable (db : Store) (name : String) : Except Err Store :=
  match db.find? (fun t => t.name == name) with
  | some _ => .ok (db.eraseP (fun t => t.name == name))
  | none => .error (.store ("no such table: " ++ name))

/-- The rowid SQLite gives to a new row: one more than the largest in use, 1 in an empty
table. -/
def nextRowid (rows : List Row) : Int :=
  match (rows.map (fun r => r.rowid)).max? with
  | none => 1
  | some m => m + 1

/-- The statement `INSERT INTO table (columns...) VALUES (values...)`: the columns not
named are `NULL`. -/
def execInsert (db : Store) (table : String) (columns : List String) (values : List Value) :
    Except Err Store :=
  match findTable db table with
  | .error e => .error e
  | .ok t =>
    match columns.find? (fun c => !(decide (c ∈ t.columns))) with
    | some c => .error (.store ("table " ++ table ++ " has no column named " ++ c))
    | none =>
      .ok (modifyTable table (fun u => { u with rows := u.rows ++
        [{ rowid := nextRowid u.rows,
           values := u.columns.map (fun c => (List.lookup c (columns.zip values)).join) }] }) db)

/-- Run one statement. -/
def execStatement (db : Store) : Statement → Except Err Store
  | .delete table wher => execDelete db table wher
  | .dropTable table => execDropTable db table

/-- Run the statements of a script in order, stopping at the first error. -/
def execStatements : List Statement → Store → Except Err Store
  | [], db => .ok db
  | s :: rest, db =>
    match execStatement db s with
    | .error e => .error e
    | .ok db1 => execStatements rest db1

/-- The call `sqlitex.ExecScript`: the script runs inside a savepoint that is rolled back
on an error, so a failing script leaves the store as it was. -/
def ExecScript (db : Store) (script : List Statement) : Store × Option Err :=
  match execStatements script db with
  | .error e => (db, some e)
  | .ok db1 => (db1, none)

/-! ## validate.go -/

/-- The Go struct `validateOpts`; `logLevel` is a `slog.Level`. -/
structure validateOpts where
  force : Bool := false
  ignore : Bool := false
  logLevel : Int := 0
deriving DecidableEq, Repr

/-- The constant `slog.LevelWarn`. -/
def LevelWarn : Int := 4

/-- The constant `slog.LevelError`. -/
def LevelError : Int := 8

/-- A result row of `SELECT rowid, * FROM ...` as read through a `*sqlite.Stmt`: the
result columns, `rowid` first, with their values. -/
structure Stmt where
  rowid : Int
  columns : List (String × Value)
deriving DecidableEq, Repr

/-- The result row for row `r` of table `t`. -/
def Stmt.ofRow (t : Table) (r : Row) : Stmt :=
  { rowid := r.rowid
    columns := ("rowid", some (toString r.rowid)) :: t.columns.map (fun c => (c, r.get t.columns c)) }

/-- The method `stmt.GetText`: the text of a column, empty for `NULL`. -/
def Stmt.GetText (stmt : Stmt) (column : String) : String :=
  ((List.lookup column stmt.columns).join).getD ""

/-- The method `stmt.GetInt64("rowid")` on a result row of `SELECT rowid, *` over a table
that has no column called `rowid`: the hidden row number of the row. -/
def Stmt.GetRowid (stmt : Stmt) : Int :=
  stmt.rowid

/-- The Go function `prettyPrintRow`. -/
def prettyPrintRow (row : Stmt) : String :=
  let out := row.columns.filterMap (fun cv =>
    let column := cv.1
    let value := row.GetText column
    if column != "rowid" && value != "" then some (column ++ ": " ++ value) else none)
  String.intercalate ", " out

/-- The Go struct `validator` without its `db` pointer: the store is passed alongside.
`toDelete` is a Go `map[string][]int64`. -/
structure validator where
  opts : validateOpts
  issues : List String
  pass : Nat
  toDelete : List (String × List Int)
deriving DecidableEq, Repr

/-- The method `validator.append`, the message already formatted. -/
def validator.append (v : validator) (issue : String) : validator :=
  { v with issues := v.issues ++ [issue] }

/-- The update `m[table] = append(m[table], rowid)` of a Go map. -/
def mapAppend (table : String) (rowid : Int) : List (String × List Int) → List (String × List Int)
  | [] => [(table, [rowid])]
  | (k, rows) :: rest =>
    if k = table then (k, rows ++ [rowid]) :: rest else (k, rows) :: mapAppend table rowid rest

/-- The message of a violation,
`fmt.Sprintf("%s in %s.txt is not a valid %s [%s]", value, table, column, prettyPrintRow(stmt))`. -/
def issueOf (table column : String) (stmt : Stmt) : String :=
  let value := stmt.GetText column
  value ++ " in " ++ table ++ ".txt is not a valid " ++ column ++ " [" ++ prettyPrintRow stmt ++ "]"

/-- The closure that `validateForeignID` passes to `sqlitex.Exec`, run on one result row. -/
def validateForeignID.callback (table column : String) (v : validator) (stmt : Stmt) : validator :=
  let rowid := stmt.GetRowid
  let v1 := if v.pass = 0 then v.append (issueOf table column stmt) else v
  if v1.opts.force then { v1 with toDelete := mapAppend table rowid v1.toDelete } else v1

/-- The sub-selects `SELECT Column FROM Table` built from the `AnyOf` list. -/
def foreignFragments (anyOf : List foreignIDSchema) : List Select :=
  anyOf.map (fun subSchema =>
    { distinct := false, column := subSchema.Column, table := subSchema.Table, wher := none })

/-- The query that `validateForeignID` builds:
`SELECT rowid, * FROM table WHERE column IS NOT NULL AND column NOT IN (fragments)`. -/
def foreignQuery (column : String) (anyOf : List foreignIDSchema) : Expr :=
  .and (.isNotNull column) (.notIn column (foreignFragments anyOf))

/-- The schema of an edge in `AnyOf` form: the `AnyOf` list when there is one, else the
single `Table`/`Column` as a one-element list. -/
def anyOfForm (schema : foreignIDSchema) : List foreignIDSchema :=
  if schema.AnyOf.length > 0 then schema.AnyOf
  else [foreignIDSchema.mk schema.Table schema.Column []]

/-- The first half of `validateForeignID`: the schema brought to `AnyOf` form (a panic when
`AnyOf` comes with a `Table` or `Column`), the query built and run.  The result is the
source table with the rows the query returns, in table order. -/
def foreignRows (db : Store) (table column : String) (schema : foreignIDSchema) :
    Except Err (Table × List Row) :=
  if schema.AnyOf.length > 0 ∧ (schema.Table ≠ "" ∨ schema.Column ≠ "") then
    .error (.panic "If AnyOf cannot have Table or Column")
  else
    selectWhere db table (foreignQuery column (anyOfForm schema))

/-- The method `validator.validateForeignID`: the callback runs on every row of the query,
in order. -/
def validateForeignID (db : Store) (v : validator) (table column : String)
    (schema : foreignIDSchema) : Except Err validator :=
  match foreignRows db table column schema with
  | .error e => .error e
  | .ok (t, rows) =>
    .ok ((rows.map (Stmt.ofRow t)).foldl (validateForeignID.callback table column) v)

/-- The method `validator.validateColumn`. -/
def validateColumn (db : Store) (v : validator) (table column : String)
    (schema : columnSchema) : Except Err validator :=
  match schema.ForeignID with
  | some f => validateForeignID db v table column f
  | none => .ok v

/-- The loop of `validator.validateTable` over the columns still to visit. -/
def validateTable.loop (db : Store) (table : String) :
    List (String × columnSchema) → validator → Except Err validator
  | [], v => .ok v
  | (column, schema) :: rest, v =>
    match validateColumn db v table column schema with
    | .error e => .error e
    | .ok v1 => validateTable.loop db table rest v1

/-- The method `validator.validateTable`. -/
def validateTable (db : Store) (v : validator) (table : String) (schema : tableSchema) :
    Except Err validator :=
  validateTable.loop db table schema.Columns v

/-- One sweep: the inner loop `for table, schema := range gtfsSchema` of `validate`, the
map being visited in the order of the list. -/
def validate.sweep (db : Store) : Schema → validator → Except Err validator
  | [], v => .ok v
  | (table, schema) :: rest, v =>
    match validateTable db v table schema with
    | .error e => .error e
    | .ok v1 => validate.sweep db rest v1

/-- The inner loop `for _, rowid := range rows` of the deletion phase: the store reached
and the error that stopped the loop, if any. -/
def validate.deleteRows (table : String) : List Int → Store → Store × Option Err
  | [], db => (db, none)
  | rowid :: rest, db =>
    match execDelete db table (.rowidEq rowid) with
    | .error e => (db, some e)
    | .ok db1 => validate.deleteRows table rest db1

/-- The loop `for table, rows := range v.toDelete` of the deletion phase. -/
def validate.applyDeletes : List (String × List Int) → Store → Store × Option Err
  | [], db => (db, none)
  | (table, rows) :: rest, db =>
    match validate.deleteRows table rows db with
    | (db1, some e) => (db1, some e)
    | (db1, none) => validate.applyDeletes rest db1

/-- The outer `for` loop of `validate`.  `order p` is the order in which pass `p` visits
`gtfsSchema`.  The result is the store reached, with the validator at the `break` or the
error that made `validate` return; `none` when the fuel runs out. -/
def validate.loop (order : Nat → Schema) : Nat → Store → validator →
    Option (Store × Except Err validator)
  | 0, _, _ => none
  | fuel + 1, db, v =>
    match validate.sweep db (order v.pass) v with
    | .error e => some (db, .error e)
    | .ok v1 =>
      if v1.toDelete.length = 0 then some (db, .ok v1)
      else
        match validate.applyDeletes v1.toDelete db with
        | (db1, some e) => some (db1, .error e)
        | (db1, none) =>
          validate.loop order fuel db1 { v1 with toDelete := [], pass := v1.pass + 1 }

/-- The validator with which `validate` starts. -/
def validator.init (opts : validateOpts) : validator :=
  { opts := opts, issues := [], pass := 0, toDelete := [] }

/-- What a call of `validate` leaves behind: the two values it returns and the store. -/
structure validateResult where
  issues : List String
  err : Option Err
  db : Store
deriving DecidableEq, Repr

/-- The Go function `validate`. -/
def validate (order : Nat → Schema) (fuel : Nat) (db : Store) (opts : validateOpts) :
    Option validateResult :=
  match validate.loop order fuel db (validator.init opts) with
  | none => none
  | some (db1, .error e) => some { issues := [], err := some e, db := db1 }
  | some (db1, .ok v) =>
    if v.issues.length > 0 then
      if opts.force || opts.ignore then some { issues := v.issues, err := none, db := db1 }
      else some { issues := v.issues, err := some ErrInvalidInput, db := db1 }
    else some { issues := [], err := none, db := db1 }

/-! ## import.go: the options -/

/-- The Go struct `ImportOpts`. -/
structure ImportOpts where
  ForceValid : Bool := false
  IgnoreInvalid : Bool := false
deriving DecidableEq, Repr

/-- The options with which `Import` calls `validate`; `opts = none` is the nil pointer,
replaced by `&ImportOpts{}`. -/
def Import.validateOpts (opts : Option ImportOpts) : validateOpts :=
  let opts := match opts with
    | none => ({} : ImportOpts)
    | some o => o
  let validationLogLevel := if opts.ForceValid || opts.IgnoreInvalid then LevelWarn else LevelError
  { force := opts.ForceValid, ignore := opts.IgnoreInvalid, logLevel := validationLogLevel }

/-! ## clip.go -/

/-- Sub-select `SELECT DISTINCT column FROM table`. -/
def selDistinct (column table : String) : Select :=
  { distinct := true, column := column, table := table, wher := none }

/-- Sub-select `SELECT column FROM table`. -/
def sel (column table : String) : Select :=
  { distinct := false, column := column, table := table, wher := none }

/-- The clause `column IS NOT NULL AND column NOT IN (q)`. -/
def danglingRef (column : String) (q : List Select) : Expr :=
  .and (.isNotNull column) (.notIn column q)

/-- The sub-select
`SELECT DISTINCT service_id FROM calendar UNION SELECT DISTINCT service_id FROM calendar_dates`. -/
def serviceIds : List Select :=
  [selDistinct "service_id" "calendar", selDistinct "service_id" "calendar_dates"]

/-- The string constant `script` of `Clip`, statement by statement. -/
def clipScript : List Statement := [
  .delete "trips" (.notIn "trip_id"
    [{ distinct := true, column := "trip_id", table := "stop_times",
       wher := some (.inTable "stop_id" "__gtfs2sqlite_stops_inside") }]),
  .delete "stop_times" (.notIn "trip_id" [selDistinct "trip_id" "trips"]),
  .delete "stops" (.notIn "stop_id"
    [selDistinct "stop_id" "stop_times",
     { distinct := true, column := "parent_station", table := "stops",
       wher := some (.isNotNull "parent_station") }]),
  .delete "stop_areas" (.notIn "stop_id" [selDistinct "stop_id" "stops"]),
  .delete "areas" (.notIn "area_id" [selDistinct "area_id" "stop_areas"]),
  .delete "routes" (.notIn "route_id" [selDistinct "route_id" "trips"]),
  .delete "agency" (.notIn "agency_id" [selDistinct "agency_id" "routes"]),
  .delete "calendar" (.notIn "service_id" [selDistinct "service_id" "trips"]),
  .delete "calendar_dates" (.notIn "service_id" [selDistinct "service_id" "trips"]),
  .delete "transfers"
    (.or (.or (.or (.or (.or
      (danglingRef "from_stop_id" [selDistinct "stop_id" "stops"])
      (danglingRef "to_stop_id" [selDistinct "stop_id" "stops"]))
      (danglingRef "from_route_id" [selDistinct "route_id" "routes"]))
      (danglingRef "to_route_id" [selDistinct "route_id" "routes"]))
      (danglingRef "from_trip_id" [selDistinct "trip_id" "trips"]))
      (danglingRef "to_trip_id" [selDistinct "trip_id" "trips"])),
  .delete "pathways"
    (.or (danglingRef "from_stop_id" [selDistinct "stop_id" "stops"])
      (danglingRef "to_stop_id" [selDistinct "stop_id" "stops"])),
  .delete "location_group_stops" (.notIn "stop_id" [selDistinct "stop_id" "stops"]),
  .delete "frequencies" (.notIn "trip_id" [selDistinct "trip_id" "trips"]),
  .delete "attributions"
    (.or (.or
      (danglingRef "trip_id" [selDistinct "trip_id" "trips"])
      (danglingRef "route_id" [selDistinct "route_id" "routes"]))
      (danglingRef "agency_id" [sel "agency_id" "agency"])),
  .delete "fare_rules" (danglingRef "route_id" [selDistinct "route_id" "routes"]),
  .delete "fare_attributes"
    (.or (.notIn "fare_id" [selDistinct "fare_id" "fare_rules"])
      (danglingRef "agency_id" [sel "agency_id" "agency"])),
  .delete "fare_leg_rules"
    (.or (danglingRef "from_area_id" [selDistinct "area_id" "areas"])
      (danglingRef "to_area_id" [selDistinct "area_id" "areas"])),
  .delete "route_networks" (.notIn "route_id" [selDistinct "route_id" "routes"]),
  .delete "timeframe" (.notIn "service_id" serviceIds),
  .delete "booking_rules" (danglingRef "prior_notice_service_id" serviceIds),
  .dropTable "__gtfs2sqlite_stops_inside"]

/-- The callback of `SELECT stop_id, stop_lon, stop_lat FROM stops`, run over the rows in
turn: a stop whose point the feature contains has its `stop_id` text inserted into
`__gtfs2sqlite_stops_inside`.  `feature lon lat` stands for
`feature.Contains(point)` with the point parsed from the texts of `stop_lon` and
`stop_lat`. -/
def Clip.markInside (feature : String → String → Bool) :
    List Stmt → Store → Store × Option Err
  | [], db => (db, none)
  | stmt :: rest, db =>
    let stopID := stmt.GetText "stop_id"
    if feature (stmt.GetText "stop_lon") (stmt.GetText "stop_lat") then
      match execInsert db "__gtfs2sqlite_stops_inside" ["stop_id"] [some stopID] with
      | .error e => (db, some e)
      | .ok db1 => Clip.markInside feature rest db1
    else Clip.markInside feature rest db

/-- The rows of `SELECT stop_id, stop_lon, stop_lat FROM stops`. -/
def Clip.selectStops (db : Store) : Except Err (List Stmt) :=
  match findTable db "stops" with
  | .error e => .error e
  | .ok t =>
    match ["stop_id", "stop_lon", "stop_lat"].find? (fun c => !(decide (c ∈ t.columns))) with
    | some c => .error (.store ("no such column: " ++ c))
    | none => .ok (t.rows.map (fun r =>
        { rowid := r.rowid
          columns := ["stop_id", "stop_lon", "stop_lat"].map (fun c => (c, r.get t.columns c)) }))

/-- What a call of `Clip` leaves behind: the error it returns and the output database. -/
structure ClipResult where
  err : Option Err
  output : Store
deriving DecidableEq, Repr

/-- The part of `Clip` between the copy of the input database and the closing call of
`validate`: the table of the stops inside the feature is created and filled, and the
script runs.  The result is the output database reached and the error that made `Clip`
return, if any. -/
def Clip.cascade (input : Store) (feature : String → String → Bool) : Store × Option Err :=
  let db := input
  match execCreateTable db "__gtfs2sqlite_stops_inside" ["stop_id"] with
  | .error e => (db, some e)
  | .ok db1 =>
    match Clip.selectStops db1 with
    | .error e => (db1, some e)
    | .ok stmts =>
      match Clip.markInside feature stmts db1 with
      | (db2, some e) => (db2, some e)
      | (db2, none) => ExecScript db2 clipScript

/-- The Go function `Clip`, from the copy of the input database on: `input` is the
content of the database at `inputPath`, `feature` the containment test of the parsed
`clipFeature`.  Parsing the feature and opening, copying and closing the files are
outside the embedding. -/
def Clip (order : Nat → Schema) (fuel : Nat) (input : Store) (feature : String → String → Bool) :
    Option ClipResult :=
  match Clip.cascade input feature with
  | (db, some e) => some { err := some e, output := db }
  | (db, none) =>
    match validate order fuel db { logLevel := LevelError } with
    | none => none
    | some r =>
      match r.err with
      | some e => some { err := some e, output := r.db }
      | none => some { err := none, output := r.db }

/-! ## Notions used to state the properties -/

/-- A foreign-key edge: source table, source column, and the `ForeignID` of the column. -/
abbrev Edge := String × String × foreignIDSchema

/-- The foreign-key edges of a schema, in the order in which a sweep visits them. -/
def edgesOf (schema : Schema) : List Edge :=
  schema.flatMap (fun ts =>
    ts.2.Columns.filterMap (fun cs => cs.2.ForeignID.map (fun f => (ts.1, cs.1, f))))

/-- The alternatives of an edge: the `AnyOf` list, or the single `Table`/`Column`. -/
def alternatives (schema : foreignIDSchema) : List (String × String) :=
  (anyOfForm schema).map (fun s => (s.Table, s.Column))

/-- An iteration order of `validate`: every pass visits the edges of `gtfsSchema`, each
once, in some order. -/
def IterationOrder (order : Nat → Schema) : Prop :=
  ∀ p, (edgesOf (order p)).Perm (edgesOf gtfsSchema)

/-- The query of an edge can be run on the store. -/
def scanOK (db : Store) (e : Edge) : Bool :=
  match foreignRows db e.1 e.2.1 e.2.2 with
  | .ok _ => true
  | .error _ => false

/-- No query of `validate` fails on the store. -/
def StoreOK (db : Store) : Prop :=
  ∀ e ∈ edgesOf gtfsSchema, scanOK db e = true

/-- The rows that the query of an edge returns (none when the query fails). -/
def edgeRows (db : Store) (e : Edge) : List Row :=
  match foreignRows db e.1 e.2.1 e.2.2 with
  | .ok (_, rows) => rows
  | .error _ => []

/-- The messages of an edge, one per row its query returns. -/
def edgeMessages (db : Store) (e : Edge) : List String :=
  match foreignRows db e.1 e.2.1 e.2.2 with
  | .ok (t, rows) => rows.map (fun r => issueOf e.1 e.2.1 (Stmt.ofRow t r))
  | .error _ => []

/-- The messages of one sweep over the store, edge after edge. -/
def sweepMessages (db : Store) (schema : Schema) : List String :=
  (edgesOf schema).flatMap (edgeMessages db)

/-- No edge of `gtfsSchema` has a row that its query returns.  This is the test of the
code; the notion of the specification is `FullyConsistent`, and the two differ where a
target column holds a `NULL`. -/
def Consistent (db : Store) : Prop :=
  ∀ e ∈ edgesOf gtfsSchema, edgeRows db e = []

/-- Table `table` of the store without the rows whose rowid is `rowid`: the effect of
`DELETE FROM table WHERE rowid = ?` on a table that has no column called `rowid`. -/
def deleteRowid (db : Store) (table : String) (rowid : Int) : Store :=
  modifyTable table (fun u => { u with rows := u.rows.filter (fun r => decide (r.rowid ≠ rowid)) }) db

/-- The store has table `table` with a column `column`. -/
def hasColumn (db : Store) (table column : String) : Bool :=
  match findTable db table with
  | .ok t => decide (column ∈ t.columns)
  | .error _ => false

/-- Values of column `column` of table `table` (none when the table is missing). -/
def columnValues (db : Store) (table column : String) : List Value :=
  match findTable db table with
  | .ok t => t.rows.map (fun r => r.get t.columns column)
  | .error _ => []

/-- The union of the target column values over all alternatives of an edge. -/
def targetValues (db : Store) (schema : foreignIDSchema) : List Value :=
  (alternatives schema).flatMap (fun a => columnValues db a.1 a.2)

/-- The test of the query of an edge on a source value `v`, read off the SQL: `v` is not
`NULL`, occurs in no target column, and no target column holds a `NULL`. -/
def queryTest (db : Store) (schema : foreignIDSchema) (v : Value) : Prop :=
  v ≠ none ∧ v ∉ targetValues db schema ∧ none ∉ targetValues db schema

/-- The schema of an edge makes `validateForeignID` panic. -/
def panics (schema : foreignIDSchema) : Prop :=
  schema.AnyOf.length > 0 ∧ (schema.Table ≠ "" ∨ schema.Column ≠ "")

/-- The store after the deletions scheduled in `toDelete`, table after table and rowid
after rowid. -/
def deleteScheduled (toDelete : List (String × List Int)) (db : Store) : Store :=
  toDelete.foldl (fun d p => p.2.foldl (fun d1 rowid => deleteRowid d1 p.1 rowid) d) db

/-- Every entry of `toDelete` holds at least one rowid, and every rowid it holds is the
rowid of a row of its table. -/
def Scheduled (db : Store) (toDelete : List (String × List Int)) : Prop :=
  ∀ p ∈ toDelete, p.2 ≠ [] ∧
    ∀ rowid ∈ p.2, ∃ t, findTable db p.1 = .ok t ∧ ∃ r ∈ t.rows, r.rowid = rowid

/-- A sweep as a loop over the edges: `validateForeignID` on each edge in turn, stopping at
the first error. -/
def validate.sweepEdges (db : Store) : List Edge → validator → Except Err validator
  | [], v => .ok v
  | e :: rest, v =>
    match validateForeignID db v e.1 e.2.1 e.2.2 with
    | .error err => .error err
    | .ok v1 => validate.sweepEdges db rest v1

/-- The deletions one sweep over the edges `es` schedules when `force` is set: source table
and rowid of every row a query returns, in the order of the sweep. -/
def scheduledPairs (db : Store) (es : List Edge) : List (String × Int) :=
  es.flatMap (fun e => (edgeRows db e).map (fun r => (e.1, r.rowid)))

/-- The rows of table `name` (none when the table is missing). -/
def rowsOf (db : Store) (name : String) : List Row :=
  match findTable db name with
  | .ok t => t.rows
  | .error _ => []

/-- The database `Import` has after its `createTable` loop: one empty table per table of
`gtfsSchema`. -/
def emptyDB : Store :=
  gtfsSchema.map (fun ts =>
    { name := ts.1, columns := ts.2.Columns.map (fun c => c.1), rows := [] })

/-- Add to `table` a row with the given rowid and texts, `NULL` in the other columns. -/
def put (table : String) (rowid : Int) (fields : List (String × String)) (db : Store) : Store :=
  modifyTable table (fun u => { u with rows := u.rows ++
    [{ rowid := rowid, values := u.columns.map (fun c => List.lookup c fields) }] }) db

instance (db : Store) (schema : foreignIDSchema) (v : Value) :
    Decidable (queryTest db schema v) := by
  unfold queryTest
  infer_instance

instance (schema : foreignIDSchema) : Decidable (panics schema) := by
  unfold panics
  infer_instance

instance (db : Store) : Decidable (StoreOK db) := by
  unfold StoreOK
  infer_instance

instance (db : Store) : Decidable (Consistent db) := by
  unfold Consistent
  infer_instance

/-! ## Example stores -/

/-- The order of iteration that follows the source text of `gtfsSchema` in every pass. -/
def sourceOrder : Nat → Schema :=
  fun _ => gtfsSchema

/-- A store with one root violation and a two-level dependency: route `R1` names the
unknown agency `nope`, trip `T1` runs on `R1`, and one `stop_times` row belongs to `T1`. -/
def chainDB : Store :=
  put "stop_times" 1 [("trip_id", "T1"), ("stop_id", "S1"), ("stop_sequence", "1")]
  (put "trips" 1 [("route_id", "R1"), ("service_id", "WK"), ("trip_id", "T1")]
  (put "routes" 1 [("route_id", "R1"), ("agency_id", "nope"), ("route_type", "3")]
  (put "calendar" 1 [("service_id", "WK")]
  (put "stops" 1 [("stop_id", "S1"), ("stop_lat", "1"), ("stop_lon", "2")] emptyDB))))

/-- The store `chainDB` without the route, the trip and the `stop_times` row. -/
def chainRepaired : Store :=
  put "calendar" 1 [("service_id", "WK")]
  (put "stops" 1 [("stop_id", "S1"), ("stop_lat", "1"), ("stop_lon", "2")] emptyDB)

/-- A store in which `fare_rules.origin_id` names the zone `Z9` that no stop has, while the
only stop has no `zone_id` (an empty field, stored as `NULL`). -/
def nullZoneDB : Store :=
  put "fare_rules" 1 [("fare_id", "F1"), ("origin_id", "Z9")]
  (put "fare_attributes" 1 [("fare_id", "F1"), ("price", "2"), ("currency_type", "EUR")]
  (put "stops" 1 [("stop_id", "S1"), ("stop_lat", "1"), ("stop_lon", "2")] emptyDB))

/-- A store in which `fare_leg_rules.network_id` names the network `N9`, found neither in
`routes.network_id` nor in `networks.network_id`, while the only route has no `network_id`
(an empty field, stored as `NULL`). -/
def nullNetworkDB : Store :=
  put "fare_leg_rules" 1 [("network_id", "N9"), ("fare_product_id", "P1")]
  (put "fare_products" 1 [("fare_product_id", "P1"), ("amount", "2"), ("currency", "EUR")]
  (put "routes" 1 [("route_id", "R1"), ("agency_id", "A1"), ("route_type", "3")]
  (put "agency" 1 [("agency_id", "A1"), ("agency_name", "A")] emptyDB)))

/-- A store without violations: one stop served by one trip of one route of one agency. -/
def smallDB : Store :=
  put "stop_times" 1 [("trip_id", "T1"), ("stop_id", "S1"), ("stop_sequence", "1")]
  (put "trips" 1 [("route_id", "R1"), ("service_id", "WK"), ("trip_id", "T1")]
  (put "routes" 1 [("route_id", "R1"), ("agency_id", "A1"), ("route_type", "3")]
  (put "agency" 1 [("agency_id", "A1"), ("agency_name", "A")]
  (put "calendar" 1 [("service_id", "WK")]
  (put "stops" 1 [("stop_id", "S1"), ("stop_lat", "1"), ("stop_lon", "2")] emptyDB)))))

/-- A store without violations: `smallDB` with a second calendar `WK2` that no trip uses,
a booking rule `B1` whose `prior_notice_service_id` is `WK2`, and `B1` as the
`pickup_booking_rule_id` of the `stop_times` row. -/
def bookingDB : Store :=
  put "stop_times" 1 [("trip_id", "T1"), ("stop_id", "S1"), ("stop_sequence", "1"),
    ("pickup_booking_rule_id", "B1")]
  (put "booking_rules" 1 [("booking_rule_id", "B1"), ("booking_type", "1"),
    ("prior_notice_service_id", "WK2")]
  (put "trips" 1 [("route_id", "R1"), ("service_id", "WK"), ("trip_id", "T1")]
  (put "routes" 1 [("route_id", "R1"), ("agency_id", "A1"), ("route_type", "3")]
  (put "agency" 1 [("agency_id", "A1"), ("agency_name", "A")]
  (put "calendar" 2 [("service_id", "WK2")]
  (put "calendar" 1 [("service_id", "WK")]
  (put "stops" 1 [("stop_id", "S1"), ("stop_lat", "1"), ("stop_lon", "2")] emptyDB)))))))

/-- What `Clip` leaves of `bookingDB` when every stop is inside the feature: the calendar
`WK2` and the booking rule `B1` are gone, the `stop_times` row that names `B1` is still
there. -/
def bookingClipped : Store :=
  put "stop_times" 1 [("trip_id", "T1"), ("stop_id", "S1"), ("stop_sequence", "1"),
    ("pickup_booking_rule_id", "B1")]
  (put "trips" 1 [("route_id", "R1"), ("service_id", "WK"), ("trip_id", "T1")]
  (put "routes" 1 [("route_id", "R1"), ("agency_id", "A1"), ("route_type", "3")]
  (put "agency" 1 [("agency_id", "A1"), ("agency_name", "A")]
  (put "calendar" 1 [("service_id", "WK")]
  (put "stops" 1 [("stop_id", "S1"), ("stop_lat", "1"), ("stop_lon", "2")] emptyDB)))))

/-- A store without violations: one stop served by one trip of one route of agency `A1`,
a second agency `A2` without routes, and a fare `F1` of agency `A2` with a rule for route
`R1`. -/
def fareDB : Store :=
  put "fare_rules" 1 [("fare_id", "F1"), ("route_id", "R1")]
  (put "fare_attributes" 1 [("fare_id", "F1"), ("price", "2"), ("agency_id", "A2")]
  (put "stop_times" 1 [("trip_id", "T1"), ("stop_id", "S1"), ("stop_sequence", "1")]
  (put "trips" 1 [("route_id", "R1"), ("service_id", "WK"), ("trip_id", "T1")]
  (put "routes" 1 [("route_id", "R1"), ("agency_id", "A1"), ("route_type", "3")]
  (put "agency" 2 [("agency_id", "A2"), ("agency_name", "B")]
  (put "agency" 1 [("agency_id", "A1"), ("agency_name", "A")]
  (put "calendar" 1 [("service_id", "WK")]
  (put "stops" 1 [("stop_id", "S1"), ("stop_lat", "1"), ("stop_lon", "2")] emptyDB))))))))

/-- The store `fareDB` after the script of `Clip` when every stop is inside the feature:
agency `A2` and the fare `F1` are gone, the rule that names `F1` is still there. -/
def fareClipped : Store :=
  put "fare_rules" 1 [("fare_id", "F1"), ("route_id", "R1")]
  (put "stop_times" 1 [("trip_id", "T1"), ("stop_id", "S1"), ("stop_sequence", "1")]
  (put "trips" 1 [("route_id", "R1"), ("service_id", "WK"), ("trip_id", "T1")]
  (put "routes" 1 [("route_id", "R1"), ("agency_id", "A1"), ("route_type", "3")]
  (put "agency" 1 [("agency_id", "A1"), ("agency_name", "A")]
  (put "calendar" 1 [("service_id", "WK")]
  (put "stops" 1 [("stop_id", "S1"), ("stop_lat", "1"), ("stop_lon", "2")] emptyDB))))))

/-- The feature that contains every point. -/
def everywhere : String → String → Bool :=
  fun _ _ => true

/-! ## Notions used to state the properties of Clip -/

/-- The table a statement writes to. -/
def Statement.target : Statement → String
  | .delete table _ => table
  | .dropTable table => table

/-- The tables a sub-select reads. -/
def Select.refs (s : Select) : List String :=
  s.table :: (match s.wher with
    | some (.inTable _ table) => [table]
    | _ => [])

/-- The tables the sub-selects of a `WHERE` clause read. -/
def Expr.refs : Expr → List String
  | .isNotNull _ => []
  | .notIn _ q => q.flatMap Select.refs
  | .rowidEq _ => []
  | .and a b => a.refs ++ b.refs
  | .or a b => a.refs ++ b.refs

/-- The tables the sub-selects of a statement read. -/
def Statement.refs : Statement → List String
  | .delete _ wher => wher.refs
  | .dropTable _ => []

/-- Value of `column` in row `r` of table `table` of the store. -/
def cell (db : Store) (table : String) (r : Row) (column : String) : Value :=
  match findTable db table with
  | .ok t => r.get t.columns column
  | .error _ => none

/-- Text of `column` in row `r` of table `table`, as `GetText` returns it: empty for `NULL`. -/
def cellText (db : Store) (table : String) (r : Row) (column : String) : String :=
  (cell db table r column).getD ""

/-- The stops row `r` is inside the feature: the test `Clip` makes on its `stop_lon` and
`stop_lat` texts. -/
def isInside (feature : String → String → Bool) (db : Store) (r : Row) : Bool :=
  feature (cellText db "stops" r "stop_lon") (cellText db "stops" r "stop_lat")

/-- The row `r` of a table with columns `columns` survives
`DELETE ... WHERE column NOT IN (vs)`: the test is not true on it. -/
def keptBy (columns : List String) (column : String) (vs : List Value) (r : Row) : Bool :=
  !(decide (sqlNotIn (r.get columns column) vs = some true))

/-- The row `s` of the stops table `sp` is inside the feature. -/
def insideRow (feature : String → String → Bool) (sp : Table) (s : Row) : Bool :=
  feature ((s.get sp.columns "stop_lon").getD "") ((s.get sp.columns "stop_lat").getD "")

/-- A statement is a `DELETE`. -/
def Statement.isDelete : Statement → Bool
  | .delete _ _ => true
  | .dropTable _ => false

/-- The statements of a script are `DELETE`s in dependency order: no statement reads a
table that it or a later statement writes to, and no two statements write to the same
table. -/
def independent : List Statement → Bool
  | [] => true
  | s :: rest =>
    s.isDelete && s.refs.all (fun n => !(decide (n ∈ (s :: rest).map Statement.target)))
      && !(decide (s.target ∈ rest.map Statement.target)) && independent rest

/-- The clause of the first statement of the script of `Clip`, on trips. -/
def tripsClause : Expr :=
  .notIn "trip_id"
    [{ distinct := true, column := "trip_id", table := "stop_times",
       wher := some (.inTable "stop_id" "__gtfs2sqlite_stops_inside") }]

/-- The clause of the second statement of the script of `Clip`, on stop_times. -/
def stopTimesClause : Expr :=
  .notIn "trip_id" [selDistinct "trip_id" "trips"]

/-- The clause of the third statement of the script of `Clip`, on stops. -/
def stopsClause : Expr :=
  .notIn "stop_id"
    [selDistinct "stop_id" "stop_times",
     { distinct := true, column := "parent_station", table := "stops",
       wher := some (.isNotNull "parent_station") }]

/-- The store after the first `n` statements of the script of `Clip`. -/
def clipPrefix (n : Nat) (db : Store) : Except Err Store :=
  execStatements (clipScript.take n) db

/-- The store on which the script of `Clip` starts: the input with the table
`__gtfs2sqlite_stops_inside` created and filled. -/
def Clip.prepared (input : Store) (feature : String → String → Bool) : Store × Option Err :=
  match execCreateTable input "__gtfs2sqlite_stops_inside" ["stop_id"] with
  | .error e => (input, some e)
  | .ok db1 =>
    match Clip.selectStops db1 with
    | .error e => (db1, some e)
    | .ok stmts => Clip.markInside feature stmts db1

/-- The violation message in the form the specification gives it:
`<value> in <entity> is not a valid <column> [<k1>: <v1>, ...]`, the entity being the table
name and the list holding every non-empty column of the row other than the offending
column and `rowid`. -/
def issueSpec (table column : String) (stmt : Stmt) : String :=
  let others := stmt.columns.filterMap (fun cv =>
    if cv.1 != "rowid" && cv.1 != column && stmt.GetText cv.1 != "" then
      some (cv.1 ++ ": " ++ stmt.GetText cv.1)
    else none)
  stmt.GetText column ++ " in " ++ table ++ " is not a valid " ++ column ++ " ["
    ++ String.intercalate ", " others ++ "]"

/-- The messages of an edge in the form the specification gives them, one per row the
query of the edge returns. -/
def edgeMessagesSpec (db : Store) (e : Edge) : List String :=
  match foreignRows db e.1 e.2.1 e.2.2 with
  | .ok (t, rows) => rows.map (fun r => issueSpec e.1 e.2.1 (Stmt.ofRow t r))
  | .error _ => []

/-- The message of `validateForeignID` for row `r` of table `t`, spelled out: the text of
the offending column, the table name followed by `.txt`, the column name, and in brackets
every column of the row whose text is not empty, the offending column included, in
column order; a column called `rowid` is left out. -/
def issueText (table column : String) (t : Table) (r : Row) : String :=
  let text := fun c => (r.get t.columns c).getD ""
  text column ++ " in " ++ table ++ ".txt is not a valid " ++ column ++ " ["
    ++ String.intercalate ", "
        ((t.columns.filter (fun c => decide (c ≠ "rowid") && decide (text c ≠ ""))).map
          (fun c => c ++ ": " ++ text c))
    ++ "]"

/-- The target `(table, column)` names a table of `gtfsSchema` and a column declared in
the `Columns` of that table. -/
def resolves (target : String × String) : Bool :=
  match List.lookup target.1 gtfsSchema with
  | some schema => decide (target.2 ∈ schema.Columns.map (fun c => c.1))
  | none => false

/-- The order of iteration that visits the tables of `gtfsSchema` from the last to the
first in every pass. -/
def reverseOrder : Nat → Schema :=
  fun _ => gtfsSchema.reverse

/-- The feature that contains no point. -/
def nowhere : String → String → Bool :=
  fun _ _ => false

/-- The end-to-end scenario: stop `S` referenced only by the stop_times row `T` (rowid 1),
whose trip `R1` runs on route `Rt1`; nothing else refers to `R1` or `Rt1`. -/
def e2eDB : Store :=
  put "stop_times" 1 [("trip_id", "R1"), ("stop_id", "S"), ("stop_sequence", "1")]
  (put "trips" 1 [("route_id", "Rt1"), ("service_id", "WK"), ("trip_id", "R1")]
  (put "routes" 1 [("route_id", "Rt1"), ("agency_id", "A1"), ("route_type", "3")]
  (put "agency" 1 [("agency_id", "A1"), ("agency_name", "A")]
  (put "calendar" 1 [("service_id", "WK")]
  (put "stops" 1 [("stop_id", "S"), ("stop_lat", "1"), ("stop_lon", "2")] emptyDB)))))

/-- A store with two violations on different edges: stop `S1` names the unknown level
`L9`, route `R1` names the unknown agency `nope`. -/
def twoViolationsDB : Store :=
  put "routes" 1 [("route_id", "R1"), ("agency_id", "nope"), ("route_type", "3")]
  (put "stops" 1 [("stop_id", "S1"), ("stop_lat", "1"), ("stop_lon", "2"), ("level_id", "L9")]
    emptyDB)

/-- A store without violations and without stop_times: station `P` and its child stop `C`,
whose parent_station is `P`. -/
def parentDB : Store :=
  put "stops" 2 [("stop_id", "C"), ("stop_lat", "1"), ("stop_lon", "2"), ("parent_station", "P")]
  (put "stops" 1 [("stop_id", "P"), ("stop_lat", "1"), ("stop_lon", "2")] emptyDB)

/-- The store `parentDB` without the child stop `C`. -/
def parentOnlyDB : Store :=
  put "stops" 1 [("stop_id", "P"), ("stop_lat", "1"), ("stop_lon", "2")] emptyDB

/-- The store `smallDB` with a second stop `S2` that no stop_times row and no stop
refers to. -/
def lonelyStopDB : Store :=
  put "stops" 2 [("stop_id", "S2"), ("stop_lat", "1"), ("stop_lon", "2")] smallDB

/-- The feature that contains the points whose `stop_lon` text is `2`. -/
def lonTwo : String → String → Bool :=
  fun lon _ => lon == "2"

/-- A store without violations: trip `T1` serves stop `S1` (stop_lon 2) and stop `S2`
(stop_lon 9). -/
def twoStopDB : Store :=
  put "stop_times" 2 [("trip_id", "T1"), ("stop_id", "S2"), ("stop_sequence", "2")]
  (put "stop_times" 1 [("trip_id", "T1"), ("stop_id", "S1"), ("stop_sequence", "1")]
  (put "trips" 1 [("route_id", "R1"), ("service_id", "WK"), ("trip_id", "T1")]
  (put "routes" 1 [("route_id", "R1"), ("agency_id", "A1"), ("route_type", "3")]
  (put "agency" 1 [("agency_id", "A1"), ("agency_name", "A")]
  (put "calendar" 1 [("service_id", "WK")]
  (put "stops" 2 [("stop_id", "S2"), ("stop_lat", "1"), ("stop_lon", "9")]
  (put "stops" 1 [("stop_id", "S1"), ("stop_lat", "1"), ("stop_lon", "2")] emptyDB)))))))

/-- The row of station `P` in `parentDB`. -/
def stopP : Row :=
  { rowid := 1, values := [some "P", none, none, none, none, some "1", some "2", none, none,
      none, none, none, none, none, none] }

/-- The row of the child stop `C` in `parentDB`: its parent_station is `P`. -/
def stopC : Row :=
  { rowid := 2, values := [some "C", none, none, none, none, some "1", some "2", none, none,
      none, some "P", none, none, none, none] }

/-- The row of stop `S1` in `smallDB` and in `twoStopDB`. -/
def stopS1 : Row :=
  { rowid := 1, values := [some "S1", none, none, none, none, some "1", some "2", none, none,
      none, none, none, none, none, none] }

/-- The row of stop `S2` in `twoStopDB`: its stop_lon is `9`. -/
def stopS2 : Row :=
  { rowid := 2, values := [some "S2", none, none, none, none, some "1", some "9", none, none,
      none, none, none, none, none, none] }

/-! ## Notions used to state further properties of the schema, of validate and of Clip -/

/-- The columns named in the `PrimaryKey` list of a table that are not keys of its
`Columns` map. -/
def undeclaredKeys (schema : tableSchema) : List String :=
  schema.PrimaryKey.filter (fun k => !(decide (k ∈ schema.Columns.map (fun c => c.1))))

/-- A store in which a `stop_times` row violates two edges at once: its `trip_id` names
no trip and its `stop_id` names no stop. -/
def doubleViolationDB : Store :=
  put "stop_times" 1 [("trip_id", "T9"), ("stop_id", "S9"), ("stop_sequence", "1")]
  (put "stops" 1 [("stop_id", "S1"), ("stop_lat", "1"), ("stop_lon", "2")] emptyDB)

/-- The store `doubleViolationDB` without its `stop_times` row. -/
def oneStopDB : Store :=
  put "stops" 1 [("stop_id", "S1"), ("stop_lat", "1"), ("stop_lon", "2")] emptyDB

/-! ## Notions used to state what a Repair pass deletes -/

/-- The store is well formed, as every SQLite database is: no two tables have the same
name and, within a table, no two rows have the same rowid. -/
def WellFormed (db : Store) : Prop :=
  (db.map (fun t => t.name)).Nodup ∧ ∀ t ∈ db, (t.rows.map (fun r => r.rowid)).Nodup

/-- The store with, in every table, only the rows that pass the test `q` (given the name
of the table). -/
def sieve (q : String → Row → Bool) (db : Store) : Store :=
  db.map (fun t => { t with rows := t.rows.filter (q t.name) })

/-- The row `r` of table `table` violates an edge of `gtfsSchema` in the store: the query
of some edge whose source is `table` returns it. -/
def violatesSome (db : Store) (table : String) (r : Row) : Bool :=
  (edgesOf gtfsSchema).any (fun e => decide (e.1 = table) && decide (r ∈ edgeRows db e))

/-- The store after the deletions of one Repair pass: every table without the rows that
violate some edge in the store as it is before the pass. -/
def repairStep (db : Store) : Store :=
  sieve (fun n r => !(violatesSome db n r)) db

/-- The rowid `rowid` of table `table` is scheduled in `toDelete`. -/
def removed (toDelete : List (String × List Int)) (table : String) (rowid : Int) : Bool :=
  toDelete.any (fun p => decide (p.1 = table) && decide (rowid ∈ p.2))

/-- The store `s` is a sub-store of `d`: the same tables with the same columns, in the same
order, the rows of each table of `s` being rows of the table of `d`, in the same order. -/
def SubStore (s d : Store) : Prop :=
  List.Forall₂ (fun a b => a.name = b.name ∧ a.columns = b.columns ∧ a.rows.Sublist b.rows) s d

instance (db : Store) : Decidable (WellFormed db) := by
  unfold WellFormed
  infer_instance

/-! ## validate.go on a connection whose statements can fail

`validate` reaches the database through `sqlitex.Exec` only, and every such call can
return an error of its own (a full disk, a locked file).  The functions below are those
of `validate.go` once more, over a connection that keeps a log of the statements sent
and in which one chosen statement fails: with no fault chosen they behave as the
functions on a plain store. -/

/-- A statement that `validate` sends to the database. -/
inductive Op where
  /-- The query `SELECT rowid, * FROM table WHERE wher`. -/
  | select (table : String) (wher : Expr)
  /-- The statement `DELETE FROM table WHERE rowid = ?` with the parameter bound. -/
  | delete (table : String) (rowid : Int)
deriving DecidableEq, Repr

/-- A `*sqlite.Conn`: the store, the statements sent so far, oldest first, each with the
error it returned if any, and the fault: `some (n, e)` makes statement number `n`
(counting from 0) fail with the error `e` without touching the store. -/
structure Conn where
  db : Store
  log : List (Op × Option Err)
  fault : Option (Nat × Err)
deriving DecidableEq, Repr

/-- A connection just opened on a store. -/
def Conn.open (db : Store) (fault : Option (Nat × Err)) : Conn :=
  { db := db, log := [], fault := fault }

/-- The error that the fault gives to the next statement, if it is the chosen one. -/
def Conn.injected (c : Conn) : Option Err :=
  match c.fault with
  | some (n, e) => if n = c.log.length then some e else none
  | none => none

/-- The error of a result, if any. -/
def outcome {α : Type} : Except Err α → Option Err
  | .ok _ => none
  | .error e => some e

/-- The call `sqlitex.Exec` on a `SELECT rowid, * FROM table WHERE wher`. -/
def Conn.select (c : Conn) (table : String) (wher : Expr) :
    Conn × Except Err (Table × List Row) :=
  let res : Except Err (Table × List Row) := match c.injected with
    | some e => .error e
    | none => selectWhere c.db table wher
  ({ c with log := c.log ++ [(.select table wher, outcome res)] }, res)

/-- The call `sqlitex.Exec` on a `DELETE FROM table WHERE rowid = ?`. -/
def Conn.delete (c : Conn) (table : String) (rowid : Int) : Conn × Option Err :=
  let res : Except Err Store := match c.injected with
    | some e => .error e
    | none => execDelete c.db table (.rowidEq rowid)
  match res with
  | .error e => ({ c with log := c.log ++ [(.delete table rowid, some e)] }, some e)
  | .ok db1 => ({ c with db := db1, log := c.log ++ [(.delete table rowid, none)] }, none)

/-- The method `validator.validateForeignID` on a connection. -/
def Faulty.validateForeignID (c : Conn) (v : validator) (table column : String)
    (schema : foreignIDSchema) : Conn × Except Err validator :=
  if schema.AnyOf.length > 0 ∧ (schema.Table ≠ "" ∨ schema.Column ≠ "") then
    (c, .error (.panic "If AnyOf cannot have Table or Column"))
  else
    match c.select table (foreignQuery column (anyOfForm schema)) with
    | (c1, .error e) => (c1, .error e)
    | (c1, .ok (t, rows)) =>
      (c1, .ok ((rows.map (Stmt.ofRow t)).foldl (validateForeignID.callback table column) v))

/-- The method `validator.validateColumn` on a connection. -/
def Faulty.validateColumn (c : Conn) (v : validator) (table column : String)
    (schema : columnSchema) : Conn × Except Err validator :=
  match schema.ForeignID with
  | some f => Faulty.validateForeignID c v table column f
  | none => (c, .ok v)

/-- The loop of `validator.validateTable` on a connection. -/
def Faulty.validateTable.loop (table : String) :
    List (String × columnSchema) → Conn → validator → Conn × Except Err validator
  | [], c, v => (c, .ok v)
  | (column, schema) :: rest, c, v =>
    match Faulty.validateColumn c v table column schema with
    | (c1, .error e) => (c1, .error e)
    | (c1, .ok v1) => Faulty.validateTable.loop table rest c1 v1

/-- The method `validator.validateTable` on a connection. -/
def Faulty.validateTable (c : Conn) (v : validator) (table : String) (schema : tableSchema) :
    Conn × Except Err validator :=
  Faulty.validateTable.loop table schema.Columns c v

/-- One sweep of `validate` on a connection. -/
def Faulty.validate.sweep : Schema → Conn → validator → Conn × Except Err validator
  | [], c, v => (c, .ok v)
  | (table, schema) :: rest, c, v =>
    match Faulty.validateTable c v table schema with
    | (c1, .error e) => (c1, .error e)
    | (c1, .ok v1) => Faulty.validate.sweep rest c1 v1

/-- The inner loop `for _, rowid := range rows` of the deletion phase on a connection. -/
def Faulty.validate.deleteRows (table : String) : List Int → Conn → Conn × Option Err
  | [], c => (c, none)
  | rowid :: rest, c =>
    match c.delete table rowid with
    | (c1, some e) => (c1, some e)
    | (c1, none) => Faulty.validate.deleteRows table rest c1

/-- The loop `for table, rows := range v.toDelete` of the deletion phase on a connection. -/
def Faulty.validate.applyDeletes : List (String × List Int) → Conn → Conn × Option Err
  | [], c => (c, none)
  | (table, rows) :: rest, c =>
    match Faulty.validate.deleteRows table rows c with
    | (c1, some e) => (c1, some e)
    | (c1, none) => Faulty.validate.applyDeletes rest c1

/-- The outer `for` loop of `validate` on a connection. -/
def Faulty.validate.loop (order : Nat → Schema) : Nat → Conn → validator →
    Option (Conn × Except Err validator)
  | 0, _, _ => none
  | fuel + 1, c, v =>
    match Faulty.validate.sweep (order v.pass) c v with
    | (c1, .error e) => some (c1, .error e)
    | (c1, .ok v1) =>
      if v1.toDelete.length = 0 then some (c1, .ok v1)
      else
        match Faulty.validate.applyDeletes v1.toDelete c1 with
        | (c2, some e) => some (c2, .error e)
        | (c2, none) =>
          Faulty.validate.loop order fuel c2 { v1 with toDelete := [], pass := v1.pass + 1 }

/-- What a call of `validate` on a connection leaves behind: the two values it returns and
the connection. -/
structure Faulty.validateResult where
  issues : List String
  err : Option Err
  conn : Conn
deriving DecidableEq, Repr

/-- The Go function `validate` on a connection. -/
def Faulty.validate (order : Nat → Schema) (fuel : Nat) (c : Conn) (opts : validateOpts) :
    Option Faulty.validateResult :=
  match Faulty.validate.loop order fuel c (validator.init opts) with
  | none => none
  | some (c1, .error e) => some { issues := [], err := some e, conn := c1 }
  | some (c1, .ok v) =>
    if v.issues.length > 0 then
      if opts.force || opts.ignore then some { issues := v.issues, err := none, conn := c1 }
      else some { issues := v.issues, err := some ErrInvalidInput, conn := c1 }
    else some { issues := [], err := none, conn := c1 }

/-- A sweep on a connection as a loop over the edges. -/
def Faulty.validate.sweepEdges : List Edge → Conn → validator → Conn × Except Err validator
  | [], c, v => (c, .ok v)
  | e :: rest, c, v =>
    match Faulty.validateForeignID c v e.1 e.2.1 e.2.2 with
    | (c1, .error err) => (c1, .error err)
    | (c1, .ok v1) => Faulty.validate.sweepEdges rest c1 v1

/-- The deletions of `toDelete` in the order in which `validate` sends them. -/
def deletions (toDelete : List (String × List Int)) : List (String × Int) :=
  toDelete.flatMap (fun p => p.2.map (fun rowid => (p.1, rowid)))

/-- No statement of the log failed. -/
def Conn.Clean (c : Conn) : Prop :=
  ∀ p ∈ c.log, p.2 = none

/-- The last statement of the log failed with the error `e`, and no statement before it
failed. -/
def Conn.FailedLast (c : Conn) (e : Err) : Prop :=
  ∃ pre op, c.log = pre ++ [(op, some e)] ∧ ∀ p ∈ pre, p.2 = none

/-- The error of a disk that cannot be read or written. -/
def ioError : Err :=
  .store "disk I/O error"

/-- The deletions of the log that were applied: the `DELETE` statements that returned no
error, oldest first. -/
def applied (log : List (Op × Option Err)) : List (String × Int) :=
  log.filterMap (fun p =>
    match p with
    | (.delete table rowid, none) => some (table, rowid)
    | _ => none)

/-! ## import.go and export.go

The zip archive and the CSV syntax are outside the embedding: an archive is the list of
its entries, an entry of the input carries the bytes that `io.ReadAll` returns and the
records that `csv.Reader` reads from it, and an entry of the output is the list of
records handed to `csv.Writer` or the bytes copied into it.  Every entry of the input can
be opened and read, and `inputZip.Open` on the name of an entry yields that entry, as it
does when the names are distinct.  The store compares the names of tables and columns as
strings, which is what SQLite does for plain names (`plainName`); the program writes the
names into its statements without quotes, and a name that is not plain SQLite reads as
another name or rejects, which the embedding does not follow.  The properties of `Import`
and `Export` are therefore stated for feeds whose tables and columns have plain names
(`Feed`). -/

/-- The Go function `strings.HasSuffix`. -/
def strings.HasSuffix (s suffix : String) : Bool :=
  suffix.data.isSuffixOf s.data

/-- The Go function `strings.TrimSuffix`. -/
def strings.TrimSuffix (s suffix : String) : String :=
  if strings.HasSuffix s suffix then
    String.mk (s.data.take (s.data.length - suffix.data.length))
  else s

/-- The Go function `strings.HasPrefix`. -/
def strings.HasPrefix (s pre : String) : Bool :=
  pre.data.isPrefixOf s.data

/-- An entry of the input archive: its name, its bytes (one character per byte) and the
records that `csv.Reader` reads from it, the header first. -/
structure Entry where
  name : String
  bytes : String
  records : List (List String)
deriving DecidableEq, Repr

/-- What `Export` writes into an entry of the output archive: records through
`csv.Writer`, the header first, or bytes. -/
inductive Written where
  | csv (records : List (List String))
  | raw (bytes : String)
deriving DecidableEq, Repr

/-- The output archive: names and contents in the order in which they are written. -/
abbrev Archive := List (String × Written)

/-- The statement `CREATE TABLE IF NOT EXISTS name (columns...)`. -/
def execCreateTableIfNotExists (db : Store) (name : String) (columns : List String) : Store :=
  match db.find? (fun t => t.name == name) with
  | some _ => db
  | none => db ++ [{ name := name, columns := columns, rows := [] }]

/-- The statement `ALTER TABLE table ADD column TEXT`, for names that SQLite reads as they
are written. -/
def execAddColumn (db : Store) (table column : String) : Except Err Store :=
  match findTable db table with
  | .error e => .error e
  | .ok t =>
    if column ∈ t.columns then .error (.store ("duplicate column name: " ++ column))
    else .ok (modifyTable table (fun u => { u with columns := u.columns ++ [column] }) db)

/-- The Go function `createTable`: `CREATE TABLE table (column TEXT, ...)`, the columns in
the order in which the map `schema.Columns` is iterated, here the order of the list. -/
def createTable (db : Store) (table : String) (schema : tableSchema) : Except Err Store :=
  execCreateTable db table (schema.Columns.map (fun c => c.1))

/-- The loop `for table, schema := range gtfsSchema` of `Import`, the map being visited in
the order of the list. -/
def Import.createTables : Schema → Store → Except Err Store
  | [], db => .ok db
  | (table, schema) :: rest, db =>
    match createTable db table schema with
    | .error e => .error e
    | .ok db1 => Import.createTables rest db1

/-- The lookup `gtfsSchema[table].Columns[column]`: the column is a key of the `Columns`
map of the table; a table that is not in `gtfsSchema` has no columns. -/
def knownColumn (table column : String) : Bool :=
  match List.lookup table gtfsSchema with
  | some schema => decide (column ∈ schema.Columns.map (fun c => c.1))
  | none => false

/-- The lookup `_, hasTable := gtfsSchema[table]`. -/
def knownTable (table : String) : Bool :=
  (List.lookup table gtfsSchema).isSome

/-- The loop `for _, column := range unknownColumns` of `importFileIn`: the table is
created with the first unknown column when it is not in `gtfsSchema`, and every other
unknown column is added to it. -/
def importFileIn.addColumns (table : String) : List String → Bool → Store → Except Err Store
  | [], _, db => .ok db
  | column :: rest, hasTable, db =>
    match (if hasTable then execAddColumn db table column
           else execCreateTable db table [column]) with
    | .error e => .error e
    | .ok db1 => importFileIn.addColumns table rest true db1

/-- The call `db.Prepare` on `INSERT INTO table (header...) VALUES (?1, ...)`: the table
and the columns must exist, and the column list must not be empty. -/
def importFileIn.prepare (db : Store) (table : String) (header : List String) :
    Except Err Unit :=
  match findTable db table with
  | .error e => .error e
  | .ok t =>
    if header = [] then .error (.store "near \")\": syntax error")
    else
      match header.find? (fun c => !(decide (c ∈ t.columns))) with
      | some c => .error (.store ("table " ++ table ++ " has no column named " ++ c))
      | none => .ok ()

/-- The parameters bound for one data row: `BindNull` for an empty field, `BindText` for
any other. -/
def importFileIn.bind (row : List String) : List Value :=
  row.map (fun v => if v = "" then none else some v)

/-- The body of the loop over the data rows of `importFileIn`: the bindings are cleared,
the fields are bound and the statement is stepped.  A parameter left unbound is `NULL`;
binding a parameter that the statement does not have (a row with more fields than the
header) is an error that `Step` returns. -/
def importFileIn.insertRow (db : Store) (table : String) (header : List String)
    (row : List String) : Except Err Store :=
  if row.length > header.length then .error (.store "column index out of range")
  else execInsert db table header (importFileIn.bind row)

/-- The loop over the data rows of `importFileIn`. -/
def importFileIn.insertRows (table : String) (header : List String) :
    List (List String) → Store → Except Err Store
  | [], db => .ok db
  | row :: rest, db =>
    match importFileIn.insertRow db table header row with
    | .error e => .error e
    | .ok db1 => importFileIn.insertRows table header rest db1

/-- The Go function `importFileIn`: the store after the import of the entry, or the error
of the first statement that fails. -/
def importFileIn (db : Store) (file : Entry) : Except Err Store :=
  if !(strings.HasSuffix file.name ".txt") then
    let db1 := execCreateTableIfNotExists db "__gtfs2sqlite_other_files" ["name", "contents"]
    execInsert db1 "__gtfs2sqlite_other_files" ["name", "contents"]
      [some file.name, some file.bytes]
  else
    let table := strings.TrimSuffix file.name ".txt"
    match file.records with
    | [] => .error (.store "EOF")
    | header :: rows =>
      let unknownColumns := header.filter (fun column => !(knownColumn table column))
      match importFileIn.addColumns table unknownColumns (knownTable table) db with
      | .error e => .error e
      | .ok db1 =>
        match importFileIn.prepare db1 table header with
        | .error e => .error e
        | .ok _ =>
          match importFileIn.insertRows table header rows db1 with
          | .error e => .error e
          | .ok db2 =>
            if rows.length = 0 then
              let db3 := execCreateTableIfNotExists db2 "__gtfs2sqlite_empty_files" ["tableName"]
              execInsert db3 "__gtfs2sqlite_empty_files" ["tableName"] [some table]
            else .ok db2

/-- The loop `for _, filename := range inputZip.File` of `Import`. -/
def Import.files : List Entry → Store → Except Err Store
  | [], db => .ok db
  | file :: rest, db =>
    match importFileIn db file with
    | .error e => .error e
    | .ok db1 => Import.files rest db1

/-- What a call of `Import` leaves behind: the two values it returns and the database
written. -/
structure ImportResult where
  issues : List String
  err : Option Err
  db : Store
deriving DecidableEq, Repr

/-- The Go function `Import`, from the opening of the output database on.  `created` is
`gtfsSchema` in the order in which the loop that creates the tables iterates the maps,
`order` the orders in which `validate` iterates them.  When a statement of one of the two
loops fails, `Import` returns its error and leaves the database unfinished; the field `db`
is then the store with which that loop began. -/
def Import (created : Schema) (order : Nat → Schema) (fuel : Nat) (input : List Entry)
    (opts : Option ImportOpts) : Option ImportResult :=
  match Import.createTables created [] with
  | .error e => some { issues := [], err := some e, db := [] }
  | .ok db0 =>
    match Import.files input db0 with
    | .error e => some { issues := [], err := some e, db := db0 }
    | .ok db1 =>
      match validate order fuel db1 (Import.validateOpts opts) with
      | none => none
      | some r => some { issues := r.issues, err := r.err, db := r.db }

/-- The Go function `exportOtherFiles`. -/
def exportOtherFiles (db : Store) : Except Err Archive :=
  match findTable db "__gtfs2sqlite_other_files" with
  | .error e => .error e
  | .ok t =>
    match ["name", "contents"].find? (fun c => !(decide (c ∈ t.columns))) with
    | some c => .error (.store ("no such column: " ++ c))
    | none =>
      .ok (t.rows.map (fun r =>
        ((r.get t.columns "name").getD "", Written.raw ((r.get t.columns "contents").getD ""))))

/-- The rows of `SELECT tableName FROM __gtfs2sqlite_empty_files`. -/
def Export.emptyFileTables (db : Store) : Except Err (List String) :=
  match findTable db "__gtfs2sqlite_empty_files" with
  | .error e => .error e
  | .ok t =>
    if "tableName" ∈ t.columns then
      .ok (t.rows.map (fun r => (r.get t.columns "tableName").getD ""))
    else .error (.store "no such column: tableName")

/-- The Go function `exportTableIn`: the header is the list of the columns of the table,
and every row gives the text of each column, empty for `NULL`. -/
def exportTableIn (db : Store) (table : String) : Except Err (String × Written) :=
  match findTable db table with
  | .error e => .error e
  | .ok t =>
    .ok (table ++ ".txt",
      Written.csv (t.columns :: t.rows.map (fun r => t.columns.map (fun col =>
        (r.get t.columns col).getD ""))))

/-- The loop `for _, table := range tables` of `Export`. -/
def Export.tables (db : Store) (emptyFileTables : List String) :
    List String → Except Err Archive
  | [] => .ok []
  | table :: rest =>
    if strings.HasPrefix table "__gtfs2sqlite" then Export.tables db emptyFileTables rest
    else
      match findTable db table with
      | .error e => .error e
      | .ok t =>
        if t.rows.length = 0 ∧ table ∉ emptyFileTables then
          Export.tables db emptyFileTables rest
        else
          match exportTableIn db table with
          | .error e => .error e
          | .ok entry =>
            match Export.tables db emptyFileTables rest with
            | .error e => .error e
            | .ok entries => .ok (entry :: entries)

/-- The Go function `Export`, from the listing of the tables on. -/
def Export (db : Store) : Except Err Archive :=
  let tables := db.map (fun t => t.name)
  match (if "__gtfs2sqlite_other_files" ∈ tables then exportOtherFiles db else .ok []) with
  | .error e => .error e
  | .ok others =>
    match (if "__gtfs2sqlite_empty_files" ∈ tables then Export.emptyFileTables db
           else .ok []) with
    | .error e => .error e
    | .ok emptyFileTables =>
      match Export.tables db emptyFileTables tables with
      | .error e => .error e
      | .ok entries => .ok (others ++ entries)

/-! ## Notions used to state what Import and Export do -/

/-- The entry is a table file: its name ends in `.txt`. -/
def Entry.isTable (file : Entry) : Bool :=
  strings.HasSuffix file.name ".txt"

/-- The table into which `importFileIn` imports a table file: its name without `.txt`, the
text that `importFileIn` writes into its statements as the name of the table. -/
def Entry.table (file : Entry) : String :=
  strings.TrimSuffix file.name ".txt"

/-- The table file has a header and no data row. -/
def Entry.noRows (file : Entry) : Bool :=
  file.isTable && decide (file.records.tail = [])

/-- The names of the tables that `Export` passes over in its loop. -/
def reserved (table : String) : Bool :=
  strings.HasPrefix table "__gtfs2sqlite"

/-- The cell that the `INSERT` of a data row gives to column `c`. -/
def stored (header row : List String) (c : String) : Value :=
  (List.lookup c (header.zip (importFileIn.bind row))).join

/-- The field that `exportTableIn` writes for the cell of column `c`. -/
def exported (header row : List String) (c : String) : String :=
  (stored header row c).getD ""

/-- The columns of a table of the store, none when the table is missing. -/
def columnsOf (db : Store) (name : String) : List String :=
  match findTable db name with
  | .ok t => t.columns
  | .error _ => []

/-- A data row filled up with empty fields to the length of the header. -/
def pad (n : Nat) (row : List String) : List String :=
  row ++ List.replicate (n - row.length) ""

/-- The store that the loop of `Import` over `gtfsSchema` leaves: the tables in the order
of their creation, without rows. -/
def emptyTables (created : Schema) : Store :=
  created.map (fun ts =>
    { name := ts.1, columns := ts.2.Columns.map (fun c => c.1), rows := [] })

/-- The columns that the table of a table file has after the import of a header: those
the table was created with, followed by the columns of the header that `gtfsSchema` does
not give to the table. -/
def importedColumns (created : Schema) (table : String) (header : List String) : List String :=
  columnsOf (emptyTables created) table ++ header.filter (fun c => !(knownColumn table c))

/-- The entry that `Export` writes for an entry of the imported archive: the bytes of a
file that is no table, and for a table file the columns of its table followed by one
record per data row. -/
def exportedFile (created : Schema) (file : Entry) : String × Written :=
  if file.isTable then
    match file.records with
    | [] => (file.name, Written.csv [])
    | header :: rows =>
      (file.name, Written.csv (importedColumns created file.table header ::
        rows.map (fun row => (importedColumns created file.table header).map
          (exported header row))))
  else (file.name, Written.raw file.bytes)

/-- Table `m` of the store `db1` is table `m` of `db` with some of its rows removed; it is
missing in `db1` when it is missing in `db`. -/
def Shrunk (db db1 : Store) (m : String) : Prop :=
  (∀ e, findTable db m = .error e → findTable db1 m = .error e) ∧
  ∀ t, findTable db m = .ok t →
    ∃ t1, findTable db1 m = .ok t1 ∧ t1.columns = t.columns ∧ t1.rows.Sublist t.rows

/-- The words that SQLite reads as keywords, in lower case (the list of its documentation,
`SQLite Keywords`). -/
def sqlKeywords : List String :=
  ["abort", "action", "add", "after", "all", "alter", "always", "analyze", "and", "as", "asc",
   "attach", "autoincrement", "before", "begin", "between", "by", "cascade", "case", "cast",
   "check", "collate", "column", "commit", "conflict", "constraint", "create", "cross",
   "current", "current_date", "current_time", "current_timestamp", "database", "default",
   "deferrable", "deferred", "delete", "desc", "detach", "distinct", "do", "drop", "each",
   "else", "end", "escape", "except", "exclude", "exclusive", "exists", "explain", "fail",
   "filter", "first", "following", "for", "foreign", "from", "full", "generated", "glob",
   "group", "groups", "having", "if", "ignore", "immediate", "in", "index", "indexed",
   "initially", "inner", "insert", "instead", "intersect", "into", "is", "isnull", "join",
   "key", "last", "left", "like", "limit", "match", "materialized", "natural", "no", "not",
   "nothing", "notnull", "null", "nulls", "of", "offset", "on", "or", "order", "others",
   "outer", "over", "partition", "plan", "pragma", "preceding", "primary", "query", "raise",
   "range", "recursive", "references", "regexp", "reindex", "release", "rename", "replace",
   "restrict", "returning", "right", "rollback", "row", "rows", "savepoint", "select", "set",
   "table", "temp", "temporary", "then", "ties", "to", "transaction", "trigger", "unbounded",
   "union", "unique", "update", "using", "vacuum", "values", "view", "virtual", "when",
   "where", "window", "with", "without"]

/-- A plain name: a word of lower-case letters, digits and underscores that does not start
with a digit, is no keyword of SQLite, does not start with `sqlite_` (names that SQLite
keeps for itself) and is none of `rowid`, `oid` and `_rowid_` (the names of the hidden row
number).  `createTable` and `importFileIn` write the names of tables and columns into
their statements as they are, without quotes: a plain name SQLite reads as the name with
exactly these characters, so that two plain names are the same name to SQLite exactly
when they are the same string; any other text it reads as another name (it folds the
case of letters, drops the blanks around a name, reads `main.x` as the table `x`) or
rejects. -/
def plainName (s : String) : Bool :=
  (match s.data with
    | [] => false
    | c :: _ => !("0123456789".data.contains c)) &&
  s.data.all (fun c => "abcdefghijklmnopqrstuvwxyz0123456789_".data.contains c) &&
  !(sqlKeywords.contains s) && !(strings.HasPrefix s "sqlite_") &&
  !(["rowid", "oid", "_rowid_"].contains s)

/-- An archive that holds a feed: the names of its entries are distinct, the header of
every table file names distinct columns, and the table of every table file and the
columns of its header have plain names, the names for which the store, which compares
names as strings, does what SQLite does. -/
def Feed (input : List Entry) : Prop :=
  (input.map (fun f => f.name)).Nodup ∧
  (∀ f ∈ input, f.isTable = true → (f.records.headD []).Nodup) ∧
  ∀ f ∈ input, f.isTable = true →
    plainName f.table = true ∧ ∀ c ∈ f.records.headD [], plainName c = true

instance (input : List Entry) : Decidable (Feed input) := by
  unfold Feed
  infer_instance

/-- An order in which the loop of `Import` that creates the tables can iterate the maps of
`gtfsSchema`: the tables in some order, each with its columns in some order. -/
def CreationOrder (created : Schema) : Prop :=
  (created.map (fun ts => ts.1)).Perm (gtfsSchema.map (fun ts => ts.1)) ∧
  ∀ ts ∈ created, ∃ ts0 ∈ gtfsSchema, ts0.1 = ts.1 ∧
    (ts.2.Columns.map (fun c => c.1)).Perm (ts0.2.Columns.map (fun c => c.1))

/-- What the store holds once the entries `done` have been imported into the store `db0`
of the empty tables. -/
structure Imported (db0 : Store) (done : List Entry) (db : Store) : Prop where
  untouched : ∀ n, (∀ f ∈ done, f.isTable = true → f.table ≠ n) → reserved n = false →
    findTable db n = findTable db0 n
  tables : ∀ f ∈ done, f.isTable = true → ∃ header rows t, f.records = header :: rows ∧
    findTable db f.table = .ok t ∧
    t.columns = columnsOf db0 f.table ++ header.filter (fun c => !(knownColumn f.table c)) ∧
    (∀ c ∈ header, c ∈ t.columns) ∧
    (∀ row ∈ rows, row.length ≤ header.length) ∧
    t.rows.map (fun r => r.values) = rows.map (fun row => t.columns.map (stored header row))
  others : ∀ t, findTable db "__gtfs2sqlite_other_files" = .ok t →
    t.columns = ["name", "contents"] ∧
    t.rows.map (fun r => r.values) =
      (done.filter (fun f => !f.isTable)).map (fun f => [some f.name, some f.bytes])
  othersNone : ∀ e, findTable db "__gtfs2sqlite_other_files" = .error e →
    done.filter (fun f => !f.isTable) = []
  empties : ∀ t, findTable db "__gtfs2sqlite_empty_files" = .ok t →
    t.columns = ["tableName"] ∧
    t.rows.map (fun r => r.values) =
      (done.filter (fun f => f.noRows)).map (fun f => [some f.table])
  emptiesNone : ∀ e, findTable db "__gtfs2sqlite_empty_files" = .error e →
    done.filter (fun f => f.noRows) = []

/-! ## Feeds for the examples -/

/-- A file of three agencies with a column that `gtfsSchema` does not have, an empty
field in the second data row and a single field in the third. -/
def agencyFile : Entry :=
  { name := "agency.txt", bytes := "",
    records := [["agency_id", "agency_name", "agency_note"], ["A1", "Alpha", "x"],
                ["A2", "", "y"], ["A3"]] }

/-- The store after the import of `agencyFile` into the empty tables. -/
def agencyStore : Store :=
  match importFileIn emptyDB agencyFile with
  | .ok db => db
  | .error _ => []

/-- A feed with the agencies of `agencyFile`, a file that is no table, a table that
`gtfsSchema` does not know and a calendar without rows. -/
def smallFeed : List Entry :=
  [ agencyFile,
    { name := "LICENSE", bytes := "free\n", records := [] },
    { name := "vehicles.txt", bytes := "",
      records := [["vehicle_id", "seats"], ["V1", "40"], ["V2", ""]] },
    { name := "calendar.txt", bytes := "", records := [["service_id", "monday"]] } ]

/-- The feed `smallFeed` with one more table file, whose name starts with
`__gtfs2sqlite`. -/
def reservedFeed : List Entry :=
  smallFeed ++
    [ { name := "__gtfs2sqlite_notes.txt", bytes := "", records := [["note"], ["n1"]] } ]

/-- The result of the import of `smallFeed` with the default options. -/
def smallImport : ImportResult :=
  (Import gtfsSchema sourceOrder 3 smallFeed none).getD { issues := [], err := none, db := [] }

/-- A feed of one table file that `gtfsSchema` does not know, with a data row of a single
field under a header of two columns. -/
def raggedFeed : List Entry :=
  [ { name := "vehicles.txt", bytes := "",
      records := [["vehicle_id", "seats"], ["V1", "40"], ["V3"]] } ]

/-- A feed of one table file that `gtfsSchema` does not know, whose name starts with
`__gtfs2sqlite`. -/
def notesFeed : List Entry :=
  [ { name := "__gtfs2sqlite_notes.txt", bytes := "", records := [["note"], ["n1"]] } ]

/-! ## Violations in the words of the specification -/

/-- The rows that violate an edge in the words of the specification: the rows of the source
table whose value in the column of the edge is not `NULL` and is absent from the union of
the target column values over all alternatives.  The definition follows the specification
and not the code; it is what `edgeRows`, the rows that the query of `validateForeignID`
returns, is compared with. -/
def danglingRows (db : Store) (e : Edge) : List Row :=
  match findTable db e.1 with
  | .ok t => t.rows.filter (fun r =>
      decide (r.get t.columns e.2.1 ≠ none ∧ r.get t.columns e.2.1 ∉ targetValues db e.2.2))
  | .error _ => []

/-- The store is fully consistent in the words of the specification: no row violates an
edge of `gtfsSchema`. -/
def FullyConsistent (db : Store) : Prop :=
  ∀ e ∈ edgesOf gtfsSchema, danglingRows db e = []

/-- No table of `gtfsSchema` has in the store a column called `rowid`, in whatever case of
letters.  In such a table SQLite reads the name `rowid` in `SELECT rowid, *` and in
`DELETE ... WHERE rowid = ?` as the hidden row number, which is what `Stmt.GetRowid`,
`Expr.rowidEq` and `deleteRowid` stand for; in a table with a column of that name SQLite
reads the name as that column. -/
def NoRowidColumn (db : Store) : Prop :=
  ∀ ts ∈ gtfsSchema, ∀ c ∈ columnsOf db ts.1, c.data.map Char.toLower ≠ "rowid".data

instance (db : Store) : Decidable (FullyConsistent db) := by
  unfold FullyConsistent
  infer_instance

instance (db : Store) : Decidable (NoRowidColumn db) := by
  unfold NoRowidColumn
  infer_instance

/-! ## Further example stores -/

/-- A store with one root violation and a two-level dependency among the fare tables: the
fare product `P1` names the unknown fare medium `M9`, the leg rule of leg group `G1` sells
`P1`, and a transfer rule starts from leg group `G1`.  A second leg rule, which sells the
valid product `P2`, has no `leg_group_id` (an empty field, stored as `NULL`). -/
def chain2DB : Store :=
  put "fare_transfer_rules" 1 [("from_leg_group_id", "G1"), ("fare_transfer_type", "0")]
  (put "fare_leg_rules" 2 [("fare_product_id", "P2")]
  (put "fare_leg_rules" 1 [("leg_group_id", "G1"), ("fare_product_id", "P1")]
  (put "fare_products" 2 [("fare_product_id", "P2"), ("amount", "3"), ("currency", "EUR")]
  (put "fare_products" 1 [("fare_product_id", "P1"), ("fare_media_id", "M9"), ("amount", "2"),
    ("currency", "EUR")] emptyDB))))

/-- The store `chain2DB` without the fare product `P1` and the leg rule that sells it. -/
def chain2Repaired : Store :=
  put "fare_transfer_rules" 1 [("from_leg_group_id", "G1"), ("fare_transfer_type", "0")]
  (put "fare_leg_rules" 2 [("fare_product_id", "P2")]
  (put "fare_products" 2 [("fare_product_id", "P2"), ("amount", "3"), ("currency", "EUR")]
    emptyDB))

/-- The store `nullZoneDB` with a route that names the unknown agency `nope`. -/
def mixedDB : Store :=
  put "routes" 1 [("route_id", "R1"), ("agency_id", "nope"), ("route_type", "3")] nullZoneDB

/-- The end-to-end scenario within a larger feed: stop `S` (stop_lon 9) referenced only by
the stop_times row `T` (rowid 1), whose trip `R1` runs on route `Rt1`, nothing else
referring to `R1` or `Rt1`; and a second trip `R2` on route `Rt2` that serves stop `S2`
(stop_lon 2) and has a stop_times row without `stop_id` (a row that names a
`location_id`; the empty field is stored as `NULL`). -/
def e2ePlusDB : Store :=
  put "stop_times" 3 [("trip_id", "R2"), ("location_id", "L1"), ("stop_sequence", "2")]
  (put "stop_times" 2 [("trip_id", "R2"), ("stop_id", "S2"), ("stop_sequence", "1")]
  (put "stop_times" 1 [("trip_id", "R1"), ("stop_id", "S"), ("stop_sequence", "1")]
  (put "trips" 2 [("route_id", "Rt2"), ("service_id", "WK"), ("trip_id", "R2")]
  (put "trips" 1 [("route_id", "Rt1"), ("service_id", "WK"), ("trip_id", "R1")]
  (put "routes" 2 [("route_id", "Rt2"), ("agency_id", "A1"), ("route_type", "3")]
  (put "routes" 1 [("route_id", "Rt1"), ("agency_id", "A1"), ("route_type", "3")]
  (put "agency" 1 [("agency_id", "A1"), ("agency_name", "A")]
  (put "calendar" 1 [("service_id", "WK")]
  (put "stops" 2 [("stop_id", "S2"), ("stop_lat", "1"), ("stop_lon", "2")]
  (put "stops" 1 [("stop_id", "S"), ("stop_lat", "1"), ("stop_lon", "9")] emptyDB))))))))))

/-- What `Clip` leaves of `e2ePlusDB` for the feature `lonTwo`: the stop_times row `T`, the
trip `R1` and the route `Rt1` are gone, the stop `S` is still there. -/
def e2ePlusClipped : Store :=
  put "stop_times" 3 [("trip_id", "R2"), ("location_id", "L1"), ("stop_sequence", "2")]
  (put "stop_times" 2 [("trip_id", "R2"), ("stop_id", "S2"), ("stop_sequence", "1")]
  (put "trips" 2 [("route_id", "Rt2"), ("service_id", "WK"), ("trip_id", "R2")]
  (put "routes" 2 [("route_id", "Rt2"), ("agency_id", "A1"), ("route_type", "3")]
  (put "agency" 1 [("agency_id", "A1"), ("agency_name", "A")]
  (put "calendar" 1 [("service_id", "WK")]
  (put "stops" 2 [("stop_id", "S2"), ("stop_lat", "1"), ("stop_lon", "2")]
  (put "stops" 1 [("stop_id", "S"), ("stop_lat", "1"), ("stop_lon", "9")] emptyDB)))))))

/-- The store `smallDB` with a fare `F1` and a fare rule whose `origin_id` names the zone
`Z9` that no stop has, while the only stop has no `zone_id` (an empty field, stored as
`NULL`).  The script of `Clip` deletes nothing of it when every stop is inside the
feature. -/
def maskedDB : Store :=
  put "fare_rules" 1 [("fare_id", "F1"), ("origin_id", "Z9")]
  (put "fare_attributes" 1 [("fare_id", "F1"), ("price", "2"), ("currency_type", "EUR")]
    smallDB)

/-- The row of stop `S2` in `lonelyStopDB`. -/
def lonelyS2 : Row :=
  { rowid := 2, values := [some "S2", none, none, none, none, some "1", some "2", none, none,
      none, none, none, none, none, none] }

/-! ## Tables of a store -/

theorem findTable_nil (m : String) :
    findTable [] m = .error (.store ("no such table: " ++ m)) := rfl

theorem findTable_cons (t : Table) (rest : Store) (m : String) :
    findTable (t :: rest) m = if t.name == m then .ok t else findTable rest m := by
  unfold findTable
  rw [List.find?_cons]
  cases h : (t.name == m) <;> simp

theorem findTable_name {db : Store} {m : String} {t : Table} (h : findTable db m = .ok t) :
    t.name = m := by
  induction db with
  | nil => simp [findTable_nil] at h
  | cons u rest ih =>
    rw [findTable_cons] at h
    by_cases hu : (u.name == m) = true
    · rw [if_pos hu] at h
      cases h
      simpa using hu
    · rw [if_neg hu] at h
      exact ih h

theorem findTable_modifyTable (db : Store) (n m : String) (f : Table → Table)
    (hf : ∀ t, (f t).name = t.name) :
    findTable (modifyTable n f db) m =
      match findTable db m with
      | .ok t => .ok (if m = n then f t else t)
      | .error e => .error e := by
  induction db with
  | nil => simp [modifyTable, findTable_nil]
  | cons u rest ih =>
    by_cases hn : (u.name == n) = true
    · have hn' : u.name = n := by simpa using hn
      simp only [modifyTable, if_pos hn, findTable_cons, hf]
      by_cases hm : (u.name == m) = true
      · have hm' : u.name = m := by simpa using hm
        subst hn'
        subst hm'
        simp
      · simp only [if_neg hm]
        cases hr : findTable rest m with
        | error e => rfl
        | ok t =>
          have := findTable_name hr
          have hmn : ¬ m = n := by
            intro h
            apply hm
            simp [hn', h]
          simp [hmn]
    · simp only [modifyTable, if_neg hn, findTable_cons]
      by_cases hm : (u.name == m) = true
      · have hm' : u.name = m := by simpa using hm
        have hmn : ¬ m = n := by
          intro h
          apply hn
          simp [hm', h]
        simp [hm, hmn]
      · simp only [if_neg hm]
        exact ih

theorem rowCount_cons (t : Table) (rest : Store) :
    rowCount (t :: rest) = t.rows.length + rowCount rest := by
  simp [rowCount]

theorem rowCount_modifyTable_le (db : Store) (n : String) (f : Table → Table)
    (hf : ∀ t, (f t).rows.length ≤ t.rows.length) :
    rowCount (modifyTable n f db) ≤ rowCount db := by
  induction db with
  | nil => simp [modifyTable]
  | cons u rest ih =>
    by_cases hn : (u.name == n) = true
    · simp only [modifyTable, if_pos hn, rowCount_cons]
      have := hf u
      omega
    · simp only [modifyTable, if_neg hn, rowCount_cons]
      omega

theorem rowCount_modifyTable_lt (db : Store) (n : String) (f : Table → Table) (t : Table)
    (ht : findTable db n = .ok t) (hf : (f t).rows.length < t.rows.length) :
    rowCount (modifyTable n f db) < rowCount db := by
  induction db with
  | nil => simp [findTable_nil] at ht
  | cons u rest ih =>
    rw [findTable_cons] at ht
    by_cases hn : (u.name == n) = true
    · rw [if_pos hn] at ht
      cases ht
      simp only [modifyTable, if_pos hn, rowCount_cons]
      omega
    · rw [if_neg hn] at ht
      simp only [modifyTable, if_neg hn, rowCount_cons]
      have := ih ht
      omega

/-! ## The query of an edge -/

theorem violation_iff (v : Value) (vs : List Value) :
    sqlAnd (sqlIsNotNull v) (sqlNotIn v vs) = some true ↔ v ≠ none ∧ v ∉ vs ∧ none ∉ vs := by
  cases v with
  | none => simp [sqlIsNotNull, sqlAnd]
  | some x =>
    by_cases hnil : vs = []
    · subst hnil
      simp [sqlIsNotNull, sqlNotIn, sqlIn, sqlNot, sqlAnd]
    · by_cases hx : some x ∈ vs
      · simp [sqlIsNotNull, sqlNotIn, sqlIn, sqlNot, sqlAnd, hnil, hx]
      · by_cases hn : none ∈ vs
        · simp [sqlIsNotNull, sqlNotIn, sqlIn, sqlNot, sqlAnd, hnil, hx, hn]
        · simp [sqlIsNotNull, sqlNotIn, sqlIn, sqlNot, sqlAnd, hnil, hx, hn]

theorem evalSelect_plain (db : Store) (table column : String) :
    evalSelect db { distinct := false, column := column, table := table, wher := none } =
      match findTable db table with
      | .error e => .error e
      | .ok t =>
        if column ∈ t.columns then .ok (t.rows.map (fun r => r.get t.columns column))
        else .error (.store ("no such column: " ++ column)) := by
  unfold evalSelect
  cases findTable db table with
  | error e => rfl
  | ok t =>
    by_cases hc : column ∈ t.columns <;> simp [checkColumn, hc]

theorem evalSelect_plain_ok {db : Store} {table column : String} {vs : List Value}
    (h : evalSelect db { distinct := false, column := column, table := table, wher := none }
      = .ok vs) :
    hasColumn db table column = true ∧ vs = columnValues db table column := by
  rw [evalSelect_plain] at h
  unfold hasColumn columnValues
  cases ht : findTable db table with
  | error e => simp [ht] at h
  | ok t =>
    rw [ht] at h
    by_cases hc : column ∈ t.columns
    · simp [hc] at h
      simp [hc, h]
    · simp [hc] at h

theorem evalSelect_plain_of_hasColumn {db : Store} {table column : String}
    (h : hasColumn db table column = true) :
    evalSelect db { distinct := false, column := column, table := table, wher := none }
      = .ok (columnValues db table column) := by
  rw [evalSelect_plain]
  unfold hasColumn at h
  unfold columnValues
  cases ht : findTable db table with
  | error e => simp [ht] at h
  | ok t =>
    rw [ht] at h
    have hc : column ∈ t.columns := by simpa using h
    simp [hc]

theorem evalSelects_fragments_ok {db : Store} :
    ∀ {anyOf : List foreignIDSchema} {vss : List (List Value)},
      evalSelects db (foreignFragments anyOf) = .ok vss →
      (∀ s ∈ anyOf, hasColumn db s.Table s.Column = true) ∧
        vss = anyOf.map (fun s => columnValues db s.Table s.Column)
  | [], vss, h => by
    simp [foreignFragments, evalSelects] at h
    simp [h]
  | s :: rest, vss, h => by
    simp only [foreignFragments, List.map_cons, evalSelects] at h
    cases h1 : evalSelect db
        { distinct := false, column := s.Column, table := s.Table, wher := none } with
    | error e => simp [h1] at h
    | ok vs =>
      rw [h1] at h
      cases h2 : evalSelects db (List.map (fun subSchema =>
          ({ distinct := false, column := subSchema.Column, table := subSchema.Table,
             wher := none } : Select)) rest) with
      | error e => simp [h2] at h
      | ok vss1 =>
        rw [h2] at h
        have ih := @evalSelects_fragments_ok db rest vss1 h2
        have hs := evalSelect_plain_ok h1
        simp at h
        subst h
        constructor
        · intro x hx
          rcases List.mem_cons.mp hx with rfl | hx
          · exact hs.1
          · exact ih.1 x hx
        · simp [hs.2, ih.2]

theorem evalSelects_fragments_of_hasColumn {db : Store} :
    ∀ {anyOf : List foreignIDSchema},
      (∀ s ∈ anyOf, hasColumn db s.Table s.Column = true) →
      evalSelects db (foreignFragments anyOf)
        = .ok (anyOf.map (fun s => columnValues db s.Table s.Column))
  | [], _ => by simp [foreignFragments, evalSelects]
  | s :: rest, h => by
    have h1 := evalSelect_plain_of_hasColumn (h s (List.mem_cons_self _ _))
    have h2 := @evalSelects_fragments_of_hasColumn db rest
      (fun x hx => h x (List.mem_cons_of_mem _ hx))
    simp only [foreignFragments] at h2
    simp only [foreignFragments, List.map_cons, evalSelects, h1, h2]

theorem mem_targetValues (db : Store) (schema : foreignIDSchema) (x : Value) :
    x ∈ targetValues db schema ↔
      x ∈ ((anyOfForm schema).map (fun s => columnValues db s.Table s.Column)).flatten := by
  simp [targetValues, alternatives, List.mem_flatMap, List.mem_flatten]

theorem evalUnion_fragments_ok {db : Store} {schema : foreignIDSchema} {vs : List Value}
    (h : evalUnion db (foreignFragments (anyOfForm schema)) = .ok vs) :
    (∀ a ∈ alternatives schema, hasColumn db a.1 a.2 = true) ∧
      ∀ x, x ∈ vs ↔ x ∈ targetValues db schema := by
  unfold evalUnion at h
  cases h1 : evalSelects db (foreignFragments (anyOfForm schema)) with
  | error e => simp [h1] at h
  | ok vss =>
    rw [h1] at h
    have h2 := evalSelects_fragments_ok h1
    simp only [Except.ok.injEq] at h
    constructor
    · intro a ha
      simp only [alternatives, List.mem_map] at ha
      obtain ⟨s, hs, rfl⟩ := ha
      exact h2.1 s hs
    · intro x
      rw [mem_targetValues, ← h2.2, ← h]
      split <;> simp

theorem evalUnion_fragments_of_hasColumn {db : Store} {schema : foreignIDSchema}
    (h : ∀ a ∈ alternatives schema, hasColumn db a.1 a.2 = true) :
    ∃ vs, evalUnion db (foreignFragments (anyOfForm schema)) = .ok vs := by
  have h1 : ∀ s ∈ anyOfForm schema, hasColumn db s.Table s.Column = true := by
    intro s hs
    exact h (s.Table, s.Column) (by simp only [alternatives, List.mem_map]; exact ⟨s, hs, rfl⟩)
  unfold evalUnion
  rw [evalSelects_fragments_of_hasColumn h1]
  exact ⟨_, rfl⟩

theorem foreignRows_ok {db : Store} {table column : String} {schema : foreignIDSchema}
    {t : Table} {rows : List Row} (h : foreignRows db table column schema = .ok (t, rows)) :
    ¬ panics schema ∧ findTable db table = .ok t ∧ column ∈ t.columns ∧
      (∀ a ∈ alternatives schema, hasColumn db a.1 a.2 = true) ∧
      rows = t.rows.filter (fun r => decide (queryTest db schema (r.get t.columns column))) := by
  unfold foreignRows at h
  by_cases hp : schema.AnyOf.length > 0 ∧ (schema.Table ≠ "" ∨ schema.Column ≠ "")
  · rw [if_pos hp] at h
    cases h
  · rw [if_neg hp] at h
    refine ⟨hp, ?_⟩
    unfold selectWhere at h
    cases ht : findTable db table with
    | error e => simp [ht] at h
    | ok t1 =>
      rw [ht] at h
      by_cases hc : column ∈ t1.columns
      · cases hu : evalUnion db (foreignFragments (anyOfForm schema)) with
        | error e => simp [foreignQuery, compileExpr, checkColumn, hc, hu] at h
        | ok vs =>
          have hv := evalUnion_fragments_ok hu
          simp only [foreignQuery, compileExpr, checkColumn, hc, hu, if_true, Except.ok.injEq,
            Prod.mk.injEq] at h
          obtain ⟨rfl, rfl⟩ := h
          refine ⟨rfl, hc, hv.1, ?_⟩
          apply List.filter_congr
          intro r _
          have := violation_iff (r.get t1.columns column) vs
          simp only [queryTest, ← hv.2]
          by_cases hq : sqlAnd (sqlIsNotNull (Row.get t1.columns r column))
              (sqlNotIn (Row.get t1.columns r column) vs) = some true
          · simp [hq, this.mp hq]
          · have hn := fun h' => hq (this.mpr h')
            simp only [hq, decide_False]
            symm
            simpa using hn
      · simp [foreignQuery, compileExpr, checkColumn, hc] at h

theorem foreignRows_of_hasColumn {db : Store} {table column : String} {schema : foreignIDSchema}
    (hp : ¬ panics schema) (hs : hasColumn db table column = true)
    (ha : ∀ a ∈ alternatives schema, hasColumn db a.1 a.2 = true) :
    ∃ res, foreignRows db table column schema = .ok res := by
  unfold foreignRows
  unfold panics at hp
  rw [if_neg hp]
  unfold selectWhere
  unfold hasColumn at hs
  cases ht : findTable db table with
  | error e => simp [ht] at hs
  | ok t =>
    rw [ht] at hs
    have hc : column ∈ t.columns := by simpa using hs
    obtain ⟨vs, hvs⟩ := evalUnion_fragments_of_hasColumn ha
    simp [foreignQuery, compileExpr, checkColumn, hc, hvs]

theorem scanOK_iff (db : Store) (e : Edge) :
    scanOK db e = true ↔ ¬ panics e.2.2 ∧ hasColumn db e.1 e.2.1 = true ∧
      ∀ a ∈ alternatives e.2.2, hasColumn db a.1 a.2 = true := by
  unfold scanOK
  constructor
  · intro h
    cases hr : foreignRows db e.1 e.2.1 e.2.2 with
    | error err => simp [hr] at h
    | ok res =>
      obtain ⟨t, rows⟩ := res
      have := foreignRows_ok hr
      refine ⟨this.1, ?_, this.2.2.2.1⟩
      simp [hasColumn, this.2.1, this.2.2.1]
  · rintro ⟨hp, hs, ha⟩
    obtain ⟨res, hres⟩ := foreignRows_of_hasColumn hp hs ha
    simp [hres]

/-! ## Deleting by rowid -/

theorem execDelete_rowidEq (db : Store) (table : String) (rowid : Int) :
    execDelete db table (.rowidEq rowid) =
      match findTable db table with
      | .error e => .error e
      | .ok _ => .ok (deleteRowid db table rowid) := by
  unfold execDelete
  cases findTable db table with
  | error e => rfl
  | ok t =>
    simp only [compileExpr, deleteRowid]
    congr 2
    funext u
    congr 1
    apply List.filter_congr
    intro r _
    by_cases h : r.rowid = rowid <;> simp [h]

theorem findTable_deleteRowid (db : Store) (table : String) (rowid : Int) (m : String) :
    findTable (deleteRowid db table rowid) m =
      match findTable db m with
      | .ok t => .ok (if m = table then
          { t with rows := t.rows.filter (fun r => decide (r.rowid ≠ rowid)) } else t)
      | .error e => .error e := by
  unfold deleteRowid
  exact findTable_modifyTable db table m _ (fun _ => rfl)

theorem findTable_deleteRowid_ok {db : Store} {table : String} {rowid : Int} {m : String}
    {t : Table} (h : findTable db m = .ok t) :
    ∃ t1, findTable (deleteRowid db table rowid) m = .ok t1 ∧ t1.columns = t.columns ∧
      t1.rows.length ≤ t.rows.length := by
  rw [findTable_deleteRowid, h]
  by_cases hm : m = table
  · refine ⟨_, rfl, ?_, ?_⟩
    · simp [hm]
    · simp only [hm, if_true]
      exact List.length_filter_le _ _
  · exact ⟨_, rfl, by simp [hm], by simp [hm]⟩

theorem hasColumn_deleteRowid (db : Store) (table : String) (rowid : Int) (m c : String) :
    hasColumn (deleteRowid db table rowid) m c = hasColumn db m c := by
  unfold hasColumn
  rw [findTable_deleteRowid]
  cases findTable db m with
  | error e => rfl
  | ok t => by_cases hm : m = table <;> simp [hm]

theorem scanOK_deleteRowid (db : Store) (table : String) (rowid : Int) (e : Edge) :
    scanOK (deleteRowid db table rowid) e = scanOK db e := by
  rw [Bool.eq_iff_iff, scanOK_iff, scanOK_iff]
  simp only [hasColumn_deleteRowid]

theorem rowCount_deleteRowid_le (db : Store) (table : String) (rowid : Int) :
    rowCount (deleteRowid db table rowid) ≤ rowCount db := by
  unfold deleteRowid
  apply rowCount_modifyTable_le
  intro t
  exact List.length_filter_le _ _

theorem rowCount_deleteRowid_lt {db : Store} {table : String} {rowid : Int} {t : Table}
    (ht : findTable db table = .ok t) {r : Row} (hr : r ∈ t.rows) (hid : r.rowid = rowid) :
    rowCount (deleteRowid db table rowid) < rowCount db := by
  unfold deleteRowid
  apply rowCount_modifyTable_lt _ _ _ t ht
  have hlt : (List.filter (fun r => decide (r.rowid ≠ rowid)) t.rows).length < t.rows.length := by
    apply List.length_filter_lt_length_iff_exists.mpr
    exact ⟨r, hr, by simp [hid]⟩
  exact hlt

/-! ## The deletion phase -/

theorem scanOK_foldl_deleteRowid (table : String) (rows : List Int) (e : Edge) :
    ∀ db : Store, scanOK (rows.foldl (fun d1 rowid => deleteRowid d1 table rowid) db) e
      = scanOK db e := by
  induction rows with
  | nil => intro db; rfl
  | cons rowid rest ih =>
    intro db
    rw [List.foldl_cons, ih, scanOK_deleteRowid]

theorem scanOK_deleteScheduled (m : List (String × List Int)) (e : Edge) :
    ∀ db : Store, scanOK (deleteScheduled m db) e = scanOK db e := by
  induction m with
  | nil => intro db; rfl
  | cons p rest ih =>
    intro db
    unfold deleteScheduled at ih ⊢
    rw [List.foldl_cons, ih, scanOK_foldl_deleteRowid]

theorem rowCount_foldl_deleteRowid_le (table : String) (rows : List Int) :
    ∀ db : Store, rowCount (rows.foldl (fun d1 rowid => deleteRowid d1 table rowid) db)
      ≤ rowCount db := by
  induction rows with
  | nil => intro db; exact Nat.le_refl _
  | cons rowid rest ih =>
    intro db
    rw [List.foldl_cons]
    exact Nat.le_trans (ih _) (rowCount_deleteRowid_le _ _ _)

theorem rowCount_deleteScheduled_le (m : List (String × List Int)) :
    ∀ db : Store, rowCount (deleteScheduled m db) ≤ rowCount db := by
  induction m with
  | nil => intro db; exact Nat.le_refl _
  | cons p rest ih =>
    intro db
    unfold deleteScheduled at ih ⊢
    rw [List.foldl_cons]
    exact Nat.le_trans (ih _) (rowCount_foldl_deleteRowid_le _ _ _)

theorem rowCount_deleteScheduled_lt {db : Store} {m : List (String × List Int)}
    (hs : Scheduled db m) (hm : m ≠ []) :
    rowCount (deleteScheduled m db) < rowCount db := by
  cases m with
  | nil => exact absurd rfl hm
  | cons p rest =>
    have hp := hs p (List.mem_cons_self _ _)
    cases hrows : p.2 with
    | nil => exact absurd hrows hp.1
    | cons rowid rs =>
      obtain ⟨t, ht, r, hr, hid⟩ := hp.2 rowid (by rw [hrows]; exact List.mem_cons_self _ _)
      unfold deleteScheduled
      rw [List.foldl_cons, hrows, List.foldl_cons]
      refine Nat.lt_of_le_of_lt ?_ (rowCount_deleteRowid_lt ht hr hid)
      exact Nat.le_trans (rowCount_deleteScheduled_le rest _)
        (rowCount_foldl_deleteRowid_le _ _ _)

theorem deleteRows_eq (table : String) (rows : List Int) :
    ∀ (db : Store) (t : Table), findTable db table = .ok t →
      validate.deleteRows table rows db
        = (rows.foldl (fun d1 rowid => deleteRowid d1 table rowid) db, none) := by
  induction rows with
  | nil => intro db t _; rfl
  | cons rowid rest ih =>
    intro db t ht
    obtain ⟨t1, ht1, _⟩ := @findTable_deleteRowid_ok db table rowid table t ht
    simp only [validate.deleteRows, execDelete_rowidEq, ht, List.foldl_cons]
    exact ih _ t1 ht1

theorem findTable_foldl_deleteRowid_ok (table : String) (rows : List Int) (m : String) :
    ∀ (db : Store) (t : Table), findTable db m = .ok t →
      ∃ t1, findTable (rows.foldl (fun d1 rowid => deleteRowid d1 table rowid) db) m = .ok t1 := by
  induction rows with
  | nil => intro db t ht; exact ⟨t, ht⟩
  | cons rowid rest ih =>
    intro db t ht
    obtain ⟨t1, ht1, _⟩ := @findTable_deleteRowid_ok db table rowid m t ht
    rw [List.foldl_cons]
    exact ih _ t1 ht1

theorem applyDeletes_eq (m : List (String × List Int)) :
    ∀ db : Store, (∀ p ∈ m, ∃ t, findTable db p.1 = .ok t) →
      validate.applyDeletes m db = (deleteScheduled m db, none) := by
  induction m with
  | nil => intro db _; rfl
  | cons p rest ih =>
    intro db h
    obtain ⟨t, ht⟩ := h p (List.mem_cons_self _ _)
    obtain ⟨table, rows⟩ := p
    simp only [validate.applyDeletes, deleteRows_eq table rows db t ht]
    unfold deleteScheduled
    rw [List.foldl_cons]
    apply ih
    intro q hq
    obtain ⟨u, hu⟩ := h q (List.mem_cons_of_mem _ hq)
    exact findTable_foldl_deleteRowid_ok table rows q.1 db u hu

theorem applyDeletes_of_scheduled {db : Store} {m : List (String × List Int)}
    (hs : Scheduled db m) :
    validate.applyDeletes m db = (deleteScheduled m db, none) := by
  apply applyDeletes_eq
  intro p hp
  have h := hs p hp
  cases hrows : p.2 with
  | nil => exact absurd hrows h.1
  | cons rowid rs =>
    obtain ⟨t, ht, _⟩ := h.2 rowid (by rw [hrows]; exact List.mem_cons_self _ _)
    exact ⟨t, ht⟩

/-! ## One sweep -/

theorem sweepEdges_append (db : Store) (a b : List Edge) :
    ∀ v, validate.sweepEdges db (a ++ b) v =
      match validate.sweepEdges db a v with
      | .error e => .error e
      | .ok v1 => validate.sweepEdges db b v1 := by
  induction a with
  | nil => intro v; rfl
  | cons e rest ih =>
    intro v
    simp only [List.cons_append, validate.sweepEdges]
    cases validateForeignID db v e.1 e.2.1 e.2.2 with
    | error err => rfl
    | ok v1 => exact ih v1

theorem validateTable_loop_eq (db : Store) (table : String) (cols : List (String × columnSchema)) :
    ∀ v, validateTable.loop db table cols v =
      validate.sweepEdges db
        (cols.filterMap (fun cs => cs.2.ForeignID.map (fun f => (table, cs.1, f)))) v := by
  induction cols with
  | nil => intro v; rfl
  | cons cs rest ih =>
    intro v
    obtain ⟨column, schema⟩ := cs
    cases hf : schema.ForeignID with
    | none =>
      simp only [validateTable.loop, validateColumn, hf, List.filterMap_cons, Option.map_none']
      exact ih v
    | some f =>
      simp only [validateTable.loop, validateColumn, hf, List.filterMap_cons, Option.map_some',
        validate.sweepEdges]
      cases validateForeignID db v table column f with
      | error err => rfl
      | ok v1 => exact ih v1

theorem sweep_eq (db : Store) (schema : Schema) :
    ∀ v, validate.sweep db schema v = validate.sweepEdges db (edgesOf schema) v := by
  induction schema with
  | nil => intro v; rfl
  | cons ts rest ih =>
    intro v
    obtain ⟨table, s⟩ := ts
    simp only [validate.sweep, validateTable, edgesOf, List.flatMap_cons, sweepEdges_append,
      validateTable_loop_eq]
    cases validate.sweepEdges db
        (List.filterMap (fun cs => Option.map (fun f => (table, cs.1, f)) cs.2.ForeignID)
          s.Columns) v with
    | error err => rfl
    | ok v1 =>
      have := ih v1
      simp only [edgesOf] at this
      exact this

theorem mapAppend_ne_nil (table : String) (rowid : Int) (m : List (String × List Int)) :
    mapAppend table rowid m ≠ [] := by
  cases m with
  | nil => simp [mapAppend]
  | cons p rest =>
    obtain ⟨k, rows⟩ := p
    by_cases hk : k = table <;> simp [mapAppend, hk]

theorem scheduled_mapAppend {db : Store} {table : String} {rowid : Int}
    {m : List (String × List Int)} (hs : Scheduled db m) {t : Table}
    (ht : findTable db table = .ok t) {r : Row} (hr : r ∈ t.rows) (hid : r.rowid = rowid) :
    Scheduled db (mapAppend table rowid m) := by
  induction m with
  | nil =>
    intro p hp
    simp only [mapAppend, List.mem_singleton] at hp
    subst hp
    refine ⟨by simp, ?_⟩
    intro x hx
    simp only [List.mem_singleton] at hx
    subst hx
    exact ⟨t, ht, r, hr, hid⟩
  | cons q rest ih =>
    obtain ⟨k, rows⟩ := q
    have hrest : Scheduled db rest := fun p hp => hs p (List.mem_cons_of_mem _ hp)
    have hq := hs (k, rows) (List.mem_cons_self _ _)
    by_cases hk : k = table
    · intro p hp
      simp only [mapAppend, hk, if_true, List.mem_cons] at hp
      rcases hp with rfl | hp
      · refine ⟨by simp, ?_⟩
        intro x hx
        simp only [List.mem_append, List.mem_singleton] at hx
        rcases hx with hx | rfl
        · have := hq.2 x hx
          simpa [hk] using this
        · exact ⟨t, ht, r, hr, hid⟩
      · exact hrest p hp
    · intro p hp
      simp only [mapAppend, hk, if_false, List.mem_cons] at hp
      rcases hp with rfl | hp
      · exact hq
      · exact ih hrest p hp

/-- What the callbacks of one query do to the validator. -/
theorem callback_foldl (table column : String) (stmts : List Stmt) :
    ∀ v : validator,
      let v1 := stmts.foldl (validateForeignID.callback table column) v
      v1.opts = v.opts ∧ v1.pass = v.pass ∧
      v1.issues = v.issues ++ (if v.pass = 0 then stmts.map (issueOf table column) else []) ∧
      (v.opts.force = false → v1.toDelete = v.toDelete) ∧
      (v.toDelete ≠ [] → v1.toDelete ≠ []) ∧
      (v.opts.force = true → stmts ≠ [] → v1.toDelete ≠ []) ∧
      (stmts = [] → v1.toDelete = v.toDelete) := by
  induction stmts with
  | nil => intro v; simp
  | cons s rest ih =>
    intro v
    have h := ih (validateForeignID.callback table column v s)
    simp only [List.foldl_cons]
    simp only at h
    obtain ⟨h1, h2, h3, h4, h5, h6, _⟩ := h
    have c1 : (validateForeignID.callback table column v s).opts = v.opts := by
      unfold validateForeignID.callback validator.append
      by_cases hp : v.pass = 0 <;> by_cases hf : v.opts.force = true <;> simp [hp, hf]
    have c2 : (validateForeignID.callback table column v s).pass = v.pass := by
      unfold validateForeignID.callback validator.append
      by_cases hp : v.pass = 0 <;> by_cases hf : v.opts.force = true <;> simp [hp, hf]
    have c3 : (validateForeignID.callback table column v s).issues
        = v.issues ++ (if v.pass = 0 then [issueOf table column s] else []) := by
      unfold validateForeignID.callback validator.append
      by_cases hp : v.pass = 0 <;> by_cases hf : v.opts.force = true <;> simp [hp, hf]
    have c4 : v.opts.force = false →
        (validateForeignID.callback table column v s).toDelete = v.toDelete := by
      intro hf
      unfold validateForeignID.callback validator.append
      by_cases hp : v.pass = 0 <;> simp [hp, hf]
    have c5 : v.opts.force = true →
        (validateForeignID.callback table column v s).toDelete ≠ [] := by
      intro hf
      unfold validateForeignID.callback validator.append
      by_cases hp : v.pass = 0 <;> simp [hp, hf, mapAppend_ne_nil]
    have c6 : v.toDelete ≠ [] →
        (validateForeignID.callback table column v s).toDelete ≠ [] := by
      intro hne
      cases hf : v.opts.force with
      | true => exact c5 hf
      | false => rw [c4 hf]; exact hne
    refine ⟨h1.trans c1, h2.trans c2, ?_, ?_, ?_, ?_, ?_⟩
    · rw [h3, c3, c2]
      by_cases hp : v.pass = 0 <;> simp [hp]
    · intro hf
      rw [h4 (by rw [c1]; exact hf), c4 hf]
    · intro hne
      exact h5 (c6 hne)
    · intro hf _
      exact h5 (c5 hf)
    · intro hnil
      cases hnil

theorem callback_foldl_scheduled {db : Store} {table column : String} {t : Table}
    (ht : findTable db table = .ok t) (rows : List Row) (hrows : ∀ r ∈ rows, r ∈ t.rows) :
    ∀ v : validator, Scheduled db v.toDelete →
      Scheduled db ((rows.map (Stmt.ofRow t)).foldl
        (validateForeignID.callback table column) v).toDelete := by
  induction rows with
  | nil => intro v hv; exact hv
  | cons r rest ih =>
    intro v hv
    simp only [List.map_cons, List.foldl_cons]
    apply ih (fun x hx => hrows x (List.mem_cons_of_mem _ hx))
    unfold validateForeignID.callback validator.append
    have hr := hrows r (List.mem_cons_self _ _)
    have hsch : Scheduled db (mapAppend table (Stmt.ofRow t r).GetRowid v.toDelete) :=
      scheduled_mapAppend hv ht hr rfl
    by_cases hp : v.pass = 0 <;> by_cases hf : v.opts.force = true <;> simp [hp, hf, hsch, hv]

theorem validateForeignID_ok {db : Store} {v v1 : validator} {e : Edge}
    (h : validateForeignID db v e.1 e.2.1 e.2.2 = .ok v1) :
    scanOK db e = true ∧ v1.opts = v.opts ∧ v1.pass = v.pass ∧
      v1.issues = v.issues ++ (if v.pass = 0 then edgeMessages db e else []) ∧
      (v.opts.force = false → v1.toDelete = v.toDelete) ∧
      (v.toDelete ≠ [] → v1.toDelete ≠ []) ∧
      (v.opts.force = true → edgeRows db e ≠ [] → v1.toDelete ≠ []) ∧
      (edgeRows db e = [] → v1.toDelete = v.toDelete) ∧
      (Scheduled db v.toDelete → Scheduled db v1.toDelete) := by
  unfold validateForeignID at h
  cases hr : foreignRows db e.1 e.2.1 e.2.2 with
  | error err => simp [hr] at h
  | ok res =>
    obtain ⟨t, rows⟩ := res
    rw [hr] at h
    simp only [Except.ok.injEq] at h
    have hc := callback_foldl e.1 e.2.1 (rows.map (Stmt.ofRow t)) v
    simp only at hc
    rw [h] at hc
    obtain ⟨h1, h2, h3, h4, h5, h6, h7⟩ := hc
    have hok := foreignRows_ok hr
    refine ⟨by simp [scanOK, hr], h1, h2, ?_, h4, h5, ?_, ?_, ?_⟩
    · rw [h3]
      simp [edgeMessages, hr, List.map_map, Function.comp_def]
    · intro hf hne
      apply h6 hf
      simpa [edgeRows, hr] using hne
    · intro hnil
      apply h7
      simpa [edgeRows, hr] using hnil
    · intro hs
      rw [← h]
      apply callback_foldl_scheduled hok.2.1 rows _ v hs
      intro r hr'
      rw [hok.2.2.2.2] at hr'
      exact (List.mem_filter.mp hr').1

theorem validateForeignID_of_scanOK {db : Store} {e : Edge} (h : scanOK db e = true)
    (v : validator) : ∃ v1, validateForeignID db v e.1 e.2.1 e.2.2 = .ok v1 := by
  unfold scanOK at h
  unfold validateForeignID
  cases hr : foreignRows db e.1 e.2.1 e.2.2 with
  | error err => simp [hr] at h
  | ok res => exact ⟨_, rfl⟩

theorem validateForeignID_error_of_not_scanOK {db : Store} {e : Edge} (h : scanOK db e = false)
    (v : validator) : ∃ err, validateForeignID db v e.1 e.2.1 e.2.2 = .error err := by
  unfold scanOK at h
  unfold validateForeignID
  cases hr : foreignRows db e.1 e.2.1 e.2.2 with
  | error err => exact ⟨_, rfl⟩
  | ok res => simp [hr] at h

theorem sweepEdges_ok {db : Store} (es : List Edge) :
    ∀ {v v1 : validator}, validate.sweepEdges db es v = .ok v1 →
      v1.opts = v.opts ∧ v1.pass = v.pass ∧
      (∀ e ∈ es, scanOK db e = true) ∧
      v1.issues = v.issues ++ (if v.pass = 0 then es.flatMap (edgeMessages db) else []) ∧
      (v.opts.force = false → v1.toDelete = v.toDelete) ∧
      (v.toDelete ≠ [] → v1.toDelete ≠ []) ∧
      (v.opts.force = true → v1.toDelete = [] → ∀ e ∈ es, edgeRows db e = []) ∧
      ((∀ e ∈ es, edgeRows db e = []) → v1.toDelete = v.toDelete) ∧
      (Scheduled db v.toDelete → Scheduled db v1.toDelete) := by
  induction es with
  | nil =>
    intro v v1 h
    simp only [validate.sweepEdges, Except.ok.injEq] at h
    subst h
    simp
  | cons e rest ih =>
    intro v v1 h
    simp only [validate.sweepEdges] at h
    cases hv : validateForeignID db v e.1 e.2.1 e.2.2 with
    | error err => simp [hv] at h
    | ok v2 =>
      rw [hv] at h
      obtain ⟨a0, a1, a2, a3, a4, a5, a6, a7, a8⟩ := validateForeignID_ok hv
      obtain ⟨b1, b2, b0, b3, b4, b5, b6, b7, b8⟩ := ih h
      refine ⟨b1.trans a1, b2.trans a2, ?_, ?_, ?_, ?_, ?_, ?_, ?_⟩
      · intro x hx
        rcases List.mem_cons.mp hx with rfl | hx
        · exact a0
        · exact b0 x hx
      · rw [b3, a3, a2]
        by_cases hp : v.pass = 0 <;> simp [hp]
      · intro hf
        rw [b4 (by rw [a1]; exact hf), a4 hf]
      · intro hne
        exact b5 (a5 hne)
      · intro hf hnil x hx
        have h2nil : v2.toDelete = [] := by
          by_contra hne
          exact b5 hne hnil
        rcases List.mem_cons.mp hx with rfl | hx
        · by_contra hne
          exact a6 hf hne h2nil
        · exact b6 (by rw [a1]; exact hf) hnil x hx
      · intro hall
        rw [b7 (fun x hx => hall x (List.mem_cons_of_mem _ hx)),
          a7 (hall e (List.mem_cons_self _ _))]
      · intro hs
        exact b8 (a8 hs)

theorem sweepEdges_of_scanOK {db : Store} (es : List Edge) :
    (∀ e ∈ es, scanOK db e = true) → ∀ v, ∃ v1, validate.sweepEdges db es v = .ok v1 := by
  induction es with
  | nil => intro _ v; exact ⟨v, rfl⟩
  | cons e rest ih =>
    intro h v
    obtain ⟨v2, hv2⟩ := validateForeignID_of_scanOK (h e (List.mem_cons_self _ _)) v
    obtain ⟨v1, hv1⟩ := ih (fun x hx => h x (List.mem_cons_of_mem _ hx)) v2
    exact ⟨v1, by simp only [validate.sweepEdges, hv2, hv1]⟩

theorem sweepEdges_error {db : Store} (es : List Edge) :
    (∃ e ∈ es, scanOK db e = false) → ∀ v, ∃ err, validate.sweepEdges db es v = .error err := by
  induction es with
  | nil => rintro ⟨e, he, _⟩; cases he
  | cons e rest ih =>
    rintro ⟨x, hx, hxe⟩ v
    simp only [validate.sweepEdges]
    cases hv : validateForeignID db v e.1 e.2.1 e.2.2 with
    | error err => exact ⟨err, rfl⟩
    | ok v2 =>
      rcases List.mem_cons.mp hx with rfl | hx
      · obtain ⟨err, herr⟩ := validateForeignID_error_of_not_scanOK hxe v
        rw [hv] at herr
        cases herr
      · exact ih ⟨x, hx, hxe⟩ v2

/-! ## The loop of validate -/

theorem scheduled_nil (db : Store) : Scheduled db [] := by
  intro p hp
  cases hp

/-- The loop of `validate` ends within `rowCount db + 1` passes (one pass when `force` is
off), whatever the order of iteration, and this is what it returns. -/
theorem loop_spec (order : Nat → Schema) :
    ∀ (fuel : Nat) (db : Store) (v : validator), v.toDelete = [] → 1 ≤ fuel →
      (v.opts.force = true → rowCount db + 1 ≤ fuel) →
      ∃ dbf res, validate.loop order fuel db v = some (dbf, res) ∧
        rowCount dbf ≤ rowCount db ∧
        (∀ e, scanOK dbf e = scanOK db e) ∧
        (v.opts.force = false → dbf = db) ∧
        ((∀ p, ∀ e ∈ edgesOf (order p), scanOK db e = true) → ∃ vf, res = .ok vf) ∧
        (∀ vf, res = .ok vf →
          vf.opts = v.opts ∧ vf.toDelete = [] ∧ v.pass ≤ vf.pass ∧
          vf.pass + rowCount dbf ≤ v.pass + rowCount db ∧
          (v.opts.force = false → vf.pass = v.pass) ∧
          (∀ e ∈ edgesOf (order vf.pass), scanOK dbf e = true) ∧
          (v.opts.force = true → ∀ e ∈ edgesOf (order vf.pass), edgeRows dbf e = []) ∧
          vf.issues = v.issues ++ (if v.pass = 0 then sweepMessages db (order 0) else [])) := by
  intro fuel
  induction fuel with
  | zero => intro db v _ h; omega
  | succ fuel ih =>
    intro db v hv _ hfuel
    simp only [validate.loop, sweep_eq]
    cases hs : validate.sweepEdges db (edgesOf (order v.pass)) v with
    | error err =>
      refine ⟨db, .error err, rfl, Nat.le_refl _, fun _ => rfl, fun _ => rfl, ?_, ?_⟩
      · intro hall
        obtain ⟨v1, hv1⟩ := sweepEdges_of_scanOK _ (hall v.pass) v
        rw [hs] at hv1
        cases hv1
      · intro vf hvf
        cases hvf
    | ok v1 =>
      obtain ⟨a1, a2, a0, a3, a4, _, a6, _, a8⟩ := sweepEdges_ok _ hs
      by_cases hlen : v1.toDelete.length = 0
      · have hnil : v1.toDelete = [] := List.length_eq_zero.mp hlen
        simp only [hlen, if_true]
        refine ⟨db, .ok v1, rfl, Nat.le_refl _, fun _ => rfl, fun _ => rfl,
          fun _ => ⟨v1, rfl⟩, ?_⟩
        intro vf hvf
        simp only [Except.ok.injEq] at hvf
        subst hvf
        refine ⟨a1, hnil, by omega, by omega, fun _ => a2, ?_, ?_, ?_⟩
        · rw [a2]; exact a0
        · intro hf
          rw [a2]
          exact a6 hf hnil
        · rw [a3]
          by_cases hp : v.pass = 0
          · simp [hp, sweepMessages]
          · simp [hp]
      · simp only [hlen, if_false]
        have hne : v1.toDelete ≠ [] := fun h => hlen (by rw [h]; rfl)
        have hforce : v.opts.force = true := by
          cases hf : v.opts.force with
          | true => rfl
          | false =>
            have := a4 hf
            rw [hv] at this
            exact absurd this hne
        have hsch : Scheduled db v1.toDelete := a8 (by rw [hv]; exact scheduled_nil db)
        rw [applyDeletes_of_scheduled hsch]
        have hlt := rowCount_deleteScheduled_lt hsch hne
        have hfuel1 := hfuel hforce
        obtain ⟨dbf, res, h1, h2, h3, _, h5, h6⟩ :=
          ih (deleteScheduled v1.toDelete db) { v1 with toDelete := [], pass := v1.pass + 1 }
            rfl (by omega) (fun _ => by omega)
        refine ⟨dbf, res, h1, by omega, ?_, ?_, ?_, ?_⟩
        · intro e
          rw [h3, scanOK_deleteScheduled]
        · intro hf
          rw [hforce] at hf
          cases hf
        · intro hall
          apply h5
          intro p e he
          rw [scanOK_deleteScheduled]
          exact hall p e he
        · intro vf hvf
          obtain ⟨c1, c2, c3, c4, _, c6, c7, c8⟩ := h6 vf hvf
          simp only at c1 c3 c4 c7 c8
          refine ⟨c1.trans a1, c2, by omega, by omega, ?_, c6, ?_, ?_⟩
          · intro hf
            rw [hforce] at hf
            cases hf
          · intro _
            apply c7
            rw [a1]
            exact hforce
          · rw [c8, a3]
            by_cases hp : v.pass = 0
            · simp [hp, sweepMessages]
            · simp [hp]

/-! ## What validate returns -/

theorem mem_edges_order {order : Nat → Schema} (hord : IterationOrder order) (p : Nat) (e : Edge) :
    e ∈ edgesOf (order p) ↔ e ∈ edgesOf gtfsSchema :=
  (hord p).mem_iff

theorem edgeMessages_eq_nil_iff (db : Store) (e : Edge) :
    edgeMessages db e = [] ↔ edgeRows db e = [] := by
  unfold edgeMessages edgeRows
  cases foreignRows db e.1 e.2.1 e.2.2 with
  | error err => simp
  | ok res => simp

theorem sweepMessages_eq_nil_iff {order : Nat → Schema} (hord : IterationOrder order)
    (db : Store) (p : Nat) : sweepMessages db (order p) = [] ↔ Consistent db := by
  unfold sweepMessages Consistent
  simp only [List.flatMap_eq_nil_iff, edgeMessages_eq_nil_iff, mem_edges_order hord]

theorem sweepMessages_perm {order order1 : Nat → Schema} (hord : IterationOrder order)
    (hord1 : IterationOrder order1) (db : Store) (p q : Nat) :
    (sweepMessages db (order p)).Perm (sweepMessages db (order1 q)) := by
  unfold sweepMessages
  exact List.Perm.flatMap_right _ ((hord p).trans (hord1 q).symm)

/-- What `validate` returns when every pass visits the edges of `gtfsSchema`. -/
theorem validate_spec {order : Nat → Schema} (hord : IterationOrder order) (fuel : Nat)
    (db : Store) (opts : validateOpts) (h1 : 1 ≤ fuel)
    (hf : opts.force = true → rowCount db + 1 ≤ fuel) :
    ∃ r, validate order fuel db opts = some r ∧
      (opts.force = false → r.db = db) ∧
      (∀ e, scanOK r.db e = scanOK db e) ∧
      rowCount r.db ≤ rowCount db ∧
      (StoreOK db →
        r.issues = sweepMessages db (order 0) ∧
        r.err = (if sweepMessages db (order 0) ≠ [] ∧ opts.force = false ∧ opts.ignore = false
          then some ErrInvalidInput else none) ∧
        (opts.force = true → Consistent r.db)) ∧
      (¬ StoreOK db → r.issues = [] ∧ r.err ≠ none) := by
  obtain ⟨dbf, res, h2, h3, h4, h5, h6, h7⟩ :=
    loop_spec order fuel db (validator.init opts) rfl h1 hf
  unfold validate
  rw [h2]
  cases res with
  | error err =>
    refine ⟨_, rfl, h5, h4, h3, ?_, ?_⟩
    · intro hok
      obtain ⟨vf, hvf⟩ := h6 (fun p e he => hok e ((mem_edges_order hord p e).mp he))
      cases hvf
    · intro _
      exact ⟨rfl, by simp⟩
  | ok vf =>
    obtain ⟨c1, _, _, _, _, c6, c7, c8⟩ := h7 vf rfl
    have hok : StoreOK db := by
      intro e he
      rw [← h4]
      exact c6 e ((mem_edges_order hord _ e).mpr he)
    have hiss : vf.issues = sweepMessages db (order 0) := by
      rw [c8]
      simp [validator.init]
    have hcons : opts.force = true → Consistent dbf := by
      intro hforce e he
      exact c7 hforce e ((mem_edges_order hord _ e).mpr he)
    by_cases hlen : vf.issues.length > 0
    · have hne : sweepMessages db (order 0) ≠ [] := by
        rw [← hiss]
        intro h
        rw [h] at hlen
        simp at hlen
      by_cases hfi : (opts.force || opts.ignore) = true
      · simp only [hlen, hfi, if_true]
        refine ⟨_, rfl, h5, h4, h3, ?_, fun h => absurd hok h⟩
        intro _
        refine ⟨hiss, ?_, hcons⟩
        have : ¬ (opts.force = false ∧ opts.ignore = false) := by
          intro h
          simp [h.1, h.2] at hfi
        simp [this]
      · simp only [hlen, hfi, if_true]
        refine ⟨_, rfl, h5, h4, h3, ?_, fun h => absurd hok h⟩
        intro _
        refine ⟨hiss, ?_, hcons⟩
        have h2 : opts.force = false ∧ opts.ignore = false := by
          cases hforce : opts.force <;> cases hign : opts.ignore <;> simp [hforce, hign] at hfi ⊢
        simp [hne, h2]
    · have hnil : vf.issues = [] := by
        cases hv : vf.issues with
        | nil => rfl
        | cons a l => simp [hv] at hlen
      simp only [hlen, if_false]
      refine ⟨_, rfl, h5, h4, h3, ?_, fun h => absurd hok h⟩
      intro _
      refine ⟨?_, ?_, hcons⟩
      · rw [← hiss, hnil]
      · rw [← hiss, hnil]
        simp

/-! ## Properties of validate -/

theorem sourceOrder_iterationOrder : IterationOrder sourceOrder :=
  fun _ => List.Perm.refl _

/-- Repair in terms of the query of the validator: on a store on which no query of
validate fails, validate in Repair mode (force = true) returns without error and leaves a
store on which a subsequent Permissive validate (ignore = true, force = false) deletes
nothing and reports nothing: no edge of gtfsSchema has a row that its query returns.  A row
that violates an edge with a NULL in a target column is not among the rows returned. -/
theorem validate_repair_consistent (order order1 : Nat → Schema) (hord : IterationOrder order)
    (hord1 : IterationOrder order1) (db : Store) (hok : StoreOK db) (ignore : Bool)
    (logLevel logLevel1 : Int) (fuel fuel1 : Nat) (hfuel : rowCount db + 1 ≤ fuel)
    (hfuel1 : 1 ≤ fuel1) :
    ∃ r, validate order fuel db { force := true, ignore := ignore, logLevel := logLevel } = some r ∧
      r.err = none ∧ StoreOK r.db ∧ Consistent r.db ∧
      validate order1 fuel1 r.db { force := false, ignore := true, logLevel := logLevel1 }
        = some { issues := [], err := none, db := r.db } := by
  obtain ⟨r, h1, _, h3, _, h5, _⟩ := validate_spec hord fuel db
    { force := true, ignore := ignore, logLevel := logLevel } (by omega) (fun _ => hfuel)
  obtain ⟨_, h7, h8⟩ := h5 hok
  have hok1 : StoreOK r.db := by
    intro e he
    rw [h3]
    exact hok e he
  have hcons : Consistent r.db := h8 rfl
  obtain ⟨r1, g1, g2, _, _, g5, _⟩ := validate_spec hord1 fuel1 r.db
    { force := false, ignore := true, logLevel := logLevel1 } hfuel1 (fun h => by cases h)
  obtain ⟨g6, g7, _⟩ := g5 hok1
  have hnil : sweepMessages r.db (order1 0) = [] := (sweepMessages_eq_nil_iff hord1 _ 0).mpr hcons
  refine ⟨r, h1, ?_, hok1, hcons, ?_⟩
  · rw [h7]
    simp
  · rw [g1]
    congr 1
    obtain ⟨i, e, d⟩ := r1
    have g2 := g2 rfl
    simp only at g2 g6 g7
    rw [g2, g6, g7, hnil]
    simp

theorem validate_repair_consistent_witness :
    StoreOK chainDB ∧
      ∃ r, validate sourceOrder 6 chainDB { force := true, ignore := false, logLevel := 4 } = some r ∧
        r.err = none ∧ StoreOK r.db ∧ Consistent r.db ∧
        validate sourceOrder 1 r.db { force := false, ignore := true, logLevel := 4 }
          = some { issues := [], err := none, db := r.db } :=
  ⟨by decide, validate_repair_consistent sourceOrder sourceOrder sourceOrder_iterationOrder
    sourceOrder_iterationOrder chainDB (by decide) false 4 4 6 1 (by decide) (by decide)⟩

/-- C2: on a store on which no query of validate fails, validate returns ErrInvalidInput
if and only if neither force nor ignore is set and the first sweep finds a violation, and
then the list it returns is the list of all the messages of the first sweep; with force or
ignore set the error is nil.  Import called with nil options passes force = false and
ignore = false, the Strict mode. -/
theorem validate_invalidInput_iff (order : Nat → Schema) (hord : IterationOrder order)
    (db : Store) (hok : StoreOK db) (opts : validateOpts) (fuel : Nat)
    (hfuel : rowCount db + 1 ≤ fuel) :
    (∃ r, validate order fuel db opts = some r ∧
      (r.err = some ErrInvalidInput ↔
        (opts.force = false ∧ opts.ignore = false ∧ ∃ e ∈ edgesOf gtfsSchema, edgeRows db e ≠ [])) ∧
      (r.err = some ErrInvalidInput → r.issues = sweepMessages db (order 0)) ∧
      (opts.force = true ∨ opts.ignore = true → r.err = none)) ∧
    (Import.validateOpts none = { force := false, ignore := false, logLevel := LevelError }) := by
  refine ⟨?_, rfl⟩
  obtain ⟨r, h1, _, _, _, h5, _⟩ := validate_spec hord fuel db opts (by omega) (fun _ => hfuel)
  obtain ⟨h6, h7, _⟩ := h5 hok
  have hiff : sweepMessages db (order 0) ≠ [] ↔ ∃ e ∈ edgesOf gtfsSchema, edgeRows db e ≠ [] := by
    rw [Ne, sweepMessages_eq_nil_iff hord]
    unfold Consistent
    push_neg
    rfl
  refine ⟨r, h1, ?_, fun _ => h6, ?_⟩
  · rw [h7, ← hiff]
    by_cases hc : sweepMessages db (order 0) ≠ [] ∧ opts.force = false ∧ opts.ignore = false
    · rw [if_pos hc]
      exact ⟨fun _ => ⟨hc.2.1, hc.2.2, hc.1⟩, fun _ => rfl⟩
    · rw [if_neg hc]
      constructor
      · intro h
        cases h
      · rintro ⟨a, b, c⟩
        exact absurd ⟨c, a, b⟩ hc
  · intro hfi
    rw [h7]
    have : ¬ (sweepMessages db (order 0) ≠ [] ∧ opts.force = false ∧ opts.ignore = false) := by
      rintro ⟨_, a, b⟩
      rcases hfi with h | h
      · rw [a] at h
        cases h
      · rw [b] at h
        cases h
    rw [if_neg this]

theorem validate_invalidInput_iff_witness :
    IterationOrder sourceOrder ∧ StoreOK chainDB ∧ rowCount chainDB + 1 ≤ 6 ∧
    ((∃ r, validate sourceOrder 6 chainDB {} = some r ∧
      (r.err = some ErrInvalidInput ↔
        (({} : validateOpts).force = false ∧ ({} : validateOpts).ignore = false ∧
          ∃ e ∈ edgesOf gtfsSchema, edgeRows chainDB e ≠ [])) ∧
      (r.err = some ErrInvalidInput → r.issues = sweepMessages chainDB (sourceOrder 0)) ∧
      (({} : validateOpts).force = true ∨ ({} : validateOpts).ignore = true → r.err = none)) ∧
    (Import.validateOpts none = { force := false, ignore := false, logLevel := LevelError })) :=
  ⟨sourceOrder_iterationOrder, by decide, by decide,
    validate_invalidInput_iff sourceOrder sourceOrder_iterationOrder chainDB (by decide) {} 6
      (by decide)⟩

/-- C3: a call of validate with force = false (Strict or Permissive mode) returns and
leaves the store as it was, whatever the store: every table has the rows it had. -/
theorem validate_noforce_unchanged (order : Nat → Schema) (db : Store) (opts : validateOpts)
    (hforce : opts.force = false) (fuel : Nat) (hfuel : 1 ≤ fuel) :
    ∃ r, validate order fuel db opts = some r ∧ r.db = db := by
  obtain ⟨dbf, res, h2, _, _, h5, _, _⟩ :=
    loop_spec order fuel db (validator.init opts) rfl hfuel
      (fun h => by simp [validator.init, hforce] at h)
  have hdb : dbf = db := h5 hforce
  subst hdb
  unfold validate
  rw [h2]
  cases res with
  | error err => exact ⟨_, rfl, rfl⟩
  | ok vf =>
    by_cases hlen : vf.issues.length > 0
    · by_cases hfi : (opts.force || opts.ignore) = true
      · simp only [hlen, hfi, if_true]
        exact ⟨_, rfl, rfl⟩
      · simp only [hlen, hfi, if_true]
        exact ⟨_, rfl, rfl⟩
    · simp only [hlen, if_false]
      exact ⟨_, rfl, rfl⟩

theorem validate_noforce_unchanged_witness :
    ({ ignore := true } : validateOpts).force = false ∧ 1 ≤ 1 ∧
      ∃ r, validate sourceOrder 1 chainDB { ignore := true } = some r ∧ r.db = chainDB :=
  ⟨rfl, Nat.le_refl 1,
    validate_noforce_unchanged sourceOrder chainDB { ignore := true } rfl 1 (Nat.le_refl 1)⟩

/-- The loop of validate on the stores of the embedding, in which `rowid` is the hidden
row number: validate returns in every mode once the fuel is at least the number of rows
plus one.  A pass whose sweep schedules a deletion applies its deletions without error and
leaves strictly fewer rows than it found, so the passes made before the last one are at
most as many as the rows deleted. -/
theorem validate_terminates (order : Nat → Schema) (db : Store) (opts : validateOpts)
    (fuel : Nat) (hfuel : rowCount db + 1 ≤ fuel) :
    (∃ r, validate order fuel db opts = some r) ∧
    (∃ dbf res, validate.loop order fuel db (validator.init opts) = some (dbf, res) ∧
      ∀ vf, res = .ok vf → vf.pass + rowCount dbf ≤ rowCount db ∧ vf.pass + 1 ≤ rowCount db + 1) ∧
    (∀ (d : Store) (v v1 : validator), v.toDelete = [] →
      validate.sweep d (order v.pass) v = .ok v1 → v1.toDelete.length ≠ 0 →
      ∃ d1, validate.applyDeletes v1.toDelete d = (d1, none) ∧ rowCount d1 < rowCount d) := by
  obtain ⟨dbf, res, h2, _, _, _, _, h7⟩ :=
    loop_spec order fuel db (validator.init opts) rfl (by omega) (fun _ => hfuel)
  refine ⟨?_, ⟨dbf, res, h2, ?_⟩, ?_⟩
  · unfold validate
    rw [h2]
    cases res with
    | error err => exact ⟨_, rfl⟩
    | ok vf =>
      by_cases hlen : vf.issues.length > 0
      · by_cases hfi : (opts.force || opts.ignore) = true
        · simp only [hlen, hfi, if_true]
          exact ⟨_, rfl⟩
        · simp only [hlen, hfi, if_true]
          exact ⟨_, rfl⟩
      · simp only [hlen, if_false]
        exact ⟨_, rfl⟩
  · intro vf hvf
    obtain ⟨_, _, _, c4, _⟩ := h7 vf hvf
    simp only [validator.init, Nat.zero_add] at c4
    omega
  · intro d v v1 hv hs hlen
    rw [sweep_eq] at hs
    obtain ⟨_, _, _, _, _, _, _, _, a8⟩ := sweepEdges_ok _ hs
    have hsch : Scheduled d v1.toDelete := a8 (by rw [hv]; exact scheduled_nil d)
    have hne : v1.toDelete ≠ [] := fun h => hlen (by rw [h]; rfl)
    exact ⟨_, applyDeletes_of_scheduled hsch, rowCount_deleteScheduled_lt hsch hne⟩

theorem validate_terminates_witness :
    rowCount chainDB + 1 ≤ 6 ∧
    ((∃ r, validate sourceOrder 6 chainDB { force := true } = some r) ∧
    (∃ dbf res, validate.loop sourceOrder 6 chainDB (validator.init { force := true })
        = some (dbf, res) ∧
      ∀ vf, res = .ok vf →
        vf.pass + rowCount dbf ≤ rowCount chainDB ∧ vf.pass + 1 ≤ rowCount chainDB + 1) ∧
    (∀ (d : Store) (v v1 : validator), v.toDelete = [] →
      validate.sweep d (sourceOrder v.pass) v = .ok v1 → v1.toDelete.length ≠ 0 →
      ∃ d1, validate.applyDeletes v1.toDelete d = (d1, none) ∧ rowCount d1 < rowCount d)) :=
  ⟨by decide, validate_terminates sourceOrder chainDB { force := true } 6 (by decide)⟩

/-- C6: from the same initial store, with every pass visiting the edges of gtfsSchema,
validate returns in Strict, Repair and Permissive mode lists of violations that are
permutations of one another (the same messages, the same number), and the same list when
the first sweeps visit the schema in the same order; on a store on which no query fails
each list is the list of the messages of the first sweep over the initial store. -/
theorem validate_issues_same (o1 o2 o3 : Nat → Schema) (h1 : IterationOrder o1)
    (h2 : IterationOrder o2) (h3 : IterationOrder o3) (db : Store) (ignore : Bool)
    (l1 l2 l3 : Int) (fuel : Nat) (hfuel : rowCount db + 1 ≤ fuel) :
    ∃ rs rr rp,
      validate o1 fuel db { force := false, ignore := false, logLevel := l1 } = some rs ∧
      validate o2 fuel db { force := true, ignore := ignore, logLevel := l2 } = some rr ∧
      validate o3 fuel db { force := false, ignore := true, logLevel := l3 } = some rp ∧
      rs.issues.Perm rr.issues ∧ rr.issues.Perm rp.issues ∧
      (o1 0 = o2 0 → rs.issues = rr.issues) ∧ (o2 0 = o3 0 → rr.issues = rp.issues) ∧
      (StoreOK db → rs.issues = sweepMessages db (o1 0) ∧ rr.issues = sweepMessages db (o2 0) ∧
        rp.issues = sweepMessages db (o3 0)) := by
  obtain ⟨rs, a1, _, _, _, a5, a6⟩ := validate_spec h1 fuel db
    { force := false, ignore := false, logLevel := l1 } (by omega) (fun _ => hfuel)
  obtain ⟨rr, b1, _, _, _, b5, b6⟩ := validate_spec h2 fuel db
    { force := true, ignore := ignore, logLevel := l2 } (by omega) (fun _ => hfuel)
  obtain ⟨rp, c1, _, _, _, c5, c6⟩ := validate_spec h3 fuel db
    { force := false, ignore := true, logLevel := l3 } (by omega) (fun _ => hfuel)
  refine ⟨rs, rr, rp, a1, b1, c1, ?_⟩
  by_cases hok : StoreOK db
  · have ha := (a5 hok).1
    have hb := (b5 hok).1
    have hc := (c5 hok).1
    refine ⟨?_, ?_, ?_, ?_, fun _ => ⟨ha, hb, hc⟩⟩
    · rw [ha, hb]
      exact sweepMessages_perm h1 h2 db 0 0
    · rw [hb, hc]
      exact sweepMessages_perm h2 h3 db 0 0
    · intro h
      rw [ha, hb, h]
    · intro h
      rw [hb, hc, h]
  · have ha := (a6 hok).1
    have hb := (b6 hok).1
    have hc := (c6 hok).1
    rw [ha, hb, hc]
    exact ⟨List.Perm.refl _, List.Perm.refl _, fun _ => rfl, fun _ => rfl, fun h => absurd h hok⟩

theorem validate_issues_same_witness :
    IterationOrder sourceOrder ∧ rowCount chainDB + 1 ≤ 6 ∧
    ∃ rs rr rp,
      validate sourceOrder 6 chainDB { force := false, ignore := false, logLevel := 8 } = some rs ∧
      validate sourceOrder 6 chainDB { force := true, ignore := false, logLevel := 4 } = some rr ∧
      validate sourceOrder 6 chainDB { force := false, ignore := true, logLevel := 4 } = some rp ∧
      rs.issues.Perm rr.issues ∧ rr.issues.Perm rp.issues ∧
      (sourceOrder 0 = sourceOrder 0 → rs.issues = rr.issues) ∧
      (sourceOrder 0 = sourceOrder 0 → rr.issues = rp.issues) ∧
      (StoreOK chainDB → rs.issues = sweepMessages chainDB (sourceOrder 0) ∧
        rr.issues = sweepMessages chainDB (sourceOrder 0) ∧
        rp.issues = sweepMessages chainDB (sourceOrder 0)) :=
  ⟨sourceOrder_iterationOrder, by decide,
    validate_issues_same sourceOrder sourceOrder sourceOrder sourceOrder_iterationOrder
      sourceOrder_iterationOrder sourceOrder_iterationOrder chainDB false 8 4 4 6 (by decide)⟩

/-! ## A pass that schedules a single deletion -/

theorem callback_foldl_toDelete (table column : String) (stmts : List Stmt) :
    ∀ v : validator, v.opts.force = true →
      (stmts.foldl (validateForeignID.callback table column) v).toDelete
        = (stmts.map (fun s => (table, s.rowid))).foldl (fun m p => mapAppend p.1 p.2 m)
            v.toDelete := by
  induction stmts with
  | nil => intro v _; rfl
  | cons s rest ih =>
    intro v hf
    have c1 : (validateForeignID.callback table column v s).opts.force = true := by
      unfold validateForeignID.callback validator.append
      by_cases hp : v.pass = 0 <;> simp [hp, hf]
    have c2 : (validateForeignID.callback table column v s).toDelete
        = mapAppend table s.rowid v.toDelete := by
      unfold validateForeignID.callback validator.append Stmt.GetRowid
      by_cases hp : v.pass = 0 <;> simp [hp, hf]
    simp only [List.foldl_cons, List.map_cons]
    rw [ih _ c1, c2]

theorem sweepEdges_toDelete {db : Store} (es : List Edge) :
    ∀ {v v1 : validator}, validate.sweepEdges db es v = .ok v1 → v.opts.force = true →
      v1.toDelete = (scheduledPairs db es).foldl (fun m p => mapAppend p.1 p.2 m) v.toDelete := by
  induction es with
  | nil =>
    intro v v1 h _
    simp only [validate.sweepEdges, Except.ok.injEq] at h
    subst h
    rfl
  | cons e rest ih =>
    intro v v1 h hf
    simp only [validate.sweepEdges] at h
    cases hv : validateForeignID db v e.1 e.2.1 e.2.2 with
    | error err => simp [hv] at h
    | ok v2 =>
      rw [hv] at h
      have a1 := (validateForeignID_ok hv).2.1
      have hstep : v2.toDelete
          = ((edgeRows db e).map (fun r => (e.1, r.rowid))).foldl
              (fun m p => mapAppend p.1 p.2 m) v.toDelete := by
        unfold validateForeignID at hv
        unfold edgeRows
        cases hr : foreignRows db e.1 e.2.1 e.2.2 with
        | error err => simp [hr] at hv
        | ok res =>
          obtain ⟨t, rows⟩ := res
          rw [hr] at hv
          simp only [Except.ok.injEq] at hv
          rw [← hv, callback_foldl_toDelete _ _ _ _ hf]
          simp [List.map_map, Function.comp_def, Stmt.ofRow]
      rw [ih h (by rw [a1]; exact hf), hstep]
      simp [scheduledPairs, List.foldl_append]

theorem scheduledPairs_perm {order : Nat → Schema} (hord : IterationOrder order) (db : Store)
    (p : Nat) :
    (scheduledPairs db (edgesOf (order p))).Perm (scheduledPairs db (edgesOf gtfsSchema)) := by
  unfold scheduledPairs
  exact List.Perm.flatMap_right _ (hord p)

/-- A pass of the Repair loop on a store whose sweep schedules the single deletion `q`. -/
theorem loop_step_single {order : Nat → Schema} (hord : IterationOrder order) (db : Store)
    (v : validator) (hv : v.toDelete = []) (hforce : v.opts.force = true) (hok : StoreOK db)
    (q : String × Int) (hq : scheduledPairs db (edgesOf gtfsSchema) = [q]) (fuel : Nat) :
    validate.loop order (fuel + 1) db v =
      validate.loop order fuel (deleteRowid db q.1 q.2)
        { opts := v.opts
          issues := v.issues ++ (if v.pass = 0 then (edgesOf (order v.pass)).flatMap (edgeMessages db) else [])
          pass := v.pass + 1
          toDelete := [] } := by
  obtain ⟨v1, hv1⟩ := sweepEdges_of_scanOK (edgesOf (order v.pass))
    (fun e he => hok e ((mem_edges_order hord _ e).mp he)) v
  obtain ⟨a1, a2, _, a3, _, _, _, _, _⟩ := sweepEdges_ok _ hv1
  have htd := sweepEdges_toDelete _ hv1 hforce
  have hpairs : scheduledPairs db (edgesOf (order v.pass)) = [q] := by
    have := scheduledPairs_perm hord db v.pass
    rw [hq] at this
    exact List.perm_singleton.mp this
  rw [hpairs, hv] at htd
  simp only [List.foldl_cons, List.foldl_nil, mapAppend] at htd
  simp only [validate.loop, sweep_eq, hv1, htd, List.length_singleton, one_ne_zero, if_false,
    validate.applyDeletes, validate.deleteRows]
  have hsch : Scheduled db v1.toDelete := by
    have := (sweepEdges_ok _ hv1).2.2.2.2.2.2.2.2 (by rw [hv]; exact scheduled_nil db)
    exact this
  rw [htd] at hsch
  obtain ⟨t, ht, _⟩ := (hsch (q.1, [q.2]) (List.mem_singleton.mpr rfl)).2 q.2
    (List.mem_singleton.mpr rfl)
  simp only [execDelete_rowidEq, ht, a1, a2, a3]

/-- The last pass of the loop: on a store without violations the loop returns. -/
theorem loop_stop {order : Nat → Schema} (hord : IterationOrder order) (db : Store)
    (v : validator) (hv : v.toDelete = []) (hok : StoreOK db) (hcons : Consistent db)
    (fuel : Nat) :
    validate.loop order (fuel + 1) db v =
      some (db, .ok
        { opts := v.opts
          issues := v.issues ++ (if v.pass = 0 then (edgesOf (order v.pass)).flatMap (edgeMessages db) else [])
          pass := v.pass
          toDelete := [] }) := by
  obtain ⟨v1, hv1⟩ := sweepEdges_of_scanOK (edgesOf (order v.pass))
    (fun e he => hok e ((mem_edges_order hord _ e).mp he)) v
  obtain ⟨a1, a2, _, a3, _, _, _, a7, _⟩ := sweepEdges_ok _ hv1
  have htd : v1.toDelete = [] := by
    rw [a7 (fun e he => hcons e ((mem_edges_order hord _ e).mp he)), hv]
  simp only [validate.loop, sweep_eq, hv1, htd, List.length_nil, if_true]
  congr 3
  obtain ⟨o, i, p, d⟩ := v1
  simp only at a1 a2 a3 htd
  rw [a1, a2, a3, htd]

/-- Repair on `chainDB` (a route with an unknown agency_id, one trip on that route, one
stop_times row of that trip, nothing else in violation, no NULL in the target columns of
these edges): validate with force = true returns exactly one violation, the one of the
route, without error, and the store it leaves is `chainDB` without exactly three rows: the
route, the trip and the stop_times row.  This holds for every order of iteration. -/
theorem validate_repair_chain (order : Nat → Schema) (hord : IterationOrder order) (fuel : Nat)
    (hfuel : 4 ≤ fuel) :
    validate order fuel chainDB { force := true } = some
      { issues := ["nope in routes.txt is not a valid agency_id " ++
          "[route_id: R1, agency_id: nope, route_type: 3]"]
        err := none
        db := chainRepaired } ∧
    chainRepaired =
      deleteRowid (deleteRowid (deleteRowid chainDB "routes" 1) "trips" 1) "stop_times" 1 ∧
    rowCount chainDB = rowCount chainRepaired + 3 := by
  refine ⟨?_, by decide, by decide⟩
  obtain ⟨k, rfl⟩ : ∃ k, fuel = k + 1 + 1 + 1 + 1 := ⟨fuel - 4, by omega⟩
  have hmsg : (edgesOf (order 0)).flatMap (edgeMessages chainDB)
      = ["nope in routes.txt is not a valid agency_id " ++
          "[route_id: R1, agency_id: nope, route_type: 3]"] := by
    have hp := sweepMessages_perm hord sourceOrder_iterationOrder chainDB 0 0
    have hs : sweepMessages chainDB (sourceOrder 0)
        = ["nope in routes.txt is not a valid agency_id " ++
            "[route_id: R1, agency_id: nope, route_type: 3]"] := by decide
    rw [hs] at hp
    exact List.perm_singleton.mp hp
  unfold validate
  rw [loop_step_single hord chainDB _ rfl rfl (by decide) ("routes", 1) (by decide),
    loop_step_single hord _ _ rfl rfl (by decide) ("trips", 1) (by decide),
    loop_step_single hord _ _ rfl rfl (by decide) ("stop_times", 1) (by decide),
    loop_stop hord _ _ rfl (by decide) (by decide)]
  simp only [validator.init, hmsg]
  have hdb : deleteRowid (deleteRowid (deleteRowid chainDB "routes" 1) "trips" 1) "stop_times" 1
      = chainRepaired := by decide
  simp [hdb]

theorem validate_repair_chain_witness :
    IterationOrder sourceOrder ∧ 4 ≤ 4 ∧
    (validate sourceOrder 4 chainDB { force := true } = some
      { issues := ["nope in routes.txt is not a valid agency_id " ++
          "[route_id: R1, agency_id: nope, route_type: 3]"]
        err := none
        db := chainRepaired } ∧
    chainRepaired =
      deleteRowid (deleteRowid (deleteRowid chainDB "routes" 1) "trips" 1) "stop_times" 1 ∧
    rowCount chainDB = rowCount chainRepaired + 3) :=
  ⟨sourceOrder_iterationOrder, Nat.le_refl 4,
    validate_repair_chain sourceOrder sourceOrder_iterationOrder 4 (Nat.le_refl 4)⟩

/-! ## A target column that holds NULL -/

/-- C4, on a store in which a target column holds NULL: the only row of fare_rules in
`nullZoneDB` has the non-null origin_id `Z9`, which is absent from the values of
stops.zone_id (the only stop has no zone_id), and the query of the edge
fare_rules.origin_id returns no row; a Permissive validate reports nothing. -/
theorem validateForeignID_null_target_unreported :
    columnValues nullZoneDB "fare_rules" "origin_id" = [some "Z9"] ∧
    targetValues nullZoneDB (.mk "stops" "zone_id" []) = [none] ∧
    edgeRows nullZoneDB ("fare_rules", "origin_id", .mk "stops" "zone_id" []) = [] ∧
    StoreOK nullZoneDB ∧
    validate sourceOrder 1 nullZoneDB { ignore := true }
      = some { issues := [], err := none, db := nullZoneDB } := by
  decide

/-- C8, on a store in which a target column holds NULL: the only row of fare_leg_rules in
`nullNetworkDB` has the network_id `N9`, which occurs in neither alternative of the edge
(routes.network_id, networks.network_id), the only route having no network_id, and the
query of the edge returns no row; a Permissive validate reports nothing. -/
theorem validateForeignID_anyOf_null_unreported :
    columnValues nullNetworkDB "fare_leg_rules" "network_id" = [some "N9"] ∧
    columnValues nullNetworkDB "routes" "network_id" = [none] ∧
    columnValues nullNetworkDB "networks" "network_id" = [] ∧
    edgeRows nullNetworkDB ("fare_leg_rules", "network_id",
      .mk "" "" [.mk "routes" "network_id" [], .mk "networks" "network_id" []]) = [] ∧
    StoreOK nullNetworkDB ∧
    validate sourceOrder 1 nullNetworkDB { ignore := true }
      = some { issues := [], err := none, db := nullNetworkDB } := by
  decide

/-! ## Properties of Clip -/

/-- C9, counterexample: `fareDB` has no violation; with every stop inside the feature the
script of Clip deletes agency `A2` and with it the fare `F1`, the row of fare_rules that
names `F1` then violates fare_rules.fare_id; the closing step leaves that row in the
output and Clip fails with ErrInvalidInput. -/
theorem Clip_closing_step_not_repair :
    Consistent fareDB ∧
    Clip.cascade fareDB everywhere = (fareClipped, none) ∧
    edgeRows fareClipped ("fare_rules", "fare_id", .mk "fare_attributes" "fare_id" [])
      = [{ rowid := 1, values := [some "F1", some "R1", none, none, none] }] ∧
    Clip sourceOrder 1 fareDB everywhere
      = some { err := some ErrInvalidInput, output := fareClipped } ∧
    rowsOf fareClipped "fare_rules"
      = [{ rowid := 1, values := [some "F1", some "R1", none, none, none] }] := by
  decide

/-- The closing step of Clip in terms of the query of the validator.  When the scripted
part ends without error on a store on which no query of validate fails, Clip returns, its
output is the store the script left (the closing step deletes nothing), and Clip fails
with ErrInvalidInput exactly when the query of some edge returns a row; otherwise it
returns no error. -/
theorem Clip_closing_step_strict (order : Nat → Schema) (hord : IterationOrder order)
    (fuel : Nat) (hfuel : 1 ≤ fuel) (input : Store) (feature : String → String → Bool)
    (db : Store) (hc : Clip.cascade input feature = (db, none)) (hok : StoreOK db) :
    ∃ r, Clip order fuel input feature = some r ∧ r.output = db ∧
      validate order fuel db { force := false, ignore := false, logLevel := LevelError }
        = some { issues := sweepMessages db (order 0), err := r.err, db := db } ∧
      (r.err = some ErrInvalidInput ↔ ¬ Consistent db) ∧
      (r.err = none ↔ Consistent db) := by
  obtain ⟨r0, h1, h2, _, _, h5, _⟩ := validate_spec hord fuel db
    { force := false, ignore := false, logLevel := LevelError } hfuel (fun h => by cases h)
  obtain ⟨h6, h7, _⟩ := h5 hok
  have h2 := h2 rfl
  have hiff := sweepMessages_eq_nil_iff hord db 0
  obtain ⟨i, e, d⟩ := r0
  simp only at h2 h6 h7
  subst h2 h6
  have hv : validate order fuel d { logLevel := LevelError } =
      some { issues := sweepMessages d (order 0), err := e, db := d } := h1
  unfold Clip
  rw [hc]
  simp only [hv]
  by_cases hcons : Consistent d
  · have hnil := hiff.mpr hcons
    have he : e = none := by rw [h7]; simp [hnil]
    subst he
    exact ⟨_, rfl, rfl, rfl, by simp [hcons], by simp [hcons]⟩
  · have hne : sweepMessages d (order 0) ≠ [] := fun h => hcons (hiff.mp h)
    have he : e = some ErrInvalidInput := by rw [h7]; simp [hne]
    subst he
    exact ⟨_, rfl, rfl, rfl, by simp [hcons], by simp [hcons]⟩

theorem Clip_closing_step_strict_witness :
    IterationOrder sourceOrder ∧ 1 ≤ 1 ∧ Clip.cascade fareDB everywhere = (fareClipped, none) ∧
    StoreOK fareClipped ∧
    ∃ r, Clip sourceOrder 1 fareDB everywhere = some r ∧ r.output = fareClipped ∧
      validate sourceOrder 1 fareClipped { force := false, ignore := false, logLevel := LevelError }
        = some { issues := sweepMessages fareClipped (sourceOrder 0), err := r.err, db := fareClipped } ∧
      (r.err = some ErrInvalidInput ↔ ¬ Consistent fareClipped) ∧
      (r.err = none ↔ Consistent fareClipped) :=
  ⟨sourceOrder_iterationOrder, Nat.le_refl 1, by decide, by decide,
    Clip_closing_step_strict sourceOrder sourceOrder_iterationOrder 1 (Nat.le_refl 1) fareDB
      everywhere fareClipped (by decide) (by decide)⟩

/-- C10, counterexample: `bookingDB` has no violation; with every stop inside the feature
Clip deletes the calendar `WK2`, which no trip uses, and with it the booking rule `B1`; the
stop_times row whose pickup_booking_rule_id is `B1` stays in the output, and a Permissive
validate of the output reports it. -/
theorem Clip_output_not_consistent :
    Consistent bookingDB ∧
    Clip sourceOrder 1 bookingDB everywhere
      = some { err := some ErrInvalidInput, output := bookingClipped } ∧
    validate sourceOrder 1 bookingClipped { ignore := true } = some
      { issues := ["B1 in stop_times.txt is not a valid pickup_booking_rule_id " ++
          "[trip_id: T1, stop_id: S1, stop_sequence: 1, pickup_booking_rule_id: B1]"]
        err := none
        db := bookingClipped } := by
  decide

/-- Clip returns on every input store and every clip feature, and whenever it returns
without error a Permissive validate of the output store reports nothing: no edge of
gtfsSchema, handled by the script or not, has a row that its query returns. -/
theorem Clip_ok_consistent (order order1 : Nat → Schema) (hord : IterationOrder order)
    (hord1 : IterationOrder order1) (fuel fuel1 : Nat) (hfuel : 1 ≤ fuel) (hfuel1 : 1 ≤ fuel1)
    (logLevel : Int) (input : Store) (feature : String → String → Bool) :
    ∃ r, Clip order fuel input feature = some r ∧
      (r.err = none →
        StoreOK r.output ∧ Consistent r.output ∧
        validate order1 fuel1 r.output { force := false, ignore := true, logLevel := logLevel }
          = some { issues := [], err := none, db := r.output }) := by
  unfold Clip
  cases hc : Clip.cascade input feature with
  | mk db oe =>
    cases oe with
    | some e =>
      refine ⟨_, rfl, ?_⟩
      intro h
      cases h
    | none =>
      obtain ⟨r0, h1, h2, _, _, h5, h6⟩ := validate_spec hord fuel db
        { force := false, ignore := false, logLevel := LevelError } hfuel (fun h => by cases h)
      have h2 := h2 rfl
      have hv : validate order fuel db { logLevel := LevelError } = some r0 := h1
      simp only [hv]
      cases he : r0.err with
      | some e =>
        refine ⟨_, rfl, ?_⟩
        intro h
        cases h
      | none =>
        refine ⟨_, rfl, ?_⟩
        intro _
        simp only [h2]
        have hok : StoreOK db := by
          by_contra hno
          exact (h6 hno).2 he
        obtain ⟨_, h7, _⟩ := h5 hok
        have hnil : sweepMessages db (order 0) = [] := by
          by_contra hne
          rw [he] at h7
          simp [hne] at h7
        have hcons : Consistent db := (sweepMessages_eq_nil_iff hord db 0).mp hnil
        obtain ⟨r1, g1, g2, _, _, g5, _⟩ := validate_spec hord1 fuel1 db
          { force := false, ignore := true, logLevel := logLevel } hfuel1 (fun h => by cases h)
        obtain ⟨g6, g7, _⟩ := g5 hok
        have hnil1 : sweepMessages db (order1 0) = [] :=
          (sweepMessages_eq_nil_iff hord1 db 0).mpr hcons
        refine ⟨hok, hcons, ?_⟩
        rw [g1]
        congr 1
        obtain ⟨i, e, d⟩ := r1
        have g2 := g2 rfl
        simp only at g2 g6 g7
        rw [g2, g6, g7, hnil1]
        simp

theorem Clip_ok_consistent_witness :
    IterationOrder sourceOrder ∧ 1 ≤ 1 ∧
    Clip sourceOrder 1 smallDB everywhere = some { err := none, output := smallDB } ∧
    ∃ r, Clip sourceOrder 1 smallDB everywhere = some r ∧
      (r.err = none →
        StoreOK r.output ∧ Consistent r.output ∧
        validate sourceOrder 1 r.output { force := false, ignore := true, logLevel := 4 }
          = some { issues := [], err := none, db := r.output }) :=
  ⟨sourceOrder_iterationOrder, Nat.le_refl 1, by decide,
    Clip_ok_consistent sourceOrder sourceOrder sourceOrder_iterationOrder
      sourceOrder_iterationOrder 1 1 (Nat.le_refl 1) (Nat.le_refl 1) 4 smallDB everywhere⟩

/-! ## Statements of a script: what they change and what they read -/

theorem findTable_congr_cons (t : Table) (rest : Store) (n : String) (h : ¬ (t.name == n) = true) :
    findTable (t :: rest) n = findTable rest n := by
  rw [findTable_cons, if_neg h]

theorem findTable_eraseP_ne (db : Store) (name n : String) (h : n ≠ name) :
    findTable (db.eraseP (fun t => t.name == name)) n = findTable db n := by
  induction db with
  | nil => rfl
  | cons t rest ih =>
    by_cases ht : (t.name == name) = true
    · have htn : t.name = name := by simpa using ht
      simp only [List.eraseP_cons, ht, cond_true]
      rw [findTable_cons]
      have : ¬ (t.name == n) = true := by
        intro h'
        apply h
        have : t.name = n := by simpa using h'
        rw [← this, htn]
      rw [if_neg this]
    · simp only [List.eraseP_cons, ht, cond_false]
      rw [findTable_cons, findTable_cons, ih]

theorem findTable_append_of_ok (db extra : Store) (n : String) (t : Table)
    (h : findTable db n = .ok t) : findTable (db ++ extra) n = .ok t := by
  induction db with
  | nil => simp [findTable_nil] at h
  | cons u rest ih =>
    rw [List.cons_append, findTable_cons]
    rw [findTable_cons] at h
    by_cases hu : (u.name == n) = true
    · rw [if_pos hu] at h ⊢
      exact h
    · rw [if_neg hu] at h ⊢
      exact ih h

theorem findTable_append_of_ne (db : Store) (u : Table) (n : String) (h : n ≠ u.name) :
    findTable (db ++ [u]) n = findTable db n := by
  induction db with
  | nil =>
    have : ¬ (u.name == n) = true := by
      intro h'
      apply h
      have : u.name = n := by simpa using h'
      exact this.symm
    rw [List.nil_append, findTable_cons, if_neg this]
  | cons v rest ih =>
    rw [List.cons_append, findTable_cons, findTable_cons, ih]

theorem findTable_append_of_error (db : Store) (u : Table) (e : Err)
    (h : findTable db u.name = .error e) : findTable (db ++ [u]) u.name = .ok u := by
  induction db with
  | nil => simp [findTable_cons]
  | cons v rest ih =>
    rw [findTable_cons] at h
    rw [List.cons_append, findTable_cons]
    by_cases hv : (v.name == u.name) = true
    · rw [if_pos hv] at h
      cases h
    · rw [if_neg hv] at h ⊢
      exact ih h

theorem modifyTable_id (name : String) (f : Table → Table) :
    ∀ db : Store, (∀ t, findTable db name = .ok t → f t = t) → modifyTable name f db = db := by
  intro db
  induction db with
  | nil => intro _; rfl
  | cons u rest ih =>
    intro h
    by_cases hu : (u.name == name) = true
    · simp only [modifyTable, if_pos hu]
      rw [h u (by rw [findTable_cons, if_pos hu])]
    · simp only [modifyTable, if_neg hu]
      rw [ih (fun t ht => h t (by rw [findTable_cons, if_neg hu]; exact ht))]

/-- What a successful `DELETE` does: the rows of the first table of that name on which
the compiled clause is true go, every other table stays. -/
theorem execDelete_ok {db db1 : Store} {table : String} {wher : Expr}
    (h : execDelete db table wher = .ok db1) :
    ∃ t p, findTable db table = .ok t ∧ compileExpr db t wher = .ok p ∧
      db1 = modifyTable table
        (fun u => { u with rows := u.rows.filter (fun r => !(p r = some true)) }) db ∧
      findTable db1 table
        = .ok { t with rows := t.rows.filter (fun r => !(p r = some true)) } ∧
      ∀ n, n ≠ table → findTable db1 n = findTable db n := by
  unfold execDelete at h
  cases ht : findTable db table with
  | error e => simp [ht] at h
  | ok t =>
    simp only [ht] at h
    cases hp : compileExpr db t wher with
    | error e => simp [hp] at h
    | ok p =>
      simp only [hp, Except.ok.injEq] at h
      have hfind := fun n => findTable_modifyTable db table n
        (fun u => { u with rows := u.rows.filter (fun r => !(p r = some true)) }) (fun _ => rfl)
      refine ⟨t, p, rfl, hp, h.symm, ?_, ?_⟩
      · rw [← h, hfind, ht]
        simp
      · intro n hn
        rw [← h, hfind]
        cases findTable db n with
        | error e => rfl
        | ok u => simp [hn]

theorem execStatement_frame {db db1 : Store} {s : Statement} (h : execStatement db s = .ok db1)
    (n : String) (hn : n ≠ s.target) : findTable db1 n = findTable db n := by
  cases s with
  | delete table wher =>
    obtain ⟨_, _, _, _, _, _, hf⟩ := execDelete_ok h
    exact hf n hn
  | dropTable table =>
    simp only [execStatement, execDropTable] at h
    cases hfind : List.find? (fun t => t.name == table) db with
    | none => simp [hfind] at h
    | some t =>
      rw [hfind] at h
      simp only [Except.ok.injEq] at h
      rw [← h]
      exact findTable_eraseP_ne db table n hn

theorem execStatements_frame (script : List Statement) :
    ∀ {db db1 : Store}, execStatements script db = .ok db1 →
      ∀ n, n ∉ script.map Statement.target → findTable db1 n = findTable db n := by
  induction script with
  | nil =>
    intro db db1 h n _
    simp only [execStatements, Except.ok.injEq] at h
    rw [h]
  | cons s rest ih =>
    intro db db1 h n hn
    simp only [execStatements] at h
    cases hs : execStatement db s with
    | error e => simp [hs] at h
    | ok d =>
      rw [hs] at h
      simp only [List.map_cons, List.mem_cons, not_or] at hn
      rw [ih h n hn.2, execStatement_frame hs n hn.1]

theorem execStatements_append (a b : List Statement) :
    ∀ db : Store, execStatements (a ++ b) db =
      match execStatements a db with
      | .error e => .error e
      | .ok d => execStatements b d := by
  induction a with
  | nil => intro db; rfl
  | cons s rest ih =>
    intro db
    simp only [List.cons_append, execStatements]
    cases execStatement db s with
    | error e => rfl
    | ok d => exact ih d

/-! ## Clip after its script -/

/-- What `Clip` returns once its scripted part has ended without error on a store on which
no query of `validate` fails. -/
theorem Clip_of_cascade {order : Nat → Schema} (hord : IterationOrder order) {fuel : Nat}
    (hfuel : 1 ≤ fuel) {input : Store} {feature : String → String → Bool} {db : Store}
    (hc : Clip.cascade input feature = (db, none)) (hok : StoreOK db) :
    Clip order fuel input feature = some
      { err := if Consistent db then none else some ErrInvalidInput, output := db } := by
  obtain ⟨r0, h1, h2, _, _, h5, _⟩ := validate_spec hord fuel db
    { force := false, ignore := false, logLevel := LevelError } hfuel (fun h => by cases h)
  obtain ⟨_, h7, _⟩ := h5 hok
  have h2 := h2 rfl
  have hiff := sweepMessages_eq_nil_iff hord db 0
  have hv : validate order fuel db { logLevel := LevelError } = some r0 := h1
  unfold Clip
  rw [hc]
  simp only [hv]
  by_cases hcons : Consistent db
  · have hnil := hiff.mpr hcons
    have he : r0.err = none := by rw [h7]; simp [hnil]
    simp [he, h2, hcons]
  · have hne : sweepMessages db (order 0) ≠ [] := fun h => hcons (hiff.mp h)
    have he : r0.err = some ErrInvalidInput := by rw [h7]; simp [hne]
    simp [he, h2, hcons]

theorem Clip_output_of_cascade (order : Nat → Schema) {fuel : Nat} (hfuel : 1 ≤ fuel)
    (input : Store) (feature : String → String → Bool) :
    ∃ r, Clip order fuel input feature = some r ∧ r.output = (Clip.cascade input feature).1 := by
  unfold Clip
  cases hc : Clip.cascade input feature with
  | mk db oe =>
    cases oe with
    | some e => exact ⟨_, rfl, rfl⟩
    | none =>
      obtain ⟨dbf, res, h2, _, _, h5, _, _⟩ :=
        loop_spec order fuel db (validator.init { logLevel := LevelError }) rfl hfuel
          (fun h => by simp [validator.init] at h)
      have hdb : dbf = db := h5 rfl
      subst hdb
      have hv : ∃ r0, validate order fuel dbf { logLevel := LevelError } = some r0 ∧ r0.db = dbf := by
        unfold validate
        rw [h2]
        cases res with
        | error err => exact ⟨_, rfl, rfl⟩
        | ok vf =>
          by_cases hlen : vf.issues.length > 0
          · simp only [hlen, if_true]
            exact ⟨_, rfl, rfl⟩
          · simp only [hlen, if_false]
            exact ⟨_, rfl, rfl⟩
      obtain ⟨r0, hr0, hdb0⟩ := hv
      simp only [hr0]
      cases he : r0.err with
      | some e => exact ⟨_, rfl, hdb0⟩
      | none => exact ⟨_, rfl, hdb0⟩

theorem reverseOrder_iterationOrder : IterationOrder reverseOrder := by
  intro p
  unfold reverseOrder edgesOf
  exact List.Perm.flatMap_right _ (List.reverse_perm _)

/-- The end-to-end scenario on its own: in `e2eDB` (stop S referenced only by stop_times
row T of trip R1 on route Rt1, and nothing else) clipping to the feature that contains no
point ends without error, for every order of iteration, and leaves a store in which the
four rows S, T, R1 and Rt1 are gone (every table is empty); a final Permissive validate
reports 0 violations. -/
theorem Clip_end_to_end (order order1 : Nat → Schema) (hord : IterationOrder order)
    (hord1 : IterationOrder order1) (fuel fuel1 : Nat) (hfuel : 1 ≤ fuel) (hfuel1 : 1 ≤ fuel1) :
    rowsOf e2eDB "stops" = [{ rowid := 1, values := [some "S", none, none, none, none,
      some "1", some "2", none, none, none, none, none, none, none, none] }] ∧
    (rowsOf e2eDB "stop_times").length = 1 ∧ (rowsOf e2eDB "trips").length = 1 ∧
    (rowsOf e2eDB "routes").length = 1 ∧
    Clip order fuel e2eDB nowhere = some { err := none, output := emptyDB } ∧
    rowsOf emptyDB "stops" = [] ∧ rowsOf emptyDB "stop_times" = [] ∧
    rowsOf emptyDB "trips" = [] ∧ rowsOf emptyDB "routes" = [] ∧
    validate order1 fuel1 emptyDB { ignore := true }
      = some { issues := [], err := none, db := emptyDB } := by
  refine ⟨by decide, by decide, by decide, by decide, ?_, by decide, by decide, by decide,
    by decide, ?_⟩
  · have hc : Clip.cascade e2eDB nowhere = (emptyDB, none) := by decide
    rw [Clip_of_cascade hord hfuel hc (by decide)]
    have : Consistent emptyDB := by decide
    simp [this]
  · obtain ⟨r1, g1, g2, _, _, g5, _⟩ := validate_spec hord1 fuel1 emptyDB
      { ignore := true } hfuel1 (fun h => by cases h)
    obtain ⟨g6, g7, _⟩ := g5 (by decide)
    have hnil : sweepMessages emptyDB (order1 0) = [] :=
      (sweepMessages_eq_nil_iff hord1 _ 0).mpr (by decide)
    rw [g1]
    congr 1
    obtain ⟨i, e, d⟩ := r1
    have g2 := g2 rfl
    simp only at g2 g6 g7
    rw [g2, g6, g7, hnil]
    simp

theorem Clip_end_to_end_witness :
    IterationOrder sourceOrder ∧ IterationOrder reverseOrder ∧ 1 ≤ 1 ∧
    (rowsOf e2eDB "stops" = [{ rowid := 1, values := [some "S", none, none, none, none,
      some "1", some "2", none, none, none, none, none, none, none, none] }] ∧
    (rowsOf e2eDB "stop_times").length = 1 ∧ (rowsOf e2eDB "trips").length = 1 ∧
    (rowsOf e2eDB "routes").length = 1 ∧
    Clip sourceOrder 1 e2eDB nowhere = some { err := none, output := emptyDB } ∧
    rowsOf emptyDB "stops" = [] ∧ rowsOf emptyDB "stop_times" = [] ∧
    rowsOf emptyDB "trips" = [] ∧ rowsOf emptyDB "routes" = [] ∧
    validate reverseOrder 1 emptyDB { ignore := true }
      = some { issues := [], err := none, db := emptyDB }) :=
  ⟨sourceOrder_iterationOrder, reverseOrder_iterationOrder, Nat.le_refl 1,
    Clip_end_to_end sourceOrder reverseOrder sourceOrder_iterationOrder
      reverseOrder_iterationOrder 1 1 (Nat.le_refl 1) (Nat.le_refl 1)⟩

/-- C13, counterexample: in the end-to-end scenario the first statement of the script
deletes the trip R1 while the stop S and the stop_times row T are still in the store: the
anchor row S is not the first row to go. -/
theorem Clip_not_anchor_first :
    (clipPrefix 1 (Clip.prepared e2eDB nowhere).1).toOption.map
        (fun d => (rowsOf d "trips", (rowsOf d "stops").length, (rowsOf d "stop_times").length,
          (rowsOf d "routes").length))
      = some ([], 1, 1, 1) ∧
    (rowsOf e2eDB "trips").length = 1 := by
  decide

/-- C13, amended: Clip applies its deletions in the order of its script: trips first, then
stop_times, then stops, then stop_areas, areas and routes, and so on.  In the end-to-end
scenario the rows go in the order R1 (trips, statement 1), T (stop_times, statement 2),
S (stops, statement 3), Rt1 (routes, statement 6): each is still there before its
statement and gone after it. -/
theorem Clip_deletion_order :
    clipScript.map Statement.target =
      ["trips", "stop_times", "stops", "stop_areas", "areas", "routes", "agency", "calendar",
        "calendar_dates", "transfers", "pathways", "location_group_stops", "frequencies",
        "attributions", "fare_rules", "fare_attributes", "fare_leg_rules", "route_networks",
        "timeframe", "booking_rules", "__gtfs2sqlite_stops_inside"] ∧
    [0, 1, 2, 3, 5, 6].map (fun n =>
      (clipPrefix n (Clip.prepared e2eDB nowhere).1).toOption.map (fun d =>
        ((rowsOf d "trips").length, (rowsOf d "stop_times").length, (rowsOf d "stops").length,
          (rowsOf d "routes").length)))
      = [some (1, 1, 1, 1), some (0, 1, 1, 1), some (0, 0, 1, 1), some (0, 0, 0, 1),
          some (0, 0, 0, 1), some (0, 0, 0, 0)] ∧
    Clip.cascade e2eDB nowhere
      = ExecScript (Clip.prepared e2eDB nowhere).1 clipScript := by
  decide

/-! ## The messages -/

theorem lookup_map_self (f : String → Value) (c : String) :
    ∀ l : List String, c ∈ l → List.lookup c (l.map (fun x => (x, f x))) = some (f c) := by
  intro l
  induction l with
  | nil => intro h; cases h
  | cons x rest ih =>
    intro h
    by_cases hx : c = x
    · subst hx
      simp [List.lookup]
    · have hne : (c == x) = false := by simpa using hx
      simp only [List.map_cons, List.lookup, hne]
      exact ih (by
        rcases List.mem_cons.mp h with h | h
        · exact absurd h hx
        · exact h)

theorem getText_ofRow (t : Table) (r : Row) (c : String) (hc : c ∈ t.columns)
    (hrow : c ≠ "rowid") : (Stmt.ofRow t r).GetText c = (r.get t.columns c).getD "" := by
  have hne : (c == "rowid") = false := by simpa using hrow
  unfold Stmt.GetText Stmt.ofRow
  simp only [List.lookup, hne]
  rw [lookup_map_self (fun x => r.get t.columns x) c t.columns hc]
  rfl

theorem prettyPrint_filterMap (t : Table) (r : Row) (stmt : Stmt)
    (hstmt : ∀ c ∈ t.columns, c ≠ "rowid" → stmt.GetText c = (r.get t.columns c).getD "") :
    ∀ l : List String, (∀ c ∈ l, c ∈ t.columns) →
      (l.map (fun c => (c, r.get t.columns c))).filterMap (fun cv =>
          if cv.1 != "rowid" && stmt.GetText cv.1 != "" then
            some (cv.1 ++ ": " ++ stmt.GetText cv.1)
          else none)
        = (l.filter (fun c => decide (c ≠ "rowid") &&
              decide ((r.get t.columns c).getD "" ≠ ""))).map
            (fun c => c ++ ": " ++ (r.get t.columns c).getD "") := by
  intro l
  induction l with
  | nil => intro _; rfl
  | cons x rest ih =>
    intro h
    have ih1 := ih (fun c hc => h c (List.mem_cons_of_mem _ hc))
    have hx := h x (List.mem_cons_self _ _)
    by_cases hrow : x = "rowid"
    · simp only [List.map_cons, List.filterMap_cons, List.filter_cons, hrow]
      simpa using ih1
    · have ht := hstmt x hx hrow
      by_cases hv : (r.get t.columns x).getD "" = ""
      · simp only [List.map_cons, List.filterMap_cons, List.filter_cons, ht, hv]
        simpa [hrow] using ih1
      · have hcond : (x != "rowid" && (r.get t.columns x).getD "" != "") = true := by
          simp [hrow, hv]
        have hcond2 : (decide (x ≠ "rowid") && decide ((r.get t.columns x).getD "" ≠ "")) = true := by
          simp [hrow, hv]
        simp only [List.map_cons, List.filterMap_cons, List.filter_cons, ht, hcond, hcond2,
          if_true]
        rw [ih1]

theorem issueOf_ofRow (table column : String) (t : Table) (r : Row) (hc : column ∈ t.columns)
    (hrow : column ≠ "rowid") :
    issueOf table column (Stmt.ofRow t r) = issueText table column t r := by
  have hstmt : ∀ c ∈ t.columns, c ≠ "rowid" →
      (Stmt.ofRow t r).GetText c = (r.get t.columns c).getD "" :=
    fun c hc hr => getText_ofRow t r c hc hr
  have hp : prettyPrintRow (Stmt.ofRow t r)
      = String.intercalate ", "
          ((t.columns.filter (fun c => decide (c ≠ "rowid") &&
              decide ((r.get t.columns c).getD "" ≠ ""))).map
            (fun c => c ++ ": " ++ (r.get t.columns c).getD "")) := by
    unfold prettyPrintRow
    have := prettyPrint_filterMap t r (Stmt.ofRow t r) hstmt t.columns (fun _ h => h)
    simp only [Stmt.ofRow] at this ⊢
    simp only [List.filterMap_cons]
    have hfalse : (("rowid" : String) != "rowid") = false := by decide
    simp only [hfalse, Bool.false_and]
    rw [← this]
    rfl
  unfold issueOf issueText
  simp only [hp, hstmt column hc hrow]

theorem edgeMessages_format (db : Store) (e : Edge) (hrow : e.2.1 ≠ "rowid") (m : String)
    (hm : m ∈ edgeMessages db e) :
    ∃ t r, findTable db e.1 = .ok t ∧ r ∈ t.rows ∧ m = issueText e.1 e.2.1 t r := by
  unfold edgeMessages at hm
  cases hr : foreignRows db e.1 e.2.1 e.2.2 with
  | error err => simp [hr] at hm
  | ok res =>
    obtain ⟨t, rows⟩ := res
    rw [hr] at hm
    simp only [List.mem_map] at hm
    obtain ⟨r, hrmem, rfl⟩ := hm
    obtain ⟨_, hfind, hc, _, hrows⟩ := foreignRows_ok hr
    rw [hrows] at hrmem
    exact ⟨t, r, hfind, (List.mem_filter.mp hrmem).1, issueOf_ofRow _ _ t r hc hrow⟩

theorem edges_not_rowid : ∀ e ∈ edgesOf gtfsSchema, e.2.1 ≠ "rowid" := by
  decide

/-- C18, counterexample: on `chainDB` validate returns the message
`nope in routes.txt is not a valid agency_id [route_id: R1, agency_id: nope, route_type: 3]`.
The form of the specification would be
`nope in routes is not a valid agency_id [route_id: R1, route_type: 3]`: the code adds
`.txt` to the table name and lists the offending column with the others. -/
theorem issue_not_spec_form :
    validate sourceOrder 1 chainDB { ignore := true } = some
      { issues := ["nope in routes.txt is not a valid agency_id " ++
          "[route_id: R1, agency_id: nope, route_type: 3]"]
        err := none
        db := chainDB } ∧
    edgeMessagesSpec chainDB ("routes", "agency_id", .mk "agency" "agency_id" [])
      = ["nope in routes is not a valid agency_id [route_id: R1, route_type: 3]"] ∧
    edgeMessages chainDB ("routes", "agency_id", .mk "agency" "agency_id" [])
      ≠ edgeMessagesSpec chainDB ("routes", "agency_id", .mk "agency" "agency_id" []) := by
  decide

/-- C18, amended: every violation message that validate returns has exactly the form
`<value> in <table>.txt is not a valid <column> [<k1>: <v1>, <k2>: <v2>, ...]` for a row of
the source table of an edge of gtfsSchema: the table name is followed by `.txt`, and the
bracketed list enumerates, in column order, every column of the offending row whose text is
not empty, the offending column itself included, rowid left out. -/
theorem issue_format (order : Nat → Schema) (hord : IterationOrder order) (db : Store)
    (opts : validateOpts) (fuel : Nat) (hfuel : rowCount db + 1 ≤ fuel) :
    ∃ res, validate order fuel db opts = some res ∧
      ∀ m ∈ res.issues, ∃ e ∈ edgesOf gtfsSchema, ∃ t r,
        findTable db e.1 = .ok t ∧ r ∈ t.rows ∧ m = issueText e.1 e.2.1 t r := by
  obtain ⟨res, h1, _, _, _, h5, h6⟩ := validate_spec hord fuel db opts (by omega) (fun _ => hfuel)
  refine ⟨res, h1, ?_⟩
  intro m hm
  by_cases hok : StoreOK db
  · rw [(h5 hok).1] at hm
    unfold sweepMessages at hm
    obtain ⟨e, he, hme⟩ := List.mem_flatMap.mp hm
    have he1 : e ∈ edgesOf gtfsSchema := (mem_edges_order hord 0 e).mp he
    obtain ⟨t, r, h⟩ := edgeMessages_format db e (edges_not_rowid e he1) m hme
    exact ⟨e, he1, t, r, h⟩
  · rw [(h6 hok).1] at hm
    cases hm

theorem issue_format_witness :
    IterationOrder sourceOrder ∧ rowCount chainDB + 1 ≤ 6 ∧
    (validate sourceOrder 6 chainDB { ignore := true }).map (fun res => res.issues)
      = some ["nope in routes.txt is not a valid agency_id " ++
          "[route_id: R1, agency_id: nope, route_type: 3]"] ∧
    ∃ res, validate sourceOrder 6 chainDB { ignore := true } = some res ∧
      ∀ m ∈ res.issues, ∃ e ∈ edgesOf gtfsSchema, ∃ t r,
        findTable chainDB e.1 = .ok t ∧ r ∈ t.rows ∧ m = issueText e.1 e.2.1 t r :=
  ⟨sourceOrder_iterationOrder, by decide, by decide,
    issue_format sourceOrder sourceOrder_iterationOrder chainDB { ignore := true } 6 (by decide)⟩

/-! ## The order of the violations -/

/-- C19, counterexample: on `twoViolationsDB` a run of validate that visits gtfsSchema in
source order and a run with the same options that visits it in reverse order return the
same two messages in different orders. -/
theorem validate_order_not_deterministic :
    validate sourceOrder 1 twoViolationsDB { ignore := true } = some
      { issues := ["L9 in stops.txt is not a valid level_id " ++
            "[stop_id: S1, stop_lat: 1, stop_lon: 2, level_id: L9]",
          "nope in routes.txt is not a valid agency_id " ++
            "[route_id: R1, agency_id: nope, route_type: 3]"]
        err := none
        db := twoViolationsDB } ∧
    validate reverseOrder 1 twoViolationsDB { ignore := true } = some
      { issues := ["nope in routes.txt is not a valid agency_id " ++
            "[route_id: R1, agency_id: nope, route_type: 3]",
          "L9 in stops.txt is not a valid level_id " ++
            "[stop_id: S1, stop_lat: 1, stop_lon: 2, level_id: L9]"]
        err := none
        db := twoViolationsDB } := by
  decide

/-- C19, amended: validate visits the edges in the order in which the Go maps are iterated,
which is not fixed.  Two runs with the same options on the same store return lists of
violations that are permutations of one another (the same messages, each as many times),
and the same list when their first sweeps visit the schema in the same order; on a store
on which no query fails they return the same error. -/
theorem validate_order_perm (o1 o2 : Nat → Schema) (h1 : IterationOrder o1)
    (h2 : IterationOrder o2) (db : Store) (opts : validateOpts) (fuel : Nat)
    (hfuel : rowCount db + 1 ≤ fuel) :
    ∃ r1 r2, validate o1 fuel db opts = some r1 ∧ validate o2 fuel db opts = some r2 ∧
      r1.issues.Perm r2.issues ∧ (o1 0 = o2 0 → r1.issues = r2.issues) ∧
      (StoreOK db → r1.err = r2.err) := by
  obtain ⟨r1, a1, _, _, _, a5, a6⟩ := validate_spec h1 fuel db opts (by omega) (fun _ => hfuel)
  obtain ⟨r2, b1, _, _, _, b5, b6⟩ := validate_spec h2 fuel db opts (by omega) (fun _ => hfuel)
  refine ⟨r1, r2, a1, b1, ?_⟩
  by_cases hok : StoreOK db
  · obtain ⟨a7, a8, _⟩ := a5 hok
    obtain ⟨b7, b8, _⟩ := b5 hok
    refine ⟨?_, ?_, ?_⟩
    · rw [a7, b7]
      exact sweepMessages_perm h1 h2 db 0 0
    · intro h
      rw [a7, b7, h]
    · intro _
      rw [a8, b8]
      have hiff : sweepMessages db (o1 0) ≠ [] ↔ sweepMessages db (o2 0) ≠ [] := by
        rw [Ne, Ne, sweepMessages_eq_nil_iff h1, sweepMessages_eq_nil_iff h2]
      by_cases hc : sweepMessages db (o1 0) ≠ []
      · simp [hc, hiff.mp hc]
      · have hc2 : ¬ sweepMessages db (o2 0) ≠ [] := fun h => hc (hiff.mpr h)
        simp only [hc, hc2, false_and, if_false]
  · rw [(a6 hok).1, (b6 hok).1]
    exact ⟨List.Perm.refl _, fun _ => rfl, fun h => absurd h hok⟩

theorem validate_order_perm_witness :
    IterationOrder sourceOrder ∧ IterationOrder reverseOrder ∧
    rowCount twoViolationsDB + 1 ≤ 3 ∧
    ∃ r1 r2, validate sourceOrder 3 twoViolationsDB { ignore := true } = some r1 ∧
      validate reverseOrder 3 twoViolationsDB { ignore := true } = some r2 ∧
      r1.issues.Perm r2.issues ∧ (sourceOrder 0 = reverseOrder 0 → r1.issues = r2.issues) ∧
      (StoreOK twoViolationsDB → r1.err = r2.err) :=
  ⟨sourceOrder_iterationOrder, reverseOrder_iterationOrder, by decide,
    validate_order_perm sourceOrder reverseOrder sourceOrder_iterationOrder
      reverseOrder_iterationOrder twoViolationsDB { ignore := true } 3 (by decide)⟩

/-! ## The schema -/

/-- C20: every foreign-key edge declared in gtfsSchema resolves.  For every column with a
ForeignID, the single Table/Column (when there is no AnyOf) and every element of AnyOf name
a table that is a key of gtfsSchema and a column declared in the Columns of that table; no
ForeignID mixes AnyOf with Table or Column. -/
theorem gtfsSchema_edges_resolve :
    ∀ e ∈ edgesOf gtfsSchema,
      (e.2.2.AnyOf.length = 0 → resolves (e.2.2.Table, e.2.2.Column) = true) ∧
      (∀ s ∈ e.2.2.AnyOf, resolves (s.Table, s.Column) = true) ∧
      (∀ a ∈ alternatives e.2.2, resolves a = true) ∧
      ¬ panics e.2.2 := by
  decide

/-- C20, instance: the edge of `trips.service_id`, whose ForeignID is an AnyOf of
`calendar.service_id` and `calendar_dates.service_id`, is an edge of gtfsSchema, and
both of its targets resolve. -/
theorem gtfsSchema_edges_resolve_witness :
    (("trips", "service_id", foreignIDSchema.mk "" ""
        [.mk "calendar" "service_id" [], .mk "calendar_dates" "service_id" []]) : Edge)
      ∈ edgesOf gtfsSchema ∧
    resolves ("calendar", "service_id") = true ∧
    resolves ("calendar_dates", "service_id") = true ∧
    ∀ a ∈ alternatives (foreignIDSchema.mk "" ""
        [.mk "calendar" "service_id" [], .mk "calendar_dates" "service_id" []]),
      resolves a = true :=
  ⟨@List.getElem?_mem _ (edgesOf gtfsSchema) 4 _ rfl, by decide, by decide,
    (gtfsSchema_edges_resolve _ (@List.getElem?_mem _ (edgesOf gtfsSchema) 4 _ rfl)).2.2.1⟩

/-! ## The queries of the script -/

theorem sqlNotIn_true_iff (v : Value) (vs : List Value) :
    sqlNotIn v vs = some true ↔ vs = [] ∨ (v ≠ none ∧ v ∉ vs ∧ none ∉ vs) := by
  by_cases hnil : vs = []
  · subst hnil
    simp [sqlNotIn, sqlIn, sqlNot]
  · cases v with
    | none => simp [sqlNotIn, sqlIn, sqlNot, hnil]
    | some x =>
      by_cases hx : some x ∈ vs
      · simp [sqlNotIn, sqlIn, sqlNot, hnil, hx]
      · by_cases hn : none ∈ vs
        · simp [sqlNotIn, sqlIn, sqlNot, hnil, hx, hn]
        · simp [sqlNotIn, sqlIn, sqlNot, hnil, hx, hn]

theorem sqlIn_true_iff (v : Value) (vs : List Value) :
    sqlIn v vs = some true ↔ v ≠ none ∧ v ∈ vs := by
  by_cases hnil : vs = []
  · subst hnil
    simp [sqlIn]
  · cases v with
    | none => simp [sqlIn, hnil]
    | some x =>
      by_cases hx : some x ∈ vs
      · simp [sqlIn, hnil, hx]
      · by_cases hn : none ∈ vs
        · simp [sqlIn, hnil, hx, hn]
        · simp [sqlIn, hnil, hx, hn]

theorem sqlNotIn_congr (v : Value) {vs ws : List Value} (h : ∀ x, x ∈ vs ↔ x ∈ ws) :
    sqlNotIn v vs = sqlNotIn v ws := by
  have hnil : vs = [] ↔ ws = [] := by
    constructor
    · intro h1
      subst h1
      exact List.eq_nil_iff_forall_not_mem.mpr (fun x hx => by simpa using (h x).mpr hx)
    · intro h1
      subst h1
      exact List.eq_nil_iff_forall_not_mem.mpr (fun x hx => by simpa using (h x).mp hx)
  unfold sqlNotIn sqlIn
  by_cases h1 : vs = []
  · have h2 := hnil.mp h1
    simp [h1, h2]
  · have h2 : ¬ ws = [] := fun h' => h1 (hnil.mpr h')
    cases v with
    | none => simp [h1, h2]
    | some x => simp only [h1, h2, if_false, h]

theorem compileExpr_notIn (db : Store) (t : Table) (column : String) (q : List Select) :
    compileExpr db t (.notIn column q) =
      if column ∈ t.columns then
        match evalUnion db q with
        | .error e => .error e
        | .ok vs => .ok (fun r => sqlNotIn (r.get t.columns column) vs)
      else .error (.store ("no such column: " ++ column)) := by
  by_cases hc : column ∈ t.columns
  · simp only [compileExpr, checkColumn, hc, if_true]
  · simp [compileExpr, checkColumn, hc]

theorem evalUnion_single (db : Store) (s : Select) : evalUnion db [s] = evalSelect db s := by
  unfold evalUnion
  simp only [evalSelects]
  cases evalSelect db s with
  | error e => rfl
  | ok vs => simp

theorem evalUnion_pair (db : Store) (a b : Select) :
    evalUnion db [a, b] =
      match evalSelect db a with
      | .error e => .error e
      | .ok va =>
        match evalSelect db b with
        | .error e => .error e
        | .ok vb => .ok (va ++ vb).dedup := by
  unfold evalUnion
  simp only [evalSelects]
  cases evalSelect db a with
  | error e => rfl
  | ok va =>
    cases evalSelect db b with
    | error e => rfl
    | ok vb => simp

theorem evalSelect_distinct (db : Store) (column table : String) :
    evalSelect db (selDistinct column table) =
      match findTable db table with
      | .error e => .error e
      | .ok t =>
        if column ∈ t.columns then .ok (t.rows.map (fun r => r.get t.columns column)).dedup
        else .error (.store ("no such column: " ++ column)) := by
  unfold evalSelect selDistinct
  cases findTable db table with
  | error e => rfl
  | ok t => by_cases hc : column ∈ t.columns <;> simp [checkColumn, hc]

theorem evalSelect_whereNotNull (db : Store) (column table wcolumn : String) :
    evalSelect db
        { distinct := true, column := column, table := table, wher := some (.isNotNull wcolumn) } =
      match findTable db table with
      | .error e => .error e
      | .ok t =>
        if column ∈ t.columns then
          if wcolumn ∈ t.columns then
            .ok ((t.rows.filter (fun r => decide (r.get t.columns wcolumn ≠ none))).map
              (fun r => r.get t.columns column)).dedup
          else .error (.store ("no such column: " ++ wcolumn))
        else .error (.store ("no such column: " ++ column)) := by
  unfold evalSelect
  cases findTable db table with
  | error e => rfl
  | ok t =>
    by_cases hc : column ∈ t.columns
    · by_cases hw : wcolumn ∈ t.columns
      · simp only [checkColumn, hc, hw, if_true, evalSubWhere]
        congr 3
        apply List.filter_congr
        intro r _
        by_cases h : r.get t.columns wcolumn = none
        · simp [sqlIsNotNull, h]
        · obtain ⟨x, hx⟩ := Option.ne_none_iff_exists'.mp h
          simp [sqlIsNotNull, hx]
      · simp [checkColumn, hc, hw, evalSubWhere]
    · simp [checkColumn, hc]

theorem evalSelect_whereInTable (db : Store) (column table wcolumn wtable : String) :
    evalSelect db
        { distinct := true, column := column, table := table,
          wher := some (.inTable wcolumn wtable) } =
      match findTable db table with
      | .error e => .error e
      | .ok t =>
        if column ∈ t.columns then
          match findTable db wtable with
          | .error e => .error e
          | .ok u =>
            if wcolumn ∈ t.columns then
              match u.columns with
              | [c] =>
                .ok ((t.rows.filter (fun r =>
                    decide (sqlIn (r.get t.columns wcolumn)
                      (u.rows.map (fun x => x.get u.columns c)) = some true))).map
                  (fun r => r.get t.columns column)).dedup
              | _ => .error (.store "sub-select returns the wrong number of columns - expected 1")
            else .error (.store ("no such column: " ++ wcolumn))
        else .error (.store ("no such column: " ++ column)) := by
  unfold evalSelect
  cases findTable db table with
  | error e => rfl
  | ok t =>
    by_cases hc : column ∈ t.columns
    · simp only [checkColumn, hc, if_true, evalSubWhere]
      cases findTable db wtable with
      | error e => rfl
      | ok u =>
        by_cases hw : wcolumn ∈ t.columns
        · simp only [hw, if_true]
          cases hcols : u.columns with
          | nil => rfl
          | cons c rest =>
            cases rest with
            | nil => rfl
            | cons c2 rest2 => rfl
        · simp [hw]
    · simp [checkColumn, hc]

/-- The statement `DELETE FROM table WHERE column NOT IN (q)`, evaluated. -/
theorem execDelete_notIn (db : Store) (table column : String) (q : List Select) :
    execDelete db table (.notIn column q) =
      match findTable db table with
      | .error e => .error e
      | .ok t =>
        if column ∈ t.columns then
          match evalUnion db q with
          | .error e => .error e
          | .ok vs =>
            .ok (modifyTable table (fun u => { u with rows := u.rows.filter (fun r =>
              !(sqlNotIn (r.get t.columns column) vs = some true)) }) db)
        else .error (.store ("no such column: " ++ column)) := by
  unfold execDelete
  cases findTable db table with
  | error e => rfl
  | ok t =>
    simp only [compileExpr_notIn]
    by_cases hc : column ∈ t.columns
    · simp only [hc, if_true]
      cases evalUnion db q with
      | error e => rfl
      | ok vs => rfl
    · simp [hc]

/-- A `DELETE` whose clause is true on no row of its table leaves the store as it is. -/
theorem execDelete_noop {db : Store} {table : String} {wher : Expr} {t : Table}
    {p : Row → Tri} (ht : findTable db table = .ok t) (hp : compileExpr db t wher = .ok p)
    (hrows : ∀ r ∈ t.rows, ¬ p r = some true) : execDelete db table wher = .ok db := by
  unfold execDelete
  simp only [ht, hp]
  congr 1
  apply modifyTable_id
  intro u hu
  rw [ht] at hu
  simp only [Except.ok.injEq] at hu
  subst hu
  have : t.rows.filter (fun r => !(decide (p r = some true))) = t.rows := by
    apply List.filter_eq_self.mpr
    intro r hr
    simp [hrows r hr]
  rw [this]

/-! ## The table of the stops inside the feature -/

theorem modifyTable_append_of_error (db : Store) (u : Table) (f : Table → Table) (e : Err)
    (h : findTable db u.name = .error e) :
    modifyTable u.name f (db ++ [u]) = db ++ [f u] := by
  induction db with
  | nil => simp [modifyTable]
  | cons v rest ih =>
    rw [findTable_cons] at h
    by_cases hv : (v.name == u.name) = true
    · rw [if_pos hv] at h
      cases h
    · rw [if_neg hv] at h
      simp only [List.cons_append, modifyTable, if_neg hv, List.append_eq, ih h]

theorem modifyTable_append_of_ne (db : Store) (u : Table) (name : String) (f : Table → Table)
    (h : name ≠ u.name) : modifyTable name f (db ++ [u]) = modifyTable name f db ++ [u] := by
  have hu : ¬ (u.name == name) = true := by
    intro h'
    apply h
    have : u.name = name := by simpa using h'
    exact this.symm
  induction db with
  | nil => simp [modifyTable, hu]
  | cons v rest ih =>
    by_cases hv : (v.name == name) = true
    · simp only [List.cons_append, modifyTable, if_pos hv, List.append_eq]
    · simp only [List.cons_append, modifyTable, if_neg hv, List.append_eq, ih]

theorem findTable_error_iff (db : Store) (name : String) :
    (∃ e, findTable db name = .error e) ↔ db.find? (fun t => t.name == name) = none := by
  unfold findTable
  cases db.find? (fun t => t.name == name) <;> simp

theorem findTable_modifyTable_error (db : Store) (name n : String) (f : Table → Table)
    (hf : ∀ t, (f t).name = t.name) (e : Err) (h : findTable db n = .error e) :
    ∃ e1, findTable (modifyTable name f db) n = .error e1 := by
  rw [findTable_modifyTable db name n f hf, h]
  exact ⟨e, rfl⟩

/-- The rows that `Clip` inserts into `__gtfs2sqlite_stops_inside`, one per result row of
the query on stops that lies inside the feature. -/
theorem markInside_spec (feature : String → String → Bool) (input : Store) (e : Err)
    (hno : findTable input "__gtfs2sqlite_stops_inside" = .error e) (stmts : List Stmt) :
    ∀ rows0 : List Row, ∃ rows,
      Clip.markInside feature stmts
          (input ++ [{ name := "__gtfs2sqlite_stops_inside", columns := ["stop_id"], rows := rows0 }])
        = (input ++ [{ name := "__gtfs2sqlite_stops_inside", columns := ["stop_id"], rows := rows }],
            none) ∧
      rows.map (fun x => x.get ["stop_id"] "stop_id") =
        rows0.map (fun x => x.get ["stop_id"] "stop_id") ++
          (stmts.filter (fun s => feature (s.GetText "stop_lon") (s.GetText "stop_lat"))).map
            (fun s => some (s.GetText "stop_id")) := by
  induction stmts with
  | nil =>
    intro rows0
    exact ⟨rows0, rfl, by simp⟩
  | cons s rest ih =>
    intro rows0
    by_cases hf : feature (s.GetText "stop_lon") (s.GetText "stop_lat") = true
    · have hfind := findTable_append_of_error input
        { name := "__gtfs2sqlite_stops_inside", columns := ["stop_id"], rows := rows0 } e hno
      have hmod := modifyTable_append_of_error input
        { name := "__gtfs2sqlite_stops_inside", columns := ["stop_id"], rows := rows0 }
        (fun u => { u with rows := u.rows ++
          [{ rowid := nextRowid u.rows,
             values := u.columns.map (fun c =>
               (List.lookup c (["stop_id"].zip [some (s.GetText "stop_id")])).join) }] }) e hno
      have hins : execInsert
          (input ++ [{ name := "__gtfs2sqlite_stops_inside", columns := ["stop_id"], rows := rows0 }])
          "__gtfs2sqlite_stops_inside" ["stop_id"] [some (s.GetText "stop_id")]
          = .ok (input ++ [{ name := "__gtfs2sqlite_stops_inside", columns := ["stop_id"], rows :=
              rows0 ++ [{ rowid := nextRowid rows0, values := [some (s.GetText "stop_id")] }] }]) := by
        unfold execInsert
        simp only at hfind hmod
        rw [hfind]
        simp only [List.find?, List.mem_singleton, decide_True, Bool.not_true]
        rw [hmod]
        simp [List.lookup]
      obtain ⟨rows, h1, h2⟩ := ih
        (rows0 ++ [{ rowid := nextRowid rows0, values := [some (s.GetText "stop_id")] }])
      refine ⟨rows, ?_, ?_⟩
      · simp only [Clip.markInside, hf, if_true, hins]
        exact h1
      · rw [h2]
        simp [List.filter_cons, hf, Row.get, List.lookup]
    · obtain ⟨rows, h1, h2⟩ := ih rows0
      refine ⟨rows, ?_, ?_⟩
      · simp only [Clip.markInside, hf]
        exact h1
      · rw [h2]
        simp [List.filter_cons, hf]

/-- The store on which the script of `Clip` starts, when the input has no table
`__gtfs2sqlite_stops_inside` and has a stops table with the three columns read. -/
theorem prepared_of_ok (input : Store) (feature : String → String → Bool) (e : Err)
    (hno : findTable input "__gtfs2sqlite_stops_inside" = .error e) (t : Table)
    (ht : findTable input "stops" = .ok t)
    (hcols : ∀ c ∈ ["stop_id", "stop_lon", "stop_lat"], c ∈ t.columns) :
    ∃ rows, Clip.prepared input feature =
        (input ++ [{ name := "__gtfs2sqlite_stops_inside", columns := ["stop_id"], rows := rows }],
          none) ∧
      rows.map (fun x => x.get ["stop_id"] "stop_id") =
        (t.rows.filter (insideRow feature t)).map
          (fun r => some ((r.get t.columns "stop_id").getD "")) := by
  have hfind : input.find? (fun t => t.name == "__gtfs2sqlite_stops_inside") = none :=
    (findTable_error_iff input _).mp ⟨e, hno⟩
  have hstops : findTable
      (input ++ [{ name := "__gtfs2sqlite_stops_inside", columns := ["stop_id"], rows := [] }])
      "stops" = findTable input "stops" :=
    findTable_append_of_ne input _ "stops" (by decide)
  have hc : List.find? (fun c => !(decide (c ∈ t.columns)))
      ["stop_id", "stop_lon", "stop_lat"] = none := by
    rw [List.find?_eq_none]
    intro c hc
    simp [hcols c hc]
  obtain ⟨rows, h1, h2⟩ := markInside_spec feature input e hno
    (t.rows.map (fun r =>
      ({ rowid := r.rowid
         columns := ["stop_id", "stop_lon", "stop_lat"].map
           (fun c => (c, r.get t.columns c)) } : Stmt))) []
  refine ⟨rows, ?_, ?_⟩
  · unfold Clip.prepared execCreateTable
    simp only [hfind]
    unfold Clip.selectStops
    rw [hstops]
    simp only [ht, hc]
    exact h1
  · rw [h2]
    simp only [List.map_nil, List.nil_append, List.filter_map, List.map_map]
    congr 1

/-- The store on which the script of `Clip` starts. -/
theorem prepared_ok {input : Store} {feature : String → String → Bool} {db2 : Store}
    (h : Clip.prepared input feature = (db2, none)) :
    (∃ e, findTable input "__gtfs2sqlite_stops_inside" = .error e) ∧
    ∃ t rows, findTable input "stops" = .ok t ∧
      (∀ c ∈ ["stop_id", "stop_lon", "stop_lat"], c ∈ t.columns) ∧
      db2 = input ++ [{ name := "__gtfs2sqlite_stops_inside", columns := ["stop_id"], rows := rows }] ∧
      rows.map (fun x => x.get ["stop_id"] "stop_id") =
        (t.rows.filter (insideRow feature t)).map
          (fun r => some ((r.get t.columns "stop_id").getD "")) := by
  have h0 := h
  unfold Clip.prepared execCreateTable at h
  cases hfind : input.find? (fun t => t.name == "__gtfs2sqlite_stops_inside") with
  | some u => simp [hfind] at h
  | none =>
    obtain ⟨e, he⟩ := (findTable_error_iff input _).mpr hfind
    refine ⟨⟨e, he⟩, ?_⟩
    simp only [hfind] at h
    unfold Clip.selectStops at h
    have hstops : findTable
        (input ++ [{ name := "__gtfs2sqlite_stops_inside", columns := ["stop_id"], rows := [] }])
        "stops" = findTable input "stops" :=
      findTable_append_of_ne input _ "stops" (by decide)
    rw [hstops] at h
    cases ht : findTable input "stops" with
    | error e1 => simp [ht] at h
    | ok t =>
      simp only [ht] at h
      cases hcols : List.find? (fun c => !(decide (c ∈ t.columns)))
          ["stop_id", "stop_lon", "stop_lat"] with
      | some c => simp [hcols] at h
      | none =>
        have hc : ∀ c ∈ ["stop_id", "stop_lon", "stop_lat"], c ∈ t.columns := by
          intro c hc
          have := List.find?_eq_none.mp hcols c hc
          simpa using this
        obtain ⟨rows, h1, h2⟩ := prepared_of_ok input feature e he t ht hc
        rw [h1] at h0
        simp only [Prod.mk.injEq, and_true] at h0
        exact ⟨t, rows, rfl, hc, h0.symm, h2⟩

theorem cascade_eq (input : Store) (feature : String → String → Bool) :
    Clip.cascade input feature =
      match Clip.prepared input feature with
      | (db2, some e) => (db2, some e)
      | (db2, none) => ExecScript db2 clipScript := by
  unfold Clip.cascade Clip.prepared
  dsimp only
  cases execCreateTable input "__gtfs2sqlite_stops_inside" ["stop_id"] with
  | error e => rfl
  | ok db1 =>
    dsimp only
    cases Clip.selectStops db1 with
    | error e => rfl
    | ok stmts =>
      dsimp only

theorem cascade_ok {input : Store} {feature : String → String → Bool} {out : Store}
    (h : Clip.cascade input feature = (out, none)) :
    ∃ db2, Clip.prepared input feature = (db2, none) ∧ execStatements clipScript db2 = .ok out := by
  rw [cascade_eq] at h
  cases hp : Clip.prepared input feature with
  | mk db2 oe =>
    rw [hp] at h
    cases oe with
    | some e => simp at h
    | none =>
      simp only [ExecScript] at h
      cases hs : execStatements clipScript db2 with
      | error e => simp [hs] at h
      | ok d =>
        rw [hs] at h
        simp only [Prod.mk.injEq, and_true] at h
        exact ⟨db2, rfl, by rw [hs, h]⟩

/-! ## The first three statements of the script -/

theorem execDelete_notIn_ok {db db1 : Store} {table column : String} {q : List Select}
    (h : execDelete db table (.notIn column q) = .ok db1) :
    ∃ t vs, findTable db table = .ok t ∧ column ∈ t.columns ∧ evalUnion db q = .ok vs ∧
      db1 = modifyTable table
        (fun u => { u with rows := u.rows.filter (keptBy t.columns column vs) }) db ∧
      findTable db1 table = .ok { t with rows := t.rows.filter (keptBy t.columns column vs) } ∧
      ∀ n, n ≠ table → findTable db1 n = findTable db n := by
  rw [execDelete_notIn] at h
  cases ht : findTable db table with
  | error e => simp [ht] at h
  | ok t =>
    simp only [ht] at h
    by_cases hc : column ∈ t.columns
    · simp only [hc, if_true] at h
      cases hu : evalUnion db q with
      | error e => simp [hu] at h
      | ok vs =>
        simp only [hu, Except.ok.injEq] at h
        have hfind := fun n => findTable_modifyTable db table n
          (fun u => { u with rows := u.rows.filter (keptBy t.columns column vs) }) (fun _ => rfl)
        have h1 : db1 = modifyTable table
            (fun u => { u with rows := u.rows.filter (keptBy t.columns column vs) }) db :=
          h.symm
        refine ⟨t, vs, rfl, hc, rfl, h1, ?_, ?_⟩
        · rw [h1, hfind, ht]
          simp
        · intro n hn
          rw [h1, hfind]
          cases findTable db n with
          | error e => rfl
          | ok u => simp [hn]
    · simp [hc] at h

theorem evalSelect_distinct_ok {db : Store} {column table : String} {vs : List Value}
    (h : evalSelect db (selDistinct column table) = .ok vs) :
    ∃ t, findTable db table = .ok t ∧ column ∈ t.columns ∧
      vs = (t.rows.map (fun r => r.get t.columns column)).dedup := by
  rw [evalSelect_distinct] at h
  cases ht : findTable db table with
  | error e => simp [ht] at h
  | ok t =>
    simp only [ht] at h
    by_cases hc : column ∈ t.columns
    · simp only [hc, if_true, Except.ok.injEq] at h
      exact ⟨t, rfl, hc, h.symm⟩
    · simp [hc] at h

theorem evalSelect_whereNotNull_ok {db : Store} {column table wcolumn : String}
    {vs : List Value}
    (h : evalSelect db
      { distinct := true, column := column, table := table, wher := some (.isNotNull wcolumn) }
        = .ok vs) :
    ∃ t, findTable db table = .ok t ∧ column ∈ t.columns ∧ wcolumn ∈ t.columns ∧
      vs = ((t.rows.filter (fun r => decide (r.get t.columns wcolumn ≠ none))).map
        (fun r => r.get t.columns column)).dedup := by
  rw [evalSelect_whereNotNull] at h
  cases ht : findTable db table with
  | error e => simp [ht] at h
  | ok t =>
    simp only [ht] at h
    by_cases hc : column ∈ t.columns
    · by_cases hw : wcolumn ∈ t.columns
      · simp only [hc, hw, if_true, Except.ok.injEq] at h
        exact ⟨t, rfl, hc, hw, h.symm⟩
      · simp [hc, hw] at h
    · simp [hc] at h

theorem evalSelect_whereInTable_ok {db : Store} {column table wcolumn wtable : String}
    {vs : List Value}
    (h : evalSelect db
      { distinct := true, column := column, table := table,
        wher := some (.inTable wcolumn wtable) } = .ok vs) :
    ∃ t u c, findTable db table = .ok t ∧ column ∈ t.columns ∧ wcolumn ∈ t.columns ∧
      findTable db wtable = .ok u ∧ u.columns = [c] ∧
      vs = ((t.rows.filter (fun r =>
          decide (sqlIn (r.get t.columns wcolumn)
            (u.rows.map (fun x => x.get u.columns c)) = some true))).map
        (fun r => r.get t.columns column)).dedup := by
  rw [evalSelect_whereInTable] at h
  cases ht : findTable db table with
  | error e => simp [ht] at h
  | ok t =>
    simp only [ht] at h
    by_cases hc : column ∈ t.columns
    · simp only [hc, if_true] at h
      cases hu : findTable db wtable with
      | error e => simp [hu] at h
      | ok u =>
        simp only [hu] at h
        by_cases hw : wcolumn ∈ t.columns
        · simp only [hw, if_true] at h
          cases hcols : u.columns with
          | nil => simp [hcols] at h
          | cons c rest =>
            cases rest with
            | nil =>
              simp only [hcols, Except.ok.injEq] at h
              refine ⟨t, u, c, rfl, hc, hw, rfl, hcols, ?_⟩
              rw [hcols]
              exact h.symm
            | cons c2 rest2 => simp [hcols] at h
        · simp [hw] at h
    · simp [hc] at h

theorem evalUnion_pair_ok {db : Store} {a b : Select} {vs : List Value}
    (h : evalUnion db [a, b] = .ok vs) :
    ∃ va vb, evalSelect db a = .ok va ∧ evalSelect db b = .ok vb ∧ vs = (va ++ vb).dedup := by
  rw [evalUnion_pair] at h
  cases ha : evalSelect db a with
  | error e => simp [ha] at h
  | ok va =>
    simp only [ha] at h
    cases hb : evalSelect db b with
    | error e => simp [hb] at h
    | ok vb =>
      simp only [hb, Except.ok.injEq] at h
      exact ⟨va, vb, rfl, rfl, h.symm⟩

theorem clipScript_take3 :
    clipScript.take 3 = [.delete "trips" tripsClause, .delete "stop_times" stopTimesClause,
      .delete "stops" stopsClause] := by
  decide

theorem script_split {db2 out : Store} (h : execStatements clipScript db2 = .ok out) :
    ∃ s1 s2 s3, execDelete db2 "trips" tripsClause = .ok s1 ∧
      execDelete s1 "stop_times" stopTimesClause = .ok s2 ∧
      execDelete s2 "stops" stopsClause = .ok s3 ∧
      execStatements (clipScript.drop 3) s3 = .ok out := by
  rw [← List.take_append_drop 3 clipScript, execStatements_append, clipScript_take3] at h
  simp only [execStatements, execStatement] at h
  cases h1 : execDelete db2 "trips" tripsClause with
  | error e => simp [h1] at h
  | ok s1 =>
    simp only [h1] at h
    cases h2 : execDelete s1 "stop_times" stopTimesClause with
    | error e => simp [h2] at h
    | ok s2 =>
      simp only [h2] at h
      cases h3 : execDelete s2 "stops" stopsClause with
      | error e => simp [h3] at h
      | ok s3 =>
        simp only [h3] at h
        exact ⟨s1, s2, s3, rfl, h2, h3, h⟩

/-- What the first three statements of the script do to trips, stop_times and stops. -/
theorem head_spec {db2 s1 s2 s3 : Store}
    (h1 : execDelete db2 "trips" tripsClause = .ok s1)
    (h2 : execDelete s1 "stop_times" stopTimesClause = .ok s2)
    (h3 : execDelete s2 "stops" stopsClause = .ok s3) :
    ∃ (tr st sp ins : Table) (c : String) (A TR SS : List Value),
      findTable db2 "trips" = .ok tr ∧ findTable db2 "stop_times" = .ok st ∧
      findTable db2 "stops" = .ok sp ∧ findTable db2 "__gtfs2sqlite_stops_inside" = .ok ins ∧
      ins.columns = [c] ∧
      "trip_id" ∈ tr.columns ∧ "trip_id" ∈ st.columns ∧ "stop_id" ∈ st.columns ∧
      "stop_id" ∈ sp.columns ∧ "parent_station" ∈ sp.columns ∧
      findTable s3 "trips"
        = .ok { tr with rows := tr.rows.filter (keptBy tr.columns "trip_id" A) } ∧
      findTable s3 "stop_times"
        = .ok { st with rows := st.rows.filter (keptBy st.columns "trip_id" TR) } ∧
      findTable s3 "stops"
        = .ok { sp with rows := sp.rows.filter (keptBy sp.columns "stop_id" SS) } ∧
      (∀ n, n ≠ "trips" → n ≠ "stop_times" → n ≠ "stops" → findTable s3 n = findTable db2 n) ∧
      (∀ x, x ∈ A ↔ ∃ r ∈ st.rows,
        sqlIn (r.get st.columns "stop_id") (ins.rows.map (fun y => y.get ins.columns c))
          = some true ∧ r.get st.columns "trip_id" = x) ∧
      (∀ x, x ∈ TR ↔ ∃ r ∈ tr.rows,
        keptBy tr.columns "trip_id" A r = true ∧ r.get tr.columns "trip_id" = x) ∧
      (∀ x, x ∈ SS ↔
        (∃ r ∈ st.rows, keptBy st.columns "trip_id" TR r = true ∧ r.get st.columns "stop_id" = x) ∨
        (x ≠ none ∧ ∃ r ∈ sp.rows, r.get sp.columns "parent_station" = x)) := by
  obtain ⟨tr, A, a1, a2, a3, _, a5, a6⟩ := execDelete_notIn_ok h1
  rw [evalUnion_single] at a3
  obtain ⟨st, ins, c, b1, b2, b3, b4, b5, b6⟩ := evalSelect_whereInTable_ok a3
  obtain ⟨st1, TR, c1, _, c3, _, c5, c6⟩ := execDelete_notIn_ok h2
  have hst1 : st1 = st := by
    rw [a6 "stop_times" (by decide), b1] at c1
    simp only [Except.ok.injEq] at c1
    exact c1.symm
  subst hst1
  rw [evalUnion_single] at c3
  obtain ⟨tr1, d1, _, d3⟩ := evalSelect_distinct_ok c3
  rw [a5] at d1
  simp only [Except.ok.injEq] at d1
  subst d1
  obtain ⟨sp, SS, e1, e2, e3, _, e5, e6⟩ := execDelete_notIn_ok h3
  obtain ⟨va, vb, f1, f2, f3⟩ := evalUnion_pair_ok e3
  obtain ⟨st2, g1, _, g3⟩ := evalSelect_distinct_ok f1
  rw [c5] at g1
  simp only [Except.ok.injEq] at g1
  subst g1
  obtain ⟨sp1, k1, k2, _, k4⟩ := evalSelect_whereNotNull_ok f2
  rw [e1] at k1
  simp only [Except.ok.injEq] at k1
  subst k1
  have hsp : findTable db2 "stops" = .ok sp := by
    rw [← a6 "stops" (by decide), ← c6 "stops" (by decide)]
    exact e1
  refine ⟨tr, st1, sp, ins, c, A, TR, SS, a1, b1, hsp, b4, b5, a2, b2, b3, e2, k2, ?_, ?_, e5,
    ?_, ?_, ?_, ?_⟩
  · rw [e6 "trips" (by decide), c6 "trips" (by decide)]
    exact a5
  · rw [e6 "stop_times" (by decide)]
    exact c5
  · intro n n1 n2 n3
    rw [e6 n n3, c6 n n2, a6 n n1]
  · intro x
    rw [b6]
    simp only [List.mem_dedup, List.mem_map, List.mem_filter, decide_eq_true_eq]
    constructor
    · rintro ⟨r, ⟨hr, hin⟩, hx⟩
      exact ⟨r, hr, hin, hx⟩
    · rintro ⟨r, hr, hin, hx⟩
      exact ⟨r, ⟨hr, hin⟩, hx⟩
  · intro x
    rw [d3]
    simp only [List.mem_dedup, List.mem_map, List.mem_filter]
    constructor
    · rintro ⟨r, ⟨hr, hk⟩, hx⟩
      exact ⟨r, hr, hk, hx⟩
    · rintro ⟨r, hr, hk, hx⟩
      exact ⟨r, ⟨hr, hk⟩, hx⟩
  · intro x
    rw [f3, g3, k4]
    simp only [List.mem_dedup, List.mem_append, List.mem_map, List.mem_filter,
      decide_eq_true_eq]
    constructor
    · rintro (⟨r, ⟨hr, hk⟩, hx⟩ | ⟨r, ⟨hr, hnn⟩, hx⟩)
      · exact Or.inl ⟨r, hr, hk, hx⟩
      · exact Or.inr ⟨by rw [← hx]; exact hnn, r, hr, hx⟩
    · rintro (⟨r, hr, hk, hx⟩ | ⟨hnn, r, hr, hx⟩)
      · exact Or.inl ⟨r, ⟨hr, hk⟩, hx⟩
      · exact Or.inr ⟨r, ⟨hr, by rw [hx]; exact hnn⟩, hx⟩

/-! ## The scripted part of Clip -/

theorem drop3_targets :
    "trips" ∉ (clipScript.drop 3).map Statement.target ∧
    "stop_times" ∉ (clipScript.drop 3).map Statement.target ∧
    "stops" ∉ (clipScript.drop 3).map Statement.target := by
  decide

/-- What the scripted part of `Clip`, when it ends without error, leaves of trips,
stop_times and stops: the rows of the input that pass the tests of the first three
statements. -/
theorem cascade_spec {input : Store} {feature : String → String → Bool} {out : Store}
    (h : Clip.cascade input feature = (out, none)) :
    ∃ (tr st sp : Table) (A TR SS : List Value),
      findTable input "trips" = .ok tr ∧ findTable input "stop_times" = .ok st ∧
      findTable input "stops" = .ok sp ∧
      "trip_id" ∈ tr.columns ∧ "trip_id" ∈ st.columns ∧ "stop_id" ∈ st.columns ∧
      "stop_id" ∈ sp.columns ∧ "parent_station" ∈ sp.columns ∧
      (∀ c ∈ ["stop_id", "stop_lon", "stop_lat"], c ∈ sp.columns) ∧
      findTable out "trips"
        = .ok { tr with rows := tr.rows.filter (keptBy tr.columns "trip_id" A) } ∧
      findTable out "stop_times"
        = .ok { st with rows := st.rows.filter (keptBy st.columns "trip_id" TR) } ∧
      findTable out "stops"
        = .ok { sp with rows := sp.rows.filter (keptBy sp.columns "stop_id" SS) } ∧
      (∀ x, x ∈ A ↔ ∃ r ∈ st.rows,
        (∃ s ∈ sp.rows, insideRow feature sp s = true ∧
          r.get st.columns "stop_id" = some ((s.get sp.columns "stop_id").getD "")) ∧
        r.get st.columns "trip_id" = x) ∧
      (∀ x, x ∈ TR ↔ ∃ r ∈ tr.rows,
        keptBy tr.columns "trip_id" A r = true ∧ r.get tr.columns "trip_id" = x) ∧
      (∀ x, x ∈ SS ↔
        (∃ r ∈ st.rows, keptBy st.columns "trip_id" TR r = true ∧ r.get st.columns "stop_id" = x) ∨
        (x ≠ none ∧ ∃ r ∈ sp.rows, r.get sp.columns "parent_station" = x)) := by
  obtain ⟨db2, hprep, hscript⟩ := cascade_ok h
  obtain ⟨⟨e, hno⟩, sp0, rows, p1, p2, p3, p4⟩ := prepared_ok hprep
  obtain ⟨s1, s2, s3, h1, h2, h3, h4⟩ := script_split hscript
  obtain ⟨tr, st, sp, ins, c, A, TR, SS, a1, a2, a3, a4, a5, a6, a7, a8, a9, a10, a11, a12,
    a13, _, a15, a16, a17⟩ := head_spec h1 h2 h3
  have hframe := execStatements_frame _ h4
  have hne : ∀ n, n ≠ "__gtfs2sqlite_stops_inside" → findTable db2 n = findTable input n := by
    intro n hn
    rw [p3]
    exact findTable_append_of_ne input _ n hn
  have hins : findTable db2 "__gtfs2sqlite_stops_inside"
      = .ok { name := "__gtfs2sqlite_stops_inside", columns := ["stop_id"], rows := rows } := by
    rw [p3]
    exact findTable_append_of_error input
      { name := "__gtfs2sqlite_stops_inside", columns := ["stop_id"], rows := rows } e hno
  rw [hins] at a4
  simp only [Except.ok.injEq] at a4
  subst a4
  simp only [List.cons.injEq, and_true] at a5
  subst a5
  rw [hne "trips" (by decide)] at a1
  rw [hne "stop_times" (by decide)] at a2
  rw [hne "stops" (by decide)] at a3
  have hsp : sp0 = sp := by
    rw [p1] at a3
    simp only [Except.ok.injEq] at a3
    exact a3
  subst hsp
  refine ⟨tr, st, sp0, A, TR, SS, a1, a2, a3, a6, a7, a8, a9, a10, p2, ?_, ?_, ?_, ?_, a16, a17⟩
  · rw [hframe "trips" drop3_targets.1]
    exact a11
  · rw [hframe "stop_times" drop3_targets.2.1]
    exact a12
  · rw [hframe "stops" drop3_targets.2.2]
    exact a13
  · intro x
    rw [a15]
    simp only [p4, sqlIn_true_iff, List.mem_map, List.mem_filter]
    constructor
    · rintro ⟨r, hr, ⟨_, s, ⟨hs, hin⟩, hv⟩, hx⟩
      exact ⟨r, hr, ⟨s, hs, hin, hv.symm⟩, hx⟩
    · rintro ⟨r, hr, ⟨s, hs, hin, hv⟩, hx⟩
      exact ⟨r, hr, ⟨by rw [hv]; simp, s, ⟨hs, hin⟩, hv.symm⟩, hx⟩

theorem keptBy_iff (columns : List String) (column : String) (vs : List Value) (r : Row) :
    keptBy columns column vs r = true ↔
      vs ≠ [] ∧ (r.get columns column = none ∨ r.get columns column ∈ vs ∨ none ∈ vs) := by
  unfold keptBy
  simp only [Bool.not_eq_true', decide_eq_false_iff_not, sqlNotIn_true_iff]
  constructor
  · intro h
    push_neg at h
    refine ⟨h.1, ?_⟩
    by_cases h1 : r.get columns column = none
    · exact Or.inl h1
    · by_cases h2 : r.get columns column ∈ vs
      · exact Or.inr (Or.inl h2)
      · exact Or.inr (Or.inr (h.2 h1 h2))
  · rintro ⟨hne, h⟩
    push_neg
    refine ⟨hne, ?_⟩
    intro h1 h2
    rcases h with h | h | h
    · exact absurd h h1
    · exact absurd h h2
    · exact h

theorem keptBy_of_mem (columns : List String) (column : String) (vs : List Value) (r : Row)
    (h : r.get columns column ∈ vs) : keptBy columns column vs r = true := by
  rw [keptBy_iff]
  exact ⟨List.ne_nil_of_mem h, Or.inr (Or.inl h)⟩

/-- When the scripted part of `Clip` ends with an error, the output keeps every table of
the input as it was and holds a table `__gtfs2sqlite_stops_inside`. -/
theorem cascade_error {input : Store} {feature : String → String → Bool} {out : Store}
    {e : Err} (h : Clip.cascade input feature = (out, some e)) :
    (∃ u, out.find? (fun t => t.name == "__gtfs2sqlite_stops_inside") = some u) ∧
    ∀ n, n ≠ "__gtfs2sqlite_stops_inside" → findTable out n = findTable input n := by
  unfold Clip.cascade execCreateTable at h
  dsimp only at h
  cases hfind : input.find? (fun t => t.name == "__gtfs2sqlite_stops_inside") with
  | some u =>
    simp only [hfind, Prod.mk.injEq] at h
    rw [← h.1]
    exact ⟨⟨u, hfind⟩, fun _ _ => rfl⟩
  | none =>
    obtain ⟨e0, he0⟩ := (findTable_error_iff input _).mpr hfind
    simp only [hfind] at h
    have happ : ∀ u : Table, u.name = "__gtfs2sqlite_stops_inside" →
        (∃ v, (input ++ [u]).find? (fun t => t.name == "__gtfs2sqlite_stops_inside") = some v) ∧
        ∀ n, n ≠ "__gtfs2sqlite_stops_inside" → findTable (input ++ [u]) n = findTable input n := by
      intro u hu
      refine ⟨?_, fun n hn => ?_⟩
      · rw [List.find?_append, hfind]
        exact ⟨u, by simp [hu]⟩
      · have := findTable_append_of_ne input u n
        rw [hu] at this
        exact this hn
    generalize hsel : Clip.selectStops _ = sel at h
    cases sel with
    | error e1 =>
      simp only [Prod.mk.injEq] at h
      rw [← h.1]
      exact happ _ rfl
    | ok stmts =>
      simp only at h
      obtain ⟨rows, hm, _⟩ := markInside_spec feature input e0 he0 stmts []
      rw [hm] at h
      simp only [ExecScript] at h
      generalize hs : execStatements clipScript _ = res at h
      cases res with
      | error e1 =>
        simp only [Prod.mk.injEq] at h
        rw [← h.1]
        exact happ _ rfl
      | ok d => simp at h

/-! ## Which stops Clip keeps -/

theorem rowsOf_of_findTable {db : Store} {n : String} {t : Table} (h : findTable db n = .ok t) :
    rowsOf db n = t.rows := by
  unfold rowsOf
  rw [h]

theorem cell_of_findTable {db : Store} {n : String} {t : Table} (h : findTable db n = .ok t)
    (r : Row) (c : String) : cell db n r c = r.get t.columns c := by
  unfold cell
  rw [h]

theorem isInside_of_findTable {db : Store} {t : Table} (h : findTable db "stops" = .ok t)
    (feature : String → String → Bool) (r : Row) :
    isInside feature db r = insideRow feature t r := by
  unfold isInside insideRow cellText
  rw [cell_of_findTable h, cell_of_findTable h]

theorem some_getD_of_ne_none {v : Value} (h : v ≠ none) : v = some (v.getD "") := by
  cases v with
  | none => exact absurd rfl h
  | some x => rfl

/-- A stops row whose stop_id is the parent_station of a stops row of the input is in the
stops table that the scripted part of `Clip` leaves. -/
theorem cascade_keeps_parent (input : Store) (feature : String → String → Bool) (P child : Row)
    (hP : P ∈ rowsOf input "stops") (hchild : child ∈ rowsOf input "stops")
    (hid : cell input "stops" P "stop_id" ≠ none)
    (href : cell input "stops" child "parent_station" = cell input "stops" P "stop_id") :
    P ∈ rowsOf (Clip.cascade input feature).1 "stops" ∧
    ∀ c, cell (Clip.cascade input feature).1 "stops" P c = cell input "stops" P c := by
  cases hc : Clip.cascade input feature with
  | mk out oe =>
    cases oe with
    | some e =>
      obtain ⟨_, hframe⟩ := cascade_error hc
      have hs := hframe "stops" (by decide)
      refine ⟨?_, fun c => ?_⟩
      · show P ∈ rowsOf out "stops"
        unfold rowsOf at hP ⊢
        rw [hs]
        exact hP
      · show cell out "stops" P c = cell input "stops" P c
        unfold cell
        rw [hs]
    | none =>
      obtain ⟨tr, st, sp, A, TR, SS, _, _, a3, _, _, _, _, _, _, _, _, o3, _, _, hSS⟩ :=
        cascade_spec hc
      rw [rowsOf_of_findTable a3] at hP hchild
      rw [cell_of_findTable a3] at hid href
      rw [cell_of_findTable a3] at href
      refine ⟨?_, fun c => ?_⟩
      · show P ∈ rowsOf out "stops"
        rw [rowsOf_of_findTable o3]
        refine List.mem_filter.mpr ⟨hP, keptBy_of_mem _ _ _ _ ?_⟩
        exact (hSS _).mpr (Or.inr ⟨hid, child, hchild, href⟩)
      · show cell out "stops" P c = cell input "stops" P c
        rw [cell_of_findTable o3, cell_of_findTable a3]

/-- C16: a stops row P whose stop_id is the parent_station of a child stop is still in the
stops table of the output of Clip, for every store, feature and iteration order: the
sub-select of parent_station values is taken before any stop is deleted, so the
reference of the child counts whether the child is deleted or not, whether P has any
other reference or not, and whether P is inside the feature or not. -/
theorem Clip_keeps_parent_of_deleted_child (order : Nat → Schema) (fuel : Nat) (hfuel : 1 ≤ fuel)
    (input : Store) (feature : String → String → Bool) (P child : Row)
    (hP : P ∈ rowsOf input "stops") (hchild : child ∈ rowsOf input "stops")
    (hid : cell input "stops" P "stop_id" ≠ none)
    (href : cell input "stops" child "parent_station" = cell input "stops" P "stop_id") :
    ∃ r, Clip order fuel input feature = some r ∧ P ∈ rowsOf r.output "stops" := by
  obtain ⟨r, hr, hout⟩ := Clip_output_of_cascade order hfuel input feature
  refine ⟨r, hr, ?_⟩
  rw [hout]
  exact (cascade_keeps_parent input feature P child hP hchild hid href).1

/-- C16, instance: in `parentDB` the station P lies inside the feature `everywhere`, its
only reference is the parent_station of the child stop C, Clip deletes C (no stop_times
row has its stop_id), and P is in the output. -/
theorem Clip_keeps_parent_of_deleted_child_witness :
    1 ≤ 1 ∧ stopP ∈ rowsOf parentDB "stops" ∧ stopC ∈ rowsOf parentDB "stops" ∧
    cell parentDB "stops" stopP "stop_id" ≠ none ∧
    cell parentDB "stops" stopC "parent_station" = cell parentDB "stops" stopP "stop_id" ∧
    isInside everywhere parentDB stopP = true ∧
    rowsOf parentDB "stop_times" = [] ∧
    stopC ∉ rowsOf (Clip.cascade parentDB everywhere).1 "stops" ∧
    ∃ r, Clip sourceOrder 1 parentDB everywhere = some r ∧ stopP ∈ rowsOf r.output "stops" :=
  ⟨by decide, by decide, by decide, by decide, by decide, by decide, by decide, by decide,
    Clip_keeps_parent_of_deleted_child sourceOrder 1 (by decide) parentDB everywhere stopP stopC
      (by decide) (by decide) (by decide) (by decide)⟩

/-- C17: in a store in which every non-null parent_station of a stops row is the stop_id of
a stops row, the same holds of the store that the scripted part of Clip leaves: every
stops row still there with a non-null parent_station has a stops row with that stop_id
still there. -/
theorem cascade_no_dangling_parent (input : Store) (feature : String → String → Bool)
    (h : ∀ c ∈ rowsOf input "stops", cell input "stops" c "parent_station" ≠ none →
      ∃ p ∈ rowsOf input "stops", cell input "stops" p "stop_id" = cell input "stops" c "parent_station") :
    ∀ c ∈ rowsOf (Clip.cascade input feature).1 "stops",
      cell (Clip.cascade input feature).1 "stops" c "parent_station" ≠ none →
      ∃ p ∈ rowsOf (Clip.cascade input feature).1 "stops",
        cell (Clip.cascade input feature).1 "stops" p "stop_id"
          = cell (Clip.cascade input feature).1 "stops" c "parent_station" := by
  intro c hc hne
  have hcin : c ∈ rowsOf input "stops" ∧
      ∀ k, cell (Clip.cascade input feature).1 "stops" c k = cell input "stops" c k := by
    cases hcas : Clip.cascade input feature with
    | mk out oe =>
      rw [hcas] at hc
      cases oe with
      | some e =>
        obtain ⟨_, hframe⟩ := cascade_error hcas
        have hs := hframe "stops" (by decide)
        refine ⟨?_, fun k => ?_⟩
        · unfold rowsOf at hc ⊢
          rw [← hs]
          exact hc
        · show cell out "stops" c k = cell input "stops" c k
          unfold cell
          rw [hs]
      | none =>
        obtain ⟨tr, st, sp, A, TR, SS, _, _, a3, _, _, _, _, _, _, _, _, o3, _, _, _⟩ :=
          cascade_spec hcas
        refine ⟨?_, fun k => ?_⟩
        · rw [rowsOf_of_findTable a3]
          have hc2 : c ∈ rowsOf out "stops" := hc
          rw [rowsOf_of_findTable o3] at hc2
          exact (List.mem_filter.mp hc2).1
        · show cell out "stops" c k = cell input "stops" c k
          rw [cell_of_findTable o3, cell_of_findTable a3]
  rw [hcin.2] at hne ⊢
  obtain ⟨p, hp, hpid⟩ := h c hcin.1 hne
  have hk := cascade_keeps_parent input feature p c hp hcin.1 (by rw [hpid]; exact hne) hpid.symm
  exact ⟨p, hk.1, by rw [hk.2]; exact hpid⟩

theorem cascade_no_dangling_parent_witness :
    (∀ c ∈ rowsOf parentDB "stops", cell parentDB "stops" c "parent_station" ≠ none →
      ∃ p ∈ rowsOf parentDB "stops",
        cell parentDB "stops" p "stop_id" = cell parentDB "stops" c "parent_station") ∧
    ∀ c ∈ rowsOf (Clip.cascade parentDB everywhere).1 "stops",
      cell (Clip.cascade parentDB everywhere).1 "stops" c "parent_station" ≠ none →
      ∃ p ∈ rowsOf (Clip.cascade parentDB everywhere).1 "stops",
        cell (Clip.cascade parentDB everywhere).1 "stops" p "stop_id"
          = cell (Clip.cascade parentDB everywhere).1 "stops" c "parent_station" :=
  ⟨by decide, cascade_no_dangling_parent parentDB everywhere (by decide)⟩

/-- C14, counterexample: in `lonelyStopDB` the stop S2 (rowid 2) lies inside the feature
`everywhere`, no stop_times row and no stop refers to it, and Clip deletes it: the output
is `smallDB`, whose stops table holds the stop S1 only. -/
theorem Clip_deletes_unreferenced_inside_stop :
    ∃ s ∈ rowsOf lonelyStopDB "stops",
      s.rowid = 2 ∧ cell lonelyStopDB "stops" s "stop_id" = some "S2" ∧
      isInside everywhere lonelyStopDB s = true ∧
      Clip sourceOrder 1 lonelyStopDB everywhere = some { err := none, output := smallDB } ∧
      s ∉ rowsOf smallDB "stops" := by
  decide

/-- A stops row inside the feature is still present after Clip when it is referenced: when
a stop_times row has its stop_id and the trip_id of that row is the trip_id of some trips
row, or when some stops row names it as parent_station. -/
theorem Clip_keeps_referenced_inside_stop (order : Nat → Schema) (fuel : Nat) (hfuel : 1 ≤ fuel)
    (input : Store) (feature : String → String → Bool) (s : Row)
    (hs : s ∈ rowsOf input "stops") (hin : isInside feature input s = true)
    (hid : cell input "stops" s "stop_id" ≠ none)
    (href : (∃ r ∈ rowsOf input "stop_times",
        cell input "stop_times" r "stop_id" = cell input "stops" s "stop_id" ∧
        ∃ t ∈ rowsOf input "trips",
          cell input "trips" t "trip_id" = cell input "stop_times" r "trip_id") ∨
      (∃ c ∈ rowsOf input "stops",
        cell input "stops" c "parent_station" = cell input "stops" s "stop_id")) :
    ∃ r, Clip order fuel input feature = some r ∧ s ∈ rowsOf r.output "stops" := by
  obtain ⟨r, hr, hout⟩ := Clip_output_of_cascade order hfuel input feature
  refine ⟨r, hr, ?_⟩
  rw [hout]
  rcases href with ⟨x, hx, hxs, t, ht, hxt⟩ | ⟨c, hc, hcs⟩
  · cases hcas : Clip.cascade input feature with
    | mk out oe =>
      cases oe with
      | some e =>
        obtain ⟨_, hframe⟩ := cascade_error hcas
        show s ∈ rowsOf out "stops"
        unfold rowsOf at hs ⊢
        rw [hframe "stops" (by decide)]
        exact hs
      | none =>
        obtain ⟨tr, st, sp, A, TR, SS, a1, a2, a3, _, _, _, _, _, _, _, _, o3, hA, hTR, hSS⟩ :=
          cascade_spec hcas
        rw [rowsOf_of_findTable a3] at hs
        rw [rowsOf_of_findTable a2] at hx
        rw [rowsOf_of_findTable a1] at ht
        rw [isInside_of_findTable a3] at hin
        rw [cell_of_findTable a3] at hid hxs
        rw [cell_of_findTable a2] at hxs hxt
        rw [cell_of_findTable a1] at hxt
        show s ∈ rowsOf out "stops"
        rw [rowsOf_of_findTable o3]
        have h1 : x.get st.columns "trip_id" ∈ A :=
          (hA _).mpr ⟨x, hx, ⟨s, hs, hin, by rw [hxs]; exact some_getD_of_ne_none hid⟩, rfl⟩
        have h2 : x.get st.columns "trip_id" ∈ TR :=
          (hTR _).mpr ⟨t, ht, keptBy_of_mem _ _ _ _ (by rw [hxt]; exact h1), hxt⟩
        have h3 : s.get sp.columns "stop_id" ∈ SS :=
          (hSS _).mpr (Or.inl ⟨x, hx, keptBy_of_mem _ _ _ _ h2, hxs⟩)
        exact List.mem_filter.mpr ⟨hs, keptBy_of_mem _ _ _ _ h3⟩
  · exact (cascade_keeps_parent input feature s c hs hc hid hcs).1

theorem Clip_keeps_referenced_inside_stop_witness :
    1 ≤ 1 ∧ stopS1 ∈ rowsOf smallDB "stops" ∧ isInside everywhere smallDB stopS1 = true ∧
    cell smallDB "stops" stopS1 "stop_id" ≠ none ∧
    ((∃ r ∈ rowsOf smallDB "stop_times",
        cell smallDB "stop_times" r "stop_id" = cell smallDB "stops" stopS1 "stop_id" ∧
        ∃ t ∈ rowsOf smallDB "trips",
          cell smallDB "trips" t "trip_id" = cell smallDB "stop_times" r "trip_id") ∨
      (∃ c ∈ rowsOf smallDB "stops",
        cell smallDB "stops" c "parent_station" = cell smallDB "stops" stopS1 "stop_id")) ∧
    ∃ r, Clip sourceOrder 1 smallDB everywhere = some r ∧ stopS1 ∈ rowsOf r.output "stops" :=
  ⟨by decide, by decide, by decide, by decide, by decide,
    Clip_keeps_referenced_inside_stop sourceOrder 1 (by decide) smallDB everywhere stopS1
      (by decide) (by decide) (by decide) (by decide)⟩

/-- C15, counterexample: in `twoStopDB` the stop S2 (rowid 2, stop_lon 9) lies outside the
feature `lonTwo`, no stop names it as parent_station, the trip T1 that serves it survives
because it also serves S1 inside the feature, and Clip retains S2: the output is the
input. -/
theorem Clip_retains_outside_stop_of_surviving_trip :
    ∃ s ∈ rowsOf twoStopDB "stops",
      s.rowid = 2 ∧ cell twoStopDB "stops" s "stop_id" = some "S2" ∧
      isInside lonTwo twoStopDB s = false ∧
      (∀ c ∈ rowsOf twoStopDB "stops", cell twoStopDB "stops" c "parent_station" = none) ∧
      Clip sourceOrder 1 twoStopDB lonTwo = some { err := none, output := twoStopDB } ∧
      s ∈ rowsOf twoStopDB "stops" := by
  decide

/-- C15, amended: when the scripted part of Clip ends without error on a store whose
stop_times rows all have a stop_id, a stops row with a stop_id is in the output exactly
when a stop_times row of the output has its stop_id or a stops row of the input names it
as parent_station.  Whether the stop lies inside the feature plays no part: a stop
outside the feature that a surviving trip serves is retained. -/
theorem Clip_stops_retained_iff (order : Nat → Schema) (fuel : Nat) (hfuel : 1 ≤ fuel)
    (input : Store) (feature : String → String → Bool)
    (hok : (Clip.cascade input feature).2 = none)
    (hst : ∀ x ∈ rowsOf input "stop_times", cell input "stop_times" x "stop_id" ≠ none)
    (s : Row) (hs : s ∈ rowsOf input "stops") (hid : cell input "stops" s "stop_id" ≠ none) :
    ∃ r, Clip order fuel input feature = some r ∧
      (s ∈ rowsOf r.output "stops" ↔
        (∃ x ∈ rowsOf r.output "stop_times",
          cell r.output "stop_times" x "stop_id" = cell input "stops" s "stop_id") ∨
        (∃ c ∈ rowsOf input "stops",
          cell input "stops" c "parent_station" = cell input "stops" s "stop_id")) := by
  obtain ⟨r, hr, hout⟩ := Clip_output_of_cascade order hfuel input feature
  refine ⟨r, hr, ?_⟩
  rw [hout]
  cases hcas : Clip.cascade input feature with
  | mk out oe =>
    rw [hcas] at hok
    simp only at hok
    subst hok
    obtain ⟨tr, st, sp, A, TR, SS, a1, a2, a3, _, _, _, _, _, _, _, o2, o3, hA, hTR, hSS⟩ :=
      cascade_spec hcas
    rw [rowsOf_of_findTable a3] at hs
    rw [rowsOf_of_findTable a2] at hst
    rw [cell_of_findTable a3] at hid
    show s ∈ rowsOf out "stops" ↔
        (∃ x ∈ rowsOf out "stop_times",
          cell out "stop_times" x "stop_id" = cell input "stops" s "stop_id") ∨
        (∃ c ∈ rowsOf input "stops",
          cell input "stops" c "parent_station" = cell input "stops" s "stop_id")
    rw [rowsOf_of_findTable o3, rowsOf_of_findTable o2, rowsOf_of_findTable a3]
    simp only [cell_of_findTable a3, cell_of_findTable o2]
    have hnone : none ∉ SS := by
      intro hmem
      rcases (hSS none).mp hmem with ⟨x, hx, _, hxn⟩ | ⟨hne, _⟩
      · have := hst x hx
        rw [cell_of_findTable a2] at this
        exact this hxn
      · exact hne rfl
    have hkept : keptBy sp.columns "stop_id" SS s = true ↔ s.get sp.columns "stop_id" ∈ SS := by
      rw [keptBy_iff]
      constructor
      · rintro ⟨_, h | h | h⟩
        · exact absurd h hid
        · exact h
        · exact absurd h hnone
      · intro h
        exact ⟨List.ne_nil_of_mem h, Or.inr (Or.inl h)⟩
    simp only [List.mem_filter, hs, true_and, hkept, hSS]
    constructor
    · rintro (⟨x, hx, hk, hxs⟩ | ⟨_, c, hc, hcs⟩)
      · exact Or.inl ⟨x, ⟨hx, hk⟩, hxs⟩
      · exact Or.inr ⟨c, hc, hcs⟩
    · rintro (⟨x, ⟨hx, hk⟩, hxs⟩ | ⟨c, hc, hcs⟩)
      · exact Or.inl ⟨x, hx, hk, hxs⟩
      · exact Or.inr ⟨hid, c, hc, hcs⟩

theorem Clip_stops_retained_iff_witness :
    1 ≤ 1 ∧ (Clip.cascade twoStopDB lonTwo).2 = none ∧
    (∀ x ∈ rowsOf twoStopDB "stop_times", cell twoStopDB "stop_times" x "stop_id" ≠ none) ∧
    stopS2 ∈ rowsOf twoStopDB "stops" ∧ cell twoStopDB "stops" stopS2 "stop_id" ≠ none ∧
    ∃ r, Clip sourceOrder 1 twoStopDB lonTwo = some r ∧
      (stopS2 ∈ rowsOf r.output "stops" ↔
        (∃ x ∈ rowsOf r.output "stop_times",
          cell r.output "stop_times" x "stop_id" = cell twoStopDB "stops" stopS2 "stop_id") ∨
        (∃ c ∈ rowsOf twoStopDB "stops",
          cell twoStopDB "stops" c "parent_station" = cell twoStopDB "stops" stopS2 "stop_id")) :=
  ⟨by decide, by decide, by decide, by decide, by decide,
    Clip_stops_retained_iff sourceOrder 1 (by decide) twoStopDB lonTwo (by decide) (by decide)
      stopS2 (by decide) (by decide)⟩

/-! ## Running a script of `DELETE`s a second time -/

theorem compileExpr_rows (db : Store) (t : Table) (rs : List Row) (w : Expr) :
    compileExpr db { t with rows := rs } w = compileExpr db t w := by
  induction w with
  | isNotNull c => rfl
  | notIn c q => rfl
  | rowidEq i => rfl
  | and a b iha ihb => simp only [compileExpr, iha, ihb]
  | or a b iha ihb => simp only [compileExpr, iha, ihb]

theorem evalSubWhere_congr {D A : Store} (t : Table) (w : SubWhere)
    (h : ∀ c n, w = .inTable c n → findTable D n = findTable A n) :
    evalSubWhere D t w = evalSubWhere A t w := by
  cases w with
  | isNotNull c => rfl
  | inTable c n => simp only [evalSubWhere, h c n rfl]

theorem evalSelect_congr {D A : Store} (s : Select)
    (h : ∀ n ∈ s.refs, findTable D n = findTable A n) : evalSelect D s = evalSelect A s := by
  have h1 : findTable D s.table = findTable A s.table := h _ (by simp [Select.refs])
  have h2 : ∀ w, s.wher = some w → ∀ t, evalSubWhere D t w = evalSubWhere A t w := by
    intro w hw t
    apply evalSubWhere_congr
    intro c n hcn
    apply h
    simp [Select.refs, hw, hcn]
  unfold evalSelect
  rw [h1]
  cases findTable A s.table with
  | error e => rfl
  | ok t =>
    simp only
    cases checkColumn t s.column with
    | error e => rfl
    | ok _ =>
      simp only
      cases hw : s.wher with
      | none => rfl
      | some w => simp only [h2 w hw t]

theorem evalSelects_congr {D A : Store} (q : List Select)
    (h : ∀ n ∈ q.flatMap Select.refs, findTable D n = findTable A n) :
    evalSelects D q = evalSelects A q := by
  induction q with
  | nil => rfl
  | cons s rest ih =>
    have hs : evalSelect D s = evalSelect A s :=
      evalSelect_congr s (fun n hn => h n (by simp [List.flatMap_cons, hn]))
    have hr : evalSelects D rest = evalSelects A rest :=
      ih (fun n hn => h n (by
        rw [List.flatMap_cons]
        exact List.mem_append_right _ hn))
    simp only [evalSelects, hs, hr]

theorem evalUnion_congr {D A : Store} (q : List Select)
    (h : ∀ n ∈ q.flatMap Select.refs, findTable D n = findTable A n) :
    evalUnion D q = evalUnion A q := by
  unfold evalUnion
  rw [evalSelects_congr q h]

theorem compileExpr_congr {D A : Store} (t : Table) (w : Expr)
    (h : ∀ n ∈ w.refs, findTable D n = findTable A n) :
    compileExpr D t w = compileExpr A t w := by
  induction w with
  | isNotNull c => rfl
  | notIn c q =>
    have hq : evalUnion D q = evalUnion A q := evalUnion_congr q h
    simp only [compileExpr, hq]
  | rowidEq i => rfl
  | and a b iha ihb =>
    have ha := iha (fun n hn => h n (by simp [Expr.refs, hn]))
    have hb := ihb (fun n hn => h n (by simp [Expr.refs, hn]))
    simp only [compileExpr, ha, hb]
  | or a b iha ihb =>
    have ha := iha (fun n hn => h n (by simp [Expr.refs, hn]))
    have hb := ihb (fun n hn => h n (by simp [Expr.refs, hn]))
    simp only [compileExpr, ha, hb]

/-- A script of `DELETE`s in dependency order that has run deletes nothing when it runs
again: on a store `D` that agrees with the result `Z` of the first run on the tables the
script reads and writes, every statement succeeds and leaves `D` as it is. -/
theorem rerun_noop : ∀ (ds : List Statement), independent ds = true →
    ∀ {A Z D : Store}, execStatements ds A = .ok Z →
      (∀ n, (n ∈ ds.map Statement.target ∨ n ∈ ds.flatMap Statement.refs) →
        findTable D n = findTable Z n) →
      execStatements ds D = .ok D := by
  intro ds
  induction ds with
  | nil => intro _ A Z D _ _; rfl
  | cons s rest ih =>
    intro hind A Z D hrun hag
    cases s with
    | dropTable n => simp [independent, Statement.isDelete] at hind
    | delete T w =>
      simp only [independent, Statement.isDelete, Statement.refs, Statement.target,
        Bool.true_and, Bool.and_eq_true, List.all_eq_true, Bool.not_eq_true',
        decide_eq_false_iff_not, List.map_cons] at hind
      obtain ⟨⟨hrefs, hT⟩, hrest⟩ := hind
      simp only [execStatements, execStatement] at hrun
      cases hA1 : execDelete A T w with
      | error e => simp [hA1] at hrun
      | ok A1 =>
        simp only [hA1] at hrun
        obtain ⟨t, p, ht, hp, _, hT1, hframe⟩ := execDelete_ok hA1
        have hZ := @execStatements_frame rest A1 Z hrun
        have hDT : findTable D T
            = .ok { t with rows := t.rows.filter (fun r => !(p r = some true)) } := by
          rw [hag T (Or.inl (by simp [Statement.target])), hZ T hT, hT1]
        have hcomp : compileExpr D { t with rows := t.rows.filter (fun r => !(p r = some true)) } w
            = .ok p := by
          rw [compileExpr_rows, ← hp]
          apply compileExpr_congr
          intro n hn
          have hn1 := hrefs n hn
          simp only [List.mem_cons, not_or] at hn1
          rw [hag n (Or.inr (by simp [List.flatMap_cons, Statement.refs, hn])), hZ n hn1.2,
            hframe n hn1.1]
        have hD : execDelete D T w = .ok D := by
          apply execDelete_noop hDT hcomp
          intro r hr
          have := (List.mem_filter.mp hr).2
          simpa using this
        simp only [execStatements, execStatement, hD]
        apply ih hrest hrun
        intro n hn
        apply hag
        rcases hn with hn | hn
        · exact Or.inl (by simp [hn])
        · exact Or.inr (by
            rw [List.flatMap_cons]
            exact List.mem_append_right _ hn)

/-- A script of `DELETE`s on tables other than the last table of the store leaves that
table where and as it is. -/
theorem deletes_shape (I : Table) : ∀ (ds : List Statement),
    (∀ s ∈ ds, s.isDelete = true ∧ s.target ≠ I.name) →
    ∀ {Y Z : Store} (e : Err), findTable Y I.name = .error e →
      execStatements ds (Y ++ [I]) = .ok Z →
      ∃ Y1 e1, Z = Y1 ++ [I] ∧ findTable Y1 I.name = .error e1 := by
  intro ds
  induction ds with
  | nil =>
    intro _ Y Z e he h
    simp only [execStatements, Except.ok.injEq] at h
    exact ⟨Y, e, h.symm, he⟩
  | cons s rest ih =>
    intro hds Y Z e he h
    have hs := hds s (List.mem_cons_self _ _)
    cases s with
    | dropTable n => simp [Statement.isDelete] at hs
    | delete T w =>
      simp only [Statement.target] at hs
      simp only [execStatements, execStatement] at h
      cases hA1 : execDelete (Y ++ [I]) T w with
      | error e0 => simp [hA1] at h
      | ok A1 =>
        simp only [hA1] at h
        obtain ⟨t, p, _, _, hA1eq, _, _⟩ := execDelete_ok hA1
        rw [modifyTable_append_of_ne Y I T _ hs.2] at hA1eq
        obtain ⟨e1, he1⟩ := findTable_modifyTable_error Y T I.name
          (fun u => { u with rows := u.rows.filter (fun r => !(p r = some true)) })
          (fun _ => rfl) e he
        rw [hA1eq] at h
        exact ih (fun s hs => hds s (List.mem_cons_of_mem _ hs)) e1 he1 h

theorem find_append_last (Y : Store) (I : Table)
    (h : Y.find? (fun t => t.name == I.name) = none) :
    (Y ++ [I]).find? (fun t => t.name == I.name) = some I := by
  rw [List.find?_append, h]
  simp

theorem execDropTable_append (Y : Store) (I : Table) (e : Err)
    (h : findTable Y I.name = .error e) : execDropTable (Y ++ [I]) I.name = .ok Y := by
  have hnone := (findTable_error_iff Y I.name).mp ⟨e, h⟩
  unfold execDropTable
  rw [find_append_last Y I hnone]
  simp only
  have hall : ∀ b ∈ Y, ¬ (fun t : Table => t.name == I.name) b = true := by
    intro b hb
    have := List.find?_eq_none.mp hnone b hb
    exact this
  rw [List.eraseP_append_right _ hall]
  simp [List.eraseP_cons]

theorem cascade_of_find {input : Store} {u : Table}
    (h : input.find? (fun t => t.name == "__gtfs2sqlite_stops_inside") = some u)
    (feature : String → String → Bool) :
    (Clip.cascade input feature).1 = input := by
  unfold Clip.cascade execCreateTable
  simp only [h]

/-! ## Clip on the output of Clip -/

theorem clipScript_split :
    clipScript = clipScript.take 20 ++ [.dropTable "__gtfs2sqlite_stops_inside"] := rfl

theorem clipScript_head :
    clipScript = .delete "trips" tripsClause :: .delete "stop_times" stopTimesClause ::
      .delete "stops" stopsClause ::
        ((clipScript.drop 3).take 17 ++ [.dropTable "__gtfs2sqlite_stops_inside"]) := rfl

theorem take20_split :
    clipScript.take 20 = clipScript.take 3 ++ (clipScript.drop 3).take 17 := rfl

theorem take20_deletes :
    ∀ s ∈ clipScript.take 20,
      s.isDelete = true ∧ s.target ≠ "__gtfs2sqlite_stops_inside" := by
  decide

theorem rest17_independent : independent ((clipScript.drop 3).take 17) = true := by
  decide

theorem rest17_names :
    "__gtfs2sqlite_stops_inside" ∉ ((clipScript.drop 3).take 17).map Statement.target ∧
    "__gtfs2sqlite_stops_inside" ∉ ((clipScript.drop 3).take 17).flatMap Statement.refs := by
  decide

/-- When the scripted part of `Clip` ends without error, its output has no table
`__gtfs2sqlite_stops_inside`, and it is, with that table at its end, the store that
statements 4 to 20 of the script have left. -/
theorem cascade_structure {input : Store} {feature : String → String → Bool} {X : Store}
    (h : Clip.cascade input feature = (X, none)) :
    ∃ (I : Table) (s3 : Store) (e : Err), I.name = "__gtfs2sqlite_stops_inside" ∧
      findTable X "__gtfs2sqlite_stops_inside" = .error e ∧
      execStatements ((clipScript.drop 3).take 17) s3 = .ok (X ++ [I]) := by
  obtain ⟨db2, hprep, hscript⟩ := cascade_ok h
  obtain ⟨⟨e, hno⟩, sp0, rows, _, _, p3, _⟩ := prepared_ok hprep
  obtain ⟨I, hI⟩ : ∃ I : Table,
      I = { name := "__gtfs2sqlite_stops_inside", columns := ["stop_id"], rows := rows } :=
    ⟨_, rfl⟩
  rw [← hI] at p3
  have hname : I.name = "__gtfs2sqlite_stops_inside" := by rw [hI]
  subst p3
  rw [clipScript_split, execStatements_append] at hscript
  cases h20 : execStatements (clipScript.take 20) (input ++ [I]) with
  | error e0 => simp [h20] at hscript
  | ok s20 =>
    rw [h20] at hscript
    simp only [execStatements, execStatement] at hscript
    obtain ⟨Y1, e1, hZ, he1⟩ := deletes_shape I (clipScript.take 20)
      (by rw [hname]; exact take20_deletes) e (by rw [hname]; exact hno) h20
    subst hZ
    have hd := execDropTable_append Y1 I e1 he1
    rw [hname] at hd he1
    rw [hd] at hscript
    simp only [Except.ok.injEq] at hscript
    subst hscript
    rw [take20_split, execStatements_append] at h20
    cases h3 : execStatements (clipScript.take 3) (input ++ [I]) with
    | error e0 => simp [h3] at h20
    | ok s3 =>
      simp only [h3] at h20
      exact ⟨I, s3, e1, hname, he1, h20⟩

theorem execStatements_cons_ok {s : Statement} {rest : List Statement} {db db1 : Store}
    (h : execStatement db s = .ok db1) :
    execStatements (s :: rest) db = execStatements rest db1 := by
  simp only [execStatements, h]

theorem keptBy_congr (columns : List String) (column : String) {vs ws : List Value}
    (h : ∀ x, x ∈ vs ↔ x ∈ ws) (r : Row) :
    keptBy columns column vs r = keptBy columns column ws r := by
  unfold keptBy
  rw [sqlNotIn_congr _ h]

theorem execDelete_notIn_noop {db : Store} {table column : String} {q : List Select}
    {t : Table} {vs : List Value} (ht : findTable db table = .ok t) (hc : column ∈ t.columns)
    (hq : evalUnion db q = .ok vs)
    (hrows : ∀ r ∈ t.rows, keptBy t.columns column vs r = true) :
    execDelete db table (.notIn column q) = .ok db := by
  refine @execDelete_noop db table _ t (fun r => sqlNotIn (r.get t.columns column) vs) ht ?_ ?_
  · rw [compileExpr_notIn]
    simp only [hc, if_true, hq]
  · intro r hr
    have := hrows r hr
    unfold keptBy at this
    simpa using this

theorem evalSelect_distinct_of {db : Store} {column table : String} {t : Table}
    (ht : findTable db table = .ok t) (hc : column ∈ t.columns) :
    ∃ vs, evalSelect db (selDistinct column table) = .ok vs ∧
      ∀ x, x ∈ vs ↔ ∃ r ∈ t.rows, r.get t.columns column = x := by
  refine ⟨(t.rows.map (fun r => r.get t.columns column)).dedup,
    by rw [evalSelect_distinct]; simp only [ht, hc, if_true], ?_⟩
  intro x
  simp only [List.mem_dedup, List.mem_map]

theorem evalSelect_whereNotNull_of {db : Store} {column table wcolumn : String} {t : Table}
    (ht : findTable db table = .ok t) (hc : column ∈ t.columns) (hw : wcolumn ∈ t.columns) :
    ∃ vs, evalSelect db
        { distinct := true, column := column, table := table, wher := some (.isNotNull wcolumn) }
          = .ok vs ∧
      ∀ x, x ∈ vs ↔ ∃ r ∈ t.rows, r.get t.columns wcolumn ≠ none ∧ r.get t.columns column = x := by
  refine ⟨((t.rows.filter (fun r => decide (r.get t.columns wcolumn ≠ none))).map
      (fun r => r.get t.columns column)).dedup,
    by rw [evalSelect_whereNotNull]; simp only [ht, hc, hw, if_true], ?_⟩
  intro x
  simp only [List.mem_dedup, List.mem_map, List.mem_filter, decide_eq_true_eq, and_assoc]

theorem evalSelect_whereInTable_of {db : Store} {column table wcolumn wtable c : String}
    {t u : Table} (ht : findTable db table = .ok t) (hc : column ∈ t.columns)
    (hw : wcolumn ∈ t.columns) (hu : findTable db wtable = .ok u) (hcols : u.columns = [c]) :
    ∃ vs, evalSelect db
        { distinct := true, column := column, table := table,
          wher := some (.inTable wcolumn wtable) } = .ok vs ∧
      ∀ x, x ∈ vs ↔ ∃ r ∈ t.rows,
        sqlIn (r.get t.columns wcolumn) (u.rows.map (fun y => y.get u.columns c)) = some true ∧
        r.get t.columns column = x := by
  refine ⟨((t.rows.filter (fun r =>
      decide (sqlIn (r.get t.columns wcolumn)
        (u.rows.map (fun x => x.get u.columns c)) = some true))).map
      (fun r => r.get t.columns column)).dedup,
    by rw [evalSelect_whereInTable]; simp only [ht, hc, hw, hu, hcols, if_true], ?_⟩
  intro x
  simp only [List.mem_dedup, List.mem_map, List.mem_filter, decide_eq_true_eq, and_assoc, hcols]

/-- On the output of a run of the scripted part of `Clip` that ended without error, on a
store whose stops have no parent_station, the scripted part of `Clip` ends without error
and changes nothing. -/
theorem cascade_second_run {input : Store} {feature : String → String → Bool} {X : Store}
    (h : Clip.cascade input feature = (X, none))
    (hnp : ∀ s ∈ rowsOf input "stops", cell input "stops" s "parent_station" = none) :
    Clip.cascade X feature = (X, none) := by
  obtain ⟨tr, st, sp, A, TR, SS, a1, a2, a3, c1, c2, c3, c4, c5, c6, o1, o2, o3, hA, hTR, hSS⟩ :=
    cascade_spec h
  obtain ⟨I1, s3, e, hI1, hnoX, hrest⟩ := cascade_structure h
  rw [rowsOf_of_findTable a3] at hnp
  simp only [cell_of_findTable a3] at hnp
  obtain ⟨rows2, hprep2, hrows2⟩ := prepared_of_ok X feature e hnoX _ o3 c6
  rw [cascade_eq, hprep2]
  simp only [ExecScript]
  obtain ⟨I2, hI2⟩ : ∃ I2 : Table,
      I2 = { name := "__gtfs2sqlite_stops_inside", columns := ["stop_id"], rows := rows2 } :=
    ⟨_, rfl⟩
  rw [← hI2]
  have hname : I2.name = "__gtfs2sqlite_stops_inside" := by rw [hI2]
  have hcols : I2.columns = ["stop_id"] := by rw [hI2]
  have hvals : I2.rows.map (fun x => x.get I2.columns "stop_id") =
      ((sp.rows.filter (keptBy sp.columns "stop_id" SS)).filter (insideRow feature sp)).map
        (fun r => some ((r.get sp.columns "stop_id").getD "")) := by
    rw [hI2]
    exact hrows2
  have hno2 : findTable X I2.name = .error e := by rw [hname]; exact hnoX
  have f1 := findTable_append_of_ok X [I2] "trips" _ o1
  have f2 := findTable_append_of_ok X [I2] "stop_times" _ o2
  have f3 := findTable_append_of_ok X [I2] "stops" _ o3
  have f4 : findTable (X ++ [I2]) "__gtfs2sqlite_stops_inside" = .ok I2 := by
    have := findTable_append_of_error X I2 e hno2
    rw [hname] at this
    exact this
  -- statement 1, on trips
  have hd1 : execDelete (X ++ [I2]) "trips" tripsClause = .ok (X ++ [I2]) := by
    obtain ⟨A2, hq1, hA2⟩ := @evalSelect_whereInTable_of (X ++ [I2]) "trip_id" "stop_times"
      "stop_id" "__gtfs2sqlite_stops_inside" "stop_id" _ I2 f2 c2 c3 f4 hcols
    refine execDelete_notIn_noop f1 c1 (by rw [evalUnion_single]; exact hq1) ?_
    intro t ht
    obtain ⟨ht, hk⟩ := List.mem_filter.mp ht
    have hvTR : t.get tr.columns "trip_id" ∈ TR := (hTR _).mpr ⟨t, ht, hk, rfl⟩
    have hrel : ∃ a ∈ A, a = t.get tr.columns "trip_id" ∨ a = none ∨
        t.get tr.columns "trip_id" = none := by
      rcases (keptBy_iff _ _ _ _).mp hk with ⟨hne, h1 | h1 | h1⟩
      · obtain ⟨a, ha⟩ := List.exists_mem_of_ne_nil _ hne
        exact ⟨a, ha, Or.inr (Or.inr h1)⟩
      · exact ⟨_, h1, Or.inl rfl⟩
      · exact ⟨none, h1, Or.inr (Or.inl rfl)⟩
    obtain ⟨a, haA, hrel⟩ := hrel
    obtain ⟨r, hr, ⟨s, hs, hin, hrs⟩, hra⟩ := (hA a).mp haA
    have hrk : keptBy st.columns "trip_id" TR r = true := by
      refine (keptBy_iff _ _ _ _).mpr ⟨List.ne_nil_of_mem hvTR, ?_⟩
      rw [hra]
      rcases hrel with h1 | h1 | h1
      · exact Or.inr (Or.inl (h1 ▸ hvTR))
      · exact Or.inl h1
      · exact Or.inr (Or.inr (h1 ▸ hvTR))
    have hrSS : r.get st.columns "stop_id" ∈ SS := (hSS _).mpr (Or.inl ⟨r, hr, hrk, rfl⟩)
    have hsk : keptBy sp.columns "stop_id" SS s = true := by
      refine (keptBy_iff _ _ _ _).mpr ⟨List.ne_nil_of_mem hrSS, ?_⟩
      by_cases hn : s.get sp.columns "stop_id" = none
      · exact Or.inl hn
      · have heq : s.get sp.columns "stop_id" = r.get st.columns "stop_id" :=
          (some_getD_of_ne_none hn).trans hrs.symm
        exact Or.inr (Or.inl (heq ▸ hrSS))
    have ha2 : a ∈ A2 := by
      refine (hA2 a).mpr ⟨r, List.mem_filter.mpr ⟨hr, hrk⟩, ?_, hra⟩
      rw [hvals, sqlIn_true_iff]
      refine ⟨?_, List.mem_map.mpr ⟨s, List.mem_filter.mpr ⟨List.mem_filter.mpr ⟨hs, hsk⟩, hin⟩,
        hrs.symm⟩⟩
      show r.get st.columns "stop_id" ≠ none
      rw [hrs]
      exact Option.some_ne_none _
    refine (keptBy_iff _ _ _ _).mpr ⟨List.ne_nil_of_mem ha2, ?_⟩
    rcases hrel with h1 | h1 | h1
    · exact Or.inr (Or.inl (h1 ▸ ha2))
    · exact Or.inr (Or.inr (h1 ▸ ha2))
    · exact Or.inl h1
  -- statement 2, on stop_times
  have hd2 : execDelete (X ++ [I2]) "stop_times" stopTimesClause = .ok (X ++ [I2]) := by
    obtain ⟨TR2, hq2, hTR2⟩ := @evalSelect_distinct_of (X ++ [I2]) "trip_id" "trips" _ f1 c1
    refine execDelete_notIn_noop f2 c2 (by rw [evalUnion_single]; exact hq2) ?_
    intro r hr
    have hk := (List.mem_filter.mp hr).2
    have hiff : ∀ x, x ∈ TR2 ↔ x ∈ TR := by
      intro x
      rw [hTR2, hTR]
      simp only [List.mem_filter, and_assoc]
    show keptBy st.columns "trip_id" TR2 r = true
    rw [keptBy_congr _ _ hiff]
    exact hk
  -- statement 3, on stops
  have hd3 : execDelete (X ++ [I2]) "stops" stopsClause = .ok (X ++ [I2]) := by
    obtain ⟨va, hqa, hva⟩ := @evalSelect_distinct_of (X ++ [I2]) "stop_id" "stop_times" _ f2 c3
    obtain ⟨vb, hqb, hvb⟩ := @evalSelect_whereNotNull_of (X ++ [I2]) "parent_station" "stops"
      "parent_station" _ f3 c5 c5
    have hq : evalUnion (X ++ [I2])
        [selDistinct "stop_id" "stop_times",
         { distinct := true, column := "parent_station", table := "stops",
           wher := some (.isNotNull "parent_station") }] = .ok (va ++ vb).dedup := by
      rw [evalUnion_pair, hqa, hqb]
    refine execDelete_notIn_noop f3 c4 hq ?_
    intro s hs
    have hk := (List.mem_filter.mp hs).2
    have hiff : ∀ x, x ∈ (va ++ vb).dedup ↔ x ∈ SS := by
      intro x
      rw [List.mem_dedup, List.mem_append, hva, hvb, hSS]
      constructor
      · rintro (⟨r, hr, hx⟩ | ⟨r, hr, hne, _⟩)
        · obtain ⟨hr1, hr2⟩ := List.mem_filter.mp hr
          exact Or.inl ⟨r, hr1, hr2, hx⟩
        · exact absurd (hnp r (List.mem_filter.mp hr).1) hne
      · rintro (⟨r, hr, hk1, hx⟩ | ⟨hne, r, hr, hx⟩)
        · exact Or.inl ⟨r, List.mem_filter.mpr ⟨hr, hk1⟩, hx⟩
        · exact absurd ((hnp r hr).symm.trans hx).symm hne
    show keptBy sp.columns "stop_id" (va ++ vb).dedup s = true
    rw [keptBy_congr _ _ hiff]
    exact hk
  -- statements 4 to 20
  have hne : ∀ n, (n ∈ ((clipScript.drop 3).take 17).map Statement.target ∨
      n ∈ ((clipScript.drop 3).take 17).flatMap Statement.refs) →
      n ≠ "__gtfs2sqlite_stops_inside" := by
    intro n hn heq
    subst heq
    rcases hn with hn | hn
    · exact rest17_names.1 hn
    · exact rest17_names.2 hn
  have hrest2 : execStatements ((clipScript.drop 3).take 17) (X ++ [I2]) = .ok (X ++ [I2]) := by
    refine rerun_noop _ rest17_independent hrest ?_
    intro n hn
    rw [findTable_append_of_ne X I2 n (by rw [hname]; exact hne n hn),
      findTable_append_of_ne X I1 n (by rw [hI1]; exact hne n hn)]
  have hdrop := execDropTable_append X I2 e hno2
  rw [hname] at hdrop
  have hs : execStatements clipScript (X ++ [I2]) = .ok X := by
    rw [clipScript_head,
      execStatements_cons_ok (show execStatement (X ++ [I2]) (.delete "trips" tripsClause)
        = .ok (X ++ [I2]) from hd1),
      execStatements_cons_ok (show execStatement (X ++ [I2]) (.delete "stop_times" stopTimesClause)
        = .ok (X ++ [I2]) from hd2),
      execStatements_cons_ok (show execStatement (X ++ [I2]) (.delete "stops" stopsClause)
        = .ok (X ++ [I2]) from hd3),
      execStatements_append, hrest2]
    show execStatements [.dropTable "__gtfs2sqlite_stops_inside"] (X ++ [I2]) = .ok X
    rw [execStatements_cons_ok (show execStatement (X ++ [I2])
      (.dropTable "__gtfs2sqlite_stops_inside") = .ok X from hdrop)]
    rfl
  rw [hs]

theorem cascade_idempotent (input : Store) (feature : String → String → Bool)
    (hnp : ∀ s ∈ rowsOf input "stops", cell input "stops" s "parent_station" = none) :
    (Clip.cascade (Clip.cascade input feature).1 feature).1 = (Clip.cascade input feature).1 := by
  cases hc : Clip.cascade input feature with
  | mk X oe =>
    cases oe with
    | some e =>
      obtain ⟨⟨u, hu⟩, _⟩ := cascade_error hc
      exact cascade_of_find hu feature
    | none =>
      show (Clip.cascade X feature).1 = X
      rw [cascade_second_run hc hnp]

/-- C11, counterexample: in `parentDB` (station P and its child stop C, no stop_times)
Clip with the feature `everywhere` deletes C and keeps P, because C names P as its
parent_station; Clip on that output, with the same feature, deletes P, which no stop names
any more. -/
theorem Clip_not_idempotent :
    Clip sourceOrder 1 parentDB everywhere = some { err := none, output := parentOnlyDB } ∧
    Clip sourceOrder 1 parentOnlyDB everywhere = some { err := none, output := emptyDB } ∧
    rowsOf parentOnlyDB "stops" = [stopP] ∧ rowsOf emptyDB "stops" = [] := by
  decide

/-- C11, amended: on a store in which no stops row has a parent_station, Clip is
idempotent: Clip on the output of a previous Clip with the same feature returns, and its
output is that of the previous Clip, table by table and row by row, whatever the
iteration orders of the two runs and whether the runs end with an error or not. -/
theorem Clip_idempotent_without_parent_station (order1 order2 : Nat → Schema)
    (fuel1 fuel2 : Nat) (hfuel1 : 1 ≤ fuel1) (hfuel2 : 1 ≤ fuel2)
    (input : Store) (feature : String → String → Bool)
    (hnp : ∀ s ∈ rowsOf input "stops", cell input "stops" s "parent_station" = none) :
    ∃ r1 r2, Clip order1 fuel1 input feature = some r1 ∧
      Clip order2 fuel2 r1.output feature = some r2 ∧ r2.output = r1.output := by
  obtain ⟨r1, hr1, hout1⟩ := Clip_output_of_cascade order1 hfuel1 input feature
  obtain ⟨r2, hr2, hout2⟩ := Clip_output_of_cascade order2 hfuel2 r1.output feature
  refine ⟨r1, r2, hr1, hr2, ?_⟩
  rw [hout2, hout1]
  exact cascade_idempotent input feature hnp

theorem Clip_idempotent_without_parent_station_witness :
    1 ≤ 1 ∧ 1 ≤ 2 ∧
    (∀ s ∈ rowsOf twoStopDB "stops", cell twoStopDB "stops" s "parent_station" = none) ∧
    ∃ r1 r2, Clip sourceOrder 1 twoStopDB lonTwo = some r1 ∧
      Clip reverseOrder 2 r1.output lonTwo = some r2 ∧ r2.output = r1.output :=
  ⟨by decide, by decide, by decide,
    Clip_idempotent_without_parent_station sourceOrder reverseOrder 1 2 (by decide) (by decide)
      twoStopDB lonTwo (by decide)⟩

/-! ## Primary keys -/

/-- C30: not every column named in a `PrimaryKey` list of gtfsSchema is a declared column.
The table `fare_media` names the primary key `fare_media` (its column is `fare_media_id`)
and the table `location_group_stops` names the primary key `location_group_stops` (its
columns are `location_group_id` and `stop_id`); in every other table every column of
the `PrimaryKey` list is a key of the `Columns` map. -/
theorem gtfsSchema_primaryKey_undeclared :
    (gtfsSchema.filter (fun ts => decide (undeclaredKeys ts.2 ≠ []))).map
        (fun ts => (ts.1, ts.2.PrimaryKey, ts.2.Columns.map (fun c => c.1)))
      = [("fare_media", ["fare_media"], ["fare_media_id", "fare_media_name", "fare_media_type"]),
         ("location_group_stops", ["location_group_stops"], ["location_group_id", "stop_id"])] ∧
    ¬ ∀ ts ∈ gtfsSchema, ∀ k ∈ ts.2.PrimaryKey, k ∈ ts.2.Columns.map (fun c => c.1) := by
  decide

/-! ## A NULL among the target values -/

theorem foreignRows_of_null_target {db : Store} {table column : String}
    {schema : foreignIDSchema} (hnull : none ∈ targetValues db schema) {t : Table}
    {rows : List Row} (h : foreignRows db table column schema = .ok (t, rows)) : rows = [] := by
  obtain ⟨_, _, _, _, hrows⟩ := foreignRows_ok h
  rw [hrows, List.filter_eq_nil_iff]
  intro r _
  simp only [decide_eq_true_eq]
  intro hq
  exact hq.2.2 hnull

/-- C29: a NULL in a target column masks an edge.  For every edge (a source table and
column with any ForeignID) and every store in which the target column of some alternative
holds a NULL, the query of `validateForeignID` returns no row, whatever the values of the
source column are: when the query can run, `validateForeignID` returns without error and
leaves the validator as it was (no violation appended, no deletion scheduled), in every
mode and in every pass; when it cannot run, it returns the error and reports nothing. -/
theorem validateForeignID_null_target_masks (db : Store) (v : validator)
    (table column : String) (schema : foreignIDSchema)
    (hnull : none ∈ targetValues db schema) :
    edgeRows db (table, column, schema) = [] ∧
    edgeMessages db (table, column, schema) = [] ∧
    (scanOK db (table, column, schema) = true →
      validateForeignID db v table column schema = .ok v) ∧
    (scanOK db (table, column, schema) = false →
      ∃ err, validateForeignID db v table column schema = .error err) := by
  refine ⟨?_, ?_, ?_, ?_⟩
  · unfold edgeRows
    cases h : foreignRows db table column schema with
    | error e => rfl
    | ok res =>
      obtain ⟨t, rows⟩ := res
      exact foreignRows_of_null_target hnull h
  · unfold edgeMessages
    cases h : foreignRows db table column schema with
    | error e => rfl
    | ok res =>
      obtain ⟨t, rows⟩ := res
      simp only [foreignRows_of_null_target hnull h, List.map_nil]
  · intro hok
    unfold scanOK at hok
    unfold validateForeignID
    cases h : foreignRows db table column schema with
    | error e => simp [h] at hok
    | ok res =>
      obtain ⟨t, rows⟩ := res
      simp only [foreignRows_of_null_target hnull h, List.map_nil, List.foldl_nil]
  · intro hbad
    exact validateForeignID_error_of_not_scanOK hbad v

/-- C29, instance: in `nullZoneDB` the only stop has no `zone_id`, so the edge
`fare_rules.origin_id -> stops.zone_id` is masked: the fare rule with origin `Z9`, a zone
that no stop has, is neither reported nor scheduled for deletion in Repair mode. -/
theorem validateForeignID_null_target_masks_witness :
    none ∈ targetValues nullZoneDB (.mk "stops" "zone_id" []) ∧
    columnValues nullZoneDB "fare_rules" "origin_id" = [some "Z9"] ∧
    scanOK nullZoneDB ("fare_rules", "origin_id", .mk "stops" "zone_id" []) = true ∧
    validateForeignID nullZoneDB (validator.init { force := true }) "fare_rules" "origin_id"
      (.mk "stops" "zone_id" []) = .ok (validator.init { force := true }) :=
  ⟨by decide, by decide, by decide,
    (validateForeignID_null_target_masks nullZoneDB (validator.init { force := true })
      "fare_rules" "origin_id" (.mk "stops" "zone_id" []) (by decide)).2.2.1 (by decide)⟩

/-! ## Which trips Clip keeps -/

theorem cellText_of_findTable {db : Store} {n : String} {t : Table} (h : findTable db n = .ok t)
    (r : Row) (c : String) : cellText db n r c = (r.get t.columns c).getD "" := by
  unfold cellText
  rw [cell_of_findTable h]

/-- C28: after the scripted deletes of Clip have run without error on a store in which
trip_id is non-null in trips and in stop_times, a trips row of the input is still there
if and only if some stop_times row of the input with the same trip_id has the stop_id (as
text) of a stops row inside the feature; the surviving trips are rows of the input; and
every stop_times row of the input whose trip_id is that of a surviving trip is still
there: a surviving trip keeps all its stop_times, inside the feature or not. -/
theorem Clip_trips_survive_iff (input : Store) (feature : String → String → Bool)
    (hok : (Clip.cascade input feature).2 = none)
    (htr : ∀ t ∈ rowsOf input "trips", cell input "trips" t "trip_id" ≠ none)
    (hst : ∀ r ∈ rowsOf input "stop_times", cell input "stop_times" r "trip_id" ≠ none) :
    (∀ t ∈ rowsOf input "trips",
      (t ∈ rowsOf (Clip.cascade input feature).1 "trips" ↔
        ∃ r ∈ rowsOf input "stop_times",
          cell input "stop_times" r "trip_id" = cell input "trips" t "trip_id" ∧
          ∃ s ∈ rowsOf input "stops", isInside feature input s = true ∧
            cell input "stop_times" r "stop_id" = some (cellText input "stops" s "stop_id"))) ∧
    (∀ t ∈ rowsOf (Clip.cascade input feature).1 "trips", t ∈ rowsOf input "trips") ∧
    (∀ t ∈ rowsOf (Clip.cascade input feature).1 "trips", ∀ r ∈ rowsOf input "stop_times",
      cell input "stop_times" r "trip_id" = cell input "trips" t "trip_id" →
      r ∈ rowsOf (Clip.cascade input feature).1 "stop_times") := by
  cases hcas : Clip.cascade input feature with
  | mk out oe =>
    rw [hcas] at hok
    simp only at hok
    subst hok
    obtain ⟨tr, st, sp, A, TR, SS, a1, a2, a3, _, _, _, _, _, _, o1, o2, o3, hA, hTR, hSS⟩ :=
      cascade_spec hcas
    rw [rowsOf_of_findTable a1] at htr
    rw [rowsOf_of_findTable a2] at hst
    simp only [cell_of_findTable a1] at htr
    simp only [cell_of_findTable a2] at hst
    simp only [rowsOf_of_findTable a1, rowsOf_of_findTable a2, rowsOf_of_findTable a3,
      rowsOf_of_findTable o1, rowsOf_of_findTable o2, cell_of_findTable a1,
      cell_of_findTable a2, cellText_of_findTable a3, isInside_of_findTable a3]
    have hnone : none ∉ A := by
      intro hmem
      obtain ⟨r, hr, _, hrn⟩ := (hA none).mp hmem
      exact hst r hr hrn
    have hkept : ∀ t ∈ tr.rows,
        (keptBy tr.columns "trip_id" A t = true ↔ t.get tr.columns "trip_id" ∈ A) := by
      intro t ht
      rw [keptBy_iff]
      constructor
      · rintro ⟨_, h | h | h⟩
        · exact absurd h (htr t ht)
        · exact h
        · exact absurd h hnone
      · intro h
        exact ⟨List.ne_nil_of_mem h, Or.inr (Or.inl h)⟩
    refine ⟨?_, ?_, ?_⟩
    · intro t ht
      simp only [List.mem_filter, ht, true_and, hkept t ht, hA]
      constructor
      · rintro ⟨r, hr, ⟨s, hs, hin, hrs⟩, hrt⟩
        exact ⟨r, hr, hrt, s, hs, hin, hrs⟩
      · rintro ⟨r, hr, hrt, s, hs, hin, hrs⟩
        exact ⟨r, hr, ⟨s, hs, hin, hrs⟩, hrt⟩
    · intro t ht
      exact (List.mem_filter.mp ht).1
    · intro t ht r hr hrt
      obtain ⟨ht1, hk⟩ := List.mem_filter.mp ht
      refine List.mem_filter.mpr ⟨hr, keptBy_of_mem _ _ _ _ ?_⟩
      exact (hTR _).mpr ⟨t, ht1, hk, hrt.symm⟩

/-- C28, instance: in `twoStopDB` with the feature `lonTwo` the trip T1 serves the stop S1
inside the feature and the stop S2 outside it; T1 survives and so do both of its
stop_times rows. -/
theorem Clip_trips_survive_iff_witness :
    (Clip.cascade twoStopDB lonTwo).2 = none ∧
    (∀ t ∈ rowsOf twoStopDB "trips", cell twoStopDB "trips" t "trip_id" ≠ none) ∧
    (∀ r ∈ rowsOf twoStopDB "stop_times", cell twoStopDB "stop_times" r "trip_id" ≠ none) ∧
    (rowsOf (Clip.cascade twoStopDB lonTwo).1 "trips").length = 1 ∧
    (rowsOf (Clip.cascade twoStopDB lonTwo).1 "stop_times").length = 2 ∧
    ((∀ t ∈ rowsOf twoStopDB "trips",
      (t ∈ rowsOf (Clip.cascade twoStopDB lonTwo).1 "trips" ↔
        ∃ r ∈ rowsOf twoStopDB "stop_times",
          cell twoStopDB "stop_times" r "trip_id" = cell twoStopDB "trips" t "trip_id" ∧
          ∃ s ∈ rowsOf twoStopDB "stops", isInside lonTwo twoStopDB s = true ∧
            cell twoStopDB "stop_times" r "stop_id"
              = some (cellText twoStopDB "stops" s "stop_id"))) ∧
    (∀ t ∈ rowsOf (Clip.cascade twoStopDB lonTwo).1 "trips", t ∈ rowsOf twoStopDB "trips") ∧
    (∀ t ∈ rowsOf (Clip.cascade twoStopDB lonTwo).1 "trips",
      ∀ r ∈ rowsOf twoStopDB "stop_times",
      cell twoStopDB "stop_times" r "trip_id" = cell twoStopDB "trips" t "trip_id" →
      r ∈ rowsOf (Clip.cascade twoStopDB lonTwo).1 "stop_times")) :=
  ⟨by decide, by decide, by decide, by decide, by decide,
    Clip_trips_survive_iff twoStopDB lonTwo (by decide) (by decide) (by decide)⟩

/-! ## Deleting by rowid in a well-formed store -/

theorem sieve_names (q : String → Row → Bool) (db : Store) :
    (sieve q db).map (fun t => t.name) = db.map (fun t => t.name) := by
  unfold sieve
  rw [List.map_map]
  rfl

theorem modifyTable_eq_map (n : String) (f : Table → Table) :
    ∀ db : Store, (db.map (fun t => t.name)).Nodup →
      modifyTable n f db = db.map (fun t => if t.name = n then f t else t) := by
  intro db
  induction db with
  | nil => intro _; rfl
  | cons t rest ih =>
    intro hnd
    rw [List.map_cons, List.nodup_cons] at hnd
    by_cases ht : t.name = n
    · have hrest : rest.map (fun u => if u.name = n then f u else u) = rest := by
        conv_rhs => rw [← List.map_id rest]
        apply List.map_congr_left
        intro u hu
        have hne : u.name ≠ n := by
          intro h
          apply hnd.1
          rw [ht, ← h]
          exact List.mem_map_of_mem (fun t => t.name) hu
        simp [hne]
      simp only [modifyTable, ht, beq_self_eq_true, if_true, List.map_cons, hrest]
    · have hb : (t.name == n) = false := by simpa using ht
      simp only [modifyTable, hb, List.map_cons, ht, if_false, ih hnd.2]
      rfl

theorem sieve_sieve (q1 q2 : String → Row → Bool) (db : Store) :
    sieve q2 (sieve q1 db) = sieve (fun n r => q1 n r && q2 n r) db := by
  unfold sieve
  rw [List.map_map]
  apply List.map_congr_left
  intro t _
  simp only [Function.comp, List.filter_filter]
  congr 1
  apply List.filter_congr
  intro r _
  exact Bool.and_comm _ _

theorem sieve_congr {q1 q2 : String → Row → Bool} {db : Store}
    (h : ∀ t ∈ db, ∀ r ∈ t.rows, (q1 t.name r = true ↔ q2 t.name r = true)) :
    sieve q1 db = sieve q2 db := by
  unfold sieve
  apply List.map_congr_left
  intro t ht
  congr 1
  apply List.filter_congr
  intro r hr
  rw [Bool.eq_iff_iff]
  exact h t ht r hr

theorem deleteRowid_eq_sieve (db : Store) (hnd : (db.map (fun t => t.name)).Nodup)
    (n : String) (i : Int) :
    deleteRowid db n i = sieve (fun m r => !(decide (m = n) && decide (r.rowid = i))) db := by
  unfold deleteRowid sieve
  rw [modifyTable_eq_map _ _ db hnd]
  apply List.map_congr_left
  intro t _
  by_cases ht : t.name = n
  · simp only [ht, if_true]
    congr 1
    apply List.filter_congr
    intro r _
    rw [Bool.eq_iff_iff]
    simp
  · simp only [ht, if_false, decide_False, Bool.false_and, Bool.not_false, List.filter_true]

theorem removed_iff (m : List (String × List Int)) (n : String) (i : Int) :
    removed m n i = true ↔ ∃ p ∈ m, p.1 = n ∧ i ∈ p.2 := by
  unfold removed
  simp only [List.any_eq_true, Bool.and_eq_true, decide_eq_true_eq]

theorem foldl_deleteRowid_eq_sieve (n : String) (rows : List Int) :
    ∀ (db : Store) (q : String → Row → Bool), (db.map (fun t => t.name)).Nodup →
      rows.foldl (fun d i => deleteRowid d n i) (sieve q db)
        = sieve (fun m r => q m r && !(decide (m = n) && decide (r.rowid ∈ rows))) db := by
  induction rows with
  | nil =>
    intro db q _
    simp only [List.foldl_nil]
    apply sieve_congr
    intro t _ r _
    simp
  | cons i rest ih =>
    intro db q hnd
    simp only [List.foldl_cons]
    rw [deleteRowid_eq_sieve _ (by rw [sieve_names]; exact hnd), sieve_sieve, ih db _ hnd]
    apply sieve_congr
    intro t _ r _
    simp only [Bool.and_eq_true, Bool.not_eq_true', Bool.eq_false_iff, ne_eq,
      decide_eq_true_eq, List.mem_cons]
    tauto

theorem deleteScheduled_eq_sieve (m : List (String × List Int)) :
    ∀ (db : Store) (q : String → Row → Bool), (db.map (fun t => t.name)).Nodup →
      deleteScheduled m (sieve q db)
        = sieve (fun n r => q n r && !(removed m n r.rowid)) db := by
  induction m with
  | nil =>
    intro db q _
    unfold deleteScheduled
    simp only [List.foldl_nil]
    apply sieve_congr
    intro t _ r _
    simp [removed]
  | cons p rest ih =>
    intro db q hnd
    unfold deleteScheduled at ih ⊢
    simp only [List.foldl_cons]
    rw [foldl_deleteRowid_eq_sieve p.1 p.2 db q hnd, ih db _ hnd]
    apply sieve_congr
    intro t _ r _
    simp only [Bool.and_eq_true, Bool.not_eq_true', Bool.eq_false_iff, ne_eq,
      decide_eq_true_eq, removed_iff, List.mem_cons, exists_eq_or_imp]
    constructor
    · rintro ⟨⟨h1, h2⟩, h3⟩
      refine ⟨h1, ?_⟩
      rintro (⟨h4, h5⟩ | h4)
      · exact h2 ⟨h4.symm, h5⟩
      · exact h3 h4
    · rintro ⟨h1, h2⟩
      exact ⟨⟨h1, fun h => h2 (Or.inl ⟨h.1.symm, h.2⟩)⟩, fun h => h2 (Or.inr h)⟩

theorem sieve_true (db : Store) : sieve (fun _ _ => true) db = db := by
  unfold sieve
  conv_rhs => rw [← List.map_id db]
  apply List.map_congr_left
  intro t _
  simp

theorem deleteScheduled_eq (m : List (String × List Int)) (db : Store)
    (hnd : (db.map (fun t => t.name)).Nodup) :
    deleteScheduled m db = sieve (fun n r => !(removed m n r.rowid)) db := by
  have h := deleteScheduled_eq_sieve m db (fun _ _ => true) hnd
  rw [sieve_true] at h
  rw [h]
  apply sieve_congr
  intro t _ r _
  simp

theorem mem_mapAppend (n : String) (i : Int) (m : List (String × List Int))
    (n1 : String) (i1 : Int) :
    (∃ p ∈ mapAppend n i m, p.1 = n1 ∧ i1 ∈ p.2) ↔
      (∃ p ∈ m, p.1 = n1 ∧ i1 ∈ p.2) ∨ (n1 = n ∧ i1 = i) := by
  induction m with
  | nil =>
    constructor
    · rintro ⟨p, hp, h1, h2⟩
      simp only [mapAppend, List.mem_singleton] at hp
      subst hp
      exact Or.inr ⟨h1.symm, List.mem_singleton.mp h2⟩
    · rintro (⟨p, hp, _⟩ | ⟨h1, h2⟩)
      · cases hp
      · exact ⟨(n, [i]), by simp [mapAppend], h1.symm, by simp [h2]⟩
  | cons p rest ih =>
    obtain ⟨k, rows⟩ := p
    by_cases hk : k = n
    · subst hk
      simp only [mapAppend, if_true, List.mem_cons, exists_eq_or_imp, List.mem_append,
        List.not_mem_nil, or_false]
      constructor
      · rintro (⟨h1, h2 | h2⟩ | h)
        · exact Or.inl (Or.inl ⟨h1, h2⟩)
        · exact Or.inr ⟨h1.symm, h2⟩
        · exact Or.inl (Or.inr h)
      · rintro ((⟨h1, h2⟩ | h) | ⟨h1, h2⟩)
        · exact Or.inl ⟨h1, Or.inl h2⟩
        · exact Or.inr h
        · exact Or.inl ⟨h1.symm, Or.inr h2⟩
    · simp only [mapAppend, hk, if_false, List.mem_cons, exists_eq_or_imp]
      rw [ih, or_assoc]

theorem removed_foldl_mapAppend (pairs : List (String × Int)) :
    ∀ (m : List (String × List Int)) (n : String) (i : Int),
      removed (pairs.foldl (fun m p => mapAppend p.1 p.2 m) m) n i = true ↔
        (removed m n i = true ∨ (n, i) ∈ pairs) := by
  induction pairs with
  | nil => intro m n i; simp
  | cons p rest ih =>
    intro m n i
    simp only [List.foldl_cons, ih, removed_iff, mem_mapAppend, List.mem_cons, Prod.ext_iff]
    rw [or_assoc]

theorem mem_scheduledPairs (db : Store) (es : List Edge) (n : String) (i : Int) :
    (n, i) ∈ scheduledPairs db es ↔ ∃ e ∈ es, e.1 = n ∧ ∃ r ∈ edgeRows db e, r.rowid = i := by
  unfold scheduledPairs
  simp only [List.mem_flatMap, List.mem_map, Prod.mk.injEq]
  constructor
  · rintro ⟨e, he, r, hr, h1, h2⟩
    exact ⟨e, he, h1, r, hr, h2⟩
  · rintro ⟨e, he, h1, r, hr, h2⟩
    exact ⟨e, he, r, hr, h1, h2⟩

theorem findTable_of_mem {db : Store} (hnd : (db.map (fun t => t.name)).Nodup) {t : Table}
    (ht : t ∈ db) : findTable db t.name = .ok t := by
  induction db with
  | nil => cases ht
  | cons u rest ih =>
    rw [List.map_cons, List.nodup_cons] at hnd
    rw [findTable_cons]
    rcases List.mem_cons.mp ht with h | h
    · subst h
      simp
    · have hne : ¬ (u.name == t.name) = true := by
        intro hb
        have : u.name = t.name := by simpa using hb
        apply hnd.1
        rw [this]
        exact List.mem_map_of_mem (fun t => t.name) h
      simp only [hne, if_false]
      exact ih hnd.2 h

theorem mem_of_findTable {db : Store} {n : String} {t : Table} (h : findTable db n = .ok t) :
    t ∈ db := by
  unfold findTable at h
  cases hf : db.find? (fun t => t.name == n) with
  | none => simp [hf] at h
  | some u =>
    simp only [hf, Except.ok.injEq] at h
    subst h
    exact List.mem_of_find?_eq_some hf

theorem edgeRows_subset {db : Store} {e : Edge} {r : Row} (h : r ∈ edgeRows db e) :
    ∃ t, findTable db e.1 = .ok t ∧ r ∈ t.rows ∧
      queryTest db e.2.2 (r.get t.columns e.2.1) := by
  unfold edgeRows at h
  cases hf : foreignRows db e.1 e.2.1 e.2.2 with
  | error err => simp [hf] at h
  | ok res =>
    obtain ⟨t, rows⟩ := res
    simp only [hf] at h
    obtain ⟨_, h2, _, _, h5⟩ := foreignRows_ok hf
    rw [h5] at h
    obtain ⟨h6, h7⟩ := List.mem_filter.mp h
    exact ⟨t, h2, h6, by simpa using h7⟩

theorem rowid_injective {db : Store} (hwf : WellFormed db) {t : Table} (ht : t ∈ db)
    {r r1 : Row} (hr : r ∈ t.rows) (hr1 : r1 ∈ t.rows) (h : r1.rowid = r.rowid) : r1 = r :=
  List.inj_on_of_nodup_map (hwf.2 t ht) hr1 hr h

/-- In a well-formed store, the rows that a sweep over the edges `es` schedules are the
rows that the query of some edge of `es` returns. -/
theorem scheduled_iff_violates {db : Store} (hwf : WellFormed db) (es : List Edge)
    {t : Table} (ht : t ∈ db) {r : Row} (hr : r ∈ t.rows) :
    (t.name, r.rowid) ∈ scheduledPairs db es ↔ ∃ e ∈ es, e.1 = t.name ∧ r ∈ edgeRows db e := by
  rw [mem_scheduledPairs]
  constructor
  · rintro ⟨e, he, hn, r1, hr1, hid⟩
    obtain ⟨t1, hf, hmem, _⟩ := edgeRows_subset hr1
    have ht1 : t1 = t := by
      have := findTable_of_mem hwf.1 ht
      rw [← hn, hf] at this
      simpa using this
    subst ht1
    have : r1 = r := rowid_injective hwf ht hr hmem hid
    subst this
    exact ⟨e, he, hn, hr1⟩
  · rintro ⟨e, he, hn, hmem⟩
    exact ⟨e, he, hn, r, hmem, rfl⟩

/-- In a well-formed store, the deletions that a sweep visiting the schema in the order
`schema` schedules leave the store `repairStep db`, whatever the order, as long as it
visits the edges of `gtfsSchema`. -/
theorem deleteScheduled_sweep {db : Store} (hwf : WellFormed db) {schema : Schema}
    (hperm : (edgesOf schema).Perm (edgesOf gtfsSchema)) :
    deleteScheduled ((scheduledPairs db (edgesOf schema)).foldl
        (fun m p => mapAppend p.1 p.2 m) []) db = repairStep db := by
  rw [deleteScheduled_eq _ _ hwf.1]
  unfold repairStep
  apply sieve_congr
  intro t ht r hr
  have h0 : removed [] t.name r.rowid = false := rfl
  have hv : violatesSome db t.name r = true ↔
      ∃ e ∈ edgesOf gtfsSchema, e.1 = t.name ∧ r ∈ edgeRows db e := by
    unfold violatesSome
    simp only [List.any_eq_true, Bool.and_eq_true, decide_eq_true_eq]
  simp only [Bool.not_eq_true', Bool.eq_false_iff, ne_eq, removed_foldl_mapAppend, h0,
    Bool.false_eq_true, false_or, scheduled_iff_violates hwf _ ht hr, hv]
  constructor
  · rintro h ⟨e, he, h1, h2⟩
    exact h ⟨e, hperm.mem_iff.mpr he, h1, h2⟩
  · rintro h ⟨e, he, h1, h2⟩
    exact h ⟨e, hperm.mem_iff.mp he, h1, h2⟩

/-! ## Sub-stores -/

theorem SubStore.refl (d : Store) : SubStore d d := by
  unfold SubStore
  induction d with
  | nil => exact List.Forall₂.nil
  | cons t rest ih => exact List.Forall₂.cons ⟨rfl, rfl, List.Sublist.refl _⟩ ih

theorem SubStore.trans {a b c : Store} (h1 : SubStore a b) (h2 : SubStore b c) :
    SubStore a c := by
  unfold SubStore at *
  induction h1 generalizing c with
  | nil => cases h2; exact List.Forall₂.nil
  | cons hab _ ih =>
    cases h2 with
    | cons hbc hrest =>
      exact List.Forall₂.cons
        ⟨hab.1.trans hbc.1, hab.2.1.trans hbc.2.1, hab.2.2.trans hbc.2.2⟩ (ih hrest)

theorem SubStore.antisymm {a b : Store} (h1 : SubStore a b) (h2 : SubStore b a) : a = b := by
  unfold SubStore at *
  induction h1 with
  | nil => rfl
  | @cons x y xs ys hxy _ ih =>
    cases h2 with
    | cons hyx hrest =>
      have hrows : x.rows = y.rows := List.Sublist.antisymm hxy.2.2 hyx.2.2
      have hx : x = y := by
        cases x
        cases y
        simp only [Table.mk.injEq]
        exact ⟨hxy.1, hxy.2.1, hrows⟩
      rw [hx, ih hrest]

theorem SubStore.sieve (q : String → Row → Bool) (d : Store) : SubStore (sieve q d) d := by
  unfold SubStore Gtfs2sqlite.sieve
  induction d with
  | nil => exact List.Forall₂.nil
  | cons t rest ih => exact List.Forall₂.cons ⟨rfl, rfl, List.filter_sublist _⟩ ih

theorem SubStore.names {s d : Store} (h : SubStore s d) :
    s.map (fun t => t.name) = d.map (fun t => t.name) := by
  unfold SubStore at h
  induction h with
  | nil => rfl
  | cons hab _ ih => simp only [List.map_cons, hab.1, ih]

theorem SubStore.findTable {s d : Store} (h : SubStore s d) (n : String) :
    (∀ b, findTable d n = .ok b →
      ∃ a, findTable s n = .ok a ∧ a.columns = b.columns ∧ a.rows.Sublist b.rows) ∧
    (∀ e, findTable d n = .error e → ∃ e1, findTable s n = .error e1) := by
  unfold SubStore at h
  induction h with
  | nil =>
    refine ⟨?_, ?_⟩
    · intro b hb
      rw [findTable_nil] at hb
      cases hb
    · intro e _
      exact ⟨_, findTable_nil n⟩
  | @cons x y xs ys hxy _ ih =>
    rw [findTable_cons, findTable_cons, hxy.1]
    by_cases hn : (y.name == n) = true
    · simp only [hn, if_true]
      refine ⟨?_, ?_⟩
      · intro b hb
        simp only [Except.ok.injEq] at hb
        subst hb
        exact ⟨x, rfl, hxy.2.1, hxy.2.2⟩
      · intro e he
        cases he
    · simp only [hn, if_false]
      exact ih

theorem SubStore.hasColumn {s d : Store} (h : SubStore s d) (n c : String) :
    hasColumn s n c = hasColumn d n c := by
  unfold Gtfs2sqlite.hasColumn
  cases hd : Gtfs2sqlite.findTable d n with
  | ok b =>
    obtain ⟨a, ha, hcols, _⟩ := (h.findTable n).1 b hd
    simp only [ha, hcols]
  | error e =>
    obtain ⟨e1, he1⟩ := (h.findTable n).2 e hd
    simp only [he1]

theorem SubStore.scanOK {s d : Store} (h : SubStore s d) (e : Edge) :
    scanOK s e = scanOK d e := by
  rw [Bool.eq_iff_iff, scanOK_iff, scanOK_iff]
  simp only [h.hasColumn]

theorem SubStore.columnValues {s d : Store} (h : SubStore s d) (n c : String) {x : Value}
    (hx : x ∈ columnValues s n c) : x ∈ columnValues d n c := by
  unfold Gtfs2sqlite.columnValues at *
  cases hd : Gtfs2sqlite.findTable d n with
  | ok b =>
    obtain ⟨a, ha, hcols, hsub⟩ := (h.findTable n).1 b hd
    simp only [ha, List.mem_map] at hx ⊢
    obtain ⟨r, hr, hrx⟩ := hx
    exact ⟨r, hsub.subset hr, by rw [← hcols]; exact hrx⟩
  | error e =>
    obtain ⟨e1, he1⟩ := (h.findTable n).2 e hd
    simp [he1] at hx

theorem SubStore.targetValues {s d : Store} (h : SubStore s d) (schema : foreignIDSchema)
    {x : Value} (hx : x ∈ targetValues s schema) : x ∈ targetValues d schema := by
  unfold Gtfs2sqlite.targetValues at *
  rw [List.mem_flatMap] at hx ⊢
  obtain ⟨a, ha, hxa⟩ := hx
  exact ⟨a, ha, h.columnValues a.1 a.2 hxa⟩

theorem SubStore.queryTest {s d : Store} (h : SubStore s d) (schema : foreignIDSchema)
    {v : Value} (hq : queryTest d schema v) : queryTest s schema v := by
  unfold Gtfs2sqlite.queryTest at *
  exact ⟨hq.1, fun hx => hq.2.1 (h.targetValues schema hx),
    fun hx => hq.2.2 (h.targetValues schema hx)⟩

theorem mem_edgeRows_iff (db : Store) (e : Edge) (r : Row) :
    r ∈ edgeRows db e ↔ scanOK db e = true ∧
      ∃ t, findTable db e.1 = .ok t ∧ r ∈ t.rows ∧ queryTest db e.2.2 (r.get t.columns e.2.1) := by
  unfold edgeRows scanOK
  cases hf : foreignRows db e.1 e.2.1 e.2.2 with
  | error err => simp
  | ok res =>
    obtain ⟨t, rows⟩ := res
    obtain ⟨_, h2, _, _, h5⟩ := foreignRows_ok hf
    simp only [h5, List.mem_filter, decide_eq_true_eq, true_and, h2, Except.ok.injEq,
      exists_eq_left']

theorem WellFormed.of_sieve {db : Store} (h : WellFormed db) (q : String → Row → Bool) :
    WellFormed (sieve q db) := by
  refine ⟨by rw [sieve_names]; exact h.1, ?_⟩
  intro t ht
  unfold Gtfs2sqlite.sieve at ht
  obtain ⟨u, hu, rfl⟩ := List.mem_map.mp ht
  exact List.Nodup.sublist ((List.filter_sublist _).map _) (h.2 u hu)

theorem forall₂_map_right {R S : Table → Table → Prop} {g : Table → Table} {s d : Store}
    (h : List.Forall₂ R s d) (hg : ∀ a b, a ∈ s → b ∈ d → R a b → S a (g b)) :
    List.Forall₂ S s (d.map g) := by
  induction h with
  | nil => exact List.Forall₂.nil
  | @cons x y xs ys hxy _ ih =>
    rw [List.map_cons]
    refine List.Forall₂.cons (hg x y (List.mem_cons_self _ _) (List.mem_cons_self _ _) hxy) ?_
    exact ih (fun a b ha hb hab => hg a b (List.mem_cons_of_mem _ ha) (List.mem_cons_of_mem _ hb) hab)

/-- A sub-store without violations loses no row in a Repair pass on the store: a row that
violates no edge in the sub-store violates none in the store. -/
theorem SubStore.repairStep {s d : Store} (hwf : WellFormed d) (h : SubStore s d)
    (hcons : Consistent s) : SubStore s (repairStep d) := by
  unfold Gtfs2sqlite.repairStep Gtfs2sqlite.sieve
  have hnames := h.names
  refine forall₂_map_right h ?_
  intro a b ha hb hab
  refine ⟨hab.1, hab.2.1, ?_⟩
  have hall : ∀ r ∈ a.rows, (!(violatesSome d b.name r)) = true := by
    intro r hr
    rw [Bool.not_eq_true', Bool.eq_false_iff]
    intro hv
    unfold violatesSome at hv
    simp only [List.any_eq_true, Bool.and_eq_true, decide_eq_true_eq] at hv
    obtain ⟨e, he, hen, hmem⟩ := hv
    have hfa : Gtfs2sqlite.findTable s e.1 = .ok a := by
      rw [hen, ← hab.1]
      exact findTable_of_mem (by rw [hnames]; exact hwf.1) ha
    obtain ⟨hsc, t, ht, _, hq⟩ := (mem_edgeRows_iff d e r).mp hmem
    have htb : t = b := by
      have := findTable_of_mem hwf.1 hb
      rw [← hen, ht] at this
      simpa using this
    subst htb
    have : r ∈ edgeRows s e := by
      refine (mem_edgeRows_iff s e r).mpr ⟨by rw [h.scanOK]; exact hsc, a, hfa, hr, ?_⟩
      rw [hab.2.1]
      exact h.queryTest _ hq
    rw [hcons e he] at this
    cases this
  rw [← List.filter_eq_self.mpr hall]
  exact hab.2.2.filter _

/-! ## One pass of the Repair loop -/

/-- A pass of the Repair loop on a well-formed store with violations: the sweep runs on
the store, the scheduled deletions leave `repairStep db`, and the loop goes on there. -/
theorem loop_step {order : Nat → Schema} (hord : IterationOrder order) (db : Store)
    (v : validator) (hv : v.toDelete = []) (hforce : v.opts.force = true)
    (hwf : WellFormed db) (hok : StoreOK db) (hnc : ¬ Consistent db) (fuel : Nat) :
    validate.loop order (fuel + 1) db v =
      validate.loop order fuel (repairStep db)
        { opts := v.opts
          issues := v.issues ++ (if v.pass = 0 then (edgesOf (order v.pass)).flatMap (edgeMessages db) else [])
          pass := v.pass + 1
          toDelete := [] } := by
  obtain ⟨v1, hv1⟩ := sweepEdges_of_scanOK (edgesOf (order v.pass))
    (fun e he => hok e ((mem_edges_order hord _ e).mp he)) v
  obtain ⟨a1, a2, _, a3, _, _, a6, _, a8⟩ := sweepEdges_ok _ hv1
  have htd := sweepEdges_toDelete _ hv1 hforce
  rw [hv] at htd
  have hne : ¬ v1.toDelete.length = 0 := by
    intro h0
    apply hnc
    intro e he
    exact a6 hforce (List.length_eq_zero.mp h0) e ((mem_edges_order hord _ e).mpr he)
  have hsch : Scheduled db v1.toDelete := a8 (by rw [hv]; exact scheduled_nil db)
  have happ := applyDeletes_of_scheduled hsch
  rw [htd, deleteScheduled_sweep hwf (hord v.pass), ← htd] at happ
  simp only [validate.loop, sweep_eq, hv1, hne, if_false, happ, a1, a2, a3]

theorem StoreOK.of_repairStep {db : Store} (hok : StoreOK db) : StoreOK (repairStep db) := by
  intro e he
  have h := (SubStore.sieve (fun n r => !(violatesSome db n r)) db).scanOK e
  unfold Gtfs2sqlite.repairStep
  rw [h]
  exact hok e he

theorem repairStep_of_consistent {db : Store} (h : Consistent db) : repairStep db = db := by
  unfold repairStep
  conv_rhs => rw [← sieve_true db]
  apply sieve_congr
  intro t _ r _
  simp only [Bool.not_eq_true', Bool.eq_false_iff, ne_eq, iff_true]
  intro hv
  unfold violatesSome at hv
  simp only [List.any_eq_true, Bool.and_eq_true, decide_eq_true_eq] at hv
  obtain ⟨e, he, _, hmem⟩ := hv
  rw [h e he] at hmem
  cases hmem

/-- What holds of the store and is kept by every Repair pass holds of the store that the
Repair loop leaves. -/
theorem loop_final {order : Nat → Schema} (hord : IterationOrder order) (P : Store → Prop)
    (hP : ∀ d, WellFormed d → StoreOK d → P d → P (repairStep d)) :
    ∀ (fuel : Nat) (db : Store) (v : validator), v.toDelete = [] → v.opts.force = true →
      WellFormed db → StoreOK db → P db →
      ∀ dbf res, validate.loop order fuel db v = some (dbf, res) → P dbf ∧ WellFormed dbf := by
  intro fuel
  induction fuel with
  | zero =>
    intro db v _ _ _ _ _ dbf res h
    simp [validate.loop] at h
  | succ n ih =>
    intro db v hv hforce hwf hok hp dbf res h
    by_cases hc : Consistent db
    · rw [loop_stop hord db v hv hok hc n] at h
      simp only [Option.some.injEq, Prod.mk.injEq] at h
      rw [← h.1]
      exact ⟨hp, hwf⟩
    · rw [loop_step hord db v hv hforce hwf hok hc n] at h
      exact ih (repairStep db)
        { opts := v.opts
          issues := v.issues ++ (if v.pass = 0 then (edgesOf (order v.pass)).flatMap (edgeMessages db) else [])
          pass := v.pass + 1
          toDelete := [] }
        rfl hforce (hwf.of_sieve _) hok.of_repairStep (hP db hwf hok hp) dbf res h

theorem validate_db {order : Nat → Schema} {fuel : Nat} {db : Store} {opts : validateOpts}
    {r : validateResult} (h : validate order fuel db opts = some r) :
    ∃ res, validate.loop order fuel db (validator.init opts) = some (r.db, res) := by
  unfold validate at h
  cases hl : validate.loop order fuel db (validator.init opts) with
  | none => simp [hl] at h
  | some p =>
    obtain ⟨d, res⟩ := p
    cases res with
    | error e =>
      simp only [hl, Option.some.injEq] at h
      rw [← h]
      exact ⟨_, rfl⟩
    | ok v =>
      simp only [hl] at h
      refine ⟨.ok v, ?_⟩
      split at h <;> try split at h
      all_goals
        simp only [Option.some.injEq] at h
        rw [← h]

/-! ## What a Repair pass deletes, and what the Repair loop leaves -/

theorem findTable_sieve (q : String → Row → Bool) (db : Store) (n : String) :
    findTable (sieve q db) n =
      match findTable db n with
      | .ok t => .ok { t with rows := t.rows.filter (q t.name) }
      | .error e => .error e := by
  induction db with
  | nil => rfl
  | cons t rest ih =>
    have hs : sieve q (t :: rest)
        = { t with rows := t.rows.filter (q t.name) } :: sieve q rest := rfl
    rw [hs, findTable_cons, findTable_cons]
    by_cases hn : (t.name == n) = true
    · simp only [hn, if_true]
    · simp only [hn, if_false]
      exact ih

theorem mem_rowsOf_repairStep {db : Store} (hwf : WellFormed db) {t : Table} (ht : t ∈ db)
    (r : Row) :
    r ∈ rowsOf (repairStep db) t.name ↔
      r ∈ t.rows ∧ ∀ e ∈ edgesOf gtfsSchema, e.1 = t.name → r ∉ edgeRows db e := by
  unfold rowsOf repairStep
  rw [findTable_sieve, findTable_of_mem hwf.1 ht]
  simp only [List.mem_filter, Bool.not_eq_true', Bool.eq_false_iff, ne_eq, violatesSome,
    List.any_eq_true, Bool.and_eq_true, decide_eq_true_eq, not_exists, not_and]

/-- A Repair pass on a well-formed store on which every query can run.  The sweep
evaluates every edge on the store as it is at the start of the pass (it only reads: the
deletions it schedules are the rows that the queries return on that store) and, after
the sweep, the scheduled deletions are applied without error, also when a row is scheduled
more than once; they leave the store `repairStep db`, in which a row of the store is gone
exactly when the query of some edge of its table returns it, that is, when for some edge
its value is not NULL, occurs in no target column and no target column holds a NULL.  A
row whose every foreign-key value is NULL or occurs in a target column is not deleted. -/
theorem validate_pass_deletes_violating (order : Nat → Schema) (hord : IterationOrder order)
    (db : Store) (hwf : WellFormed db) (hok : StoreOK db) (v : validator)
    (hv : v.toDelete = []) (hforce : v.opts.force = true) (fuel : Nat) :
    ∃ v1, validate.sweep db (order v.pass) v = .ok v1 ∧
      v1.toDelete = (scheduledPairs db (edgesOf (order v.pass))).foldl
        (fun m p => mapAppend p.1 p.2 m) [] ∧
      validate.applyDeletes v1.toDelete db = (repairStep db, none) ∧
      validate.loop order (fuel + 1) db v =
        (if v1.toDelete.length = 0 then some (db, .ok v1)
         else validate.loop order fuel (repairStep db)
           { v1 with toDelete := [], pass := v1.pass + 1 }) ∧
      (∀ t ∈ db, ∀ r ∈ t.rows,
        (r ∈ rowsOf (repairStep db) t.name ↔
          ¬ ∃ e ∈ edgesOf gtfsSchema, e.1 = t.name ∧ r ∈ edgeRows db e) ∧
        (r ∈ rowsOf (repairStep db) t.name ↔
          ¬ ∃ e ∈ edgesOf gtfsSchema, e.1 = t.name ∧
            queryTest db e.2.2 (r.get t.columns e.2.1)) ∧
        ((∀ e ∈ edgesOf gtfsSchema, e.1 = t.name →
            r.get t.columns e.2.1 = none ∨ r.get t.columns e.2.1 ∈ targetValues db e.2.2) →
          r ∈ rowsOf (repairStep db) t.name)) ∧
      (∀ t ∈ db, ∀ r ∈ rowsOf (repairStep db) t.name, r ∈ t.rows) := by
  obtain ⟨v1, hv1⟩ := sweepEdges_of_scanOK (edgesOf (order v.pass))
    (fun e he => hok e ((mem_edges_order hord _ e).mp he)) v
  obtain ⟨_, _, _, _, _, _, _, _, a8⟩ := sweepEdges_ok _ hv1
  have htd := sweepEdges_toDelete _ hv1 hforce
  rw [hv] at htd
  have hsch : Scheduled db v1.toDelete := a8 (by rw [hv]; exact scheduled_nil db)
  have happ := applyDeletes_of_scheduled hsch
  rw [htd, deleteScheduled_sweep hwf (hord v.pass), ← htd] at happ
  have hq : ∀ t ∈ db, ∀ r ∈ t.rows, ∀ e ∈ edgesOf gtfsSchema, e.1 = t.name →
      (r ∈ edgeRows db e ↔ queryTest db e.2.2 (r.get t.columns e.2.1)) := by
    intro t ht r hr e he hn
    rw [mem_edgeRows_iff]
    have hf : findTable db e.1 = .ok t := by
      rw [hn]
      exact findTable_of_mem hwf.1 ht
    simp only [hok e he, true_and, hf, Except.ok.injEq, exists_eq_left', hr]
  have hiff : ∀ t ∈ db, ∀ r ∈ t.rows,
      (r ∈ rowsOf (repairStep db) t.name ↔
        ¬ ∃ e ∈ edgesOf gtfsSchema, e.1 = t.name ∧ r ∈ edgeRows db e) := by
    intro t ht r hr
    rw [mem_rowsOf_repairStep hwf ht]
    simp only [hr, true_and, not_exists, not_and]
  have hiff2 : ∀ t ∈ db, ∀ r ∈ t.rows,
      (r ∈ rowsOf (repairStep db) t.name ↔
        ¬ ∃ e ∈ edgesOf gtfsSchema, e.1 = t.name ∧
          queryTest db e.2.2 (r.get t.columns e.2.1)) := by
    intro t ht r hr
    rw [hiff t ht r hr]
    constructor
    · rintro h ⟨e, he, hn, hqt⟩
      exact h ⟨e, he, hn, (hq t ht r hr e he hn).mpr hqt⟩
    · rintro h ⟨e, he, hn, hmem⟩
      exact h ⟨e, he, hn, (hq t ht r hr e he hn).mp hmem⟩
  refine ⟨v1, by rw [sweep_eq]; exact hv1, htd, happ, ?_, ?_, ?_⟩
  · by_cases hlen : v1.toDelete.length = 0
    · simp only [validate.loop, sweep_eq, hv1, hlen, if_true]
    · simp only [validate.loop, sweep_eq, hv1, hlen, if_false, happ]
  · intro t ht r hr
    refine ⟨hiff t ht r hr, hiff2 t ht r hr, ?_⟩
    intro hall
    rw [hiff2 t ht r hr]
    rintro ⟨e, he, hn, hqt⟩
    rcases hall e he hn with h | h
    · exact hqt.1 h
    · exact hqt.2.1 h
  · intro t ht r hr
    exact ((mem_rowsOf_repairStep hwf ht r).mp hr).1

/-- A Repair pass on `doubleViolationDB`: in that store the only stop_times row violates two edges
(unknown trip_id, unknown stop_id), the sweep schedules its rowid twice, both deletions
run without error, and the stop, which violates nothing, stays. -/
theorem validate_pass_deletes_violating_witness :
    IterationOrder sourceOrder ∧ WellFormed doubleViolationDB ∧ StoreOK doubleViolationDB ∧
    (validator.init { force := true }).toDelete = [] ∧
    (validator.init { force := true }).opts.force = true ∧
    scheduledPairs doubleViolationDB (edgesOf gtfsSchema)
      = [("stop_times", 1), ("stop_times", 1)] ∧
    repairStep doubleViolationDB = oneStopDB ∧
    (validate sourceOrder 3 doubleViolationDB { force := true }).map (fun r => (r.err, r.db))
      = some (none, oneStopDB) ∧
    ∃ v1, validate.sweep doubleViolationDB (sourceOrder (validator.init { force := true }).pass)
        (validator.init { force := true }) = .ok v1 ∧
      v1.toDelete = (scheduledPairs doubleViolationDB
          (edgesOf (sourceOrder (validator.init { force := true }).pass))).foldl
        (fun m p => mapAppend p.1 p.2 m) [] ∧
      validate.applyDeletes v1.toDelete doubleViolationDB = (repairStep doubleViolationDB, none) ∧
      validate.loop sourceOrder (2 + 1) doubleViolationDB (validator.init { force := true }) =
        (if v1.toDelete.length = 0 then some (doubleViolationDB, .ok v1)
         else validate.loop sourceOrder 2 (repairStep doubleViolationDB)
           { v1 with toDelete := [], pass := v1.pass + 1 }) ∧
      (∀ t ∈ doubleViolationDB, ∀ r ∈ t.rows,
        (r ∈ rowsOf (repairStep doubleViolationDB) t.name ↔
          ¬ ∃ e ∈ edgesOf gtfsSchema, e.1 = t.name ∧ r ∈ edgeRows doubleViolationDB e) ∧
        (r ∈ rowsOf (repairStep doubleViolationDB) t.name ↔
          ¬ ∃ e ∈ edgesOf gtfsSchema, e.1 = t.name ∧
            queryTest doubleViolationDB e.2.2 (r.get t.columns e.2.1)) ∧
        ((∀ e ∈ edgesOf gtfsSchema, e.1 = t.name →
            r.get t.columns e.2.1 = none ∨
              r.get t.columns e.2.1 ∈ targetValues doubleViolationDB e.2.2) →
          r ∈ rowsOf (repairStep doubleViolationDB) t.name)) ∧
      (∀ t ∈ doubleViolationDB, ∀ r ∈ rowsOf (repairStep doubleViolationDB) t.name,
        r ∈ t.rows) :=
  ⟨sourceOrder_iterationOrder, by decide, by decide, rfl, rfl, by decide, by decide, by decide,
    validate_pass_deletes_violating sourceOrder sourceOrder_iterationOrder doubleViolationDB
      (by decide) (by decide) (validator.init { force := true }) rfl rfl 2⟩

/-- The store that Repair-mode validate leaves is the greatest sub-store without
violations. -/
theorem repair_greatest {order : Nat → Schema} (hord : IterationOrder order) (db : Store)
    (hwf : WellFormed db) (hok : StoreOK db) (ignore : Bool) (logLevel : Int) (fuel : Nat)
    (hfuel : rowCount db + 1 ≤ fuel) :
    ∃ r, validate order fuel db { force := true, ignore := ignore, logLevel := logLevel }
        = some r ∧
      r.err = none ∧ SubStore r.db db ∧ Consistent r.db ∧
      ∀ s, SubStore s db → Consistent s → SubStore s r.db := by
  obtain ⟨r, h1, _, _, _, h5, _⟩ := validate_spec hord fuel db
    { force := true, ignore := ignore, logLevel := logLevel } (by omega) (fun _ => hfuel)
  obtain ⟨_, herr, hcons⟩ := h5 hok
  obtain ⟨res, hloop⟩ := validate_db h1
  have hfin := loop_final hord
    (fun d => SubStore d db ∧ ∀ s, SubStore s db → Consistent s → SubStore s d)
    (fun d hwfd _ hp => ⟨(SubStore.sieve _ d).trans hp.1,
      fun s hs hc => (hp.2 s hs hc).repairStep hwfd hc⟩)
    fuel db (validator.init { force := true, ignore := ignore, logLevel := logLevel })
    rfl rfl hwf hok ⟨SubStore.refl db, fun s hs _ => hs⟩ r.db res hloop
  refine ⟨r, h1, ?_, hfin.1.1, hcons rfl, hfin.1.2⟩
  rw [herr]
  simp

/-- Repair-mode validate computes the greatest sub-store on which the queries of the
validator return no row.  For every well-formed store on which every query can run, the
store it leaves is a sub-store of the initial store (the same tables, rows of the initial
store in their order), no query returns a row on it, and it contains every sub-store of
the initial store on which no query returns a row; hence a run that visits tables and
columns in another order leaves the same store. -/
theorem validate_repair_greatest (order order2 : Nat → Schema) (hord : IterationOrder order)
    (hord2 : IterationOrder order2) (db : Store) (hwf : WellFormed db) (hok : StoreOK db)
    (ignore ignore2 : Bool) (logLevel logLevel2 : Int) (fuel fuel2 : Nat)
    (hfuel : rowCount db + 1 ≤ fuel) (hfuel2 : rowCount db + 1 ≤ fuel2) :
    ∃ r, validate order fuel db { force := true, ignore := ignore, logLevel := logLevel }
        = some r ∧
      r.err = none ∧ SubStore r.db db ∧ Consistent r.db ∧
      (∀ s, SubStore s db → Consistent s → SubStore s r.db) ∧
      ∃ r2, validate order2 fuel2 db { force := true, ignore := ignore2, logLevel := logLevel2 }
          = some r2 ∧ r2.db = r.db := by
  obtain ⟨r, h1, h2, h3, h4, h5⟩ := repair_greatest hord db hwf hok ignore logLevel fuel hfuel
  obtain ⟨r2, g1, _, g3, g4, g5⟩ :=
    repair_greatest hord2 db hwf hok ignore2 logLevel2 fuel2 hfuel2
  exact ⟨r, h1, h2, h3, h4, h5, r2, g1, SubStore.antisymm (h5 r2.db g3 g4) (g5 r.db h3 h4)⟩

/-- Repair in two orders: on `chainDB` (a route with an unknown agency, a trip on that route, a
stop_times row of that trip) the runs in source order and in reverse order leave the same
store. -/
theorem validate_repair_greatest_witness :
    IterationOrder sourceOrder ∧ IterationOrder reverseOrder ∧ WellFormed chainDB ∧
    StoreOK chainDB ∧ rowCount chainDB + 1 ≤ 6 ∧
    ∃ r, validate sourceOrder 6 chainDB { force := true, ignore := false, logLevel := LevelWarn }
        = some r ∧
      r.err = none ∧ SubStore r.db chainDB ∧ Consistent r.db ∧
      (∀ s, SubStore s chainDB → Consistent s → SubStore s r.db) ∧
      ∃ r2, validate reverseOrder 6 chainDB
          { force := true, ignore := false, logLevel := LevelWarn } = some r2 ∧
        r2.db = r.db :=
  ⟨sourceOrder_iterationOrder, reverseOrder_iterationOrder, by decide, by decide, by decide,
    validate_repair_greatest sourceOrder reverseOrder sourceOrder_iterationOrder
      reverseOrder_iterationOrder chainDB (by decide) (by decide) false false LevelWarn LevelWarn
      6 6 (by decide) (by decide)⟩

/-! ## Statements on a connection -/

theorem injected_of_fault_none {c : Conn} (h : c.fault = none) : c.injected = none := by
  unfold Conn.injected
  rw [h]

theorem clean_append {c : Conn} (hc : c.Clean) (op : Op) (log : List (Op × Option Err))
    (h : log = c.log ++ [(op, none)]) : ∀ p ∈ log, p.2 = none := by
  intro p hp
  rw [h, List.mem_append, List.mem_singleton] at hp
  rcases hp with hp | hp
  · exact hc p hp
  · rw [hp]

/-- A query on a connection: the store and the fault stay, the query is logged with its
outcome, and the result is the error of the fault or the result of the query on the
store. -/
theorem select_spec (c : Conn) (table : String) (wher : Expr) :
    (c.select table wher).1.db = c.db ∧ (c.select table wher).1.fault = c.fault ∧
    (c.select table wher).1.log
      = c.log ++ [(.select table wher, outcome (c.select table wher).2)] ∧
    ((c.select table wher).2 = selectWhere c.db table wher ∨
      ∃ e, c.injected = some e ∧ (c.select table wher).2 = .error e) ∧
    (c.injected = none → (c.select table wher).2 = selectWhere c.db table wher) := by
  unfold Conn.select
  cases hi : c.injected with
  | none => exact ⟨rfl, rfl, rfl, Or.inl rfl, fun _ => rfl⟩
  | some e => exact ⟨rfl, rfl, rfl, Or.inr ⟨e, rfl, rfl⟩, fun h => by cases h⟩

theorem select_trace {c : Conn} (hc : c.Clean) (table : String) (wher : Expr) :
    (∀ x, (c.select table wher).2 = .ok x → (c.select table wher).1.Clean) ∧
    (∀ e, (c.select table wher).2 = .error e → (c.select table wher).1.FailedLast e) := by
  obtain ⟨_, _, hlog, _, _⟩ := select_spec c table wher
  refine ⟨?_, ?_⟩
  · intro x hx
    rw [hx] at hlog
    exact clean_append hc _ _ hlog
  · intro e he
    rw [he] at hlog
    exact ⟨c.log, _, hlog, hc⟩

/-- A deletion on a connection that succeeds: the row is deleted from the store. -/
theorem delete_ok {c c1 : Conn} {table : String} {rowid : Int}
    (h : c.delete table rowid = (c1, none)) :
    c1.db = deleteRowid c.db table rowid ∧ c1.fault = c.fault ∧
    c1.log = c.log ++ [(.delete table rowid, none)] ∧
    execDelete c.db table (.rowidEq rowid) = .ok c1.db := by
  unfold Conn.delete at h
  cases hi : c.injected with
  | some e => simp [hi] at h
  | none =>
    simp only [hi] at h
    cases hd : execDelete c.db table (.rowidEq rowid) with
    | error e => simp [hd] at h
    | ok db1 =>
      simp only [hd, Prod.mk.injEq, and_true] at h
      subst h
      refine ⟨?_, rfl, rfl, rfl⟩
      rw [execDelete_rowidEq] at hd
      cases hf : findTable c.db table with
      | error e => simp [hf] at hd
      | ok t =>
        simp only [hf, Except.ok.injEq] at hd
        exact hd.symm

/-- A deletion on a connection that fails: the store is as it was. -/
theorem delete_error {c c1 : Conn} {table : String} {rowid : Int} {e : Err}
    (h : c.delete table rowid = (c1, some e)) :
    c1.db = c.db ∧ c1.fault = c.fault ∧ c1.log = c.log ++ [(.delete table rowid, some e)] ∧
    (execDelete c.db table (.rowidEq rowid) = .error e ∨ c.injected = some e) := by
  unfold Conn.delete at h
  cases hi : c.injected with
  | some e1 =>
    simp only [hi, Prod.mk.injEq, Option.some.injEq] at h
    obtain ⟨h1, h2⟩ := h
    subst h1
    subst h2
    exact ⟨rfl, rfl, rfl, Or.inr rfl⟩
  | none =>
    simp only [hi] at h
    cases hd : execDelete c.db table (.rowidEq rowid) with
    | ok db1 => simp [hd] at h
    | error e1 =>
      simp only [hd, Prod.mk.injEq, Option.some.injEq] at h
      obtain ⟨h1, h2⟩ := h
      subst h1
      subst h2
      exact ⟨rfl, rfl, rfl, Or.inl rfl⟩

theorem delete_nofault {c : Conn} (hf : c.injected = none) (table : String) (rowid : Int) :
    ((c.delete table rowid).1.db, (c.delete table rowid).2) =
      match execDelete c.db table (.rowidEq rowid) with
      | .error e => (c.db, some e)
      | .ok db1 => (db1, none) := by
  unfold Conn.delete
  simp only [hf]
  cases execDelete c.db table (.rowidEq rowid) <;> rfl

/-! ## A sweep on a connection -/

theorem conn_validateTable_loop_eq (table : String) (cols : List (String × columnSchema)) :
    ∀ c v, Faulty.validateTable.loop table cols c v =
      Faulty.validate.sweepEdges
        (cols.filterMap (fun cs => cs.2.ForeignID.map (fun f => (table, cs.1, f)))) c v := by
  induction cols with
  | nil => intro c v; rfl
  | cons cs rest ih =>
    intro c v
    obtain ⟨column, schema⟩ := cs
    cases hf : schema.ForeignID with
    | none =>
      simp only [Faulty.validateTable.loop, Faulty.validateColumn, hf, List.filterMap_cons,
        Option.map_none', ih]
    | some f =>
      simp only [Faulty.validateTable.loop, Faulty.validateColumn, hf, List.filterMap_cons,
        Option.map_some', Faulty.validate.sweepEdges]
      cases Faulty.validateForeignID c v table column f with
      | mk c1 res =>
        cases res with
        | error e => rfl
        | ok v1 => exact ih c1 v1

theorem conn_sweepEdges_append (a b : List Edge) :
    ∀ c v, Faulty.validate.sweepEdges (a ++ b) c v =
      match Faulty.validate.sweepEdges a c v with
      | (c1, .error e) => (c1, .error e)
      | (c1, .ok v1) => Faulty.validate.sweepEdges b c1 v1 := by
  induction a with
  | nil => intro c v; rfl
  | cons e rest ih =>
    intro c v
    simp only [List.cons_append, Faulty.validate.sweepEdges]
    cases Faulty.validateForeignID c v e.1 e.2.1 e.2.2 with
    | mk c1 res =>
      cases res with
      | error err => rfl
      | ok v1 => exact ih c1 v1

theorem conn_sweep_eq (schema : Schema) :
    ∀ c v, Faulty.validate.sweep schema c v
      = Faulty.validate.sweepEdges (edgesOf schema) c v := by
  induction schema with
  | nil => intro c v; rfl
  | cons ts rest ih =>
    intro c v
    obtain ⟨table, schema⟩ := ts
    have he : edgesOf ((table, schema) :: rest)
        = schema.Columns.filterMap (fun cs => cs.2.ForeignID.map (fun f => (table, cs.1, f)))
          ++ edgesOf rest := by
      simp [edgesOf, List.flatMap_cons]
    rw [he, conn_sweepEdges_append]
    simp only [Faulty.validate.sweep, Faulty.validateTable, conn_validateTable_loop_eq]
    cases Faulty.validate.sweepEdges
        (schema.Columns.filterMap (fun cs => cs.2.ForeignID.map (fun f => (table, cs.1, f))))
        c v with
    | mk c1 res =>
      cases res with
      | error e => rfl
      | ok v1 => exact ih c1 v1

/-- The check of one edge on a connection: the store and the fault stay; a success
leaves a log without failure and is the success of the check on the store; a failure
is the failure of the statement just sent. -/
theorem conn_validateForeignID_spec {c : Conn} (hc : c.Clean) (v : validator)
    (table column : String) (schema : foreignIDSchema) (hnp : ¬ panics schema) :
    (Faulty.validateForeignID c v table column schema).1.db = c.db ∧
    (Faulty.validateForeignID c v table column schema).1.fault = c.fault ∧
    (∀ v1, (Faulty.validateForeignID c v table column schema).2 = .ok v1 →
      (Faulty.validateForeignID c v table column schema).1.Clean ∧
      Gtfs2sqlite.validateForeignID c.db v table column schema = .ok v1) ∧
    (∀ e, (Faulty.validateForeignID c v table column schema).2 = .error e →
      (Faulty.validateForeignID c v table column schema).1.FailedLast e) ∧
    (c.fault = none → (Faulty.validateForeignID c v table column schema).2
      = Gtfs2sqlite.validateForeignID c.db v table column schema) := by
  unfold panics at hnp
  obtain ⟨s1, s2, _, s4, s5⟩ := select_spec c table (foreignQuery column (anyOfForm schema))
  obtain ⟨t1, t2⟩ := select_trace hc table (foreignQuery column (anyOfForm schema))
  have hconc_err : ∀ e, selectWhere c.db table (foreignQuery column (anyOfForm schema))
      = .error e → Gtfs2sqlite.validateForeignID c.db v table column schema = .error e := by
    intro e h
    unfold Gtfs2sqlite.validateForeignID foreignRows
    simp only [hnp, if_false, h]
  have hconc_ok : ∀ t rows, selectWhere c.db table (foreignQuery column (anyOfForm schema))
      = .ok (t, rows) → Gtfs2sqlite.validateForeignID c.db v table column schema
        = .ok ((rows.map (Stmt.ofRow t)).foldl (validateForeignID.callback table column) v) := by
    intro t rows h
    unfold Gtfs2sqlite.validateForeignID foreignRows
    simp only [hnp, if_false, h]
  unfold Faulty.validateForeignID
  simp only [hnp, if_false]
  cases hsel : c.select table (foreignQuery column (anyOfForm schema)) with
  | mk c1 res =>
    rw [hsel] at s1 s2 s4 s5 t1 t2
    simp only at s1 s2 s4 s5 t1 t2
    cases res with
    | error e =>
      refine ⟨s1, s2, ?_, ?_, ?_⟩
      · intro v1 h
        cases h
      · intro e1 h
        simp only [Except.error.injEq] at h
        subst h
        exact t2 e rfl
      · intro hf
        exact (hconc_err e (s5 (injected_of_fault_none hf)).symm).symm
    | ok x =>
      obtain ⟨t, rows⟩ := x
      have hsw : selectWhere c.db table (foreignQuery column (anyOfForm schema))
          = .ok (t, rows) := by
        rcases s4 with h | ⟨e, _, h⟩
        · exact h.symm
        · cases h
      refine ⟨s1, s2, ?_, ?_, ?_⟩
      · intro v1 h
        simp only [Except.ok.injEq] at h
        subst h
        exact ⟨t1 _ rfl, hconc_ok t rows hsw⟩
      · intro e1 h
        cases h
      · intro _
        exact (hconc_ok t rows hsw).symm

/-- A sweep over edges none of which panics, on a connection. -/
theorem conn_sweepEdges_spec (es : List Edge) :
    ∀ (c : Conn) (v : validator), c.Clean → (∀ e ∈ es, ¬ panics e.2.2) →
      (Faulty.validate.sweepEdges es c v).1.db = c.db ∧
      (Faulty.validate.sweepEdges es c v).1.fault = c.fault ∧
      (∀ v1, (Faulty.validate.sweepEdges es c v).2 = .ok v1 →
        (Faulty.validate.sweepEdges es c v).1.Clean ∧
        Gtfs2sqlite.validate.sweepEdges c.db es v = .ok v1) ∧
      (∀ e, (Faulty.validate.sweepEdges es c v).2 = .error e →
        (Faulty.validate.sweepEdges es c v).1.FailedLast e) ∧
      (c.fault = none → (Faulty.validate.sweepEdges es c v).2
        = Gtfs2sqlite.validate.sweepEdges c.db es v) := by
  induction es with
  | nil =>
    intro c v hc _
    refine ⟨rfl, rfl, ?_, ?_, fun _ => rfl⟩
    · intro v1 h
      exact ⟨hc, h⟩
    · intro e h
      cases h
  | cons e rest ih =>
    intro c v hc hnp
    obtain ⟨f1, f2, f3, f4, f5⟩ := conn_validateForeignID_spec hc v e.1 e.2.1 e.2.2
      (hnp e (List.mem_cons_self _ _))
    simp only [Faulty.validate.sweepEdges, Gtfs2sqlite.validate.sweepEdges]
    cases hv : Faulty.validateForeignID c v e.1 e.2.1 e.2.2 with
    | mk c1 res =>
      rw [hv] at f1 f2 f3 f4 f5
      simp only at f1 f2 f3 f4 f5
      cases res with
      | error err =>
        refine ⟨f1, f2, ?_, ?_, ?_⟩
        · intro v1 h
          cases h
        · intro e1 h
          simp only [Except.error.injEq] at h
          subst h
          exact f4 err rfl
        · intro hf
          rw [← f5 hf]
      | ok v1 =>
        obtain ⟨g1, g2⟩ := f3 v1 rfl
        obtain ⟨i1, i2, i3, i4, i5⟩ := ih c1 v1 g1
          (fun e he => hnp e (List.mem_cons_of_mem _ he))
        simp only [g2]
        rw [f1] at i1 i3 i5
        rw [f2] at i2 i5
        exact ⟨i1, i2, i3, i4, i5⟩

/-! ## The deletion phase on a connection -/

/-- The deletions of one table on a connection: on success all of them are applied; on a
failure those sent before the failing one are applied and the rest is not sent. -/
theorem conn_deleteRows_spec (table : String) (rows : List Int) :
    ∀ c : Conn,
      (Faulty.validate.deleteRows table rows c).1.fault = c.fault ∧
      ((Faulty.validate.deleteRows table rows c).2 = none →
        (Faulty.validate.deleteRows table rows c).1.db
          = rows.foldl (fun d i => deleteRowid d table i) c.db ∧
        (Faulty.validate.deleteRows table rows c).1.log
          = c.log ++ rows.map (fun i => (Op.delete table i, none)) ∧
        Gtfs2sqlite.validate.deleteRows table rows c.db
          = ((Faulty.validate.deleteRows table rows c).1.db, none)) ∧
      (∀ e, (Faulty.validate.deleteRows table rows c).2 = some e →
        ∃ k i, rows[k]? = some i ∧
          (Faulty.validate.deleteRows table rows c).1.db
            = (rows.take k).foldl (fun d i => deleteRowid d table i) c.db ∧
          (Faulty.validate.deleteRows table rows c).1.log
            = c.log ++ (rows.take k).map (fun i => (Op.delete table i, none))
                ++ [(Op.delete table i, some e)]) ∧
      (c.fault = none →
        ((Faulty.validate.deleteRows table rows c).1.db,
          (Faulty.validate.deleteRows table rows c).2)
          = Gtfs2sqlite.validate.deleteRows table rows c.db) := by
  induction rows with
  | nil =>
    intro c
    refine ⟨rfl, fun _ => ⟨rfl, by simp [Faulty.validate.deleteRows], rfl⟩, ?_, fun _ => rfl⟩
    intro e h
    cases h
  | cons i rest ih =>
    intro c
    cases hd : c.delete table i with
    | mk c1 oe =>
      cases oe with
      | some e =>
        obtain ⟨d1, d2, d3, d4⟩ := delete_error hd
        simp only [Faulty.validate.deleteRows, hd]
        refine ⟨d2, ?_, ?_, ?_⟩
        · intro h
          cases h
        · intro e1 h
          simp only [Option.some.injEq] at h
          subst h
          exact ⟨0, i, by simp, by simpa using d1, by simpa using d3⟩
        · intro hf
          have hnf := delete_nofault (injected_of_fault_none hf) table i
          rw [hd] at hnf
          simp only [Gtfs2sqlite.validate.deleteRows]
          cases hx : execDelete c.db table (.rowidEq i) with
          | error e1 =>
            rw [hx] at hnf
            simp only [Prod.mk.injEq] at hnf
            simp only [hnf.1, hnf.2]
          | ok db1 =>
            rw [hx] at hnf
            simp at hnf
      | none =>
        obtain ⟨d1, d2, d3, d4⟩ := delete_ok hd
        obtain ⟨i1, i2, i3, i4⟩ := ih c1
        simp only [Faulty.validate.deleteRows, hd, Gtfs2sqlite.validate.deleteRows, d4]
        refine ⟨by rw [i1, d2], ?_, ?_, ?_⟩
        · intro h
          obtain ⟨j1, j2, j3⟩ := i2 h
          refine ⟨?_, ?_, j3⟩
          · rw [j1, d1]
            rfl
          · rw [j2, d3]
            simp
        · intro e h
          obtain ⟨k, j, h1, h2, h3⟩ := i3 e h
          refine ⟨k + 1, j, by simpa using h1, ?_, ?_⟩
          · rw [h2, d1]
            rfl
          · rw [h3, d3]
            simp
        · intro hf
          exact i4 (by rw [d2]; exact hf)

theorem deletions_cons (table : String) (rows : List Int) (rest : List (String × List Int)) :
    deletions ((table, rows) :: rest) = rows.map (fun i => (table, i)) ++ deletions rest := by
  simp [deletions, List.flatMap_cons]

theorem foldl_deleteRowid_map (table : String) (rows : List Int) (db : Store) :
    (rows.map (fun i => (table, i))).foldl (fun d q => deleteRowid d q.1 q.2) db
      = rows.foldl (fun d i => deleteRowid d table i) db := by
  rw [List.foldl_map]

/-- The deletion phase on a connection: on success every scheduled deletion is applied;
when a deletion fails, the deletions sent before it stay applied, the failing one and
those after it are not applied. -/
theorem conn_applyDeletes_spec (m : List (String × List Int)) :
    ∀ c : Conn,
      (Faulty.validate.applyDeletes m c).1.fault = c.fault ∧
      ((Faulty.validate.applyDeletes m c).2 = none →
        (Faulty.validate.applyDeletes m c).1.db
          = (deletions m).foldl (fun d q => deleteRowid d q.1 q.2) c.db ∧
        (Faulty.validate.applyDeletes m c).1.log
          = c.log ++ (deletions m).map (fun q => (Op.delete q.1 q.2, none)) ∧
        Gtfs2sqlite.validate.applyDeletes m c.db
          = ((Faulty.validate.applyDeletes m c).1.db, none)) ∧
      (∀ e, (Faulty.validate.applyDeletes m c).2 = some e →
        ∃ k q, (deletions m)[k]? = some q ∧
          (Faulty.validate.applyDeletes m c).1.db
            = ((deletions m).take k).foldl (fun d q => deleteRowid d q.1 q.2) c.db ∧
          (Faulty.validate.applyDeletes m c).1.log
            = c.log ++ ((deletions m).take k).map (fun q => (Op.delete q.1 q.2, none))
                ++ [(Op.delete q.1 q.2, some e)]) ∧
      (c.fault = none →
        ((Faulty.validate.applyDeletes m c).1.db, (Faulty.validate.applyDeletes m c).2)
          = Gtfs2sqlite.validate.applyDeletes m c.db) := by
  induction m with
  | nil =>
    intro c
    refine ⟨rfl, fun _ => ⟨rfl, by simp [Faulty.validate.applyDeletes, deletions], rfl⟩, ?_,
      fun _ => rfl⟩
    intro e h
    cases h
  | cons p rest ih =>
    intro c
    obtain ⟨table, rows⟩ := p
    obtain ⟨r1, r2, r3, r4⟩ := conn_deleteRows_spec table rows c
    rw [deletions_cons]
    simp only [Faulty.validate.applyDeletes, Gtfs2sqlite.validate.applyDeletes]
    cases hd : Faulty.validate.deleteRows table rows c with
    | mk c1 oe =>
      rw [hd] at r1 r2 r3 r4
      simp only at r1 r2 r3 r4
      cases oe with
      | some e =>
        refine ⟨r1, ?_, ?_, ?_⟩
        · intro h
          cases h
        · intro e1 h
          simp only [Option.some.injEq] at h
          subst h
          obtain ⟨k, i, h1, h2, h3⟩ := r3 e rfl
          have hk : k < rows.length := by
            by_contra hge
            rw [List.getElem?_eq_none (by omega)] at h1
            cases h1
          have hk2 : k < (rows.map (fun i => (table, i))).length := by
            rw [List.length_map]
            exact hk
          refine ⟨k, (table, i), ?_, ?_, ?_⟩
          · rw [List.getElem?_append_left hk2, List.getElem?_map, h1]
            rfl
          · rw [List.take_append_of_le_length (by rw [List.length_map]; omega),
              ← List.map_take, foldl_deleteRowid_map]
            exact h2
          · rw [List.take_append_of_le_length (by rw [List.length_map]; omega),
              ← List.map_take, List.map_map]
            exact h3
        · intro hf
          rw [← r4 hf]
      | none =>
        obtain ⟨j1, j2, j3⟩ := r2 rfl
        obtain ⟨i1, i2, i3, i4⟩ := ih c1
        simp only [j3]
        refine ⟨by rw [i1, r1], ?_, ?_, ?_⟩
        · intro h
          obtain ⟨k1, k2, k3⟩ := i2 h
          refine ⟨?_, ?_, k3⟩
          · rw [k1, j1, List.foldl_append, foldl_deleteRowid_map]
          · rw [k2, j2, List.map_append, List.map_map, List.append_assoc]
            rfl
        · intro e h
          obtain ⟨k, q, h1, h2, h3⟩ := i3 e h
          refine ⟨rows.length + k, q, ?_, ?_, ?_⟩
          · rw [List.getElem?_append_right (by rw [List.length_map]; omega)]
            simp only [List.length_map, Nat.add_sub_cancel_left]
            exact h1
          · have ht : (rows.map (fun i => (table, i)) ++ deletions rest).take (rows.length + k)
                = rows.map (fun i => (table, i)) ++ (deletions rest).take k := by
              have := @List.take_append _ (rows.map (fun i => (table, i))) (deletions rest) k
              rw [List.length_map] at this
              exact this
            rw [ht, List.foldl_append, foldl_deleteRowid_map, h2, j1]
          · have ht : (rows.map (fun i => (table, i)) ++ deletions rest).take (rows.length + k)
                = rows.map (fun i => (table, i)) ++ (deletions rest).take k := by
              have := @List.take_append _ (rows.map (fun i => (table, i))) (deletions rest) k
              rw [List.length_map] at this
              exact this
            rw [ht, h3, j2, List.map_append, List.map_map]
            simp only [List.append_assoc]
            rfl
        · intro hf
          exact i4 (by rw [r1]; exact hf)

theorem conn_applyDeletes_trace (m : List (String × List Int)) {c : Conn} (hc : c.Clean) :
    ((Faulty.validate.applyDeletes m c).2 = none → (Faulty.validate.applyDeletes m c).1.Clean) ∧
    (∀ e, (Faulty.validate.applyDeletes m c).2 = some e →
      (Faulty.validate.applyDeletes m c).1.FailedLast e) := by
  obtain ⟨_, h2, h3, _⟩ := conn_applyDeletes_spec m c
  refine ⟨?_, ?_⟩
  · intro h
    obtain ⟨_, hlog, _⟩ := h2 h
    intro p hp
    rw [hlog, List.mem_append] at hp
    rcases hp with hp | hp
    · exact hc p hp
    · obtain ⟨q, _, rfl⟩ := List.mem_map.mp hp
      rfl
  · intro e h
    obtain ⟨k, q, _, _, hlog⟩ := h3 e h
    refine ⟨_, _, hlog, ?_⟩
    intro p hp
    rw [List.mem_append] at hp
    rcases hp with hp | hp
    · exact hc p hp
    · obtain ⟨q1, _, rfl⟩ := List.mem_map.mp hp
      rfl

/-! ## validate on a connection -/

theorem edges_no_panic : ∀ e ∈ edgesOf gtfsSchema, ¬ panics e.2.2 := by
  decide

/-- A sweep of `validate` on a connection whose log has no failure. -/
theorem conn_sweep_spec {order : Nat → Schema} (hord : IterationOrder order) (p : Nat)
    {c : Conn} (hc : c.Clean) (v : validator) :
    (Faulty.validate.sweep (order p) c v).1.db = c.db ∧
    (Faulty.validate.sweep (order p) c v).1.fault = c.fault ∧
    (∀ v1, (Faulty.validate.sweep (order p) c v).2 = .ok v1 →
      (Faulty.validate.sweep (order p) c v).1.Clean ∧
      Gtfs2sqlite.validate.sweep c.db (order p) v = .ok v1) ∧
    (∀ e, (Faulty.validate.sweep (order p) c v).2 = .error e →
      (Faulty.validate.sweep (order p) c v).1.FailedLast e) ∧
    (c.fault = none → (Faulty.validate.sweep (order p) c v).2
      = Gtfs2sqlite.validate.sweep c.db (order p) v) := by
  rw [conn_sweep_eq, sweep_eq]
  exact conn_sweepEdges_spec (edgesOf (order p)) c v hc
    (fun e he => edges_no_panic e ((mem_edges_order hord p e).mp he))

theorem applied_append (a b : List (Op × Option Err)) :
    applied (a ++ b) = applied a ++ applied b := by
  unfold applied
  rw [List.filterMap_append]

theorem applied_select (table : String) (wher : Expr) (o : Option Err) :
    applied [(Op.select table wher, o)] = [] := rfl

theorem applied_delete_error (table : String) (rowid : Int) (e : Err) :
    applied [(Op.delete table rowid, some e)] = [] := rfl

theorem applied_deletes (qs : List (String × Int)) :
    applied (qs.map (fun q => (Op.delete q.1 q.2, none))) = qs := by
  induction qs with
  | nil => rfl
  | cons q rest ih =>
    rw [List.map_cons, ← List.singleton_append, applied_append, ih]
    rfl

/-- A sweep applies no deletion: it leaves the store as it is. -/
theorem conn_sweepEdges_applied (es : List Edge) :
    ∀ (c : Conn) (v : validator),
      (Faulty.validate.sweepEdges es c v).1.db = c.db ∧
      applied (Faulty.validate.sweepEdges es c v).1.log = applied c.log := by
  induction es with
  | nil => intro c v; exact ⟨rfl, rfl⟩
  | cons e rest ih =>
    intro c v
    have hstep : (Faulty.validateForeignID c v e.1 e.2.1 e.2.2).1.db = c.db ∧
        applied (Faulty.validateForeignID c v e.1 e.2.1 e.2.2).1.log = applied c.log := by
      unfold Faulty.validateForeignID
      by_cases hp : e.2.2.AnyOf.length > 0 ∧ (e.2.2.Table ≠ "" ∨ e.2.2.Column ≠ "")
      · simp only [hp, if_true]
        exact ⟨rfl, rfl⟩
      · simp only [hp, if_false]
        obtain ⟨s1, _, s3, _, _⟩ := select_spec c e.1 (foreignQuery e.2.1 (anyOfForm e.2.2))
        cases hsel : c.select e.1 (foreignQuery e.2.1 (anyOfForm e.2.2)) with
        | mk c1 res =>
          rw [hsel] at s1 s3
          simp only at s1 s3
          have happ : applied c1.log = applied c.log := by
            rw [s3, applied_append, applied_select, List.append_nil]
          cases res with
          | error err => exact ⟨s1, happ⟩
          | ok x =>
            obtain ⟨t, rows⟩ := x
            exact ⟨s1, happ⟩
    simp only [Faulty.validate.sweepEdges]
    cases hv : Faulty.validateForeignID c v e.1 e.2.1 e.2.2 with
    | mk c1 res =>
      rw [hv] at hstep
      simp only at hstep
      cases res with
      | error err => exact hstep
      | ok v1 =>
        obtain ⟨i1, i2⟩ := ih c1 v1
        exact ⟨by rw [i1, hstep.1], by rw [i2, hstep.2]⟩

/-- The deletion phase keeps the store equal to the initial store without the deletions
that were applied. -/
theorem conn_applyDeletes_applied (m : List (String × List Int)) (c : Conn) (db0 : Store)
    (h : c.db = (applied c.log).foldl (fun d q => deleteRowid d q.1 q.2) db0) :
    (Faulty.validate.applyDeletes m c).1.db
      = (applied (Faulty.validate.applyDeletes m c).1.log).foldl
          (fun d q => deleteRowid d q.1 q.2) db0 := by
  obtain ⟨_, h2, h3, _⟩ := conn_applyDeletes_spec m c
  cases hd : (Faulty.validate.applyDeletes m c).2 with
  | none =>
    obtain ⟨j1, j2, _⟩ := h2 hd
    rw [j1, j2, applied_append, applied_deletes, List.foldl_append, ← h]
  | some e =>
    obtain ⟨k, q, _, j2, j3⟩ := h3 e hd
    rw [j2, j3, applied_append, applied_append, applied_deletes, applied_delete_error,
      List.append_nil, List.foldl_append, ← h]

/-- Through the whole loop the store is the initial store without the deletions that
were applied. -/
theorem conn_loop_applied (order : Nat → Schema) (db0 : Store) :
    ∀ (fuel : Nat) (c : Conn) (v : validator),
      c.db = (applied c.log).foldl (fun d q => deleteRowid d q.1 q.2) db0 →
      ∀ cf res, Faulty.validate.loop order fuel c v = some (cf, res) →
        cf.db = (applied cf.log).foldl (fun d q => deleteRowid d q.1 q.2) db0 := by
  intro fuel
  induction fuel with
  | zero =>
    intro c v _ cf res h
    simp [Faulty.validate.loop] at h
  | succ n ih =>
    intro c v hinv cf res h
    obtain ⟨s1, s2⟩ := conn_sweepEdges_applied (edgesOf (order v.pass)) c v
    rw [← conn_sweep_eq] at s1 s2
    simp only [Faulty.validate.loop] at h
    cases hs : Faulty.validate.sweep (order v.pass) c v with
    | mk c1 res1 =>
      rw [hs] at h s1 s2
      simp only at h s1 s2
      have hinv1 : c1.db = (applied c1.log).foldl (fun d q => deleteRowid d q.1 q.2) db0 := by
        rw [s1, s2]
        exact hinv
      cases res1 with
      | error e =>
        simp only [Option.some.injEq, Prod.mk.injEq] at h
        rw [← h.1]
        exact hinv1
      | ok v1 =>
        simp only at h
        by_cases hlen : v1.toDelete.length = 0
        · simp only [hlen, if_true, Option.some.injEq, Prod.mk.injEq] at h
          rw [← h.1]
          exact hinv1
        · simp only [hlen, if_false] at h
          have hinv2 := conn_applyDeletes_applied v1.toDelete c1 db0 hinv1
          cases ha : Faulty.validate.applyDeletes v1.toDelete c1 with
          | mk c2 oe =>
            rw [ha] at h hinv2
            simp only at h hinv2
            cases oe with
            | some e =>
              simp only [Option.some.injEq, Prod.mk.injEq] at h
              rw [← h.1]
              exact hinv2
            | none => exact ih c2 _ hinv2 cf res h

/-- The log of the loop: when the loop ends without error no statement failed, and when it
ends with an error, the error is that of the last statement sent, the only one that
failed. -/
theorem conn_loop_trace {order : Nat → Schema} (hord : IterationOrder order) :
    ∀ (fuel : Nat) (c : Conn) (v : validator), c.Clean →
      ∀ cf res, Faulty.validate.loop order fuel c v = some (cf, res) →
        cf.fault = c.fault ∧ (∀ vf, res = .ok vf → cf.Clean) ∧
        (∀ e, res = .error e → cf.FailedLast e) := by
  intro fuel
  induction fuel with
  | zero =>
    intro c v _ cf res h
    simp [Faulty.validate.loop] at h
  | succ n ih =>
    intro c v hc cf res h
    obtain ⟨_, s2, s3, s4, _⟩ := conn_sweep_spec hord v.pass hc v
    simp only [Faulty.validate.loop] at h
    cases hs : Faulty.validate.sweep (order v.pass) c v with
    | mk c1 res1 =>
      rw [hs] at h s2 s3 s4
      simp only at h s2 s3 s4
      cases res1 with
      | error e =>
        simp only [Option.some.injEq, Prod.mk.injEq] at h
        obtain ⟨h1, h2⟩ := h
        subst h1
        subst h2
        refine ⟨s2, ?_, ?_⟩
        · intro vf hvf
          cases hvf
        · intro e1 he1
          simp only [Except.error.injEq] at he1
          subst he1
          exact s4 e rfl
      | ok v1 =>
        obtain ⟨hc1, _⟩ := s3 v1 rfl
        simp only at h
        by_cases hlen : v1.toDelete.length = 0
        · simp only [hlen, if_true, Option.some.injEq, Prod.mk.injEq] at h
          obtain ⟨h1, h2⟩ := h
          subst h1
          subst h2
          refine ⟨s2, fun _ _ => hc1, ?_⟩
          intro e he
          cases he
        · simp only [hlen, if_false] at h
          obtain ⟨a1, _, _, _⟩ := conn_applyDeletes_spec v1.toDelete c1
          obtain ⟨t1, t2⟩ := conn_applyDeletes_trace v1.toDelete hc1
          cases ha : Faulty.validate.applyDeletes v1.toDelete c1 with
          | mk c2 oe =>
            rw [ha] at h a1 t1 t2
            simp only at h a1 t1 t2
            cases oe with
            | some e =>
              simp only [Option.some.injEq, Prod.mk.injEq] at h
              obtain ⟨h1, h2⟩ := h
              subst h1
              subst h2
              refine ⟨by rw [a1, s2], ?_, ?_⟩
              · intro vf hvf
                cases hvf
              · intro e1 he1
                simp only [Except.error.injEq] at he1
                subst he1
                exact t2 e rfl
            | none =>
              obtain ⟨i1, i2, i3⟩ := ih c2 _ (t1 rfl) cf res h
              exact ⟨by rw [i1, a1, s2], i2, i3⟩

/-- The loop on a connection returns whenever the loop on its store does. -/
theorem conn_loop_returns {order : Nat → Schema} (hord : IterationOrder order) :
    ∀ (fuel : Nat) (c : Conn) (v : validator), c.Clean →
      (∃ x, Gtfs2sqlite.validate.loop order fuel c.db v = some x) →
      ∃ y, Faulty.validate.loop order fuel c v = some y := by
  intro fuel
  induction fuel with
  | zero =>
    intro c v _ h
    obtain ⟨x, hx⟩ := h
    simp [Gtfs2sqlite.validate.loop] at hx
  | succ n ih =>
    intro c v hc h
    obtain ⟨x, hx⟩ := h
    obtain ⟨s1, _, s3, _, _⟩ := conn_sweep_spec hord v.pass hc v
    simp only [Faulty.validate.loop]
    simp only [Gtfs2sqlite.validate.loop] at hx
    cases hs : Faulty.validate.sweep (order v.pass) c v with
    | mk c1 res1 =>
      rw [hs] at s1 s3
      simp only at s1 s3
      cases res1 with
      | error e => exact ⟨_, rfl⟩
      | ok v1 =>
        obtain ⟨hc1, hconc⟩ := s3 v1 rfl
        rw [hconc] at hx
        simp only at hx ⊢
        by_cases hlen : v1.toDelete.length = 0
        · simp only [hlen, if_true]
          exact ⟨_, rfl⟩
        · simp only [hlen, if_false] at hx ⊢
          obtain ⟨_, a2, _, _⟩ := conn_applyDeletes_spec v1.toDelete c1
          obtain ⟨t1, _⟩ := conn_applyDeletes_trace v1.toDelete hc1
          cases ha : Faulty.validate.applyDeletes v1.toDelete c1 with
          | mk c2 oe =>
            rw [ha] at a2 t1
            simp only at a2 t1
            cases oe with
            | some e => exact ⟨_, rfl⟩
            | none =>
              obtain ⟨_, _, a3⟩ := a2 rfl
              rw [s1] at a3
              rw [a3] at hx
              exact ih c2 _ (t1 rfl) ⟨x, hx⟩

/-- Without a fault the loop on a connection is the loop on its store. -/
theorem conn_loop_nofault {order : Nat → Schema} (hord : IterationOrder order) :
    ∀ (fuel : Nat) (c : Conn) (v : validator), c.Clean → c.fault = none →
      (Faulty.validate.loop order fuel c v).map (fun p => (p.1.db, p.2))
        = Gtfs2sqlite.validate.loop order fuel c.db v := by
  intro fuel
  induction fuel with
  | zero => intro c v _ _; rfl
  | succ n ih =>
    intro c v hc hf
    obtain ⟨s1, s2, s3, _, s5⟩ := conn_sweep_spec hord v.pass hc v
    simp only [Faulty.validate.loop, Gtfs2sqlite.validate.loop]
    cases hs : Faulty.validate.sweep (order v.pass) c v with
    | mk c1 res1 =>
      rw [hs] at s1 s2 s3 s5
      simp only at s1 s2 s3 s5
      rw [← s5 hf]
      cases res1 with
      | error e =>
        simp only [Option.map_some', s1]
      | ok v1 =>
        obtain ⟨hc1, _⟩ := s3 v1 rfl
        simp only
        by_cases hlen : v1.toDelete.length = 0
        · simp only [hlen, if_true, Option.map_some', s1]
        · simp only [hlen, if_false]
          obtain ⟨a1, _, _, a4⟩ := conn_applyDeletes_spec v1.toDelete c1
          obtain ⟨t1, _⟩ := conn_applyDeletes_trace v1.toDelete hc1
          have a5 := a4 (by rw [s2]; exact hf)
          rw [s1] at a5
          rw [← a5]
          cases ha : Faulty.validate.applyDeletes v1.toDelete c1 with
          | mk c2 oe =>
            rw [ha] at a1 t1
            simp only at a1 t1
            cases oe with
            | some e => simp only [Option.map_some']
            | none =>
              simp only
              exact ih c2 _ (t1 rfl) (by rw [a1, s2]; exact hf)

/-! ## Errors of the store in validate -/

theorem failedLast_mem {c : Conn} {e : Err} (h : c.FailedLast e) {op : Op} {e1 : Err}
    (hmem : (op, some e1) ∈ c.log) :
    e1 = e ∧ c.log.getLast? = some (op, some e1) ∧ ∀ p ∈ c.log.dropLast, p.2 = none := by
  obtain ⟨pre, op0, hlog, hpre⟩ := h
  rw [hlog, List.mem_append, List.mem_singleton] at hmem
  rcases hmem with hm | hm
  · have := hpre _ hm
    cases this
  · simp only [Prod.mk.injEq, Option.some.injEq] at hm
    obtain ⟨h1, h2⟩ := hm
    subst h1
    subst h2
    refine ⟨rfl, ?_, ?_⟩
    · rw [hlog]
      simp
    · rw [hlog]
      simpa using hpre

theorem not_clean_of_failedLast {c : Conn} {e : Err} (h : c.FailedLast e) : ¬ c.Clean := by
  intro hc
  obtain ⟨pre, op0, hlog, _⟩ := h
  have := hc (op0, some e) (by rw [hlog]; simp)
  cases this

/-- What `validate` does on a connection opened on a store, with any fault: it returns;
its result is read off the end of the loop; the log shows a failure exactly when the loop
ended with an error, which is then the error of the last statement; the store is the
initial store without the deletions applied; without a fault the loop is the loop on the
store. -/
theorem conn_validate_spec {order : Nat → Schema} (hord : IterationOrder order) (db : Store)
    (fault : Option (Nat × Err)) (opts : validateOpts) (fuel : Nat)
    (hfuel : rowCount db + 1 ≤ fuel) :
    ∃ cf res, Faulty.validate.loop order fuel (Conn.open db fault) (validator.init opts)
        = some (cf, res) ∧
      (∀ vf, res = .ok vf → cf.Clean) ∧ (∀ e, res = .error e → cf.FailedLast e) ∧
      cf.db = (applied cf.log).foldl (fun d q => deleteRowid d q.1 q.2) db ∧
      (fault = none →
        Gtfs2sqlite.validate.loop order fuel db (validator.init opts) = some (cf.db, res)) := by
  have hclean : (Conn.open db fault).Clean := by
    intro p hp
    cases hp
  obtain ⟨dbf, res0, h0, _⟩ := loop_spec order fuel db (validator.init opts) rfl (by omega)
    (fun _ => hfuel)
  obtain ⟨y, hy⟩ := conn_loop_returns hord fuel (Conn.open db fault) (validator.init opts)
    hclean ⟨_, h0⟩
  obtain ⟨cf, res⟩ := y
  obtain ⟨_, t2, t3⟩ := conn_loop_trace hord fuel _ _ hclean cf res hy
  have hinv := conn_loop_applied order db fuel (Conn.open db fault) (validator.init opts) rfl
    cf res hy
  refine ⟨cf, res, hy, t2, t3, hinv, ?_⟩
  intro hf
  have := conn_loop_nofault hord fuel (Conn.open db fault) (validator.init opts) hclean
    (by rw [hf]; rfl)
  rw [hy] at this
  exact this.symm

/-- C21: validate never swallows an error of the store.  On a connection opened on any
store, with any statement chosen to fail with any error, validate returns (given fuel for
one pass per row and one more); if a statement failed (a scan or a delete, by the fault
or because a table or column is missing), validate returns the error of that statement
and a nil violation list, the failing statement is the last one sent, and no statement
before it failed.  When no statement failed the error is nil or ErrInvalidInput, the
latter only in Strict mode with violations; without a fault the result is that of
validate on the store. -/
theorem validate_surfaces_store_error (order : Nat → Schema) (hord : IterationOrder order)
    (db : Store) (fault : Option (Nat × Err)) (opts : validateOpts) (fuel : Nat)
    (hfuel : rowCount db + 1 ≤ fuel) :
    ∃ r, Faulty.validate order fuel (Conn.open db fault) opts = some r ∧
      (∀ op e, (op, some e) ∈ r.conn.log →
        r.err = some e ∧ r.issues = [] ∧ r.conn.log.getLast? = some (op, some e) ∧
        ∀ p ∈ r.conn.log.dropLast, p.2 = none) ∧
      (r.conn.Clean → r.err = none ∨
        (r.err = some ErrInvalidInput ∧ r.issues ≠ [] ∧ opts.force = false ∧
          opts.ignore = false)) ∧
      (fault = none →
        validate order fuel db opts = some { issues := r.issues, err := r.err, db := r.conn.db }) := by
  obtain ⟨cf, res, hy, t2, t3, _, hnf⟩ := conn_validate_spec hord db fault opts fuel hfuel
  unfold Faulty.validate validate
  rw [hy]
  cases res with
  | error e =>
    have hfl := t3 e rfl
    refine ⟨_, rfl, ?_, ?_, ?_⟩
    · intro op e1 hmem
      obtain ⟨h1, h2, h3⟩ := failedLast_mem hfl hmem
      subst h1
      exact ⟨rfl, rfl, h2, h3⟩
    · intro hc
      exact absurd hc (not_clean_of_failedLast hfl)
    · intro hf
      rw [hnf hf]
  | ok vf =>
    have hc := t2 vf rfl
    by_cases hlen : vf.issues.length > 0
    · by_cases hfi : (opts.force || opts.ignore) = true
      · simp only [hlen, hfi, if_true]
        refine ⟨_, rfl, ?_, fun _ => Or.inl rfl, ?_⟩
        · intro op e hmem
          have := hc _ hmem
          cases this
        · intro hf
          rw [hnf hf]
          simp only [hlen, hfi, if_true]
      · simp only [hlen, hfi, if_true, if_false]
        refine ⟨_, rfl, ?_, ?_, ?_⟩
        · intro op e hmem
          have := hc _ hmem
          cases this
        · intro _
          refine Or.inr ⟨rfl, ?_, ?_, ?_⟩
          · intro h0
            have h1 : vf.issues = [] := h0
            rw [h1] at hlen
            simp at hlen
          · cases hforce : opts.force with
            | false => rfl
            | true => simp [hforce] at hfi
          · cases hig : opts.ignore with
            | false => rfl
            | true => simp [hig] at hfi
        · intro hf
          rw [hnf hf]
          simp [hlen, hfi]
    · simp only [hlen, if_false]
      refine ⟨_, rfl, ?_, fun _ => Or.inl rfl, ?_⟩
      · intro op e hmem
        have := hc _ hmem
        cases this
      · intro hf
        rw [hnf hf]
        simp only [hlen, if_false]

/-- C21, instance: on `twoViolationsDB` in Repair mode the statement number 48, the second
deletion, fails with a disk error: validate returns that error and no violation, and the
failing deletion is the last of the 49 statements sent. -/
theorem validate_surfaces_store_error_witness :
    IterationOrder sourceOrder ∧ rowCount twoViolationsDB + 1 ≤ 3 ∧
    (Faulty.validate sourceOrder 3 (Conn.open twoViolationsDB (some (48, ioError)))
        { force := true }).map (fun r => (r.issues, r.err, r.conn.log.length))
      = some (([] : List String), some ioError, 49) ∧
    (Faulty.validate sourceOrder 3 (Conn.open twoViolationsDB (some (48, ioError)))
        { force := true }).map (fun r => r.conn.log.getLast?)
      = some (some (Op.delete "routes" 1, some ioError)) ∧
    ∃ r, Faulty.validate sourceOrder 3 (Conn.open twoViolationsDB (some (48, ioError)))
        { force := true } = some r ∧
      (∀ op e, (op, some e) ∈ r.conn.log →
        r.err = some e ∧ r.issues = [] ∧ r.conn.log.getLast? = some (op, some e) ∧
        ∀ p ∈ r.conn.log.dropLast, p.2 = none) ∧
      (r.conn.Clean → r.err = none ∨
        (r.err = some ErrInvalidInput ∧ r.issues ≠ [] ∧
          ({ force := true } : validateOpts).force = false ∧
          ({ force := true } : validateOpts).ignore = false)) ∧
      ((some (48, ioError) : Option (Nat × Err)) = none →
        validate sourceOrder 3 twoViolationsDB { force := true }
          = some { issues := r.issues, err := r.err, db := r.conn.db }) :=
  ⟨sourceOrder_iterationOrder, by decide, by decide, by decide,
    validate_surfaces_store_error sourceOrder sourceOrder_iterationOrder twoViolationsDB
      (some (48, ioError)) { force := true } 3 (by decide)⟩

/-- C22, counterexample: on `twoViolationsDB` in Repair mode the first sweep schedules two
deletions, the stop S1 and the route R1.  When the second deletion fails, validate
returns the error, and the first deletion of the same sweep remains applied: the stop is
gone from the store, the route is still there. -/
theorem validate_sweep_partially_committed :
    scheduledPairs twoViolationsDB (edgesOf gtfsSchema) = [("stops", 1), ("routes", 1)] ∧
    (rowsOf twoViolationsDB "stops").length = 1 ∧
    (rowsOf twoViolationsDB "routes").length = 1 ∧
    (Faulty.validate sourceOrder 3 (Conn.open twoViolationsDB (some (48, ioError)))
        { force := true }).map
      (fun r => (r.err, r.conn.log.drop 47, (rowsOf r.conn.db "stops").length,
        (rowsOf r.conn.db "routes").length))
      = some (some ioError,
          [(Op.delete "stops" 1, none), (Op.delete "routes" 1, some ioError)], 0, 1) := by
  decide

/-- C22, amended: validate applies the scheduled deletions one statement at a time and
undoes none.  On a connection opened on any store, with any statement chosen to fail,
the store that validate leaves is the initial store without every deletion that was sent
and did not fail, those of the last sweep included; when the last statement sent is a
deletion that failed, validate returns its error and no violation. -/
theorem validate_keeps_applied_deletions (order : Nat → Schema) (hord : IterationOrder order)
    (db : Store) (fault : Option (Nat × Err)) (opts : validateOpts) (fuel : Nat)
    (hfuel : rowCount db + 1 ≤ fuel) :
    ∃ r, Faulty.validate order fuel (Conn.open db fault) opts = some r ∧
      r.conn.db = (applied r.conn.log).foldl (fun d q => deleteRowid d q.1 q.2) db ∧
      ∀ table rowid e, r.conn.log.getLast? = some (Op.delete table rowid, some e) →
        r.err = some e ∧ r.issues = [] := by
  obtain ⟨cf, res, hy, t2, t3, hinv, _⟩ := conn_validate_spec hord db fault opts fuel hfuel
  have hlast : ∀ table rowid e, cf.log.getLast? = some (Op.delete table rowid, some e) →
      res = .error e := by
    intro table rowid e hl
    have hmem : (Op.delete table rowid, some e) ∈ cf.log := List.mem_of_getLast?_eq_some hl
    cases res with
    | ok vf =>
      have := t2 vf rfl _ hmem
      cases this
    | error e1 =>
      obtain ⟨h1, _, _⟩ := failedLast_mem (t3 e1 rfl) hmem
      rw [h1]
  unfold Faulty.validate
  rw [hy]
  cases res with
  | error e =>
    refine ⟨_, rfl, hinv, ?_⟩
    intro table rowid e1 hl
    have := hlast table rowid e1 hl
    simp only [Except.error.injEq] at this
    subst this
    exact ⟨rfl, rfl⟩
  | ok vf =>
    have hno : ∀ table rowid e, cf.log.getLast? = some (Op.delete table rowid, some e) →
        False := by
      intro table rowid e hl
      have := hlast table rowid e hl
      cases this
    by_cases hlen : vf.issues.length > 0
    · by_cases hfi : (opts.force || opts.ignore) = true
      · simp only [hlen, hfi, if_true]
        exact ⟨_, rfl, hinv, fun t i e hl => (hno t i e hl).elim⟩
      · simp only [hlen, hfi, if_true, if_false]
        exact ⟨_, rfl, hinv, fun t i e hl => (hno t i e hl).elim⟩
    · simp only [hlen, if_false]
      exact ⟨_, rfl, hinv, fun t i e hl => (hno t i e hl).elim⟩

/-- C22, instance: the run of the counterexample. -/
theorem validate_keeps_applied_deletions_witness :
    IterationOrder sourceOrder ∧ rowCount twoViolationsDB + 1 ≤ 3 ∧
    (Faulty.validate sourceOrder 3 (Conn.open twoViolationsDB (some (48, ioError)))
        { force := true }).map (fun r => applied r.conn.log) = some [("stops", 1)] ∧
    ∃ r, Faulty.validate sourceOrder 3 (Conn.open twoViolationsDB (some (48, ioError)))
        { force := true } = some r ∧
      r.conn.db = (applied r.conn.log).foldl (fun d q => deleteRowid d q.1 q.2) twoViolationsDB ∧
      ∀ table rowid e, r.conn.log.getLast? = some (Op.delete table rowid, some e) →
        r.err = some e ∧ r.issues = [] :=
  ⟨sourceOrder_iterationOrder, by decide, by decide,
    validate_keeps_applied_deletions sourceOrder sourceOrder_iterationOrder twoViolationsDB
      (some (48, ioError)) { force := true } 3 (by decide)⟩

/-! ## Import and Export: the statements they run -/

theorem trimSuffix_append {s suffix : String} (h : strings.HasSuffix s suffix = true) :
    strings.TrimSuffix s suffix ++ suffix = s := by
  unfold strings.TrimSuffix
  rw [if_pos h]
  unfold strings.HasSuffix at h
  rw [List.isSuffixOf_iff_suffix] at h
  obtain ⟨t, ht⟩ := h
  apply String.ext
  rw [String.data_append, ← ht]
  simp

theorem mem_names_iff (db : Store) (n : String) :
    n ∈ db.map (fun t => t.name) ↔ ∃ t, findTable db n = .ok t := by
  induction db with
  | nil => simp [findTable_nil]
  | cons u rest ih =>
    rw [List.map_cons, List.mem_cons, findTable_cons]
    by_cases hu : (u.name == n) = true
    · have hu1 : u.name = n := by simpa using hu
      rw [if_pos hu]
      exact ⟨fun _ => ⟨u, rfl⟩, fun _ => Or.inl hu1.symm⟩
    · have hu1 : ¬ n = u.name := by
        intro h
        apply hu
        simp [h]
      rw [if_neg hu, ← ih]
      exact ⟨fun h => h.resolve_left hu1, Or.inr⟩

theorem findTable_error_or_ok (db : Store) (n : String) :
    (∃ e, findTable db n = .error e) ∨ ∃ t, findTable db n = .ok t := by
  cases h : findTable db n with
  | error e => exact Or.inl ⟨e, rfl⟩
  | ok t => exact Or.inr ⟨t, rfl⟩

theorem findTable_modifyTable_self {db : Store} {n : String} {t : Table} (f : Table → Table)
    (hf : ∀ t, (f t).name = t.name) (h : findTable db n = .ok t) :
    findTable (modifyTable n f db) n = .ok (f t) := by
  rw [findTable_modifyTable db n n f hf, h]
  simp

theorem findTable_modifyTable_ne (db : Store) {n m : String} (f : Table → Table)
    (hf : ∀ t, (f t).name = t.name) (h : m ≠ n) :
    findTable (modifyTable n f db) m = findTable db m := by
  rw [findTable_modifyTable db n m f hf]
  cases findTable db m with
  | error e => rfl
  | ok t => simp [h]

theorem execCreateTable_ok {db db1 : Store} {n : String} {cols : List String}
    (h : execCreateTable db n cols = .ok db1) :
    (∃ e, findTable db n = .error e) ∧
      findTable db1 n = .ok { name := n, columns := cols, rows := [] } ∧
      ∀ m, m ≠ n → findTable db1 m = findTable db m := by
  unfold execCreateTable at h
  cases hf : db.find? (fun t => t.name == n) with
  | some u => simp [hf] at h
  | none =>
    simp only [hf, Except.ok.injEq] at h
    subst h
    have he := (findTable_error_iff db n).mpr hf
    obtain ⟨e, he1⟩ := he
    refine ⟨⟨e, he1⟩, ?_, ?_⟩
    · exact findTable_append_of_error db { name := n, columns := cols, rows := [] } e he1
    · intro m hm
      exact findTable_append_of_ne db _ m hm

theorem execCreateTableIfNotExists_spec (db : Store) (n : String) (cols : List String) :
    (∀ m, m ≠ n → findTable (execCreateTableIfNotExists db n cols) m = findTable db m) ∧
    (∀ t, findTable db n = .ok t → findTable (execCreateTableIfNotExists db n cols) n = .ok t) ∧
    (∀ e, findTable db n = .error e →
      findTable (execCreateTableIfNotExists db n cols) n =
        .ok { name := n, columns := cols, rows := [] }) := by
  unfold execCreateTableIfNotExists
  cases hf : db.find? (fun t => t.name == n) with
  | some u =>
    refine ⟨fun _ _ => rfl, fun _ h => h, ?_⟩
    intro e he
    have := (findTable_error_iff db n).mp ⟨e, he⟩
    rw [hf] at this
    cases this
  | none =>
    obtain ⟨e, he⟩ := (findTable_error_iff db n).mpr hf
    refine ⟨?_, ?_, ?_⟩
    · intro m hm
      exact findTable_append_of_ne db _ m hm
    · intro t ht
      rw [he] at ht
      cases ht
    · intro _ _
      exact findTable_append_of_error db { name := n, columns := cols, rows := [] } e he

theorem execAddColumn_ok {db db1 : Store} {n c : String} (h : execAddColumn db n c = .ok db1) :
    ∃ t, findTable db n = .ok t ∧ c ∉ t.columns ∧
      findTable db1 n = .ok { t with columns := t.columns ++ [c] } ∧
      ∀ m, m ≠ n → findTable db1 m = findTable db m := by
  unfold execAddColumn at h
  cases hf : findTable db n with
  | error e => simp [hf] at h
  | ok t =>
    simp only [hf] at h
    by_cases hc : c ∈ t.columns
    · simp [hc] at h
    · simp only [hc, if_false, Except.ok.injEq] at h
      subst h
      refine ⟨t, rfl, hc, ?_, ?_⟩
      · exact findTable_modifyTable_self _ (fun _ => rfl) hf
      · intro m hm
        exact findTable_modifyTable_ne db _ (fun _ => rfl) hm

theorem execInsert_ok {db db1 : Store} {n : String} {cols : List String} {vals : List Value}
    (h : execInsert db n cols vals = .ok db1) :
    ∃ t, findTable db n = .ok t ∧ (∀ c ∈ cols, c ∈ t.columns) ∧
      findTable db1 n = .ok { t with rows := t.rows ++
        [{ rowid := nextRowid t.rows,
           values := t.columns.map (fun c => (List.lookup c (cols.zip vals)).join) }] } ∧
      ∀ m, m ≠ n → findTable db1 m = findTable db m := by
  unfold execInsert at h
  cases hf : findTable db n with
  | error e => simp [hf] at h
  | ok t =>
    simp only [hf] at h
    cases hc : cols.find? (fun c => !(decide (c ∈ t.columns))) with
    | some c => simp [hc] at h
    | none =>
      simp only [hc, Except.ok.injEq] at h
      subst h
      refine ⟨t, rfl, ?_, ?_, ?_⟩
      · intro c hcm
        have := List.find?_eq_none.mp hc c hcm
        simpa using this
      · exact findTable_modifyTable_self _ (fun _ => rfl) hf
      · intro m hm
        exact findTable_modifyTable_ne db _ (fun _ => rfl) hm

theorem execInsert_of {db : Store} {n : String} {cols : List String} (vals : List Value)
    {t : Table} (hf : findTable db n = .ok t) (hc : ∀ c ∈ cols, c ∈ t.columns) :
    ∃ db1, execInsert db n cols vals = .ok db1 := by
  unfold execInsert
  have : cols.find? (fun c => !(decide (c ∈ t.columns))) = none := by
    rw [List.find?_eq_none]
    intro c hcm
    simpa using hc c hcm
  simp only [hf, this]
  exact ⟨_, rfl⟩

/-- What `CREATE TABLE IF NOT EXISTS` followed by an `INSERT` leaves in the table. -/
theorem appendTo_spec {db db1 : Store} {n : String} {cols : List String} {vals : List Value}
    (h : execInsert (execCreateTableIfNotExists db n cols) n cols vals = .ok db1) :
    ∃ t, (findTable db n = .ok t ∨
          ((∃ e, findTable db n = .error e) ∧ t = { name := n, columns := cols, rows := [] })) ∧
      findTable db1 n = .ok { t with rows := t.rows ++
        [{ rowid := nextRowid t.rows,
           values := t.columns.map (fun c => (List.lookup c (cols.zip vals)).join) }] } ∧
      ∀ m, m ≠ n → findTable db1 m = findTable db m := by
  obtain ⟨t, h1, _, h3, h4⟩ := execInsert_ok h
  obtain ⟨a1, a2, a3⟩ := execCreateTableIfNotExists_spec db n cols
  refine ⟨t, ?_, h3, fun m hm => (h4 m hm).trans (a1 m hm)⟩
  rcases findTable_error_or_ok db n with ⟨e, he⟩ | ⟨u, hu⟩
  · right
    rw [a3 e he] at h1
    simp only [Except.ok.injEq] at h1
    exact ⟨⟨e, he⟩, h1.symm⟩
  · left
    rw [a2 u hu] at h1
    rw [hu, h1]

theorem addColumns_spec (table : String) :
    ∀ (cols : List String) (hasTable : Bool) (db db1 : Store),
      importFileIn.addColumns table cols hasTable db = .ok db1 →
      (∀ m, m ≠ table → findTable db1 m = findTable db m) ∧
      (cols = [] → db1 = db) ∧
      (hasTable = true → ∀ t, findTable db table = .ok t →
        findTable db1 table = .ok { t with columns := t.columns ++ cols }) ∧
      (hasTable = false → cols ≠ [] →
        (∃ e, findTable db table = .error e) ∧
        findTable db1 table = .ok { name := table, columns := cols, rows := [] }) := by
  intro cols
  induction cols with
  | nil =>
    intro hasTable db db1 h
    simp only [importFileIn.addColumns, Except.ok.injEq] at h
    subst h
    refine ⟨fun _ _ => rfl, fun _ => rfl, ?_, fun _ h => absurd rfl h⟩
    intro _ t ht
    rw [ht, List.append_nil]
  | cons c rest ih =>
    intro hasTable db db1 h
    cases hasTable with
    | true =>
      simp only [importFileIn.addColumns, if_true] at h
      cases hs : execAddColumn db table c with
      | error e => simp [hs] at h
      | ok db2 =>
        simp only [hs] at h
        obtain ⟨t, h1, _, h3, h4⟩ := execAddColumn_ok hs
        obtain ⟨b1, _, b3, _⟩ := ih true db2 db1 h
        refine ⟨fun m hm => (b1 m hm).trans (h4 m hm), (fun hc => by cases hc), ?_,
          (fun hc => by cases hc)⟩
        intro _ u hu
        rw [h1] at hu
        cases hu
        rw [b3 rfl _ h3]
        simp
    | false =>
      simp only [importFileIn.addColumns, Bool.false_eq_true, if_false] at h
      cases hs : execCreateTable db table [c] with
      | error e => simp [hs] at h
      | ok db2 =>
        simp only [hs] at h
        obtain ⟨h1, h3, h4⟩ := execCreateTable_ok hs
        obtain ⟨b1, _, b3, _⟩ := ih true db2 db1 h
        refine ⟨fun m hm => (b1 m hm).trans (h4 m hm), (fun hc => by cases hc),
          (fun hc => by cases hc), ?_⟩
        intro _ _
        refine ⟨h1, ?_⟩
        rw [b3 rfl _ h3]
        simp

theorem prepare_ok {db : Store} {table : String} {header : List String}
    (h : importFileIn.prepare db table header = .ok ()) :
    header ≠ [] ∧ ∃ t, findTable db table = .ok t ∧ ∀ c ∈ header, c ∈ t.columns := by
  unfold importFileIn.prepare at h
  cases hf : findTable db table with
  | error e => simp [hf] at h
  | ok t =>
    simp only [hf] at h
    by_cases hh : header = []
    · simp [hh] at h
    · simp only [hh, if_false] at h
      cases hc : header.find? (fun c => !(decide (c ∈ t.columns))) with
      | some c => simp [hc] at h
      | none =>
        refine ⟨hh, t, rfl, ?_⟩
        intro c hcm
        have := List.find?_eq_none.mp hc c hcm
        simpa using this

/-- The cells that the `INSERT` of one data row gives to the columns of the table. -/
theorem insertRows_spec (table : String) (header : List String) :
    ∀ (rows : List (List String)) (db db1 : Store),
      importFileIn.insertRows table header rows db = .ok db1 →
      (∀ m, m ≠ table → findTable db1 m = findTable db m) ∧
      (∀ row ∈ rows, row.length ≤ header.length) ∧
      (rows = [] → db1 = db) ∧
      ∀ t, findTable db table = .ok t →
        ∃ new, findTable db1 table = .ok { t with rows := t.rows ++ new } ∧
          new.map (fun r => r.values) = rows.map (fun row => t.columns.map (fun c =>
            (List.lookup c (header.zip (importFileIn.bind row))).join)) := by
  intro rows
  induction rows with
  | nil =>
    intro db db1 h
    simp only [importFileIn.insertRows, Except.ok.injEq] at h
    subst h
    refine ⟨fun _ _ => rfl, (fun _ h => by cases h), (fun _ => rfl), ?_⟩
    intro t ht
    exact ⟨[], by rw [ht, List.append_nil], rfl⟩
  | cons row rest ih =>
    intro db db1 h
    simp only [importFileIn.insertRows] at h
    cases hs : importFileIn.insertRow db table header row with
    | error e => simp [hs] at h
    | ok db2 =>
      simp only [hs] at h
      unfold importFileIn.insertRow at hs
      by_cases hlen : row.length > header.length
      · simp [hlen] at hs
      · simp only [hlen, if_false] at hs
        obtain ⟨t, h1, _, h3, h4⟩ := execInsert_ok hs
        obtain ⟨b1, b2, _, b4⟩ := ih db2 db1 h
        refine ⟨fun m hm => (b1 m hm).trans (h4 m hm), ?_, (fun hc => by cases hc), ?_⟩
        · intro x hx
          rcases List.mem_cons.mp hx with rfl | hx
          · omega
          · exact b2 x hx
        · intro u hu
          rw [h1] at hu
          cases hu
          obtain ⟨new, c1, c2⟩ := b4 _ h3
          refine ⟨{ rowid := nextRowid t.rows,
                    values := t.columns.map (fun c =>
                      (List.lookup c (header.zip (importFileIn.bind row))).join) } :: new, ?_, ?_⟩
          · rw [c1]
            simp
          · simp only [List.map_cons, c2]

/-! ## Import: the cells of an imported row -/

theorem lookup_zip_map (g : String → Value) (c : String) :
    ∀ cols : List String, c ∈ cols → List.lookup c (cols.zip (cols.map g)) = some (g c) := by
  intro cols
  induction cols with
  | nil => intro h; cases h
  | cons d rest ih =>
    intro h
    rw [List.map_cons, List.zip_cons_cons, List.lookup_cons]
    by_cases hd : c = d
    · subst hd
      simp
    · have hb : (c == d) = false := by simpa using hd
      rw [hb]
      exact ih ((List.mem_cons.mp h).resolve_left hd)

theorem get_of_values {r : Row} {cols : List String} {g : String → Value}
    (h : r.values = cols.map g) {c : String} (hc : c ∈ cols) : r.get cols c = g c := by
  unfold Row.get
  rw [h, lookup_zip_map g c cols hc]
  rfl

theorem lookup_zip_nodup {α : Type} :
    ∀ (header : List String) (vals : List α) (j : Nat) (c : String), header.Nodup →
      header[j]? = some c → List.lookup c (header.zip vals) = vals[j]? := by
  intro header
  induction header with
  | nil => intro vals j c _ h; simp at h
  | cons d rest ih =>
    intro vals j c hnd h
    rw [List.nodup_cons] at hnd
    cases vals with
    | nil => simp
    | cons v vs =>
      rw [List.zip_cons_cons, List.lookup_cons]
      cases j with
      | zero =>
        simp only [List.getElem?_cons_zero, Option.some.injEq] at h
        subst h
        simp
      | succ k =>
        simp only [List.getElem?_cons_succ] at h ⊢
        have hc : c ∈ rest := List.getElem?_mem h
        have hne : (c == d) = false := by
          have : c ≠ d := by
            intro hcd
            apply hnd.1
            rw [← hcd]
            exact hc
          simpa using this
        rw [hne]
        exact ih vs k c hnd.2 h

theorem lookup_zip_not_mem {α : Type} (c : String) :
    ∀ (header : List String) (vals : List α), c ∉ header →
      List.lookup c (header.zip vals) = none := by
  intro header
  induction header with
  | nil => intro vals _; simp
  | cons d rest ih =>
    intro vals h
    cases vals with
    | nil => simp
    | cons v vs =>
      rw [List.zip_cons_cons, List.lookup_cons]
      rw [List.mem_cons, not_or] at h
      have hne : (c == d) = false := by simpa using h.1
      rw [hne]
      exact ih vs h.2

/-- The cell stored for the column at position `j` of the header: `NULL` when the row has
no field at `j` or an empty one, the text of the field otherwise. -/
theorem stored_at {header row : List String} (hnd : header.Nodup) {j : Nat} {c : String}
    (hj : header[j]? = some c) :
    stored header row c = (row[j]?).bind (fun v => if v = "" then none else some v) := by
  unfold stored importFileIn.bind
  rw [lookup_zip_nodup header _ j c hnd hj, List.getElem?_map]
  cases row[j]? with
  | none => rfl
  | some v => rfl

theorem stored_not_mem {header row : List String} {c : String} (hc : c ∉ header) :
    stored header row c = none := by
  unfold stored
  rw [lookup_zip_not_mem c header _ hc]
  rfl

theorem exported_at {header row : List String} (hnd : header.Nodup) {j : Nat} {c : String}
    (hj : header[j]? = some c) : exported header row c = (row[j]?).getD "" := by
  unfold exported
  rw [stored_at hnd hj]
  cases row[j]? with
  | none => rfl
  | some v =>
    by_cases hv : v = ""
    · simp [hv]
    · simp [hv]

theorem exported_not_mem {header row : List String} {c : String} (hc : c ∉ header) :
    exported header row c = "" := by
  unfold exported
  rw [stored_not_mem hc]
  rfl

theorem map_exported_eq_pad {header row : List String} (hnd : header.Nodup)
    (hlen : row.length ≤ header.length) :
    header.map (exported header row) = pad header.length row := by
  apply List.ext_getElem?
  intro j
  rw [List.getElem?_map]
  unfold pad
  by_cases hj : j < header.length
  · have h1 : header[j]? = some header[j] := List.getElem?_eq_getElem hj
    rw [h1, Option.map_some', exported_at hnd h1]
    by_cases hr : j < row.length
    · rw [List.getElem?_append_left hr, List.getElem?_eq_getElem hr]
      rfl
    · have hr1 : row.length ≤ j := Nat.le_of_not_lt hr
      rw [List.getElem?_append_right hr1, List.getElem?_eq_none hr1]
      have : j - row.length < (List.replicate (header.length - row.length) "").length := by
        rw [List.length_replicate]
        omega
      rw [List.getElem?_eq_getElem this]
      simp
  · have hj1 : header.length ≤ j := Nat.le_of_not_lt hj
    rw [List.getElem?_eq_none hj1, Option.map_none']
    symm
    apply List.getElem?_eq_none
    rw [List.length_append, List.length_replicate]
    omega

theorem pad_of_length {n : Nat} {row : List String} (h : row.length = n) : pad n row = row := by
  unfold pad
  rw [h, Nat.sub_self]
  simp

/-! ## Import: what the store holds after each entry -/

theorem reserved_other : reserved "__gtfs2sqlite_other_files" = true := by decide

theorem reserved_empty : reserved "__gtfs2sqlite_empty_files" = true := by decide

theorem ne_of_not_reserved {n m : String} (hn : reserved n = false) (hm : reserved m = true) :
    n ≠ m := by
  intro h
  rw [h, hm] at hn
  cases hn

/-- The bookkeeping table after `CREATE TABLE IF NOT EXISTS` and one `INSERT` that names
all of its columns. -/
theorem appendTo_values {db db1 : Store} {n : String} {cols : List String} {vals : List Value}
    {old : List (List Value)}
    (h : execInsert (execCreateTableIfNotExists db n cols) n cols vals = .ok db1)
    (hok : ∀ t, findTable db n = .ok t → t.columns = cols ∧ t.rows.map (fun r => r.values) = old)
    (hnone : ∀ e, findTable db n = .error e → old = []) :
    (∃ t1, findTable db1 n = .ok t1 ∧ t1.columns = cols ∧
      t1.rows.map (fun r => r.values) =
        old ++ [cols.map (fun c => (List.lookup c (cols.zip vals)).join)]) ∧
    ∀ m, m ≠ n → findTable db1 m = findTable db m := by
  obtain ⟨t, h1, h2, h3⟩ := appendTo_spec h
  refine ⟨⟨_, h2, ?_, ?_⟩, h3⟩
  · rcases h1 with h1 | ⟨_, h1⟩
    · exact (hok t h1).1
    · rw [h1]
  · rcases h1 with h1 | ⟨⟨e, he⟩, h1⟩
    · obtain ⟨c1, c2⟩ := hok t h1
      simp only [List.map_append, List.map_cons, List.map_nil, c1, c2]
    · have := hnone e he
      subst this
      subst h1
      simp

theorem imported_other {db0 db db1 : Store} {done : List Entry} {f : Entry}
    (hinv : Imported db0 done db) (h : importFileIn db f = .ok db1)
    (hf : f.isTable = false)
    (hdone : ∀ g ∈ done, g.isTable = true → reserved g.table = false) :
    Imported db0 (done ++ [f]) db1 := by
  have hf1 : strings.HasSuffix f.name ".txt" = false := hf
  simp only [importFileIn, hf1, Bool.not_false, if_true] at h
  obtain ⟨⟨t1, a1, a2, a3⟩, a4⟩ := appendTo_values h hinv.others
    (fun e he => by rw [hinv.othersNone e he]; rfl)
  have hval : ["name", "contents"].map (fun c =>
      (List.lookup c (["name", "contents"].zip [some f.name, some f.bytes])).join)
      = [some f.name, some f.bytes] := by
    simp +decide [List.lookup]
  have hnr : f.noRows = false := by
    unfold Entry.noRows
    rw [hf]
    rfl
  have hfil1 : (done ++ [f]).filter (fun f => !f.isTable)
      = done.filter (fun f => !f.isTable) ++ [f] := by
    rw [List.filter_append]
    simp [hf]
  have hfil2 : (done ++ [f]).filter (fun f => f.noRows) = done.filter (fun f => f.noRows) := by
    rw [List.filter_append]
    simp [hnr]
  have hfil3 : ∀ n, (∀ g ∈ done ++ [f], g.isTable = true → g.table ≠ n) →
      ∀ g ∈ done, g.isTable = true → g.table ≠ n :=
    fun n hn g hg => hn g (List.mem_append_left _ hg)
  constructor
  · intro n hn hr
    rw [a4 n (ne_of_not_reserved hr reserved_other)]
    exact hinv.untouched n (hfil3 n hn) hr
  · intro g hg hgt
    have hg1 : g ∈ done := by
      rcases List.mem_append.mp hg with hg | hg
      · exact hg
      · rw [List.mem_singleton] at hg
        rw [hg, hf] at hgt
        cases hgt
    obtain ⟨header, rows, t, b1, b2, b3⟩ := hinv.tables g hg1 hgt
    refine ⟨header, rows, t, b1, ?_, b3⟩
    rw [a4 _ (ne_of_not_reserved (hdone g hg1 hgt) reserved_other)]
    exact b2
  · intro t ht
    rw [a1] at ht
    cases ht
    refine ⟨a2, ?_⟩
    rw [a3, hfil1, hval]
    simp
  · intro e he
    rw [a1] at he
    cases he
  · intro t ht
    rw [a4 _ (by decide)] at ht
    rw [hfil2]
    exact hinv.empties t ht
  · intro e he
    rw [a4 _ (by decide)] at he
    rw [hfil2]
    exact hinv.emptiesNone e he

theorem imported_table {db0 db db1 : Store} {done : List Entry} {f : Entry}
    (hdb0 : ∀ n, (knownTable n = true ∧ ∃ t0, findTable db0 n = .ok t0 ∧ t0.rows = []) ∨
      (knownTable n = false ∧ ∃ e, findTable db0 n = .error e))
    (hinv : Imported db0 done db) (h : importFileIn db f = .ok db1)
    (hf : f.isTable = true) (hres : reserved f.table = false)
    (hdone : ∀ g ∈ done, g.isTable = true → reserved g.table = false ∧ g.table ≠ f.table) :
    Imported db0 (done ++ [f]) db1 := by
  have hf1 : strings.HasSuffix f.name ".txt" = true := hf
  have hTE : f.table ≠ "__gtfs2sqlite_empty_files" := ne_of_not_reserved hres reserved_empty
  have hTO : f.table ≠ "__gtfs2sqlite_other_files" := ne_of_not_reserved hres reserved_other
  simp only [importFileIn, hf1, Bool.not_true, Bool.false_eq_true, if_false] at h
  cases hrec : f.records with
  | nil => simp [hrec] at h
  | cons header rows =>
  simp only [hrec] at h
  cases hs1 : importFileIn.addColumns (strings.TrimSuffix f.name ".txt")
      (header.filter (fun column => !(knownColumn (strings.TrimSuffix f.name ".txt") column)))
      (knownTable (strings.TrimSuffix f.name ".txt")) db with
  | error e => simp [hs1] at h
  | ok db2 =>
  simp only [hs1] at h
  cases hs2 : importFileIn.prepare db2 (strings.TrimSuffix f.name ".txt") header with
  | error e => simp [hs2] at h
  | ok u =>
  simp only [hs2] at h
  cases hs3 : importFileIn.insertRows (strings.TrimSuffix f.name ".txt") header rows db2 with
  | error e => simp [hs3] at h
  | ok db3 =>
  simp only [hs3] at h
  change importFileIn.addColumns f.table
      (header.filter (fun column => !(knownColumn f.table column))) (knownTable f.table) db
      = .ok db2 at hs1
  change importFileIn.prepare db2 f.table header = .ok u at hs2
  change importFileIn.insertRows f.table header rows db2 = .ok db3 at hs3
  obtain ⟨a1, a2, a3, a4⟩ := addColumns_spec _ _ _ _ _ hs1
  obtain ⟨p1, t2, p2, p3⟩ := prepare_ok hs2
  obtain ⟨i1, i2, i3, i4⟩ := insertRows_spec _ _ _ _ _ hs3
  have hT0 : findTable db f.table = findTable db0 f.table :=
    hinv.untouched f.table (fun g hg hgt => (hdone g hg hgt).2) hres
  -- the table before the rows are inserted
  have ht2 : t2.columns = columnsOf db0 f.table ++
      header.filter (fun c => !(knownColumn f.table c)) ∧ t2.rows = [] := by
    rcases hdb0 f.table with ⟨hk, t0, ht0, hr0⟩ | ⟨hk, e, he⟩
    · have := a3 hk t0 (hT0.trans ht0)
      rw [p2] at this
      simp only [Except.ok.injEq] at this
      rw [this]
      refine ⟨?_, hr0⟩
      unfold columnsOf
      rw [ht0]
    · by_cases hu : header.filter (fun c => !(knownColumn f.table c)) = []
      · have := a2 hu
        rw [this, hT0, he] at p2
        cases p2
      · have := (a4 hk hu).2
        rw [p2] at this
        simp only [Except.ok.injEq] at this
        rw [this]
        refine ⟨?_, rfl⟩
        unfold columnsOf
        rw [he]
        rfl
  obtain ⟨new, n1, n2⟩ := i4 t2 p2
  rw [ht2.2, List.nil_append] at n1
  -- the last step: the table of the empty files
  have hlast : (∀ m, m ≠ "__gtfs2sqlite_empty_files" → findTable db1 m = findTable db3 m) ∧
      (rows ≠ [] → db1 = db3) ∧
      (rows = [] → ∃ t1, findTable db1 "__gtfs2sqlite_empty_files" = .ok t1 ∧
        t1.columns = ["tableName"] ∧
        t1.rows.map (fun r => r.values) =
          (done.filter (fun f => f.noRows)).map (fun f => [some f.table]) ++ [[some f.table]]) := by
    by_cases hrows : rows = []
    · subst hrows
      simp only [List.length_nil, if_true] at h
      have hE3 : findTable db3 "__gtfs2sqlite_empty_files"
          = findTable db "__gtfs2sqlite_empty_files" :=
        (i1 _ hTE.symm).trans (a1 _ hTE.symm)
      obtain ⟨⟨t1, b1, b2, b3⟩, b4⟩ := appendTo_values h
        (fun t ht => hinv.empties t (hE3 ▸ ht))
        (fun e he => by rw [hinv.emptiesNone e (hE3 ▸ he)]; rfl)
      have hval : ["tableName"].map (fun c => (List.lookup c (["tableName"].zip
          [some (strings.TrimSuffix f.name ".txt")])).join)
          = [some f.table] := by
        simp +decide [List.lookup, Entry.table]
      rw [hval] at b3
      exact ⟨b4, fun h0 => absurd rfl h0, fun _ => ⟨t1, b1, b2, b3⟩⟩
    · have hlen : ¬ rows.length = 0 := by
        intro h0
        exact hrows (List.length_eq_zero.mp h0)
      simp only [hlen, if_false, Except.ok.injEq] at h
      subst h
      exact ⟨fun _ _ => rfl, fun _ => rfl, fun h0 => absurd h0 hrows⟩
  have hfil1 : (done ++ [f]).filter (fun f => !f.isTable)
      = done.filter (fun f => !f.isTable) := by
    rw [List.filter_append]
    simp [hf]
  have hnr : f.noRows = decide (rows = []) := by
    unfold Entry.noRows
    rw [hf, hrec]
    rfl
  have hfil2 : (done ++ [f]).filter (fun f => f.noRows)
      = done.filter (fun f => f.noRows) ++ (if rows = [] then [f] else []) := by
    rw [List.filter_append]
    by_cases hrows : rows = []
    · simp [hnr, hrows]
    · simp [hnr, hrows]
  have hframe : ∀ m, m ≠ f.table → m ≠ "__gtfs2sqlite_empty_files" →
      findTable db1 m = findTable db m := by
    intro m hm hme
    rw [hlast.1 m hme, i1 m hm, a1 m hm]
  have hfT : findTable db1 f.table = .ok { t2 with rows := new } := by
    rw [hlast.1 _ hTE, n1]
  constructor
  · intro n hn hr
    have hnT : n ≠ f.table := fun hc =>
      hn f (List.mem_append_right _ (List.mem_singleton.mpr rfl)) hf hc.symm
    rw [hframe n hnT (ne_of_not_reserved hr reserved_empty)]
    exact hinv.untouched n (fun g hg => hn g (List.mem_append_left _ hg)) hr
  · intro g hg hgt
    rcases List.mem_append.mp hg with hg | hg
    · obtain ⟨header1, rows1, t, b1, b2, b3⟩ := hinv.tables g hg hgt
      refine ⟨header1, rows1, t, b1, ?_, b3⟩
      rw [hframe _ (hdone g hg hgt).2 (ne_of_not_reserved (hdone g hg hgt).1 reserved_empty)]
      exact b2
    · rw [List.mem_singleton] at hg
      subst hg
      refine ⟨header, rows, _, hrec, hfT, ht2.1, p3, i2, ?_⟩
      exact n2
  · intro t ht
    rw [hframe _ hTO.symm (by decide)] at ht
    rw [hfil1]
    exact hinv.others t ht
  · intro e he
    rw [hframe _ hTO.symm (by decide)] at he
    rw [hfil1]
    exact hinv.othersNone e he
  · intro t ht
    rw [hfil2]
    by_cases hrows : rows = []
    · obtain ⟨t1, c1, c2, c3⟩ := hlast.2.2 hrows
      rw [c1] at ht
      cases ht
      refine ⟨c2, ?_⟩
      rw [c3, if_pos hrows]
      simp
    · rw [hlast.2.1 hrows, i1 _ hTE.symm, a1 _ hTE.symm] at ht
      rw [if_neg hrows, List.append_nil]
      exact hinv.empties t ht
  · intro e he
    rw [hfil2]
    by_cases hrows : rows = []
    · obtain ⟨t1, c1, _, _⟩ := hlast.2.2 hrows
      rw [c1] at he
      cases he
    · rw [hlast.2.1 hrows, i1 _ hTE.symm, a1 _ hTE.symm] at he
      rw [if_neg hrows, List.append_nil]
      exact hinv.emptiesNone e he

/-! ## Import: the empty tables, the loop over the entries and the closing validation -/

theorem gtfsSchema_names_nodup : (gtfsSchema.map (fun ts => ts.1)).Nodup := by decide

theorem lookup_isSome_iff {β : Type} (n : String) :
    ∀ l : List (String × β), (List.lookup n l).isSome = true ↔ n ∈ l.map (fun p => p.1) := by
  intro l
  induction l with
  | nil => simp
  | cons p rest ih =>
    obtain ⟨a, b⟩ := p
    rw [List.lookup_cons, List.map_cons, List.mem_cons]
    by_cases h : n = a
    · subst h
      simp
    · have hb : (n == a) = false := by simpa using h
      rw [hb]
      simp only [h, false_or]
      exact ih

theorem lookup_of_mem_nodup {β : Type} :
    ∀ (l : List (String × β)) (a : String) (b : β), (l.map (fun p => p.1)).Nodup → (a, b) ∈ l →
      List.lookup a l = some b := by
  intro l
  induction l with
  | nil => intro a b _ h; cases h
  | cons p rest ih =>
    intro a b hnd h
    obtain ⟨c, d⟩ := p
    rw [List.map_cons, List.nodup_cons] at hnd
    rw [List.lookup_cons]
    rcases List.mem_cons.mp h with h | h
    · cases h
      simp
    · have hne : (a == c) = false := by
        have : a ≠ c := by
          intro hac
          apply hnd.1
          rw [← hac]
          exact List.mem_map_of_mem (fun p => p.1) h
        simpa using this
      rw [hne]
      exact ih a b hnd.2 h

theorem createTables_eq :
    ∀ (schema : Schema) (db db1 : Store), Import.createTables schema db = .ok db1 →
      db1 = db ++ schema.map (fun ts =>
        { name := ts.1, columns := ts.2.Columns.map (fun c => c.1), rows := [] }) := by
  intro schema
  induction schema with
  | nil =>
    intro db db1 h
    simp only [Import.createTables, Except.ok.injEq] at h
    rw [← h]
    simp
  | cons ts rest ih =>
    intro db db1 h
    obtain ⟨table, s⟩ := ts
    simp only [Import.createTables, createTable] at h
    cases hc : execCreateTable db table (s.Columns.map (fun c => c.1)) with
    | error e => simp [hc] at h
    | ok db2 =>
      simp only [hc] at h
      rw [ih db2 db1 h]
      unfold execCreateTable at hc
      cases hf : db.find? (fun t => t.name == table) with
      | some u => simp [hf] at hc
      | none =>
        simp only [hf, Except.ok.injEq] at hc
        rw [← hc]
        simp

/-- The store of the empty tables: a table is there exactly when `gtfsSchema` has it, with
the columns that `gtfsSchema` gives it and no row. -/
theorem createTables_spec {created : Schema} (hcreated : CreationOrder created) {db0 : Store}
    (h : Import.createTables created [] = .ok db0) (n : String) :
    ((knownTable n = true ∧ ∃ t0, findTable db0 n = .ok t0 ∧ t0.rows = []) ∨
      (knownTable n = false ∧ ∃ e, findTable db0 n = .error e)) ∧
    ∀ c, c ∈ columnsOf db0 n ↔ knownColumn n c = true := by
  have hdb := createTables_eq created [] db0 h
  rw [List.nil_append] at hdb
  have hknown : knownTable n = true ↔ n ∈ created.map (fun ts => ts.1) := by
    unfold knownTable
    rw [lookup_isSome_iff, hcreated.1.mem_iff]
  have hnames : db0.map (fun t => t.name) = created.map (fun ts => ts.1) := by
    rw [hdb, List.map_map]
    rfl
  rcases findTable_error_or_ok db0 n with ⟨e, he⟩ | ⟨t0, ht0⟩
  · have hn : n ∉ created.map (fun ts => ts.1) := by
      rw [← hnames, mem_names_iff]
      rintro ⟨t, ht⟩
      rw [he] at ht
      cases ht
    have hk : knownTable n = false := by
      cases hkn : knownTable n with
      | false => rfl
      | true => exact absurd (hknown.mp hkn) hn
    refine ⟨Or.inr ⟨hk, e, he⟩, ?_⟩
    intro c
    unfold columnsOf
    rw [he]
    have hl : List.lookup n gtfsSchema = none := by
      unfold knownTable at hk
      cases hlk : List.lookup n gtfsSchema with
      | none => rfl
      | some s => simp [hlk] at hk
    unfold knownColumn
    rw [hl]
    simp
  · have hmem := mem_of_findTable ht0
    have hname := findTable_name ht0
    rw [hdb] at hmem
    obtain ⟨ts, hts, hmk⟩ := List.mem_map.mp hmem
    have hk : knownTable n = true := by
      rw [hknown, ← hname, ← hmk]
      exact List.mem_map_of_mem (fun ts => ts.1) hts
    refine ⟨Or.inl ⟨hk, t0, ht0, by rw [← hmk]⟩, ?_⟩
    intro c
    obtain ⟨ts0, hts0, hn0, hperm⟩ := hcreated.2 ts hts
    have hl : List.lookup n gtfsSchema = some ts0.2 := by
      apply lookup_of_mem_nodup gtfsSchema n ts0.2 gtfsSchema_names_nodup
      have : n = ts0.1 := by rw [hn0, ← hname, ← hmk]
      rw [this]
      exact hts0
    unfold columnsOf knownColumn
    rw [ht0, hl, ← hmk]
    simp only [decide_eq_true_eq]
    exact hperm.mem_iff

theorem imported_nil {created : Schema} (hcreated : CreationOrder created) {db0 : Store}
    (h : Import.createTables created [] = .ok db0) : Imported db0 [] db0 := by
  have hno : ∀ n, knownTable n = false → ∀ t, findTable db0 n ≠ .ok t := by
    intro n hn t ht
    rcases (createTables_spec hcreated h n).1 with ⟨hk, _⟩ | ⟨_, e, he⟩
    · rw [hn] at hk
      cases hk
    · rw [he] at ht
      cases ht
  constructor
  · intro _ _ _
    rfl
  · intro f hf
    cases hf
  · intro t ht
    exact absurd ht (hno _ (by decide) t)
  · intro _ _
    rfl
  · intro t ht
    exact absurd ht (hno _ (by decide) t)
  · intro _ _
    rfl

theorem table_injective {f g : Entry} (hf : f.isTable = true) (hg : g.isTable = true)
    (h : g.table = f.table) : g.name = f.name := by
  have h1 : f.table ++ ".txt" = f.name := trimSuffix_append hf
  have h2 : g.table ++ ".txt" = g.name := trimSuffix_append hg
  rw [← h1, ← h2, h]

theorem imported_files {db0 : Store}
    (hdb0 : ∀ n, (knownTable n = true ∧ ∃ t0, findTable db0 n = .ok t0 ∧ t0.rows = []) ∨
      (knownTable n = false ∧ ∃ e, findTable db0 n = .error e)) :
    ∀ (rest done : List Entry) (db db1 : Store), Imported db0 done db →
      Import.files rest db = .ok db1 →
      ((done ++ rest).map (fun f => f.name)).Nodup →
      (∀ f ∈ done ++ rest, f.isTable = true → reserved f.table = false) →
      Imported db0 (done ++ rest) db1 := by
  intro rest
  induction rest with
  | nil =>
    intro done db db1 hinv h _ _
    simp only [Import.files, Except.ok.injEq] at h
    rw [List.append_nil, ← h]
    exact hinv
  | cons f rest ih =>
    intro done db db1 hinv h hnd hres
    simp only [Import.files] at h
    cases hs : importFileIn db f with
    | error e => simp [hs] at h
    | ok db2 =>
      simp only [hs] at h
      have happ : done ++ f :: rest = (done ++ [f]) ++ rest := by simp
      rw [happ] at hnd hres ⊢
      apply ih (done ++ [f]) db2 db1 ?_ h hnd hres
      cases hf : f.isTable with
      | false =>
        exact imported_other hinv hs hf
          (fun g hg => hres g (List.mem_append_left _ (List.mem_append_left _ hg)))
      | true =>
        have hfm : f ∈ (done ++ [f]) ++ rest :=
          List.mem_append_left _ (List.mem_append_right _ (List.mem_singleton.mpr rfl))
        apply imported_table hdb0 hinv hs hf (hres f hfm hf)
        intro g hg hgt
        refine ⟨hres g (List.mem_append_left _ (List.mem_append_left _ hg)) hgt, ?_⟩
        intro heq
        have hname := table_injective hf hgt heq
        rw [List.map_append, List.map_append] at hnd
        have h1 := (List.nodup_append.mp hnd).1
        have h2 := List.nodup_append.mp h1
        apply h2.2.2 (List.mem_map_of_mem (fun f => f.name) hg)
        rw [hname]
        simp

theorem loop_issues_ne_nil (order : Nat → Schema) :
    ∀ (fuel : Nat) (db : Store) (v : validator) (dbf : Store) (vf : validator),
      validate.loop order fuel db v = some (dbf, .ok vf) → v.issues ≠ [] → vf.issues ≠ [] := by
  intro fuel
  induction fuel with
  | zero =>
    intro db v dbf vf h
    simp [validate.loop] at h
  | succ n ih =>
    intro db v dbf vf h hv
    simp only [validate.loop, sweep_eq] at h
    cases hs : validate.sweepEdges db (edgesOf (order v.pass)) v with
    | error e => simp [hs] at h
    | ok v1 =>
      simp only [hs] at h
      have hi := (sweepEdges_ok _ hs).2.2.2.1
      have hv1 : v1.issues ≠ [] := by
        rw [hi]
        intro hc
        exact hv (List.append_eq_nil.mp hc).1
      by_cases h0 : v1.toDelete.length = 0
      · simp only [h0, if_true, Option.some.injEq, Prod.mk.injEq, Except.ok.injEq] at h
        rw [← h.2]
        exact hv1
      · simp only [h0, if_false] at h
        cases ha : validate.applyDeletes v1.toDelete db with
        | mk db1 oe =>
          cases oe with
          | some e => simp [ha] at h
          | none =>
            simp only [ha] at h
            exact ih _ _ _ _ h hv1

/-- A validation that returns no issue and no error has left the store as it was. -/
theorem validate_unchanged {order : Nat → Schema} {fuel : Nat} {db : Store}
    {opts : validateOpts} {r : validateResult} (h : validate order fuel db opts = some r)
    (herr : r.err = none) (hiss : r.issues = []) : r.db = db := by
  cases fuel with
  | zero => simp [validate, validate.loop] at h
  | succ n =>
    unfold validate at h
    simp only [validate.loop, sweep_eq] at h
    cases hs : validate.sweepEdges db (edgesOf (order (validator.init opts).pass))
        (validator.init opts) with
    | error e =>
      simp only [hs, Option.some.injEq] at h
      rw [← h] at herr
      cases herr
    | ok v1 =>
      simp only [hs] at h
      by_cases h0 : v1.toDelete.length = 0
      · simp only [h0, if_true] at h
        split at h <;> try split at h
        all_goals
          simp only [Option.some.injEq] at h
          rw [← h]
      · exfalso
        simp only [h0, if_false] at h
        obtain ⟨_, _, _, a4, _, _, _, a7, _⟩ := sweepEdges_ok _ hs
        have hv1 : v1.issues ≠ [] := by
          intro hc
          apply h0
          rw [a4] at hc
          have hc1 : (edgesOf (order (validator.init opts).pass)).flatMap (edgeMessages db) = [] := by
            simpa [validator.init] using hc
          rw [List.flatMap_eq_nil_iff] at hc1
          rw [a7 (fun e he => (edgeMessages_eq_nil_iff db e).mp (hc1 e he))]
          rfl
        cases ha : validate.applyDeletes v1.toDelete db with
        | mk db1 oe =>
          cases oe with
          | some e =>
            simp only [ha, Option.some.injEq] at h
            rw [← h] at herr
            cases herr
          | none =>
            simp only [ha] at h
            cases hl : validate.loop order n db1
                { v1 with toDelete := [], pass := v1.pass + 1 } with
            | none => simp [hl] at h
            | some p =>
              obtain ⟨dbf, res⟩ := p
              cases res with
              | error e =>
                simp only [hl, Option.some.injEq] at h
                rw [← h] at herr
                cases herr
              | ok vf =>
                have hvf := loop_issues_ne_nil order n db1 _ dbf vf hl hv1
                have hlen : vf.issues.length > 0 := List.length_pos.mpr hvf
                simp only [hl, hlen, if_true] at h
                split at h
                all_goals
                  simp only [Option.some.injEq] at h
                  rw [← h] at hiss
                  exact hvf hiss

/-! ## Export: what is written for a store that Import has filled -/

theorem map_of_values {α β : Type} {rows : List Row} {l : List α} {g : α → List Value}
    (h : rows.map (fun r => r.values) = l.map g) (k : List Value → β) :
    rows.map (fun r => k r.values) = l.map (fun a => k (g a)) := by
  have : rows.map (fun r => k r.values) = (rows.map (fun r => r.values)).map k := by
    rw [List.map_map]
    rfl
  rw [this, h, List.map_map]
  rfl

theorem Export_tables_spec (db : Store) (el : List String) :
    ∀ names : List String, (∀ n ∈ names, ∃ t, findTable db n = .ok t) →
      ∃ out, Export.tables db el names = .ok out ∧
        ∀ entry, entry ∈ out ↔ ∃ n ∈ names, reserved n = false ∧ ∃ t, findTable db n = .ok t ∧
          ¬ (t.rows.length = 0 ∧ n ∉ el) ∧
          entry = (n ++ ".txt", Written.csv (t.columns :: t.rows.map (fun r =>
            t.columns.map (fun col => (r.get t.columns col).getD "")))) := by
  intro names
  induction names with
  | nil =>
    intro _
    exact ⟨[], rfl, by simp⟩
  | cons n rest ih =>
    intro hall
    obtain ⟨out, h1, h2⟩ := ih (fun m hm => hall m (List.mem_cons_of_mem _ hm))
    obtain ⟨t, ht⟩ := hall n (List.mem_cons_self _ _)
    by_cases hr : strings.HasPrefix n "__gtfs2sqlite" = true
    · refine ⟨out, by simp only [Export.tables, hr, if_true, h1], ?_⟩
      intro entry
      rw [h2 entry]
      constructor
      · rintro ⟨m, hm, rest1⟩
        exact ⟨m, List.mem_cons_of_mem _ hm, rest1⟩
      · rintro ⟨m, hm, hres, rest1⟩
        rcases List.mem_cons.mp hm with rfl | hm
        · have : reserved m = true := hr
          rw [this] at hres
          cases hres
        · exact ⟨m, hm, hres, rest1⟩
    · have hr1 : reserved n = false := by
        cases hrn : reserved n with
        | false => rfl
        | true => exact absurd hrn hr
      have hrf : strings.HasPrefix n "__gtfs2sqlite" = false := hr1
      by_cases hskip : t.rows.length = 0 ∧ n ∉ el
      · refine ⟨out, ?_, ?_⟩
        · simp only [Export.tables, hrf, Bool.false_eq_true, if_false, ht]
          rw [if_pos hskip, h1]
        intro entry
        rw [h2 entry]
        constructor
        · rintro ⟨m, hm, rest1⟩
          exact ⟨m, List.mem_cons_of_mem _ hm, rest1⟩
        · rintro ⟨m, hm, hres, u, hu, hns, rest1⟩
          rcases List.mem_cons.mp hm with rfl | hm
          · rw [ht] at hu
            cases hu
            exact absurd hskip hns
          · exact ⟨m, hm, hres, u, hu, hns, rest1⟩
      · refine ⟨(n ++ ".txt", Written.csv (t.columns :: t.rows.map (fun r =>
            t.columns.map (fun col => (r.get t.columns col).getD "")))) :: out, ?_, ?_⟩
        · simp only [Export.tables, hrf, Bool.false_eq_true, if_false, ht]
          rw [if_neg hskip]
          simp only [exportTableIn, ht, h1]
        · intro entry
          rw [List.mem_cons, h2 entry]
          constructor
          · rintro (he | ⟨m, hm, rest1⟩)
            · exact ⟨n, List.mem_cons_self _ _, hr1, t, ht, hskip, he⟩
            · exact ⟨m, List.mem_cons_of_mem _ hm, rest1⟩
          · rintro ⟨m, hm, hres, u, hu, hns, he⟩
            rcases List.mem_cons.mp hm with rfl | hm
            · rw [ht] at hu
              cases hu
              exact Or.inl he
            · exact Or.inr ⟨m, hm, hres, u, hu, hns, he⟩

theorem Export_others_spec {db0 db : Store} {done : List Entry} (hinv : Imported db0 done db) :
    (if "__gtfs2sqlite_other_files" ∈ db.map (fun t => t.name) then exportOtherFiles db
      else .ok []) =
      .ok ((done.filter (fun f => !f.isTable)).map (fun f => (f.name, Written.raw f.bytes))) := by
  rcases findTable_error_or_ok db "__gtfs2sqlite_other_files" with ⟨e, he⟩ | ⟨t, ht⟩
  · have hn : "__gtfs2sqlite_other_files" ∉ db.map (fun t => t.name) := by
      rw [mem_names_iff]
      rintro ⟨t, ht⟩
      rw [he] at ht
      cases ht
    rw [if_neg hn, hinv.othersNone e he]
    rfl
  · have hn : "__gtfs2sqlite_other_files" ∈ db.map (fun t => t.name) :=
      (mem_names_iff db _).mpr ⟨t, ht⟩
    obtain ⟨c1, c2⟩ := hinv.others t ht
    rw [if_pos hn]
    unfold exportOtherFiles
    simp only [ht, c1]
    have hfind : List.find? (fun c => !(decide (c ∈ ["name", "contents"]))) ["name", "contents"]
        = none := by decide
    simp only [hfind]
    have := map_of_values c2 (fun vals =>
      (((List.lookup "name" (["name", "contents"].zip vals)).join).getD "",
        Written.raw (((List.lookup "contents" (["name", "contents"].zip vals)).join).getD "")))
    simp only [Row.get]
    rw [this]
    congr 1

theorem Export_empties_spec {db0 db : Store} {done : List Entry} (hinv : Imported db0 done db) :
    (if "__gtfs2sqlite_empty_files" ∈ db.map (fun t => t.name) then Export.emptyFileTables db
      else .ok []) =
      .ok ((done.filter (fun f => f.noRows)).map (fun f => f.table)) := by
  rcases findTable_error_or_ok db "__gtfs2sqlite_empty_files" with ⟨e, he⟩ | ⟨t, ht⟩
  · have hn : "__gtfs2sqlite_empty_files" ∉ db.map (fun t => t.name) := by
      rw [mem_names_iff]
      rintro ⟨t, ht⟩
      rw [he] at ht
      cases ht
    rw [if_neg hn, hinv.emptiesNone e he]
    rfl
  · have hn : "__gtfs2sqlite_empty_files" ∈ db.map (fun t => t.name) :=
      (mem_names_iff db _).mpr ⟨t, ht⟩
    obtain ⟨c1, c2⟩ := hinv.empties t ht
    rw [if_pos hn]
    unfold Export.emptyFileTables
    simp only [ht, c1]
    have := map_of_values c2 (fun vals =>
      ((List.lookup "tableName" (["tableName"].zip vals)).join).getD "")
    simp only [Row.get, List.mem_singleton, if_true]
    rw [this]
    congr 1

/-! ## Export after Import -/

theorem exportedFile_other {created : Schema} {f : Entry} (hf : f.isTable = false) :
    exportedFile created f = (f.name, Written.raw f.bytes) := by
  unfold exportedFile
  rw [hf]
  rfl

theorem exportedFile_table {created : Schema} {f : Entry} (hf : f.isTable = true)
    {header : List String} {rows : List (List String)} (hrec : f.records = header :: rows) :
    exportedFile created f =
      (f.name, Written.csv (importedColumns created f.table header ::
        rows.map (fun row => (importedColumns created f.table header).map
          (exported header row)))) := by
  unfold exportedFile
  rw [hf, hrec]
  rfl

theorem records_of_values {t : Table} {header : List String} {rows : List (List String)}
    (h : t.rows.map (fun r => r.values) = rows.map (fun row => t.columns.map (stored header row))) :
    t.rows.map (fun r => t.columns.map (fun col => (r.get t.columns col).getD "")) =
      rows.map (fun row => t.columns.map (exported header row)) := by
  have := map_of_values h (fun vals => t.columns.map (fun col =>
    ((List.lookup col (t.columns.zip vals)).join).getD ""))
  simp only [Row.get]
  rw [this]
  apply List.map_congr_left
  intro row _
  apply List.map_congr_left
  intro c hc
  rw [lookup_zip_map (stored header row) c t.columns hc]
  rfl

theorem noRows_isTable {f : Entry} (h : f.noRows = true) : f.isTable = true := by
  unfold Entry.noRows at h
  rw [Bool.and_eq_true] at h
  exact h.1

/-- What `Export` writes for the store that the import of `feed` has left. -/
theorem export_of_imported {created : Schema} {db : Store} {feed : List Entry}
    (hdb0 : ∀ n, (knownTable n = true ∧
        ∃ t0, findTable (emptyTables created) n = .ok t0 ∧ t0.rows = []) ∨
      (knownTable n = false ∧ ∃ e, findTable (emptyTables created) n = .error e))
    (hinv : Imported (emptyTables created) feed db)
    (hres : ∀ f ∈ feed, f.isTable = true → reserved f.table = false) :
    ∃ out, Export db = .ok out ∧ ∀ entry, entry ∈ out ↔ ∃ f ∈ feed, entry = exportedFile created f := by
  obtain ⟨tout, t1, t2⟩ := Export_tables_spec db
    ((feed.filter (fun f => f.noRows)).map (fun f => f.table)) (db.map (fun t => t.name))
    (fun n hn => (mem_names_iff db n).mp hn)
  refine ⟨(feed.filter (fun f => !f.isTable)).map (fun f => (f.name, Written.raw f.bytes)) ++ tout,
    ?_, ?_⟩
  · simp only [Export, Export_others_spec hinv, Export_empties_spec hinv, t1]
  · intro entry
    rw [List.mem_append]
    constructor
    · rintro (he | he)
      · obtain ⟨f, hf, hfe⟩ := List.mem_map.mp he
        rw [List.mem_filter] at hf
        have hft : f.isTable = false := by simpa using hf.2
        exact ⟨f, hf.1, by rw [exportedFile_other hft, hfe]⟩
      · obtain ⟨n, _, hr, t, ht, hns, hent⟩ := (t2 entry).mp he
        by_cases hex : ∃ f ∈ feed, f.isTable = true ∧ f.table = n
        · obtain ⟨f, hf, hft, hfn⟩ := hex
          obtain ⟨header, rows, u, b1, b2, b3, _, _, b6⟩ := hinv.tables f hf hft
          rw [hfn, ht] at b2
          cases b2
          refine ⟨f, hf, ?_⟩
          rw [exportedFile_table hft b1, hent, records_of_values b6]
          have hname : n ++ ".txt" = f.name := by
            rw [← hfn]
            exact trimSuffix_append hft
          unfold importedColumns
          rw [hname, ← b3]
        · exfalso
          apply hns
          have hun : findTable db n = findTable (emptyTables created) n := by
            apply hinv.untouched n _ hr
            intro f hf hft hfn
            exact hex ⟨f, hf, hft, hfn⟩
          refine ⟨?_, ?_⟩
          · rcases hdb0 n with ⟨_, t0, ht0, hr0⟩ | ⟨_, e, he0⟩
            · rw [hun, ht0] at ht
              cases ht
              rw [hr0]
              rfl
            · rw [hun, he0] at ht
              cases ht
          · intro hmem
            obtain ⟨f, hf, hfn⟩ := List.mem_map.mp hmem
            rw [List.mem_filter] at hf
            exact hex ⟨f, hf.1, noRows_isTable hf.2, hfn⟩
    · rintro ⟨f, hf, hent⟩
      cases hft : f.isTable with
      | false =>
        left
        rw [hent, exportedFile_other hft]
        exact List.mem_map.mpr ⟨f, List.mem_filter.mpr ⟨hf, by simp [hft]⟩, rfl⟩
      | true =>
        right
        obtain ⟨header, rows, t, b1, b2, b3, _, _, b6⟩ := hinv.tables f hf hft
        rw [t2 entry]
        refine ⟨f.table, (mem_names_iff db _).mpr ⟨t, b2⟩, hres f hf hft, t, b2, ?_, ?_⟩
        · rintro ⟨h0, hnot⟩
          apply hnot
          apply List.mem_map.mpr
          refine ⟨f, List.mem_filter.mpr ⟨hf, ?_⟩, rfl⟩
          unfold Entry.noRows
          rw [hft, b1]
          have hl : (t.rows.map (fun r => r.values)).length = 0 := by
            rw [List.length_map]
            exact h0
          rw [b6, List.length_map] at hl
          have : rows = [] := List.length_eq_zero.mp hl
          simp [this]
        · rw [hent, exportedFile_table hft b1, records_of_values b6]
          have hname : f.table ++ ".txt" = f.name := trimSuffix_append hft
          unfold importedColumns
          rw [hname, ← b3]

/-- The columns of the exported table file: those of the header and those that
`gtfsSchema` gives to the table; the header itself when `gtfsSchema` has no such table. -/
theorem importedColumns_spec {created : Schema} (hcreated : CreationOrder created)
    {db0 : Store} (hc : Import.createTables created [] = .ok db0)
    (table : String) (header : List String) :
    (∀ c, c ∈ importedColumns created table header ↔ c ∈ header ∨ knownColumn table c = true) ∧
    (knownTable table = false → importedColumns created table header = header) := by
  have h0 : db0 = emptyTables created := by
    have := createTables_eq created [] db0 hc
    rw [List.nil_append] at this
    exact this
  subst h0
  obtain ⟨h1, h2⟩ := createTables_spec hcreated hc table
  constructor
  · intro c
    unfold importedColumns
    rw [List.mem_append, h2 c, List.mem_filter]
    cases hk : knownColumn table c <;> simp
  · intro hk
    have hcols : columnsOf (emptyTables created) table = [] := by
      rcases h1 with ⟨hk1, _⟩ | ⟨_, e, he⟩
      · rw [hk] at hk1
        cases hk1
      · unfold columnsOf
        rw [he]
    unfold importedColumns
    rw [hcols, List.nil_append, List.filter_eq_self]
    intro c _
    have : knownColumn table c = false := by
      cases hkc : knownColumn table c with
      | false => rfl
      | true =>
        have := (h2 c).mpr hkc
        rw [hcols] at this
        cases this
    rw [this]
    rfl

/-! ## The deletions of `validate`, table by table -/

theorem shrunk_refl (db : Store) (m : String) : Shrunk db db m :=
  ⟨fun _ h => h, fun t h => ⟨t, h, rfl, List.Sublist.refl _⟩⟩

theorem shrunk_trans {db db1 db2 : Store} {m : String} (h1 : Shrunk db db1 m)
    (h2 : Shrunk db1 db2 m) : Shrunk db db2 m := by
  constructor
  · intro e he
    exact h2.1 e (h1.1 e he)
  · intro t ht
    obtain ⟨t1, a1, a2, a3⟩ := h1.2 t ht
    obtain ⟨t2, b1, b2, b3⟩ := h2.2 t1 a1
    exact ⟨t2, b1, b2.trans a2, b3.trans a3⟩

theorem shrunk_deleteRowid (db : Store) (table : String) (rowid : Int) (m : String) :
    Shrunk db (deleteRowid db table rowid) m ∧
    (m ≠ table → findTable (deleteRowid db table rowid) m = findTable db m) := by
  refine ⟨⟨?_, ?_⟩, ?_⟩
  · intro e he
    rw [findTable_deleteRowid, he]
  · intro t ht
    rw [findTable_deleteRowid, ht]
    by_cases hm : m = table
    · refine ⟨_, rfl, ?_, ?_⟩
      · simp [hm]
      · simp only [hm, if_true]
        exact List.filter_sublist _
    · exact ⟨_, rfl, by simp [hm], by simp [hm]⟩
  · intro hm
    rw [findTable_deleteRowid]
    cases findTable db m with
    | error e => rfl
    | ok t => simp [hm]

theorem deleteRows_shrunk (table : String) :
    ∀ (rows : List Int) (db db1 : Store) (oe : Option Err),
      validate.deleteRows table rows db = (db1, oe) →
      ∀ m, Shrunk db db1 m ∧ (m ≠ table → findTable db1 m = findTable db m) := by
  intro rows
  induction rows with
  | nil =>
    intro db db1 oe h m
    simp only [validate.deleteRows, Prod.mk.injEq] at h
    rw [← h.1]
    exact ⟨shrunk_refl db m, fun _ => rfl⟩
  | cons rowid rest ih =>
    intro db db1 oe h m
    simp only [validate.deleteRows, execDelete_rowidEq] at h
    cases hf : findTable db table with
    | error e =>
      simp only [hf, Prod.mk.injEq] at h
      rw [← h.1]
      exact ⟨shrunk_refl db m, fun _ => rfl⟩
    | ok t =>
      simp only [hf] at h
      obtain ⟨a1, a2⟩ := ih _ db1 oe h m
      obtain ⟨b1, b2⟩ := shrunk_deleteRowid db table rowid m
      exact ⟨shrunk_trans b1 a1, fun hm => (a2 hm).trans (b2 hm)⟩

theorem applyDeletes_shrunk :
    ∀ (l : List (String × List Int)) (db db1 : Store) (oe : Option Err),
      validate.applyDeletes l db = (db1, oe) →
      ∀ m, Shrunk db db1 m ∧ ((∀ p ∈ l, p.1 ≠ m) → findTable db1 m = findTable db m) := by
  intro l
  induction l with
  | nil =>
    intro db db1 oe h m
    simp only [validate.applyDeletes, Prod.mk.injEq] at h
    rw [← h.1]
    exact ⟨shrunk_refl db m, fun _ => rfl⟩
  | cons p rest ih =>
    intro db db1 oe h m
    obtain ⟨table, rows⟩ := p
    simp only [validate.applyDeletes] at h
    cases hd : validate.deleteRows table rows db with
    | mk db2 oe2 =>
      obtain ⟨b1, b2⟩ := deleteRows_shrunk table rows db db2 oe2 hd m
      cases oe2 with
      | some e =>
        simp only [hd, Prod.mk.injEq] at h
        rw [← h.1]
        exact ⟨b1, fun hp => b2 (fun hc => hp (table, rows) (List.mem_cons_self _ _) hc.symm)⟩
      | none =>
        simp only [hd] at h
        obtain ⟨a1, a2⟩ := ih db2 db1 oe h m
        refine ⟨shrunk_trans b1 a1, fun hp => ?_⟩
        rw [a2 (fun p hp1 => hp p (List.mem_cons_of_mem _ hp1)),
          b2 (fun hc => hp (table, rows) (List.mem_cons_self _ _) hc.symm)]

theorem mapAppend_keys (table : String) (rowid : Int) :
    ∀ (l : List (String × List Int)), ∀ p ∈ mapAppend table rowid l,
      p.1 = table ∨ ∃ q ∈ l, q.1 = p.1 := by
  intro l
  induction l with
  | nil =>
    intro p hp
    simp only [mapAppend, List.mem_singleton] at hp
    left
    rw [hp]
  | cons q rest ih =>
    intro p hp
    obtain ⟨k, rows⟩ := q
    simp only [mapAppend] at hp
    by_cases hk : k = table
    · rw [if_pos hk] at hp
      rcases List.mem_cons.mp hp with h | h
      · left
        rw [h, hk]
      · right
        exact ⟨p, List.mem_cons_of_mem _ h, rfl⟩
    · rw [if_neg hk] at hp
      rcases List.mem_cons.mp hp with h | h
      · right
        exact ⟨(k, rows), List.mem_cons_self _ _, by rw [h]⟩
      · rcases ih p h with h1 | ⟨q, hq, hq1⟩
        · exact Or.inl h1
        · exact Or.inr ⟨q, List.mem_cons_of_mem _ hq, hq1⟩

theorem callback_keys (K : String → Prop) (table column : String) (hK : K table) :
    ∀ (stmts : List Stmt) (v : validator), (∀ p ∈ v.toDelete, K p.1) →
      ∀ p ∈ (stmts.foldl (validateForeignID.callback table column) v).toDelete, K p.1 := by
  have key : ∀ (rowid : Int) (w : validator), (∀ p ∈ w.toDelete, K p.1) →
      ∀ p ∈ (if w.opts.force then { w with toDelete := mapAppend table rowid w.toDelete }
        else w).toDelete, K p.1 := by
    intro rowid w hw p hp
    cases hf : w.opts.force with
    | false =>
      simp only [hf, Bool.false_eq_true, if_false] at hp
      exact hw p hp
    | true =>
      simp only [hf, if_true] at hp
      rcases mapAppend_keys table rowid _ p hp with h | ⟨q, hq, hq1⟩
      · rw [h]
        exact hK
      · rw [← hq1]
        exact hw q hq
  intro stmts
  induction stmts with
  | nil => intro v hv; exact hv
  | cons s rest ih =>
    intro v hv
    rw [List.foldl_cons]
    apply ih
    unfold validateForeignID.callback
    apply key
    intro p hp
    apply hv
    by_cases h0 : v.pass = 0
    · simp only [h0, if_true] at hp
      exact hp
    · simp only [h0, if_false] at hp
      exact hp

theorem sweepEdges_keys (K : String → Prop) (db : Store) :
    ∀ (es : List Edge) (v v1 : validator), (∀ e ∈ es, K e.1) →
      validate.sweepEdges db es v = .ok v1 → (∀ p ∈ v.toDelete, K p.1) →
      ∀ p ∈ v1.toDelete, K p.1 := by
  intro es
  induction es with
  | nil =>
    intro v v1 _ h hv
    simp only [validate.sweepEdges, Except.ok.injEq] at h
    rw [← h]
    exact hv
  | cons e rest ih =>
    intro v v1 hK h hv
    simp only [validate.sweepEdges] at h
    cases hs : validateForeignID db v e.1 e.2.1 e.2.2 with
    | error err => simp [hs] at h
    | ok v2 =>
      simp only [hs] at h
      apply ih v2 v1 (fun x hx => hK x (List.mem_cons_of_mem _ hx)) h
      unfold validateForeignID at hs
      cases hr : foreignRows db e.1 e.2.1 e.2.2 with
      | error err => simp [hr] at hs
      | ok res =>
        obtain ⟨t, rows⟩ := res
        simp only [hr, Except.ok.injEq] at hs
        rw [← hs]
        exact callback_keys K e.1 e.2.1 (hK e (List.mem_cons_self _ _)) _ v hv

theorem loop_shrunk (order : Nat → Schema) (m : String) :
    ∀ (fuel : Nat) (db : Store) (v : validator) (dbf : Store) (res : Except Err validator),
      validate.loop order fuel db v = some (dbf, res) →
      Shrunk db dbf m ∧
      ((∀ p, ∀ e ∈ edgesOf (order p), e.1 ≠ m) → (∀ p ∈ v.toDelete, p.1 ≠ m) →
        findTable dbf m = findTable db m) := by
  intro fuel
  induction fuel with
  | zero =>
    intro db v dbf res h
    simp [validate.loop] at h
  | succ n ih =>
    intro db v dbf res h
    simp only [validate.loop, sweep_eq] at h
    cases hs : validate.sweepEdges db (edgesOf (order v.pass)) v with
    | error e =>
      simp only [hs, Option.some.injEq, Prod.mk.injEq] at h
      rw [← h.1]
      exact ⟨shrunk_refl db m, fun _ _ => rfl⟩
    | ok v1 =>
      simp only [hs] at h
      by_cases h0 : v1.toDelete.length = 0
      · simp only [h0, if_true, Option.some.injEq, Prod.mk.injEq] at h
        rw [← h.1]
        exact ⟨shrunk_refl db m, fun _ _ => rfl⟩
      · simp only [h0, if_false] at h
        cases ha : validate.applyDeletes v1.toDelete db with
        | mk db1 oe =>
          obtain ⟨b1, b2⟩ := applyDeletes_shrunk _ db db1 oe ha m
          have hkeys : (∀ p, ∀ e ∈ edgesOf (order p), e.1 ≠ m) → (∀ p ∈ v.toDelete, p.1 ≠ m) →
              ∀ p ∈ v1.toDelete, p.1 ≠ m :=
            fun hK hv => sweepEdges_keys (fun n => n ≠ m) db _ v v1 (hK v.pass) hs hv
          cases oe with
          | some e =>
            simp only [ha, Option.some.injEq, Prod.mk.injEq] at h
            rw [← h.1]
            exact ⟨b1, fun hK hv => b2 (hkeys hK hv)⟩
          | none =>
            simp only [ha] at h
            obtain ⟨a1, a2⟩ := ih _ _ _ _ h
            refine ⟨shrunk_trans b1 a1, fun hK hv => ?_⟩
            rw [a2 hK (fun p hp => by cases hp), b2 (hkeys hK hv)]

theorem knownTable_of_edge {e : Edge} (he : e ∈ edgesOf gtfsSchema) : knownTable e.1 = true := by
  unfold edgesOf at he
  rw [List.mem_flatMap] at he
  obtain ⟨ts, hts, he1⟩ := he
  rw [List.mem_filterMap] at he1
  obtain ⟨cs, _, hcs⟩ := he1
  cases hf : cs.2.ForeignID with
  | none => simp [hf] at hcs
  | some f =>
    simp only [hf, Option.map_some', Option.some.injEq] at hcs
    rw [← hcs]
    unfold knownTable
    rw [lookup_isSome_iff]
    exact List.mem_map_of_mem (fun p => p.1) hts

/-- The closing validation removes rows and nothing else, and leaves alone every table
that `gtfsSchema` does not have. -/
theorem validate_shrunk {order : Nat → Schema} (hord : IterationOrder order) {fuel : Nat}
    {db : Store} {opts : validateOpts} {r : validateResult}
    (h : validate order fuel db opts = some r) (m : String) :
    Shrunk db r.db m ∧ (knownTable m = false → findTable r.db m = findTable db m) := by
  obtain ⟨res, hl⟩ := validate_db h
  obtain ⟨a1, a2⟩ := loop_shrunk order m fuel db _ _ _ hl
  refine ⟨a1, fun hk => a2 ?_ (fun p hp => by cases hp)⟩
  intro p e he hem
  have := knownTable_of_edge ((mem_edges_order hord p e).mp he)
  rw [hem, hk] at this
  cases this

/-! ## Import: empty fields -/

theorem addColumns_rowsOf (table : String) :
    ∀ (cols : List String) (hasTable : Bool) (db db1 : Store),
      importFileIn.addColumns table cols hasTable db = .ok db1 →
      rowsOf db1 table = rowsOf db table := by
  intro cols
  induction cols with
  | nil =>
    intro hasTable db db1 h
    simp only [importFileIn.addColumns, Except.ok.injEq] at h
    rw [h]
  | cons c rest ih =>
    intro hasTable db db1 h
    cases hasTable with
    | true =>
      simp only [importFileIn.addColumns, if_true] at h
      cases hs : execAddColumn db table c with
      | error e => simp [hs] at h
      | ok db2 =>
        simp only [hs] at h
        rw [ih true db2 db1 h]
        obtain ⟨t, h1, _, h3, _⟩ := execAddColumn_ok hs
        unfold rowsOf
        rw [h1, h3]
    | false =>
      simp only [importFileIn.addColumns, Bool.false_eq_true, if_false] at h
      cases hs : execCreateTable db table [c] with
      | error e => simp [hs] at h
      | ok db2 =>
        simp only [hs] at h
        rw [ih true db2 db1 h]
        obtain ⟨⟨e, h1⟩, h3, _⟩ := execCreateTable_ok hs
        unfold rowsOf
        rw [h1, h3]

/-- The rows that `importFileIn` adds to the table of a table file, one per data row. -/
theorem importFileIn_rows {db db1 : Store} {file : Entry} {header : List String}
    {rows : List (List String)} (htxt : file.isTable = true)
    (hrec : file.records = header :: rows) (h : importFileIn db file = .ok db1) :
    ∃ t new, findTable db1 file.table = .ok t ∧ (∀ c ∈ header, c ∈ t.columns) ∧
      (∀ row ∈ rows, row.length ≤ header.length) ∧
      (rows ≠ [] → t.rows = rowsOf db file.table ++ new) ∧
      new.map (fun r => r.values) = rows.map (fun row => t.columns.map (stored header row)) := by
  have hf1 : strings.HasSuffix file.name ".txt" = true := htxt
  simp only [importFileIn, hf1, Bool.not_true, Bool.false_eq_true, if_false, hrec] at h
  cases hs1 : importFileIn.addColumns (strings.TrimSuffix file.name ".txt")
      (header.filter (fun column => !(knownColumn (strings.TrimSuffix file.name ".txt") column)))
      (knownTable (strings.TrimSuffix file.name ".txt")) db with
  | error e => simp [hs1] at h
  | ok db2 =>
  simp only [hs1] at h
  cases hs2 : importFileIn.prepare db2 (strings.TrimSuffix file.name ".txt") header with
  | error e => simp [hs2] at h
  | ok u =>
  simp only [hs2] at h
  cases hs3 : importFileIn.insertRows (strings.TrimSuffix file.name ".txt") header rows db2 with
  | error e => simp [hs3] at h
  | ok db3 =>
  simp only [hs3] at h
  change importFileIn.addColumns file.table _ _ db = .ok db2 at hs1
  change importFileIn.prepare db2 file.table header = .ok u at hs2
  change importFileIn.insertRows file.table header rows db2 = .ok db3 at hs3
  have hrows := addColumns_rowsOf _ _ _ _ _ hs1
  obtain ⟨_, t2, p2, p3⟩ := prepare_ok hs2
  obtain ⟨_, i2, i3, i4⟩ := insertRows_spec _ _ _ _ _ hs3
  obtain ⟨new, n1, n2⟩ := i4 t2 p2
  have ht2 : t2.rows = rowsOf db file.table := by
    rw [← hrows]
    unfold rowsOf
    rw [p2]
  by_cases hr : rows = []
  · subst hr
    have hdb3 : db3 = db2 := i3 rfl
    subst hdb3
    simp only [List.length_nil, if_true] at h
    obtain ⟨te, c1, c2, c3⟩ := appendTo_spec h
    by_cases hT : file.table = "__gtfs2sqlite_empty_files"
    · have hte : te = t2 := by
        rw [← hT, p2] at c1
        rcases c1 with c1 | ⟨⟨e, he⟩, _⟩
        · cases c1
          rfl
        · cases he
      rw [← hT] at c2
      subst hte
      exact ⟨_, [], c2, p3, i2, fun hc => absurd rfl hc, rfl⟩
    · exact ⟨t2, [], by rw [c3 _ hT]; exact p2, p3, i2, fun hc => absurd rfl hc, rfl⟩
  · have hlen : ¬ rows.length = 0 := fun h0 => hr (List.length_eq_zero.mp h0)
    simp only [hlen, if_false, Except.ok.injEq] at h
    subst h
    refine ⟨_, new, n1, p3, i2, fun _ => ?_, n2⟩
    simp only [ht2]

/-- C24: `importFileIn` stores empty fields as NULL.  After the import of a table file
with a header of distinct columns, the table of the file holds one new row per data row,
in the order of the file, behind the rows it had; in the row of a data row the column at
position `j` of the header is NULL when the data row has no field at `j`, NULL when the
field at `j` is empty, and the text of the field otherwise. -/
theorem importFileIn_stores_empty_as_null (db db1 : Store) (file : Entry)
    (header : List String) (rows : List (List String)) (htxt : file.isTable = true)
    (hrec : file.records = header :: rows) (hnd : header.Nodup)
    (h : importFileIn db file = .ok db1) :
    ∃ t new, findTable db1 file.table = .ok t ∧
      (rows ≠ [] → t.rows = rowsOf db file.table ++ new) ∧
      new.length = rows.length ∧
      ∀ (i : Nat) (r : Row) (row : List String), new[i]? = some r → rows[i]? = some row →
        ∀ (j : Nat) (c : String), header[j]? = some c →
          c ∈ t.columns ∧
          (row[j]? = none → r.get t.columns c = none) ∧
          (row[j]? = some "" → r.get t.columns c = none) ∧
          (∀ v, row[j]? = some v → v ≠ "" → r.get t.columns c = some v) := by
  obtain ⟨t, new, h1, h2, _, h4, h5⟩ := importFileIn_rows htxt hrec h
  have hlen : new.length = rows.length := by
    have := congrArg List.length h5
    simpa using this
  refine ⟨t, new, h1, h4, hlen, ?_⟩
  intro i r row hr hrow j c hc
  have hcm : c ∈ t.columns := h2 c (List.getElem?_mem hc)
  have hval : r.values = t.columns.map (stored header row) := by
    have := congrArg (fun l => l[i]?) h5
    simp only [List.getElem?_map, hr, hrow, Option.map_some', Option.some.injEq] at this
    exact this
  have hget : r.get t.columns c = (row[j]?).bind (fun v => if v = "" then none else some v) := by
    rw [get_of_values hval hcm, stored_at hnd hc]
  refine ⟨hcm, ?_, ?_, ?_⟩
  · intro h0
    rw [hget, h0]
    rfl
  · intro h0
    rw [hget, h0]
    rfl
  · intro v h0 hv
    rw [hget, h0]
    simp [hv]

/-- C24, instance: the import of `agencyFile` into the empty tables.  The row of the second
data row `A2,,y` has NULL for `agency_name`, and the row of the third data row `A3` has NULL
for `agency_name` and for `agency_note`. -/
theorem importFileIn_stores_empty_as_null_witness :
    agencyFile.isTable = true ∧
    agencyFile.records = ["agency_id", "agency_name", "agency_note"] ::
      [["A1", "Alpha", "x"], ["A2", "", "y"], ["A3"]] ∧
    ["agency_id", "agency_name", "agency_note"].Nodup ∧
    importFileIn emptyDB agencyFile = .ok agencyStore ∧
    (rowsOf agencyStore "agency").map (fun r =>
        (cell agencyStore "agency" r "agency_id", cell agencyStore "agency" r "agency_name",
          cell agencyStore "agency" r "agency_note"))
      = [(some "A1", some "Alpha", some "x"), (some "A2", none, some "y"),
          (some "A3", none, none)] ∧
    ∃ t new, findTable agencyStore agencyFile.table = .ok t ∧
      ([["A1", "Alpha", "x"], ["A2", "", "y"], ["A3"]] ≠ [] →
        t.rows = rowsOf emptyDB agencyFile.table ++ new) ∧
      new.length = [["A1", "Alpha", "x"], ["A2", "", "y"], ["A3"]].length ∧
      ∀ (i : Nat) (r : Row) (row : List String), new[i]? = some r →
        [["A1", "Alpha", "x"], ["A2", "", "y"], ["A3"]][i]? = some row →
        ∀ (j : Nat) (c : String), ["agency_id", "agency_name", "agency_note"][j]? = some c →
          c ∈ t.columns ∧
          (row[j]? = none → r.get t.columns c = none) ∧
          (row[j]? = some "" → r.get t.columns c = none) ∧
          (∀ v, row[j]? = some v → v ≠ "" → r.get t.columns c = some v) :=
  ⟨by decide, by decide, by decide, rfl, by decide,
    importFileIn_stores_empty_as_null emptyDB agencyStore agencyFile
      ["agency_id", "agency_name", "agency_note"] [["A1", "Alpha", "x"], ["A2", "", "y"], ["A3"]]
      (by decide) (by decide) (by decide) rfl⟩

/-! ## Export after Import: the round trip -/

theorem sourceColumns_nodup :
    ∀ ts ∈ gtfsSchema, (ts.2.Columns.map (fun c => c.1)).Nodup := by decide

theorem edges_declared :
    ∀ e ∈ edgesOf gtfsSchema,
      knownColumn e.1 e.2.1 = true ∧ ∀ a ∈ alternatives e.2.2, knownColumn a.1 a.2 = true := by
  decide

theorem creationOrder_source : CreationOrder gtfsSchema :=
  ⟨List.Perm.refl _, fun ts h => ⟨ts, h, rfl, List.Perm.refl _⟩⟩

theorem string_append_cancel {a b s : String} (h : a ++ s = b ++ s) : a = b := by
  apply String.ext
  have := congrArg String.data h
  rw [String.data_append, String.data_append] at this
  exact List.append_cancel_right this

theorem importedColumns_nodup {created : Schema} (hcreated : CreationOrder created)
    {db0 : Store} (hc : Import.createTables created [] = .ok db0)
    (table : String) {header : List String} (hnd : header.Nodup) :
    (importedColumns created table header).Nodup := by
  have h0 : db0 = emptyTables created := by
    have := createTables_eq created [] db0 hc
    rw [List.nil_append] at this
    exact this
  subst h0
  obtain ⟨_, h2⟩ := createTables_spec hcreated hc table
  unfold importedColumns
  rw [List.nodup_append]
  refine ⟨?_, hnd.filter _, ?_⟩
  · unfold columnsOf
    cases hf : findTable (emptyTables created) table with
    | error e => exact List.nodup_nil
    | ok t0 =>
      have hmem := mem_of_findTable hf
      unfold emptyTables at hmem
      obtain ⟨ts, hts, hmk⟩ := List.mem_map.mp hmem
      obtain ⟨ts0, hts0, _, hperm⟩ := hcreated.2 ts hts
      show t0.columns.Nodup
      rw [← hmk]
      exact hperm.nodup_iff.mpr (sourceColumns_nodup ts0 hts0)
  · intro c hc1 hc2
    have hk := (h2 c).mp hc1
    rw [List.mem_filter] at hc2
    rw [hk] at hc2
    simp at hc2

/-- The store that a successful `Import` leaves: the store after the loop over the entries,
from which the closing validation has removed rows of tables of `gtfsSchema` and nothing
else. -/
theorem import_store {created : Schema} {order : Nat → Schema} {fuel : Nat}
    {feed : List Entry} {opts : Option ImportOpts} {r : ImportResult}
    (hcreated : CreationOrder created) (hord : IterationOrder order)
    (hnd : (feed.map (fun f => f.name)).Nodup)
    (hres : ∀ f ∈ feed, f.isTable = true → reserved f.table = false)
    (h : Import created order fuel feed opts = some r) (herr : r.err = none) :
    Import.createTables created [] = .ok (emptyTables created) ∧
    ∃ db1, Imported (emptyTables created) feed db1 ∧
      (∀ m, Shrunk db1 r.db m ∧ (knownTable m = false → findTable r.db m = findTable db1 m)) ∧
      (r.issues = [] → r.db = db1) := by
  unfold Import at h
  cases hc : Import.createTables created [] with
  | error e =>
    simp only [hc, Option.some.injEq] at h
    rw [← h] at herr
    cases herr
  | ok db0 =>
    simp only [hc] at h
    cases hfl : Import.files feed db0 with
    | error e =>
      simp only [hfl, Option.some.injEq] at h
      rw [← h] at herr
      cases herr
    | ok db1 =>
      simp only [hfl] at h
      cases hv : validate order fuel db1 (Import.validateOpts opts) with
      | none => simp [hv] at h
      | some vr =>
        simp only [hv, Option.some.injEq] at h
        have h0 : db0 = emptyTables created := by
          have := createTables_eq created [] db0 hc
          rw [List.nil_append] at this
          exact this
        subst h0
        have hdb0 := fun n => (createTables_spec hcreated hc n).1
        have hinv := imported_files hdb0 feed [] _ db1 (imported_nil hcreated hc) hfl
          (by rw [List.nil_append]; exact hnd) (by rw [List.nil_append]; exact hres)
        rw [List.nil_append] at hinv
        refine ⟨rfl, db1, hinv, ?_, ?_⟩
        · intro m
          rw [← h]
          exact validate_shrunk hord hv m
        · intro hiss
          rw [← h] at hiss herr ⊢
          exact validate_unchanged hv herr hiss

theorem others_congr {db db1 : Store}
    (h : findTable db1 "__gtfs2sqlite_other_files" = findTable db "__gtfs2sqlite_other_files") :
    (if "__gtfs2sqlite_other_files" ∈ db1.map (fun t => t.name) then exportOtherFiles db1
      else .ok []) =
    (if "__gtfs2sqlite_other_files" ∈ db.map (fun t => t.name) then exportOtherFiles db
      else .ok []) := by
  have hm : "__gtfs2sqlite_other_files" ∈ db1.map (fun t => t.name) ↔
      "__gtfs2sqlite_other_files" ∈ db.map (fun t => t.name) := by
    rw [mem_names_iff, mem_names_iff, h]
  by_cases hm1 : "__gtfs2sqlite_other_files" ∈ db.map (fun t => t.name)
  · rw [if_pos hm1, if_pos (hm.mpr hm1)]
    unfold exportOtherFiles
    rw [h]
  · rw [if_neg hm1, if_neg (fun hc => hm1 (hm.mp hc))]

theorem empties_congr {db db1 : Store}
    (h : findTable db1 "__gtfs2sqlite_empty_files" = findTable db "__gtfs2sqlite_empty_files") :
    (if "__gtfs2sqlite_empty_files" ∈ db1.map (fun t => t.name) then Export.emptyFileTables db1
      else .ok []) =
    (if "__gtfs2sqlite_empty_files" ∈ db.map (fun t => t.name) then Export.emptyFileTables db
      else .ok []) := by
  have hm : "__gtfs2sqlite_empty_files" ∈ db1.map (fun t => t.name) ↔
      "__gtfs2sqlite_empty_files" ∈ db.map (fun t => t.name) := by
    rw [mem_names_iff, mem_names_iff, h]
  by_cases hm1 : "__gtfs2sqlite_empty_files" ∈ db.map (fun t => t.name)
  · rw [if_pos hm1, if_pos (hm.mpr hm1)]
    unfold Export.emptyFileTables
    rw [h]
  · rw [if_neg hm1, if_neg (fun hc => hm1 (hm.mp hc))]

/-- What `Export` writes for a store whose bookkeeping tables are those that the import of
`feed` has left. -/
theorem Export_eq {db0 db1 db : Store} {feed : List Entry} (hinv : Imported db0 feed db1)
    (ho : findTable db "__gtfs2sqlite_other_files" = findTable db1 "__gtfs2sqlite_other_files")
    (he : findTable db "__gtfs2sqlite_empty_files" = findTable db1 "__gtfs2sqlite_empty_files") :
    ∃ tout, Export db =
        .ok ((feed.filter (fun f => !f.isTable)).map (fun f => (f.name, Written.raw f.bytes))
          ++ tout) ∧
      ∀ entry, entry ∈ tout ↔ ∃ n ∈ db.map (fun t => t.name), reserved n = false ∧
        ∃ t, findTable db n = .ok t ∧
          ¬ (t.rows.length = 0 ∧
            n ∉ (feed.filter (fun f => f.noRows)).map (fun f => f.table)) ∧
          entry = (n ++ ".txt", Written.csv (t.columns :: t.rows.map (fun r =>
            t.columns.map (fun col => (r.get t.columns col).getD "")))) := by
  obtain ⟨tout, t1, t2⟩ := Export_tables_spec db
    ((feed.filter (fun f => f.noRows)).map (fun f => f.table)) (db.map (fun t => t.name))
    (fun n hn => (mem_names_iff db n).mp hn)
  refine ⟨tout, ?_, t2⟩
  simp only [Export, others_congr ho, empties_congr he, Export_others_spec hinv,
    Export_empties_spec hinv, t1]

theorem exportedFile_name (created : Schema) (f : Entry) : (exportedFile created f).1 = f.name := by
  unfold exportedFile
  cases f.isTable with
  | false => rfl
  | true =>
    cases f.records with
    | nil => rfl
    | cons header rows => rfl

/-- C23, as the code has it: `Export` undoes `Import` for a feed in which no table file has
a name that starts with `__gtfs2sqlite`.  A feed (`Feed`) has entries with distinct names,
headers with distinct columns, and plain names (`plainName`) for its tables and columns,
the names that SQLite reads, unquoted, as they are written.  When such a feed imports
without error and without issue, `Export` succeeds on the database written and writes exactly one file per entry of the
feed, under the same name: the bytes of an entry that is no table file, and for a table file a
header that holds every column of the original header and otherwise only columns that
`gtfsSchema` gives to the table, each once, followed by one record per data row in the order
of the file; in that record the column at position `j` of the original header holds the field
`j` of the data row (the empty field when the row has none), and every other column is
empty. -/
theorem Export_Import_round_trip (created : Schema) (order : Nat → Schema) (fuel : Nat)
    (feed : List Entry) (opts : Option ImportOpts) (r : ImportResult)
    (hcreated : CreationOrder created) (hord : IterationOrder order) (hfeed : Feed feed)
    (hres : ∀ f ∈ feed, f.isTable = true → reserved f.table = false)
    (h : Import created order fuel feed opts = some r) (herr : r.err = none)
    (hiss : r.issues = []) :
    ∃ out, Export r.db = .ok out ∧
      (∀ name, name ∈ out.map (fun entry => entry.1) ↔ name ∈ feed.map (fun f => f.name)) ∧
      (∀ entry, entry ∈ out ↔ ∃ f ∈ feed, entry = exportedFile created f) ∧
      (∀ f ∈ feed, f.isTable = false → exportedFile created f = (f.name, Written.raw f.bytes)) ∧
      (∀ f ∈ feed, f.isTable = true → ∃ header rows cols, f.records = header :: rows ∧
        exportedFile created f =
          (f.name, Written.csv (cols :: rows.map (fun row => cols.map (exported header row)))) ∧
        cols.Nodup ∧
        (∀ c, c ∈ cols ↔ c ∈ header ∨ knownColumn f.table c = true) ∧
        ∀ row ∈ rows,
          (∀ (j : Nat) (c : String), header[j]? = some c →
            exported header row c = (row[j]?).getD "") ∧
          (∀ c, c ∉ header → exported header row c = "")) := by
  obtain ⟨hc, db1, hinv, _, hsame⟩ := import_store hcreated hord hfeed.1 hres h herr
  have hdb0 := fun n => (createTables_spec hcreated hc n).1
  obtain ⟨out, o1, o2⟩ := export_of_imported hdb0 hinv hres
  rw [hsame hiss]
  refine ⟨out, o1, ?_, o2, fun f _ hft => exportedFile_other hft, ?_⟩
  · intro name
    rw [List.mem_map, List.mem_map]
    constructor
    · rintro ⟨entry, he, hn⟩
      obtain ⟨f, hf, hfe⟩ := (o2 entry).mp he
      refine ⟨f, hf, ?_⟩
      rw [← hn, hfe, exportedFile_name]
    · rintro ⟨f, hf, hn⟩
      exact ⟨exportedFile created f, (o2 _).mpr ⟨f, hf, rfl⟩, by rw [exportedFile_name, hn]⟩
  · intro f hf hft
    obtain ⟨header, rows, t, b1, _⟩ := hinv.tables f hf hft
    have hnd : header.Nodup := by
      have := hfeed.2.1 f hf hft
      rw [b1] at this
      exact this
    refine ⟨header, rows, importedColumns created f.table header, b1,
      exportedFile_table hft b1, importedColumns_nodup hcreated hc f.table hnd,
      (importedColumns_spec hcreated hc f.table header).1, ?_⟩
    intro row _
    exact ⟨fun j c hj => exported_at hnd hj, fun c hcn => exported_not_mem hcn⟩

/-- C23, counterexample: the feed `reservedFeed` imports without error and without issue,
and has the table file `__gtfs2sqlite_notes.txt`; `Export` writes the four other files and
not this one. -/
theorem Export_Import_drops_reserved_file :
    Feed reservedFeed ∧
    "__gtfs2sqlite_notes.txt" ∈ reservedFeed.map (fun f => f.name) ∧
    (Import gtfsSchema sourceOrder 3 reservedFeed none).map
        (fun r => (r.issues, r.err,
          (Export r.db).toOption.map (fun out => out.map (fun entry => entry.1))))
      = some ([], none, some ["LICENSE", "agency.txt", "calendar.txt", "vehicles.txt"]) := by
  decide

/-- C23, instance: the feed `smallFeed` (agencies with a column that `gtfsSchema` does not
have and with empty and missing fields, a file that is no table, a table that `gtfsSchema`
does not know, a calendar without rows) imports without issue, and `Export` writes its four
files. -/
theorem Export_Import_round_trip_witness :
    CreationOrder gtfsSchema ∧ IterationOrder sourceOrder ∧ Feed smallFeed ∧
    (∀ f ∈ smallFeed, f.isTable = true → reserved f.table = false) ∧
    Import gtfsSchema sourceOrder 3 smallFeed none = some smallImport ∧
    smallImport.err = none ∧ smallImport.issues = [] ∧
    ∃ out, Export smallImport.db = .ok out ∧
      (∀ name, name ∈ out.map (fun entry => entry.1) ↔
        name ∈ smallFeed.map (fun f => f.name)) ∧
      (∀ entry, entry ∈ out ↔ ∃ f ∈ smallFeed, entry = exportedFile gtfsSchema f) ∧
      (∀ f ∈ smallFeed, f.isTable = false →
        exportedFile gtfsSchema f = (f.name, Written.raw f.bytes)) ∧
      (∀ f ∈ smallFeed, f.isTable = true → ∃ header rows cols, f.records = header :: rows ∧
        exportedFile gtfsSchema f =
          (f.name, Written.csv (cols :: rows.map (fun row => cols.map (exported header row)))) ∧
        cols.Nodup ∧
        (∀ c, c ∈ cols ↔ c ∈ header ∨ knownColumn f.table c = true) ∧
        ∀ row ∈ rows,
          (∀ (j : Nat) (c : String), header[j]? = some c →
            exported header row c = (row[j]?).getD "") ∧
          (∀ c, c ∉ header → exported header row c = "")) :=
  ⟨creationOrder_source, sourceOrder_iterationOrder, by decide, by decide, by decide,
    by decide, by decide,
    Export_Import_round_trip gtfsSchema sourceOrder 3 smallFeed none smallImport
      creationOrder_source sourceOrder_iterationOrder (by decide) (by decide) (by decide)
      (by decide) (by decide)⟩

theorem not_skipped {f : Entry} {feed : List Entry} (hf : f ∈ feed) (hft : f.isTable = true)
    {header : List String} {rows : List (List String)} (b1 : f.records = header :: rows)
    {t : Table} {g : List String → List Value}
    (b6 : t.rows.map (fun r => r.values) = rows.map g) :
    ¬ (t.rows.length = 0 ∧ f.table ∉ (feed.filter (fun f => f.noRows)).map (fun f => f.table)) := by
  rintro ⟨h0, hnot⟩
  apply hnot
  apply List.mem_map.mpr
  refine ⟨f, List.mem_filter.mpr ⟨hf, ?_⟩, rfl⟩
  unfold Entry.noRows
  rw [hft, b1]
  have hl : (t.rows.map (fun r => r.values)).length = 0 := by
    rw [List.length_map]
    exact h0
  rw [b6, List.length_map] at hl
  have : rows = [] := List.length_eq_zero.mp hl
  simp [this]

/-- C25, as the code has it: the files that `gtfsSchema` does not know survive a round
trip through `Import` and `Export` when no table file has a name that starts with
`__gtfs2sqlite`.  A feed (`Feed`) has entries with distinct names, headers with distinct
columns, and plain names (`plainName`) for its tables and columns, the names that SQLite
reads, unquoted, as they are written.
When the import of such a feed returns no error, `Export` succeeds on the database written,
and: every entry that is no table file is written under its name with its bytes; every
table file whose table is not in `gtfsSchema` is written under its name with its header and
its data rows in order, each filled up with empty fields to the length of the header; for
every table file the table holds every column of the header, its rows are data rows of the
file, in order, with in every column what the import stored, and what `Export` writes under
the name of the file are these columns and rows; at position `j` of the header a row holds
the field `j` of the data row; and every foreign-key edge of `gtfsSchema` names columns that
`gtfsSchema` declares. -/
theorem Export_Import_keeps_unknown_files (created : Schema) (order : Nat → Schema)
    (fuel : Nat) (feed : List Entry) (opts : Option ImportOpts) (r : ImportResult)
    (hcreated : CreationOrder created) (hord : IterationOrder order) (hfeed : Feed feed)
    (hres : ∀ f ∈ feed, f.isTable = true → reserved f.table = false)
    (h : Import created order fuel feed opts = some r) (herr : r.err = none) :
    ∃ out, Export r.db = .ok out ∧
      (∀ f ∈ feed, f.isTable = false → (f.name, Written.raw f.bytes) ∈ out) ∧
      (∀ f ∈ feed, f.isTable = true → knownTable f.table = false →
        ∃ header rows, f.records = header :: rows ∧
          (∀ row ∈ rows, row.length ≤ header.length) ∧
          (f.name, Written.csv (header :: rows.map (pad header.length))) ∈ out) ∧
      (∀ f ∈ feed, f.isTable = true → ∃ (header : List String) (rows : List (List String)) (t : Table)
          (kept : List (List String)), f.records = header :: rows ∧
        findTable r.db f.table = .ok t ∧ (∀ c ∈ header, c ∈ t.columns) ∧
        kept.Sublist rows ∧
        t.rows.map (fun x => x.values) = kept.map (fun row => t.columns.map (stored header row)) ∧
        (∀ w, (f.name, w) ∈ out →
          w = Written.csv (t.columns ::
            kept.map (fun row => t.columns.map (exported header row)))) ∧
        ∀ (row : List String) (j : Nat) (c : String), header[j]? = some c →
          stored header row c = (row[j]?).bind (fun v => if v = "" then none else some v) ∧
          exported header row c = (row[j]?).getD "") ∧
      (∀ e ∈ edgesOf gtfsSchema,
        knownColumn e.1 e.2.1 = true ∧ ∀ a ∈ alternatives e.2.2, knownColumn a.1 a.2 = true) := by
  obtain ⟨hc, db1, hinv, hsh, _⟩ := import_store hcreated hord hfeed.1 hres h herr
  obtain ⟨tout, t1, t2⟩ := Export_eq hinv ((hsh _).2 (by decide)) ((hsh _).2 (by decide))
  refine ⟨_, t1, ?_, ?_, ?_, edges_declared⟩
  · intro f hf hft
    apply List.mem_append_left
    exact List.mem_map.mpr ⟨f, List.mem_filter.mpr ⟨hf, by simp [hft]⟩, rfl⟩
  · intro f hf hft hk
    obtain ⟨header, rows, t, b1, b2, b3, _, b5, b6⟩ := hinv.tables f hf hft
    have hnd : header.Nodup := by
      have := hfeed.2.1 f hf hft
      rw [b1] at this
      exact this
    refine ⟨header, rows, b1, b5, ?_⟩
    apply List.mem_append_right
    rw [t2]
    have ht : findTable r.db f.table = .ok t := by
      rw [(hsh _).2 hk]
      exact b2
    refine ⟨f.table, (mem_names_iff _ _).mpr ⟨t, ht⟩, hres f hf hft, t, ht,
      not_skipped hf hft b1 b6, ?_⟩
    have hcols : t.columns = header := by
      rw [b3]
      exact (importedColumns_spec hcreated hc f.table header).2 hk
    have hname : f.table ++ ".txt" = f.name := trimSuffix_append hft
    rw [records_of_values b6, hcols, hname]
    congr 3
    apply List.map_congr_left
    intro row hrow
    exact (map_exported_eq_pad hnd (b5 row hrow)).symm
  · intro f hf hft
    obtain ⟨header, rows, t, b1, b2, _, b4, _, b6⟩ := hinv.tables f hf hft
    have hnd : header.Nodup := by
      have := hfeed.2.1 f hf hft
      rw [b1] at this
      exact this
    obtain ⟨u, u1, u2, u3⟩ := (hsh f.table).1.2 t b2
    have hsub : (u.rows.map (fun x => x.values)).Sublist
        (rows.map (fun row => t.columns.map (stored header row))) := by
      rw [← b6]
      exact u3.map _
    obtain ⟨kept, k1, k2⟩ := List.sublist_map_iff.mp hsub
    have hvals : u.rows.map (fun x => x.values)
        = kept.map (fun row => u.columns.map (stored header row)) := by
      rw [k2, u2]
    refine ⟨header, rows, u, kept, b1, u1, ?_, k1, hvals, ?_, ?_⟩
    · intro c hcm
      rw [u2]
      exact b4 c hcm
    · intro w hw
      rcases List.mem_append.mp hw with hw | hw
      · exfalso
        obtain ⟨g, hg, hge⟩ := List.mem_map.mp hw
        rw [List.mem_filter] at hg
        have hname : g.name = f.name := congrArg Prod.fst hge
        have := List.inj_on_of_nodup_map hfeed.1 hg.1 hf hname
        rw [this, hft] at hg
        simp at hg
      · obtain ⟨n, _, _, t3, ht3, _, hent⟩ := (t2 _).mp hw
        have hname : f.name = n ++ ".txt" := congrArg Prod.fst hent
        have hn : n = f.table := by
          apply string_append_cancel
          rw [← hname]
          exact (trimSuffix_append hft).symm
        rw [hn, u1] at ht3
        cases ht3
        have hw2 : w = _ := congrArg Prod.snd hent
        rw [hw2]
        simp only
        rw [records_of_values hvals]
    · intro row j c hj
      exact ⟨stored_at hnd hj, exported_at hnd hj⟩

/-- C25, counterexample: the feed `notesFeed` holds the one table file
`__gtfs2sqlite_notes.txt`, whose table is not in `gtfsSchema`; it imports without error and
`Export` writes no file.  The feed `raggedFeed` holds the table file `vehicles.txt`, whose
table is not in `gtfsSchema`, with the data row `V3` of one field under a header of two
columns; `Export` writes this row with two fields. -/
theorem Export_Import_loses_reserved_file_and_pads_rows :
    (Feed notesFeed ∧
      (∀ f ∈ notesFeed, f.isTable = true ∧ knownTable f.table = false) ∧
      (Import gtfsSchema sourceOrder 3 notesFeed none).map
          (fun r => (r.issues, r.err, (Export r.db).toOption))
        = some ([], none, some [])) ∧
    (Feed raggedFeed ∧
      (∀ f ∈ raggedFeed, f.isTable = true ∧ knownTable f.table = false) ∧
      raggedFeed.map (fun f => f.records)
        = [[["vehicle_id", "seats"], ["V1", "40"], ["V3"]]] ∧
      (Import gtfsSchema sourceOrder 3 raggedFeed none).map
          (fun r => (r.issues, r.err, (Export r.db).toOption))
        = some ([], none, some [("vehicles.txt",
            Written.csv [["vehicle_id", "seats"], ["V1", "40"], ["V3", ""]])])) :=
  ⟨⟨by decide, by decide, by decide⟩, ⟨by decide, by decide, by decide, by decide⟩⟩

/-- C25, instance: the feed `smallFeed`, with the file `LICENSE` that is no table and the
table file `vehicles.txt` whose table is not in `gtfsSchema`; `Export` writes both as they
were. -/
theorem Export_Import_keeps_unknown_files_witness :
    CreationOrder gtfsSchema ∧ IterationOrder sourceOrder ∧ Feed smallFeed ∧
    (∀ f ∈ smallFeed, f.isTable = true → reserved f.table = false) ∧
    Import gtfsSchema sourceOrder 3 smallFeed none = some smallImport ∧
    smallImport.err = none ∧
    (Export smallImport.db).toOption.map (fun out => out.filter (fun entry =>
        decide (entry.1 = "LICENSE") || decide (entry.1 = "vehicles.txt")))
      = some [("LICENSE", Written.raw "free\n"),
          ("vehicles.txt", Written.csv [["vehicle_id", "seats"], ["V1", "40"], ["V2", ""]])] ∧
    ∃ out, Export smallImport.db = .ok out ∧
      (∀ f ∈ smallFeed, f.isTable = false → (f.name, Written.raw f.bytes) ∈ out) ∧
      (∀ f ∈ smallFeed, f.isTable = true → knownTable f.table = false →
        ∃ header rows, f.records = header :: rows ∧
          (∀ row ∈ rows, row.length ≤ header.length) ∧
          (f.name, Written.csv (header :: rows.map (pad header.length))) ∈ out) ∧
      (∀ f ∈ smallFeed, f.isTable = true → ∃ (header : List String) (rows : List (List String)) (t : Table)
          (kept : List (List String)), f.records = header :: rows ∧
        findTable smallImport.db f.table = .ok t ∧ (∀ c ∈ header, c ∈ t.columns) ∧
        kept.Sublist rows ∧
        t.rows.map (fun x => x.values) = kept.map (fun row => t.columns.map (stored header row)) ∧
        (∀ w, (f.name, w) ∈ out →
          w = Written.csv (t.columns ::
            kept.map (fun row => t.columns.map (exported header row)))) ∧
        ∀ (row : List String) (j : Nat) (c : String), header[j]? = some c →
          stored header row c = (row[j]?).bind (fun v => if v = "" then none else some v) ∧
          exported header row c = (row[j]?).getD "") ∧
      (∀ e ∈ edgesOf gtfsSchema,
        knownColumn e.1 e.2.1 = true ∧ ∀ a ∈ alternatives e.2.2, knownColumn a.1 a.2 = true) :=
  ⟨creationOrder_source, sourceOrder_iterationOrder, by decide, by decide, by decide,
    by decide, by decide,
    Export_Import_keeps_unknown_files gtfsSchema sourceOrder 3 smallFeed none smallImport
      creationOrder_source sourceOrder_iterationOrder (by decide) (by decide) (by decide)
      (by decide)⟩

/-! ## The query of an edge and the violations of the specification -/

theorem mem_danglingRows_iff (db : Store) (e : Edge) (r : Row) :
    r ∈ danglingRows db e ↔ ∃ t, findTable db e.1 = .ok t ∧ r ∈ t.rows ∧
      r.get t.columns e.2.1 ≠ none ∧ r.get t.columns e.2.1 ∉ targetValues db e.2.2 := by
  unfold danglingRows
  cases hf : findTable db e.1 with
  | error err => simp
  | ok t => simp [List.mem_filter]

/-- The query of an edge returns the rows that violate the edge when no target column
holds a `NULL`, and no row when one does. -/
theorem mem_edgeRows_iff_dangling (db : Store) (e : Edge) (r : Row) :
    r ∈ edgeRows db e ↔
      scanOK db e = true ∧ none ∉ targetValues db e.2.2 ∧ r ∈ danglingRows db e := by
  rw [mem_edgeRows_iff, mem_danglingRows_iff]
  unfold queryTest
  constructor
  · rintro ⟨h1, t, h2, h3, h4, h5, h6⟩
    exact ⟨h1, h6, t, h2, h3, h4, h5⟩
  · rintro ⟨h1, h6, t, h2, h3, h4, h5⟩
    exact ⟨h1, t, h2, h3, h4, h5, h6⟩

theorem edgeRows_eq_nil_iff {db : Store} {e : Edge} (hok : scanOK db e = true) :
    edgeRows db e = [] ↔ none ∈ targetValues db e.2.2 ∨ danglingRows db e = [] := by
  constructor
  · intro h
    by_cases hn : none ∈ targetValues db e.2.2
    · exact Or.inl hn
    · right
      rw [List.eq_nil_iff_forall_not_mem]
      intro r hr
      have : r ∈ edgeRows db e := (mem_edgeRows_iff_dangling db e r).mpr ⟨hok, hn, hr⟩
      rw [h] at this
      cases this
  · intro h
    rw [List.eq_nil_iff_forall_not_mem]
    intro r hr
    obtain ⟨_, h1, h2⟩ := (mem_edgeRows_iff_dangling db e r).mp hr
    rcases h with h | h
    · exact h1 h
    · rw [h] at h2
      cases h2

/-- On a store on which no query fails, the queries of `validate` return no row exactly
when every edge has a `NULL` in a target column or no violating row. -/
theorem consistent_iff_dangling {db : Store} (hok : StoreOK db) :
    Consistent db ↔
      ∀ e ∈ edgesOf gtfsSchema, none ∈ targetValues db e.2.2 ∨ danglingRows db e = [] := by
  constructor
  · intro h e he
    exact (edgeRows_eq_nil_iff (hok e he)).mp (h e he)
  · intro h e he
    exact (edgeRows_eq_nil_iff (hok e he)).mpr (h e he)

/-- A store without violating rows is one on which the queries of `validate` return no
row. -/
theorem consistent_of_fullyConsistent {db : Store} (hok : StoreOK db)
    (h : FullyConsistent db) : Consistent db :=
  (consistent_iff_dangling hok).mpr (fun e he => Or.inr (h e he))

/-! ## The closing step of Clip -/

/-- C9, amended: the closing step of Clip runs the validator in Strict mode (force = false,
ignore = false).  When the scripted part ends without error on a store on which no query
of validate fails, Clip returns, its output is the store the script left (the closing step
deletes nothing, so the rows that violate a foreign key stay), and Clip fails with
ErrInvalidInput exactly when some row violates an edge none of whose target columns holds
a NULL; otherwise it returns no error, which is the case exactly when every edge has a
NULL in a target column or no violating row. -/
theorem Clip_closing_step_fails_iff (order : Nat → Schema) (hord : IterationOrder order)
    (fuel : Nat) (hfuel : 1 ≤ fuel) (input : Store) (feature : String → String → Bool)
    (db : Store) (hc : Clip.cascade input feature = (db, none)) (hok : StoreOK db) :
    ∃ r, Clip order fuel input feature = some r ∧ r.output = db ∧
      validate order fuel db { force := false, ignore := false, logLevel := LevelError }
        = some { issues := sweepMessages db (order 0), err := r.err, db := db } ∧
      (r.err = some ErrInvalidInput ↔
        ∃ e ∈ edgesOf gtfsSchema, none ∉ targetValues db e.2.2 ∧ danglingRows db e ≠ []) ∧
      (r.err = none ↔
        ∀ e ∈ edgesOf gtfsSchema, none ∈ targetValues db e.2.2 ∨ danglingRows db e = []) := by
  obtain ⟨r, h1, h2, h3, h4, h5⟩ :=
    Clip_closing_step_strict order hord fuel hfuel input feature db hc hok
  refine ⟨r, h1, h2, h3, ?_, ?_⟩
  · rw [h4, consistent_iff_dangling hok]
    push_neg
    rfl
  · rw [h5, consistent_iff_dangling hok]

theorem Clip_closing_step_fails_iff_witness :
    (IterationOrder sourceOrder ∧ 1 ≤ 1 ∧
      Clip.cascade fareDB everywhere = (fareClipped, none) ∧ StoreOK fareClipped ∧
      Clip sourceOrder 1 fareDB everywhere
        = some { err := some ErrInvalidInput, output := fareClipped } ∧
      ∃ r, Clip sourceOrder 1 fareDB everywhere = some r ∧ r.output = fareClipped ∧
        validate sourceOrder 1 fareClipped
            { force := false, ignore := false, logLevel := LevelError }
          = some { issues := sweepMessages fareClipped (sourceOrder 0), err := r.err,
                   db := fareClipped } ∧
        (r.err = some ErrInvalidInput ↔
          ∃ e ∈ edgesOf gtfsSchema,
            none ∉ targetValues fareClipped e.2.2 ∧ danglingRows fareClipped e ≠ []) ∧
        (r.err = none ↔
          ∀ e ∈ edgesOf gtfsSchema,
            none ∈ targetValues fareClipped e.2.2 ∨ danglingRows fareClipped e = [])) ∧
    (Clip.cascade maskedDB everywhere = (maskedDB, none) ∧ StoreOK maskedDB ∧
      Clip sourceOrder 1 maskedDB everywhere = some { err := none, output := maskedDB } ∧
      danglingRows maskedDB ("fare_rules", "origin_id", .mk "stops" "zone_id" [])
        = [{ rowid := 1, values := [some "F1", none, some "Z9", none, none] }] ∧
      targetValues maskedDB (.mk "stops" "zone_id" []) = [none] ∧
      ∃ r, Clip sourceOrder 1 maskedDB everywhere = some r ∧ r.output = maskedDB ∧
        validate sourceOrder 1 maskedDB
            { force := false, ignore := false, logLevel := LevelError }
          = some { issues := sweepMessages maskedDB (sourceOrder 0), err := r.err,
                   db := maskedDB } ∧
        (r.err = some ErrInvalidInput ↔
          ∃ e ∈ edgesOf gtfsSchema,
            none ∉ targetValues maskedDB e.2.2 ∧ danglingRows maskedDB e ≠ []) ∧
        (r.err = none ↔
          ∀ e ∈ edgesOf gtfsSchema,
            none ∈ targetValues maskedDB e.2.2 ∨ danglingRows maskedDB e = [])) :=
  ⟨⟨sourceOrder_iterationOrder, Nat.le_refl 1, by decide, by decide, by decide,
      Clip_closing_step_fails_iff sourceOrder sourceOrder_iterationOrder 1 (Nat.le_refl 1)
        fareDB everywhere fareClipped (by decide) (by decide)⟩,
    ⟨by decide, by decide, by decide, by decide, by decide,
      Clip_closing_step_fails_iff sourceOrder sourceOrder_iterationOrder 1 (Nat.le_refl 1)
        maskedDB everywhere maskedDB (by decide) (by decide)⟩⟩

/-- C10, amended: Clip returns on every input store and every clip feature, and whenever it
returns without error a Permissive validate of the output store reports zero violations:
no query of validate fails on the output and no edge of gtfsSchema, handled by the script
or not, has a row that its query returns, so that every edge has no violating row or has
a NULL in a target column.  The closing validation removes no row: the output is the
store that the scripted part left. -/
theorem Clip_returns_checked_output (order order1 : Nat → Schema)
    (hord : IterationOrder order) (hord1 : IterationOrder order1) (fuel fuel1 : Nat)
    (hfuel : 1 ≤ fuel) (hfuel1 : 1 ≤ fuel1) (logLevel : Int) (input : Store)
    (feature : String → String → Bool) :
    ∃ r, Clip order fuel input feature = some r ∧
      r.output = (Clip.cascade input feature).1 ∧
      (r.err = none →
        StoreOK r.output ∧ Consistent r.output ∧
        (∀ e ∈ edgesOf gtfsSchema,
          none ∈ targetValues r.output e.2.2 ∨ danglingRows r.output e = []) ∧
        validate order1 fuel1 r.output { force := false, ignore := true, logLevel := logLevel }
          = some { issues := [], err := none, db := r.output }) := by
  obtain ⟨r, h1, h2⟩ := Clip_ok_consistent order order1 hord hord1 fuel fuel1 hfuel hfuel1
    logLevel input feature
  obtain ⟨r1, g1, g2⟩ := Clip_output_of_cascade order hfuel input feature
  rw [h1] at g1
  cases g1
  refine ⟨r, h1, g2, fun he => ?_⟩
  obtain ⟨a1, a2, a3⟩ := h2 he
  exact ⟨a1, a2, (consistent_iff_dangling a1).mp a2, a3⟩

theorem Clip_returns_checked_output_witness :
    IterationOrder sourceOrder ∧ 1 ≤ 1 ∧
    Clip sourceOrder 1 smallDB everywhere = some { err := none, output := smallDB } ∧
    ∃ r, Clip sourceOrder 1 smallDB everywhere = some r ∧
      r.output = (Clip.cascade smallDB everywhere).1 ∧
      (r.err = none →
        StoreOK r.output ∧ Consistent r.output ∧
        (∀ e ∈ edgesOf gtfsSchema,
          none ∈ targetValues r.output e.2.2 ∨ danglingRows r.output e = []) ∧
        validate sourceOrder 1 r.output { force := false, ignore := true, logLevel := 4 }
          = some { issues := [], err := none, db := r.output }) :=
  ⟨sourceOrder_iterationOrder, Nat.le_refl 1, by decide,
    Clip_returns_checked_output sourceOrder sourceOrder sourceOrder_iterationOrder
      sourceOrder_iterationOrder 1 1 (Nat.le_refl 1) (Nat.le_refl 1) 4 smallDB everywhere⟩

/-! ## Stops inside the feature -/

/-- When the scripted part of `Clip` ends without error on a store whose stop_times rows
all have a stop_id, it deletes every stops row with a stop_id that no stop_times row has
and that no stops row names as parent_station. -/
theorem cascade_deletes_unreferenced (input : Store) (feature : String → String → Bool)
    (s : Row) (hid : cell input "stops" s "stop_id" ≠ none)
    (hok : (Clip.cascade input feature).2 = none)
    (hst : ∀ x ∈ rowsOf input "stop_times", cell input "stop_times" x "stop_id" ≠ none)
    (hno : ∀ x ∈ rowsOf input "stop_times",
      cell input "stop_times" x "stop_id" ≠ cell input "stops" s "stop_id")
    (hnp : ∀ c ∈ rowsOf input "stops",
      cell input "stops" c "parent_station" ≠ cell input "stops" s "stop_id") :
    s ∉ rowsOf (Clip.cascade input feature).1 "stops" := by
  cases hcas : Clip.cascade input feature with
  | mk out oe =>
    rw [hcas] at hok
    simp only at hok
    subst hok
    obtain ⟨tr, st, sp, A, TR, SS, a1, a2, a3, _, _, _, _, _, _, _, _, o3, _, _, hSS⟩ :=
      cascade_spec hcas
    rw [rowsOf_of_findTable a2] at hst hno
    rw [rowsOf_of_findTable a3] at hnp
    rw [cell_of_findTable a3] at hid
    simp only [cell_of_findTable a3, cell_of_findTable a2] at hst hno hnp
    show s ∉ rowsOf out "stops"
    rw [rowsOf_of_findTable o3]
    intro hmem
    obtain ⟨_, hk⟩ := List.mem_filter.mp hmem
    rw [keptBy_iff] at hk
    have hmemSS : ∀ v, v ∈ SS → v ≠ none ∧ v ≠ s.get sp.columns "stop_id" := by
      intro v hv
      rcases (hSS v).mp hv with ⟨x, hx, _, hxv⟩ | ⟨hne, c, hc, hcv⟩
      · rw [← hxv]
        exact ⟨hst x hx, hno x hx⟩
      · rw [← hcv]
        exact ⟨by rw [hcv]; exact hne, hnp c hc⟩
    rcases hk.2 with h | h | h
    · exact hid h
    · exact (hmemSS _ h).2 rfl
    · exact (hmemSS _ h).1 rfl

/-- C14, amended: a stops row inside the feature, with a stop_id, is still present after
Clip when it is referenced: when a stop_times row has its stop_id and the trip_id of that
row is the trip_id of some trips row, or when some stops row names it as parent_station.
When the scripted part ends without error on a store whose stop_times rows all have a
stop_id, an inside stop that no stop_times row and no stops row refers to is deleted. -/
theorem Clip_inside_stop_kept_or_deleted (order : Nat → Schema) (fuel : Nat) (hfuel : 1 ≤ fuel)
    (input : Store) (feature : String → String → Bool) (s : Row)
    (hs : s ∈ rowsOf input "stops") (hin : isInside feature input s = true)
    (hid : cell input "stops" s "stop_id" ≠ none) :
    ∃ r, Clip order fuel input feature = some r ∧
      (((∃ x ∈ rowsOf input "stop_times",
          cell input "stop_times" x "stop_id" = cell input "stops" s "stop_id" ∧
          ∃ t ∈ rowsOf input "trips",
            cell input "trips" t "trip_id" = cell input "stop_times" x "trip_id") ∨
        (∃ c ∈ rowsOf input "stops",
          cell input "stops" c "parent_station" = cell input "stops" s "stop_id")) →
        s ∈ rowsOf r.output "stops") ∧
      ((Clip.cascade input feature).2 = none →
        (∀ x ∈ rowsOf input "stop_times", cell input "stop_times" x "stop_id" ≠ none) →
        (∀ x ∈ rowsOf input "stop_times",
          cell input "stop_times" x "stop_id" ≠ cell input "stops" s "stop_id") →
        (∀ c ∈ rowsOf input "stops",
          cell input "stops" c "parent_station" ≠ cell input "stops" s "stop_id") →
        s ∉ rowsOf r.output "stops") := by
  obtain ⟨r, hr, hout⟩ := Clip_output_of_cascade order hfuel input feature
  refine ⟨r, hr, ?_, ?_⟩
  · intro href
    obtain ⟨r1, hr1, hmem⟩ :=
      Clip_keeps_referenced_inside_stop order fuel hfuel input feature s hs hin hid href
    rw [hr] at hr1
    cases hr1
    exact hmem
  · intro hok hst hno hnp
    rw [hout]
    exact cascade_deletes_unreferenced input feature s hid hok hst hno hnp

theorem Clip_inside_stop_kept_or_deleted_witness :
    (1 ≤ 1 ∧ stopS1 ∈ rowsOf smallDB "stops" ∧ isInside everywhere smallDB stopS1 = true ∧
      cell smallDB "stops" stopS1 "stop_id" ≠ none ∧
      (∃ x ∈ rowsOf smallDB "stop_times",
        cell smallDB "stop_times" x "stop_id" = cell smallDB "stops" stopS1 "stop_id" ∧
        ∃ t ∈ rowsOf smallDB "trips",
          cell smallDB "trips" t "trip_id" = cell smallDB "stop_times" x "trip_id") ∧
      ∃ r, Clip sourceOrder 1 smallDB everywhere = some r ∧ stopS1 ∈ rowsOf r.output "stops") ∧
    (lonelyS2 ∈ rowsOf lonelyStopDB "stops" ∧ isInside everywhere lonelyStopDB lonelyS2 = true ∧
      cell lonelyStopDB "stops" lonelyS2 "stop_id" ≠ none ∧
      (Clip.cascade lonelyStopDB everywhere).2 = none ∧
      (∀ x ∈ rowsOf lonelyStopDB "stop_times",
        cell lonelyStopDB "stop_times" x "stop_id" ≠ none) ∧
      (∀ x ∈ rowsOf lonelyStopDB "stop_times",
        cell lonelyStopDB "stop_times" x "stop_id" ≠ cell lonelyStopDB "stops" lonelyS2 "stop_id") ∧
      (∀ c ∈ rowsOf lonelyStopDB "stops",
        cell lonelyStopDB "stops" c "parent_station"
          ≠ cell lonelyStopDB "stops" lonelyS2 "stop_id") ∧
      ∃ r, Clip sourceOrder 1 lonelyStopDB everywhere = some r ∧
        lonelyS2 ∉ rowsOf r.output "stops") := by
  refine ⟨⟨by decide, by decide, by decide, by decide, by decide, ?_⟩,
    ⟨by decide, by decide, by decide, by decide, by decide, by decide, by decide, ?_⟩⟩
  · obtain ⟨r, hr, h1, _⟩ := Clip_inside_stop_kept_or_deleted sourceOrder 1 (by decide)
      smallDB everywhere stopS1 (by decide) (by decide) (by decide)
    exact ⟨r, hr, h1 (by decide)⟩
  · obtain ⟨r, hr, _, h2⟩ := Clip_inside_stop_kept_or_deleted sourceOrder 1 (by decide)
      lonelyStopDB everywhere lonelyS2 (by decide) (by decide) (by decide)
    exact ⟨r, hr, h2 (by decide) (by decide) (by decide) (by decide)⟩

/-! ## Repair and Clip on stores in which a target column holds NULL -/

/-- C1, on a store in which a target column holds NULL: in `nullZoneDB`, a store on which
no query fails and whose tables have no column called rowid, the row of fare_rules
violates the edge fare_rules.origin_id of gtfsSchema (its origin_id `Z9` is not NULL and
no stop has that zone_id, the only stop having none).  Repair-mode validate returns
without error and without a message and leaves the store as it was, that row included:
the store it leaves is not fully consistent.  The Permissive validate that follows
reports nothing all the same. -/
theorem validate_repair_leaves_dangling_row :
    StoreOK nullZoneDB ∧ NoRowidColumn nullZoneDB ∧
    (edgesOf gtfsSchema).flatMap
        (fun e => (danglingRows nullZoneDB e).map (fun r => (e.1, e.2.1, r.rowid)))
      = [("fare_rules", "origin_id", 1)] ∧
    columnValues nullZoneDB "stops" "zone_id" = [none] ∧
    validate sourceOrder 4 nullZoneDB { force := true }
      = some { issues := [], err := none, db := nullZoneDB } ∧
    danglingRows nullZoneDB ("fare_rules", "origin_id", .mk "stops" "zone_id" [])
      = [{ rowid := 1, values := [some "F1", none, some "Z9", none, none] }] ∧
    ¬ FullyConsistent nullZoneDB ∧
    validate sourceOrder 1 nullZoneDB { ignore := true }
      = some { issues := [], err := none, db := nullZoneDB } := by
  refine ⟨by decide, by decide, by decide, by decide, by decide, by decide, by decide,
    by decide⟩

/-- C7, on a store in which a target column holds NULL: in `chain2DB` exactly one row
violates an edge, the fare product `P1` (unknown fare_media_id `M9`); the leg rule of leg
group `G1` refers to `P1` and the transfer rule refers to leg group `G1`.  Repair-mode
validate returns exactly one violation, without error, and deletes two rows, not three:
the fare product and the leg rule.  The transfer rule stays, although its
from_leg_group_id `G1` is then in no row of fare_leg_rules: the leg rule that is left has
no leg_group_id, and that NULL hides the violation from the query. -/
theorem validate_repair_chain_stops_short :
    StoreOK chain2DB ∧ NoRowidColumn chain2DB ∧
    (edgesOf gtfsSchema).flatMap
        (fun e => (danglingRows chain2DB e).map (fun r => (e.1, e.2.1, r.rowid)))
      = [("fare_products", "fare_media_id", 1)] ∧
    columnValues chain2DB "fare_products" "fare_product_id" = [some "P1", some "P2"] ∧
    columnValues chain2DB "fare_leg_rules" "fare_product_id" = [some "P1", some "P2"] ∧
    columnValues chain2DB "fare_leg_rules" "leg_group_id" = [some "G1", none] ∧
    columnValues chain2DB "fare_transfer_rules" "from_leg_group_id" = [some "G1"] ∧
    validate sourceOrder 6 chain2DB { force := true } = some
      { issues := ["M9 in fare_products.txt is not a valid fare_media_id " ++
          "[fare_product_id: P1, fare_media_id: M9, amount: 2, currency: EUR]"]
        err := none
        db := chain2Repaired } ∧
    chain2Repaired
      = deleteRowid (deleteRowid chain2DB "fare_products" 1) "fare_leg_rules" 1 ∧
    rowCount chain2DB = rowCount chain2Repaired + 2 ∧
    columnValues chain2Repaired "fare_leg_rules" "leg_group_id" = [none] ∧
    (edgesOf gtfsSchema).flatMap
        (fun e => (danglingRows chain2Repaired e).map (fun r => (e.1, e.2.1, r.rowid)))
      = [("fare_transfer_rules", "from_leg_group_id", 1)] := by
  refine ⟨by decide, by decide, by decide, by decide, by decide, by decide, by decide,
    by decide, by decide, by decide, by decide, by decide⟩

/-- C12, on a store in which a stop_times row has no stop_id: `e2ePlusDB` holds the
end-to-end scenario (stop S referenced only by the stop_times row T of trip R1 on route
Rt1) next to a trip R2 that serves stop S2 and has a stop_times row without stop_id.
Clipping to the feature `lonTwo`, which contains S2 and not S, ends without error and
deletes T, R1 and Rt1, but not S: the stops table of the output still holds S.  The final
Permissive validate reports 0 violations. -/
theorem Clip_end_to_end_keeps_stop :
    (rowsOf e2ePlusDB "stops").map
        (fun s => (cell e2ePlusDB "stops" s "stop_id", isInside lonTwo e2ePlusDB s))
      = [(some "S", false), (some "S2", true)] ∧
    (rowsOf e2ePlusDB "stop_times").map
        (fun x => (cell e2ePlusDB "stop_times" x "trip_id", cell e2ePlusDB "stop_times" x "stop_id"))
      = [(some "R1", some "S"), (some "R2", some "S2"), (some "R2", none)] ∧
    (rowsOf e2ePlusDB "trips").map
        (fun t => (cell e2ePlusDB "trips" t "trip_id", cell e2ePlusDB "trips" t "route_id"))
      = [(some "R1", some "Rt1"), (some "R2", some "Rt2")] ∧
    columnValues e2ePlusDB "routes" "route_id" = [some "Rt1", some "Rt2"] ∧
    columnValues e2ePlusDB "stops" "parent_station" = [none, none] ∧
    Clip sourceOrder 1 e2ePlusDB lonTwo = some { err := none, output := e2ePlusClipped } ∧
    columnValues e2ePlusClipped "stops" "stop_id" = [some "S", some "S2"] ∧
    columnValues e2ePlusClipped "stop_times" "stop_id" = [some "S2", none] ∧
    columnValues e2ePlusClipped "trips" "trip_id" = [some "R2"] ∧
    columnValues e2ePlusClipped "routes" "route_id" = [some "Rt2"] ∧
    validate sourceOrder 1 e2ePlusClipped { ignore := true }
      = some { issues := [], err := none, db := e2ePlusClipped } := by
  refine ⟨by decide, by decide, by decide, by decide, by decide, by decide, by decide,
    by decide, by decide, by decide, by decide⟩

/-- C26, on a store in which a target column holds NULL: in `mixedDB` two rows violate an
edge, the route (unknown agency_id `nope`) and the row of fare_rules (origin_id `Z9`, no
stop having that zone_id).  The sweep of the first Repair pass schedules the route only,
the deletions of the pass leave `nullZoneDB`, in which the row of fare_rules is still
there, and validate returns that store: the rows deleted are not all the rows that
violate an edge. -/
theorem validate_pass_spares_violating_row :
    StoreOK mixedDB ∧ NoRowidColumn mixedDB ∧
    (edgesOf gtfsSchema).flatMap
        (fun e => (danglingRows mixedDB e).map (fun r => (e.1, e.2.1, r.rowid)))
      = [("routes", "agency_id", 1), ("fare_rules", "origin_id", 1)] ∧
    (validate.sweep mixedDB (sourceOrder 0) (validator.init { force := true })).toOption.map
        (fun v => v.toDelete)
      = some [("routes", [1])] ∧
    validate.applyDeletes [("routes", [1])] mixedDB = (nullZoneDB, none) ∧
    rowsOf mixedDB "fare_rules"
      = [{ rowid := 1, values := [some "F1", none, some "Z9", none, none] }] ∧
    rowsOf nullZoneDB "fare_rules"
      = [{ rowid := 1, values := [some "F1", none, some "Z9", none, none] }] ∧
    validate sourceOrder 5 mixedDB { force := true } = some
      { issues := ["nope in routes.txt is not a valid agency_id " ++
          "[route_id: R1, agency_id: nope, route_type: 3]"]
        err := none
        db := nullZoneDB } := by
  refine ⟨by decide, by decide, by decide, by decide, by decide, by decide, by decide,
    by decide⟩

/-- C27, on a store in which a target column holds NULL: `nullNetworkDB` is well formed and
no query fails on it.  Repair-mode validate returns it as it is, although its row of
fare_leg_rules violates the edge fare_leg_rules.network_id (the network `N9` is in
neither routes.network_id nor networks.network_id): the final store has a violation.
The store without that row has none. -/
theorem validate_repair_leaves_violation :
    WellFormed nullNetworkDB ∧ StoreOK nullNetworkDB ∧ NoRowidColumn nullNetworkDB ∧
    validate sourceOrder 5 nullNetworkDB { force := true }
      = some { issues := [], err := none, db := nullNetworkDB } ∧
    (edgesOf gtfsSchema).flatMap
        (fun e => (danglingRows nullNetworkDB e).map (fun r => (e.1, e.2.1, r.rowid)))
      = [("fare_leg_rules", "network_id", 1)] ∧
    columnValues nullNetworkDB "fare_leg_rules" "network_id" = [some "N9"] ∧
    columnValues nullNetworkDB "routes" "network_id" = [none] ∧
    columnValues nullNetworkDB "networks" "network_id" = [] ∧
    ¬ FullyConsistent nullNetworkDB ∧
    rowsOf (deleteRowid nullNetworkDB "fare_leg_rules" 1) "fare_leg_rules" = [] ∧
    FullyConsistent (deleteRowid nullNetworkDB "fare_leg_rules" 1) := by
  refine ⟨by decide, by decide, by decide, by decide, by decide, by decide, by decide,
    by decide, by decide, by decide, by decide⟩

/-! ## Termination of the Repair loop -/

theorem noRowidColumn_of_shrunk {db db1 : Store} (h : ∀ m, Shrunk db db1 m)
    (hnr : NoRowidColumn db) : NoRowidColumn db1 := by
  intro ts hts c hc
  apply hnr ts hts c
  unfold columnsOf at hc ⊢
  cases h1 : findTable db1 ts.1 with
  | error e =>
    rw [h1] at hc
    cases hc
  | ok t1 =>
    rw [h1] at hc
    cases h0 : findTable db ts.1 with
    | error e =>
      rw [(h ts.1).1 e h0] at h1
      cases h1
    | ok t =>
      obtain ⟨t2, h2, h3, _⟩ := (h ts.1).2 t h0
      rw [h1] at h2
      cases h2
      simp only
      rw [← h3]
      exact hc

/-- C5, for the stores whose tables have no column called rowid: validate returns on every
such store, in every mode, once the fuel is at least the number of rows plus one, and the
store it leaves is again such a store.  A pass whose sweep schedules a deletion applies
its deletions without error and leaves strictly fewer rows than it found, so the passes
made before the last one are at most as many as the rows deleted: the number of passes is
at most the number of rows plus one. -/
theorem validate_terminates_without_rowid_column (order : Nat → Schema) (db : Store)
    (hnr : NoRowidColumn db) (opts : validateOpts) (fuel : Nat)
    (hfuel : rowCount db + 1 ≤ fuel) :
    (∃ r, validate order fuel db opts = some r ∧ NoRowidColumn r.db) ∧
    (∃ dbf res, validate.loop order fuel db (validator.init opts) = some (dbf, res) ∧
      ∀ vf, res = .ok vf → vf.pass + rowCount dbf ≤ rowCount db ∧ vf.pass + 1 ≤ rowCount db + 1) ∧
    (∀ (d : Store) (v v1 : validator), NoRowidColumn d → v.toDelete = [] →
      validate.sweep d (order v.pass) v = .ok v1 → v1.toDelete.length ≠ 0 →
      ∃ d1, validate.applyDeletes v1.toDelete d = (d1, none) ∧ rowCount d1 < rowCount d ∧
        NoRowidColumn d1) := by
  obtain ⟨⟨r, hr⟩, h2, h3⟩ := validate_terminates order db opts fuel hfuel
  refine ⟨⟨r, hr, ?_⟩, h2, ?_⟩
  · obtain ⟨res, hl⟩ := validate_db hr
    exact noRowidColumn_of_shrunk (fun m => (loop_shrunk order m fuel db _ _ _ hl).1) hnr
  · intro d v v1 hd hv hs hlen
    obtain ⟨d1, g1, g2⟩ := h3 d v v1 hv hs hlen
    exact ⟨d1, g1, g2,
      noRowidColumn_of_shrunk (fun m => (applyDeletes_shrunk _ d d1 none g1 m).1) hd⟩

theorem validate_terminates_without_rowid_column_witness :
    NoRowidColumn chainDB ∧ rowCount chainDB + 1 ≤ 6 ∧
    validate sourceOrder 6 chainDB { force := true } = some
      { issues := ["nope in routes.txt is not a valid agency_id " ++
          "[route_id: R1, agency_id: nope, route_type: 3]"]
        err := none
        db := chainRepaired } ∧
    ((∃ r, validate sourceOrder 6 chainDB { force := true } = some r ∧ NoRowidColumn r.db) ∧
    (∃ dbf res, validate.loop sourceOrder 6 chainDB (validator.init { force := true })
        = some (dbf, res) ∧
      ∀ vf, res = .ok vf →
        vf.pass + rowCount dbf ≤ rowCount chainDB ∧ vf.pass + 1 ≤ rowCount chainDB + 1) ∧
    (∀ (d : Store) (v v1 : validator), NoRowidColumn d → v.toDelete = [] →
      validate.sweep d (sourceOrder v.pass) v = .ok v1 → v1.toDelete.length ≠ 0 →
      ∃ d1, validate.applyDeletes v1.toDelete d = (d1, none) ∧ rowCount d1 < rowCount d ∧
        NoRowidColumn d1)) :=
  ⟨by decide, by decide, by decide,
    validate_terminates_without_rowid_column sourceOrder chainDB (by decide)
      { force := true } 6 (by decide)⟩

end Gtfs2sqlite
